import Mathlib

/-!
# sublinkX: the Clash document adapter and the subscription refresh core

A shallow embedding of `node/clash.go`, `services/subscription.go` and
`models/external_subscription.go`, followed by the properties proved about it.

Go values of type `interface{}` are embedded as the tree type `Value`; Go maps are
association lists whose keys are pairwise distinct; a run-time panic (a failed type
assertion, closing a closed channel) is an explicit failure value.
-/

set_option autoImplicit false

namespace Sublink

/-! ## Dynamic values -/

/-- Keys of a `map[interface{}]interface{}` built by the YAML decoder: scalars only. -/
inductive Key where
  | null
  | bool (b : Bool)
  | int (i : Int)
  | str (s : String)
  deriving DecidableEq, Repr

/-- A Go `interface{}` value as the YAML and JSON decoders build it: `nil`, `bool`, `int`,
`float64` (its bit pattern), `string`, `[]interface{}`, `map[string]interface{}`,
`map[interface{}]interface{}`, and a struct of type `σ` stored in the interface. -/
inductive Value (σ : Type) where
  | null
  | bool (b : Bool)
  | int (i : Int)
  | float (bits : Nat)
  | str (s : String)
  | seq (xs : List (Value σ))
  | strMap (m : List (String × Value σ))
  | genMap (m : List (Key × Value σ))
  | struct (s : σ)

/-- Go `m[k]` on a map: the value stored under `k`, if any. -/
def mapGet {κ β : Type} [DecidableEq κ] (k : κ) : List (κ × β) → Option β
  | [] => none
  | (k1, v1) :: rest => if k1 = k then some v1 else mapGet k rest

/-- Go `m[k] = v`: overwrite the entry of `k` where it stands, or add a new entry. -/
def mapSet {κ β : Type} [DecidableEq κ] (k : κ) (v : β) : List (κ × β) → List (κ × β)
  | [] => [(k, v)]
  | (k1, v1) :: rest => if k1 = k then (k, v) :: rest else (k1, v1) :: mapSet k v rest

/-- Go `delete(m, k)`. -/
def mapDelete {κ β : Type} [DecidableEq κ] (k : κ) (m : List (κ × β)) : List (κ × β) :=
  m.filter (fun e => decide (e.1 ≠ k))

/-- Whether `k` is a key of the map. -/
def mapHas {κ β : Type} [DecidableEq κ] (k : κ) (m : List (κ × β)) : Bool :=
  m.any (fun e => decide (e.1 = k))

/-- Go `v == nil` for the result of a map lookup: the key is absent or holds `nil`. -/
def isNil {σ : Type} : Option (Value σ) → Bool
  | none => true
  | some .null => true
  | some _ => false

/-- Go `v == s` for an interface value `v` and a string constant `s`. -/
def eqString {σ : Type} (s : String) : Option (Value σ) → Bool
  | some (.str t) => decide (t = s)
  | _ => false

/-! ## `DeleteOpts` (clash.go, lines 60-74) -/

mutual
/-- The `for k, v := range opts` loop: the entries still to visit and the map as it is now. -/
def DeleteOpts.range {σ : Type} :
    List (String × Value σ) → List (String × Value σ) → List (String × Value σ)
  | [], opts => opts
  | e :: rest, opts => DeleteOpts.range rest (DeleteOpts.body e opts)
termination_by structural entries => entries
/-- One iteration; `range` yields an entry only while its key is still in the map. -/
def DeleteOpts.body {σ : Type} :
    String × Value σ → List (String × Value σ) → List (String × Value σ)
  | (k, v), opts => if mapHas k opts then DeleteOpts.switch v k opts else opts
termination_by structural e => e
/-- The type switch on `v`. A nested map is pruned in place, so the entry of `k` holds the
pruned map afterwards unless it is deleted. -/
def DeleteOpts.switch {σ : Type} :
    Value σ → String → List (String × Value σ) → List (String × Value σ)
  | .str s, k, opts => if s = "" then mapDelete k opts else opts
  | .strMap v, k, opts =>
    let v1 := DeleteOpts.range v v
    if v1.length = 0 then mapDelete k opts else mapSet k (.strMap v1) opts
  | _, _, opts => opts
termination_by structural v => v
end

/-- `DeleteOpts(opts)`: the map `opts` refers to after the call. -/
def DeleteOpts {σ : Type} (opts : List (String × Value σ)) : List (String × Value σ) :=
  DeleteOpts.range opts opts

mutual
/-- Reference pruning, written from the specification: drop empty strings and sub-maps that
prune to empty, prune the other sub-maps, keep everything else. -/
def pruneRef {σ : Type} : List (String × Value σ) → List (String × Value σ)
  | [] => []
  | e :: rest => (pruneEntry e).toList ++ pruneRef rest
termination_by structural m => m
/-- Reference pruning of one entry: `none` when the entry is dropped. -/
def pruneEntry {σ : Type} : String × Value σ → Option (String × Value σ)
  | (k, v) => (pruneValue v).map (fun w => (k, w))
termination_by structural e => e
/-- Reference pruning of one value: `none` when it is an empty string or prunes to an
empty map. -/
def pruneValue {σ : Type} : Value σ → Option (Value σ)
  | .str s => if s = "" then none else some (.str s)
  | .strMap m => if (pruneRef m).length = 0 then none else some (.strMap (pruneRef m))
  | v => some v
termination_by structural v => v
end

mutual
/-- Well-formed Go map: keys pairwise distinct, here and in every nested string-keyed map. -/
def WellFormed {σ : Type} : List (String × Value σ) → Bool
  | [] => true
  | e :: rest => WellFormed.entry e && (rest.all (fun e1 => decide (e1.1 ≠ e.1)) && WellFormed rest)
termination_by structural m => m
/-- Well-formedness of the value of one entry. -/
def WellFormed.entry {σ : Type} : String × Value σ → Bool
  | (_, v) => WellFormed.value v
termination_by structural e => e
/-- Well-formedness of a value: only string-keyed maps carry a condition. -/
def WellFormed.value {σ : Type} : Value σ → Bool
  | .strMap m => WellFormed m
  | _ => true
termination_by structural v => v
end

mutual
/-- No key, at any depth of nested maps, is bound to `""` or to an empty map. -/
def NoEmpties {σ : Type} : List (String × Value σ) → Bool
  | [] => true
  | e :: rest => NoEmpties.entry e && NoEmpties rest
termination_by structural m => m
/-- The condition on one entry. -/
def NoEmpties.entry {σ : Type} : String × Value σ → Bool
  | (_, v) => NoEmpties.value v
termination_by structural e => e
/-- The condition on one value. -/
def NoEmpties.value {σ : Type} : Value σ → Bool
  | .str s => decide (s ≠ "")
  | .strMap m => !m.isEmpty && NoEmpties m
  | _ => true
termination_by structural v => v
end

/-! ## The Clash document merge `DecodeClash` (clash.go, lines 766-852) -/

/-- An opts map of a proxy record: `map[string]interface{}` holding plain data. -/
abbrev Opts := List (String × Value Empty)

/-- The `Proxy` struct (clash.go, lines 16-49). -/
structure Proxy where
  Name : String := ""
  Type_ : String := ""
  Server : String := ""
  Port : Int := 0
  Cipher : String := ""
  Password : String := ""
  Client_fingerprint : String := ""
  Tfo : Bool := false
  Udp : Bool := false
  Skip_cert_verify : Bool := false
  Tls : Bool := false
  Servername : String := ""
  Flow : String := ""
  AlterId : String := ""
  Network : String := ""
  Reality_opts : Opts := []
  Ws_opts : Opts := []
  Grpc_opts : Opts := []
  Auth_str : String := ""
  Auth : String := ""
  Up : Int := 0
  Down : Int := 0
  Alpn : List String := []
  Sni : String := ""
  Obfs : String := ""
  Obfs_password : String := ""
  Protocol : String := ""
  Uuid : String := ""
  Peer : String := ""
  Congestion_control : String := ""
  Udp_relay_mode : String := ""
  Disable_sni : Bool := false

/-- A value of the template document; appended proxies are `Proxy` structs. -/
abbrev Doc := Value Proxy

/-- The template document: `config`, a `map[interface{}]interface{}`. -/
abbrev Config := List (Key × Doc)

/-- Lines 806-809: collect the names and append the new proxies. -/
def DecodeClash.addProxies (proxys : List Proxy) (proxies : List Doc) : List String × List Doc :=
  proxys.foldl (fun acc p => (acc.1 ++ [p.Name], acc.2 ++ [Value.struct p])) ([], proxies)

/-- Lines 830-839: keep the non-nil entries, then append the new names. -/
def DecodeClash.validProxies (ProxiesNameList : List String) (old : List Doc) : List Doc :=
  let validProxies := old.foldl (fun acc p => if isNil (some p) then acc else acc ++ [p]) []
  ProxiesNameList.foldl (fun acc newProxy => acc ++ [Value.str newProxy]) validProxies

/-- Line 821-823: a group whose `proxies` is nil gets an empty list. -/
def DecodeClash.initProxies (proxyGroup : List (String × Doc)) : List (String × Doc) :=
  if isNil (mapGet "proxies" proxyGroup) then mapSet "proxies" (.seq []) proxyGroup
  else proxyGroup

/-- The loop over `proxyGroups` (lines 815-842). `none` is the panic of the type assertion
`proxyGroup["proxies"].([]interface{})`; at a relay group the loop breaks and the remaining
groups are not visited. -/
def DecodeClash.groups (ProxiesNameList : List String) : List Doc → Option (List Doc)
  | [] => some []
  | pg :: rest =>
    match pg with
    | .strMap proxyGroup0 =>
      let proxyGroup := DecodeClash.initProxies proxyGroup0
      if eqString "relay" (mapGet "type" proxyGroup) then
        some (.strMap proxyGroup :: rest)
      else
        match mapGet "proxies" proxyGroup with
        | some (.seq old) =>
          let validProxies := DecodeClash.validProxies ProxiesNameList old
          (DecodeClash.groups ProxiesNameList rest).map
            (fun tail => .strMap (mapSet "proxies" (.seq validProxies) proxyGroup) :: tail)
        | _ => none
    | _ => (DecodeClash.groups ProxiesNameList rest).map (fun tail => pg :: tail)

/-- `DecodeClash` on the parsed template, lines 797-844: from the document `config` that
`yaml.Unmarshal` built to the document handed to `yaml.Marshal`. `none` is a panic of one
of the two unchecked type assertions. -/
def DecodeClash (proxys : List Proxy) (config : Config) : Option Config :=
  let proxies : List Doc :=
    match mapGet (Key.str "proxies") config with
    | some (.seq xs) => xs
    | _ => []
  let (ProxiesNameList, proxies) := DecodeClash.addProxies proxys proxies
  let config := mapSet (Key.str "proxies") (.seq proxies) config
  match mapGet (Key.str "proxy-groups") config with
  | some (.seq proxyGroups) =>
    (DecodeClash.groups ProxiesNameList proxyGroups).map
      (fun gs => mapSet (Key.str "proxy-groups") (.seq gs) config)
  | _ => none

/-! ## Subscriptions and the refresh scheduler (subscription.go, lines 19-115) -/

/-- A `time.Time` read from the store: the nanoseconds elapsed since the zero time
(January 1, year 1, 00:00:00 UTC); no monotonic clock reading. -/
structure Time where
  ns : Int
  deriving DecidableEq, Repr

/-- `t.IsZero()`. -/
def Time.IsZero (t : Time) : Bool := decide (t.ns = 0)

/-- The largest `time.Duration`, in nanoseconds (an `int64`). -/
def maxDuration : Int := 2 ^ 63 - 1

/-- The smallest `time.Duration`. -/
def minDuration : Int := -(2 ^ 63)

/-- `t.Sub(u)`: the difference in nanoseconds, saturated to the `int64` range. -/
def Time.Sub (t u : Time) : Int :=
  let d := t.ns - u.ns
  if d > maxDuration then maxDuration else if d < minDuration then minDuration else d

/-- `time.Since(t)` when the clock reads `now`. -/
def Since (now t : Time) : Int := now.Sub t

/-- `time.Second`: the nanoseconds of one second. -/
def Second : Int := 1000000000

/-- Spec side: the length of a duration in seconds, as an exact rational number. -/
def Seconds (d : Int) : ℚ := (d : ℚ) / 1000000000

/-! ## `float64` arithmetic (IEEE 754 binary64, round to nearest, ties to even) -/

/-- A finite `float64` value `m * 2 ^ e`; zero has no sign here, and infinities and NaN,
which the conversions and sums of `shouldUpdate` cannot produce from `int64` operands, are
left out. -/
structure Float64 where
  m : Int
  e : Int
  deriving DecidableEq, Repr

/-- The number of binary digits of `n`, with `fuel` of them at most. -/
def bitLen.go : Nat → Nat → Nat
  | 0, _ => 0
  | fuel + 1, n => if n = 0 then 0 else bitLen.go fuel (n / 2) + 1

/-- The number of binary digits of `n`: 0 for 0, and `k` when `2 ^ (k - 1) ≤ n < 2 ^ k`. -/
def bitLen (n : Nat) : Nat := bitLen.go n n

/-- The numerator of `2 ^ e`: `2 ^ e` when `e ≥ 0` and 1 otherwise. -/
def pow2Num (e : Int) : Nat := 2 ^ e.toNat

/-- The denominator of `2 ^ e`: `2 ^ (-e)` when `e < 0` and 1 otherwise. -/
def pow2Den (e : Int) : Nat := 2 ^ (-e).toNat

/-- The integer nearest to `n / d`, the even one of the two when `n / d` lies half way. -/
def roundHalfEven (n d : Nat) : Nat :=
  let q := n / d
  let r := n % d
  if 2 * r < d then q
  else if d < 2 * r then q + 1
  else if q % 2 = 0 then q else q + 1

/-- The exponent of the `float64` nearest to `a / d`: the `e` with
`2 ^ 52 ≤ a / d / 2 ^ e < 2 ^ 53`, and -1074, the exponent of the subnormal numbers, when
that `e` is smaller. -/
def float64Exponent (a d : Nat) : Int :=
  let e0 : Int := (bitLen a : Int) - (bitLen d : Int) - 53
  let e := if d * pow2Num (e0 + 53) ≤ a * pow2Den (e0 + 53) then e0 + 1 else e0
  max e (-1074)

/-- The `float64` nearest to the rational number `n / d` (`d > 0`), ties to even: the
rounding that every `float64` operation applies to its exact result. The overflow to
infinity, for values of `2 ^ 1024` and more, is left out: the values rounded for
`shouldUpdate` come from `int64` operands and are below `2 ^ 64`. -/
def roundFloat64 (n : Int) (d : Nat) : Float64 :=
  if n = 0 then ⟨0, 0⟩
  else
    let a := n.natAbs
    let e := float64Exponent a d
    ⟨n.sign * (roundHalfEven (a * pow2Den e) (d * pow2Num e) : Int), e⟩

/-- The conversion `float64(n)` of an integer. -/
def Float64.ofInt (n : Int) : Float64 := roundFloat64 n 1

/-- The sum `x + y` of two `float64`. -/
def Float64.add (x y : Float64) : Float64 :=
  let e := min x.e y.e
  roundFloat64 ((x.m * 2 ^ (x.e - e).toNat + y.m * 2 ^ (y.e - e).toNat) * pow2Num e) (pow2Den e)

/-- The quotient `x / y` of two `float64`, for `y` other than zero. -/
def Float64.div (x y : Float64) : Float64 :=
  roundFloat64 (x.m * y.m.sign * pow2Num (x.e - y.e)) (y.m.natAbs * pow2Den (x.e - y.e))

/-- The comparison `x <= y` of two `float64`. -/
def Float64.le (x y : Float64) : Bool :=
  let e := min x.e y.e
  decide (x.m * 2 ^ (x.e - e).toNat ≤ y.m * 2 ^ (y.e - e).toNat)

/-- `d.Seconds()` of `time.Duration`: `float64(sec) + float64(nsec)/1e9` with
`sec := d / Second` and `nsec := d % Second`, the division of Go truncating. -/
def Duration.Seconds (d : Int) : Float64 :=
  let sec := Int.tdiv d 1000000000
  let nsec := Int.tmod d 1000000000
  (Float64.ofInt sec).add ((Float64.ofInt nsec).div (Float64.ofInt 1000000000))

/-- The rational number that a `float64` value is. -/
def Float64.val (x : Float64) : ℚ := (x.m : ℚ) * (2 : ℚ) ^ x.e

/-- A stored node (`models.Node`): the fields this code reads and writes. -/
structure Node where
  ID : Int := 0
  Name : String := ""
  Link : String := ""
  Config : String := ""
  deriving DecidableEq, Repr

/-- A node group (`models.GroupNode`). -/
structure GroupNode where
  ID : Int := 0
  Name : String := ""
  deriving DecidableEq, Repr

/-- `models.ExternalSubscription` (external_subscription.go, lines 12-24). -/
structure ExternalSubscription where
  ID : Int := 0
  Name : String := ""
  URL : String := ""
  Enabled : Bool := true
  UpdateInterval : Int := 3600
  LastUpdate : Time := ⟨0⟩
  NodeCount : Int := 0
  GroupName : String := ""
  UserAgent : String := ""
  Nodes : List Node := []
  deriving DecidableEq, Repr

/-- `shouldUpdate` (lines 104-115), with the clock reading `now` made explicit. The test
`elapsed >= float64(subscription.UpdateInterval)` is made on `float64` values, as in the
code. -/
def shouldUpdate (now : Time) (subscription : ExternalSubscription) : Bool :=
  if subscription.LastUpdate.IsZero then true
  else
    let elapsed := Duration.Seconds (Since now subscription.LastUpdate)
    (Float64.ofInt subscription.UpdateInterval).le elapsed

/-- What a sweep needs from the outside, over a world state `σ`: the clock, the
subscription table with the failure of its query, and the refresh. -/
structure SweepEnv (σ : Type) where
  now : σ → Time
  table : σ → List ExternalSubscription
  queryError : σ → Option String
  UpdateSubscriptionNodes : ExternalSubscription → σ → Except String Int × σ

/-- `models.GetEnabledExternalSubscriptions` (external_subscription.go, lines 121-128): the
rows with `enabled = true`, or the error of the query. -/
def GetEnabledExternalSubscriptions {σ : Type} (env : SweepEnv σ) (w : σ) :
    Except String (List ExternalSubscription) :=
  match env.queryError w with
  | some err => .error err
  | none => .ok ((env.table w).filter (fun s => s.Enabled))

/-- One iteration of the sweep, as the log shows it: the subscription, the clock reading
at its check, and the result of the refresh when one was made. -/
structure Visit where
  subscription : ExternalSubscription
  checkedAt : Time
  refresh : Option (Except String Int)

/-- The loop of `updateAllSubscriptions` (lines 85-98). A failed refresh is logged and the
loop goes on (`continue`), as it does after a successful one. -/
def updateAllSubscriptions.loop {σ : Type} (env : SweepEnv σ) :
    List ExternalSubscription → σ → List Visit × σ
  | [], w => ([], w)
  | subscription :: rest, w =>
    if shouldUpdate (env.now w) subscription then
      let (r, w1) := env.UpdateSubscriptionNodes subscription w
      let (vs, w2) := updateAllSubscriptions.loop env rest w1
      (⟨subscription, env.now w, some r⟩ :: vs, w2)
    else
      let (vs, w2) := updateAllSubscriptions.loop env rest w
      (⟨subscription, env.now w, none⟩ :: vs, w2)

/-- `updateAllSubscriptions` (lines 69-101). -/
def updateAllSubscriptions {σ : Type} (env : SweepEnv σ) (w : σ) : List Visit × σ :=
  match GetEnabledExternalSubscriptions env w with
  | .error _ => ([], w)
  | .ok subscriptions =>
    if subscriptions.length = 0 then ([], w)
    else updateAllSubscriptions.loop env subscriptions w

/-- The subscriptions a sweep refreshed, in the order of the calls. -/
def refreshed (visits : List Visit) : List ExternalSubscription :=
  (visits.filter (fun v => v.refresh.isSome)).map (fun v => v.subscription)

/-- Spec side: the refresh called on each subscription of a list, in list order, each call
on the world that the call before it left, whatever that call returned: the results of the
calls and the world after the last one. -/
def runRefreshes {σ : Type} (env : SweepEnv σ) :
    List ExternalSubscription → σ → List (Except String Int) × σ
  | [], w => ([], w)
  | s :: rest, w =>
    let (r, w1) := env.UpdateSubscriptionNodes s w
    let (rs, w2) := runRefreshes env rest w1
    (r :: rs, w2)

/-- A Go channel as far as `close` sees it. -/
inductive Chan where
  | isOpen
  | isClosed
  deriving DecidableEq, Repr

/-- `SubscriptionService` (lines 20-23): the `quit` channel, `none` when it is `nil`. -/
structure SubscriptionService where
  quit : Option Chan
  deriving DecidableEq, Repr

/-- `NewSubscriptionService` (lines 26-30). -/
def NewSubscriptionService : SubscriptionService := ⟨some Chan.isOpen⟩

/-- `StopAutoUpdate` (lines 61-66). `close` of a closed channel is a run-time panic, here
the error value. -/
def StopAutoUpdate (s : SubscriptionService) : Except String SubscriptionService :=
  match s.quit with
  | none => .ok s
  | some Chan.isOpen => .ok { s with quit := some Chan.isClosed }
  | some Chan.isClosed => .error "panic: close of closed channel"

/-! ## The refresh `UpdateSubscriptionNodes` (subscription.go, lines 123-301, 736-819) -/

/-- `strings.HasPrefix`. -/
def HasPrefix (s pre : String) : Bool := pre.data.isPrefixOf s.data

/-- `unicode.IsSpace`: the white space that `strings.TrimSpace` removes. -/
def isSpace (c : Char) : Bool :=
  let n := c.toNat
  n == 9 || n == 10 || n == 11 || n == 12 || n == 13 || n == 32 || n == 0x85 || n == 0xA0 ||
  n == 0x1680 || (0x2000 ≤ n && n ≤ 0x200A) || n == 0x2028 || n == 0x2029 || n == 0x202F ||
  n == 0x205F || n == 0x3000

/-- `strings.TrimSpace`. -/
def TrimSpace (s : String) : String :=
  ⟨((s.data.dropWhile isSpace).reverse.dropWhile isSpace).reverse⟩

/-- The pieces of a text between its line feeds. -/
def splitLines : List Char → List (List Char)
  | [] => [[]]
  | c :: cs =>
    if c.toNat = 10 then [] :: splitLines cs
    else
      match splitLines cs with
      | [] => [[c]]
      | l :: ls => (c :: l) :: ls

/-- `strings.Split(s, "\n")`. -/
def Split (s : String) : List String := (splitLines s.data).map (fun l => String.mk l)

/-- The `validSchemes` of `isValidProxyLink` (lines 737-741). -/
def validSchemes : List String :=
  ["ss://", "ssr://", "vmess://", "vless://", "trojan://", "hysteria://", "hy://", "hy2://",
   "hysteria2://", "tuic://"]

/-- The loop of `isValidProxyLink` (lines 743-748). -/
def isValidProxyLink.loop (link : String) : List String → Bool
  | [] => false
  | scheme :: rest => if HasPrefix link scheme then true else isValidProxyLink.loop link rest

/-- `isValidProxyLink` (lines 736-749). -/
def isValidProxyLink (link : String) : Bool := isValidProxyLink.loop link validSchemes

/-- The guards of the line loop (lines 237-246): the trimmed lines that reach line 248, in
order. -/
def proxyLinks : List String → List String
  | [] => []
  | line :: rest =>
    let line := TrimSpace line
    if line = "" || HasPrefix line "#" then proxyLinks rest
    else if !isValidProxyLink line then proxyLinks rest
    else line :: proxyLinks rest

/-- The lines of the specification: trimmed, not blank, not a comment, of a known scheme. -/
def proxyLinksRef (content : String) : List String :=
  ((Split content).map TrimSpace).filter
    (fun l => decide (l ≠ "") && !HasPrefix l "#" && validSchemes.any (fun p => HasPrefix l p))

/-- A proxy of a Clash subscription: `map[string]interface{}`. -/
abbrev ProxyMap := List (String × Value Empty)

/-- What `decodeNodeName` calls: `url.Parse` (the scheme of the link, or its error) and the
decoder of each scheme (the name of the decoded record, or its error). -/
structure LinkCodec where
  urlScheme : String → Except String String
  DecodeSSURL : String → Except String String
  DecodeSSRURL : String → Except String String
  DecodeTrojanURL : String → Except String String
  DecodeVMESSURL : String → Except String String
  DecodeVLESSURL : String → Except String String
  DecodeHYURL : String → Except String String
  DecodeHY2URL : String → Except String String
  DecodeTuicURL : String → Except String String

/-- `decodeNodeName` (lines 752-819). -/
def decodeNodeName (c : LinkCodec) (nd : Node) : Except String Node :=
  if nd.Name = "" then
    match c.urlScheme nd.Link with
    | .error err => .error err
    | .ok scheme =>
      if scheme = "ss" then (c.DecodeSSURL nd.Link).map (fun n => { nd with Name := n })
      else if scheme = "ssr" then (c.DecodeSSRURL nd.Link).map (fun n => { nd with Name := n })
      else if scheme = "trojan" then
        (c.DecodeTrojanURL nd.Link).map (fun n => { nd with Name := n })
      else if scheme = "vmess" then (c.DecodeVMESSURL nd.Link).map (fun n => { nd with Name := n })
      else if scheme = "vless" then (c.DecodeVLESSURL nd.Link).map (fun n => { nd with Name := n })
      else if scheme = "hy" || scheme = "hysteria" then
        (c.DecodeHYURL nd.Link).map (fun n => { nd with Name := n })
      else if scheme = "hy2" || scheme = "hysteria2" then
        (c.DecodeHY2URL nd.Link).map (fun n => { nd with Name := n })
      else if scheme = "tuic" then (c.DecodeTuicURL nd.Link).map (fun n => { nd with Name := n })
      else .ok nd
  else .ok nd

/-- A call made on the store during a refresh, as the refresh makes it. -/
inductive StoreCall where
  | clearNodes (subscription : ExternalSubscription)
  | nodeAdd (node : Node) (ok : Bool)
  | groupAdd (group : GroupNode) (ok : Bool)
  | groupAss (group : GroupNode) (node : Node) (ok : Bool)
  | associateNodes (subscription : ExternalSubscription) (nodes : List Node) (ok : Bool)
  | updateStatus (subscription : ExternalSubscription) (nodeCount : Int) (ok : Bool)
  deriving DecidableEq

/-- What a refresh needs from the outside, over a world state `σ`. `fetch` is lines 124-151
(request, GET, reading the body). The store methods return their error, if any, and the
receiver as they leave it. -/
structure RefreshEnv (σ : Type) where
  codec : LinkCodec
  fetch : ExternalSubscription → σ → Except String String × σ
  base64Std : String → Option String
  base64URL : String → Option String
  yamlProxies : String → Option (List ProxyMap)
  jsonMarshal : ProxyMap → Except String String
  convertClashProxyToLink : ProxyMap → String
  ClearNodes : ExternalSubscription → σ → (Option String × ExternalSubscription) × σ
  NodeAdd : Node → σ → (Option String × Node) × σ
  GroupNodeAdd : GroupNode → σ → (Option String × GroupNode) × σ
  GroupNodeAss : GroupNode → Node → σ → (Option String × Node) × σ
  AssociateNodes : ExternalSubscription → List Node → σ → Option String × σ
  UpdateStatus : ExternalSubscription → Int → σ → Option String × σ

/-- The local state of the two loops: `nodes`, `nodeCount`, the world and the calls so far. -/
structure Batch (σ : Type) where
  nodes : List Node
  nodeCount : Int
  world : σ
  calls : List StoreCall

/-- `fmt.Sprintf("[%s] %s", a, b)`. -/
def prefixed (a b : String) : String := "[" ++ a ++ "] " ++ b

/-- Lines 207-210 and 260-263: the subscription name is put before the node name. -/
def withPrefix (subscription : ExternalSubscription) (decodedNode : Node) : Node :=
  if subscription.Name ≠ "" then
    { decodedNode with Name := prefixed subscription.Name decodedNode.Name }
  else decodedNode

/-- Lines 218-228 and 271-281: the group named after the subscription, and the node put
in it. -/
def groupNode {σ : Type} (env : RefreshEnv σ) (subscription : ExternalSubscription)
    (decodedNode : Node) (w : σ) : Node × σ × List StoreCall :=
  if subscription.Name ≠ "" then
    let g : GroupNode := { Name := subscription.Name }
    match env.GroupNodeAdd g w with
    | ((some _, _), w1) => (decodedNode, w1, [StoreCall.groupAdd g false])
    | ((none, g1), w1) =>
      match env.GroupNodeAss g1 decodedNode w1 with
      | ((err, n1), w2) =>
        (n1, w2, [StoreCall.groupAdd g false, StoreCall.groupAss g1 decodedNode err.isNone])
  else (decodedNode, w, [])

/-- Lines 207-231 and 260-284, the same in both loops: prefix, insert, group, count. -/
def insertNode {σ : Type} (env : RefreshEnv σ) (subscription : ExternalSubscription)
    (decodedNode : Node) (b : Batch σ) : Batch σ :=
  let decodedNode := withPrefix subscription decodedNode
  match env.NodeAdd decodedNode b.world with
  | ((some _, _), w1) =>
    { b with world := w1, calls := b.calls ++ [StoreCall.nodeAdd decodedNode false] }
  | ((none, added), w1) =>
    match groupNode env subscription added w1 with
    | (n1, w2, cs) =>
      { nodes := b.nodes ++ [n1], nodeCount := b.nodeCount + 1, world := w2,
        calls := b.calls ++ [StoreCall.nodeAdd decodedNode true] ++ cs }

/-- Lines 176-205: the node recovered from one proxy of a Clash subscription, not yet
prefixed; `none` where the loop goes on to the next proxy. -/
def clashNode {σ : Type} (env : RefreshEnv σ) (proxy : ProxyMap) : Option Node :=
  match env.jsonMarshal proxy with
  | .error _ => none
  | .ok configJSON =>
    let link := env.convertClashProxyToLink proxy
    if link = "" then none
    else
      let tempNode : Node := { Link := link, Config := configJSON }
      match decodeNodeName env.codec tempNode with
      | .ok decodedNode => some decodedNode
      | .error _ =>
        match mapGet "name" proxy with
        | some (.str name) => some { tempNode with Name := name }
        | _ => none

/-- Lines 248-258: the node recovered from one link, not yet prefixed. -/
def lineNode {σ : Type} (env : RefreshEnv σ) (line : String) : Option Node :=
  match decodeNodeName env.codec { Link := line } with
  | .ok decodedNode => some decodedNode
  | .error _ => none

/-- The loop over `clashConfig.Proxies` (lines 175-232). -/
def clashLoop {σ : Type} (env : RefreshEnv σ) (subscription : ExternalSubscription) :
    List ProxyMap → Batch σ → Batch σ
  | [], b => b
  | proxy :: rest, b =>
    match clashNode env proxy with
    | none => clashLoop env subscription rest b
    | some decodedNode => clashLoop env subscription rest (insertNode env subscription decodedNode b)

/-- The loop over the lines (lines 237-285). -/
def lineLoop {σ : Type} (env : RefreshEnv σ) (subscription : ExternalSubscription) :
    List String → Batch σ → Batch σ
  | [], b => b
  | line :: rest, b =>
    let line := TrimSpace line
    if line = "" || HasPrefix line "#" then lineLoop env subscription rest b
    else if !isValidProxyLink line then lineLoop env subscription rest b
    else
      match lineNode env line with
      | none => lineLoop env subscription rest b
      | some decodedNode => lineLoop env subscription rest (insertNode env subscription decodedNode b)

/-- The links of a batch, handed to the rest of the loop body one by one (lines 248-284). -/
def processLinks {σ : Type} (env : RefreshEnv σ) (subscription : ExternalSubscription) :
    List String → Batch σ → Batch σ
  | [], b => b
  | line :: rest, b =>
    match lineNode env line with
    | none => processLinks env subscription rest b
    | some decodedNode =>
      processLinks env subscription rest (insertNode env subscription decodedNode b)

/-- Lines 156-161: the body, or its base64 decoding when one of the two succeeds. -/
def decodeContent {σ : Type} (env : RefreshEnv σ) (content : String) : String :=
  match env.base64Std content with
  | some decoded => decoded
  | none =>
    match env.base64URL content with
    | some decoded => decoded
    | none => content

/-- `UpdateSubscriptionNodes` (lines 123-301): the result, the world afterwards, and the
calls made on the store. -/
def UpdateSubscriptionNodes {σ : Type} (env : RefreshEnv σ) (subscription : ExternalSubscription)
    (w : σ) : Except String Int × σ × List StoreCall :=
  match env.fetch subscription w with
  | (.error err, w1) => (.error err, w1, [])
  | (.ok body, w1) =>
    let content := decodeContent env body
    match env.ClearNodes subscription w1 with
    | ((_, subscription), w2) =>
      let b0 : Batch σ := ⟨[], 0, w2, [StoreCall.clearNodes subscription]⟩
      let b : Batch σ :=
        match env.yamlProxies content with
        | some proxies =>
          if proxies.length > 0 then clashLoop env subscription proxies b0
          else lineLoop env subscription (Split content) b0
        | none => lineLoop env subscription (Split content) b0
      let (w3, cs3) :=
        if b.nodes.length > 0 then
          match env.AssociateNodes subscription b.nodes b.world with
          | (err, w3) => (w3, [StoreCall.associateNodes subscription b.nodes err.isNone])
        else (b.world, [])
      match env.UpdateStatus subscription b.nodeCount w3 with
      | (err, w4) =>
        (.ok b.nodeCount, w4,
          b.calls ++ cs3 ++ [StoreCall.updateStatus subscription b.nodeCount err.isNone])

/-! ## Sample inputs -/

/-- A template with one proxy `A`, a `select` group holding `A` and a null entry, a relay
group without a `proxies` key, and a group after it. -/
def sampleTemplate : Config :=
  [(.str "mode", .str "rule"),
   (.str "proxies", .seq [.strMap [("name", .str "A")]]),
   (.str "proxy-groups", .seq
     [.strMap [("name", .str "G"), ("type", .str "select"), ("proxies", .seq [.str "A", .null])],
      .strMap [("name", .str "R"), ("type", .str "relay")],
      .strMap [("name", .str "H"), ("type", .str "select"), ("proxies", .seq [.str "A"])]])]

/-- Two new proxies, `B` and `C`. -/
def sampleProxies : List Proxy := [{ Name := "B" }, { Name := "C" }]

/-- The document the merge builds from `sampleTemplate` and `sampleProxies`. -/
def sampleMerged : Config :=
  [(.str "mode", .str "rule"),
   (.str "proxies", .seq [.strMap [("name", .str "A")], .struct { Name := "B" },
      .struct { Name := "C" }]),
   (.str "proxy-groups", .seq
     [.strMap [("name", .str "G"), ("type", .str "select"),
        ("proxies", .seq [.str "A", .str "B", .str "C"])],
      .strMap [("name", .str "R"), ("type", .str "relay"), ("proxies", .seq [])],
      .strMap [("name", .str "H"), ("type", .str "select"), ("proxies", .seq [.str "A"])]])]

/-- A template whose only group is a relay group without a `proxies` key. -/
def relayTemplate : Config :=
  [(.str "proxy-groups", .seq [.strMap [("name", .str "R"), ("type", .str "relay")]])]

/-- A sweep environment over a clock in seconds: the refresh always fails and takes ten
seconds. -/
def sampleSweepEnv (table : List ExternalSubscription) : SweepEnv Int where
  now := fun w => ⟨w * 1000000000⟩
  table := fun _ => table
  queryError := fun _ => none
  UpdateSubscriptionNodes := fun _ w => (.error "fetch failed", w + 10)

/-- Never refreshed, hourly. -/
def subNever : ExternalSubscription := { ID := 1, Name := "never", LastUpdate := ⟨0⟩ }

/-- Refreshed at second 1000, hourly. -/
def subFresh : ExternalSubscription := { ID := 2, Name := "fresh", LastUpdate := ⟨1000000000000⟩ }

/-- Refreshed at second 1000, every 60 seconds. -/
def subStale : ExternalSubscription :=
  { ID := 3, Name := "stale", LastUpdate := ⟨1000000000000⟩, UpdateInterval := 60 }

/-- Disabled. -/
def subOff : ExternalSubscription := { ID := 4, Name := "off", Enabled := false }

/-- Refreshed at nanosecond 1, every 20000000 seconds. -/
def subLong : ExternalSubscription :=
  { ID := 5, Name := "long", LastUpdate := ⟨1⟩, UpdateInterval := 20000000 }

/-- A sweep environment over a clock in nanoseconds: the refresh always succeeds, with
three nodes, and takes one second. -/
def nanoSweepEnv (table : List ExternalSubscription) : SweepEnv Int where
  now := fun w => ⟨w⟩
  table := fun _ => table
  queryError := fun _ => none
  UpdateSubscriptionNodes := fun _ w => (.ok 3, w + 1000000000)

/-- A codec for the samples: the scheme is what precedes `://`, every decoder returns the
text after `#` (nothing when there is no `#`), and the ss decoder rejects a link without
`@`. -/
def sampleCodec : LinkCodec where
  urlScheme := fun link => .ok (String.mk (link.data.takeWhile (fun c => c.toNat ≠ 58)))
  DecodeSSURL := fun link =>
    if link.data.any (fun c => c.toNat = 64) then
      .ok (String.mk ((link.data.dropWhile (fun c => c.toNat ≠ 35)).drop 1))
    else .error "bad ss link"
  DecodeSSRURL := fun link => .ok (String.mk ((link.data.dropWhile (fun c => c.toNat ≠ 35)).drop 1))
  DecodeTrojanURL := fun link =>
    .ok (String.mk ((link.data.dropWhile (fun c => c.toNat ≠ 35)).drop 1))
  DecodeVMESSURL := fun link =>
    .ok (String.mk ((link.data.dropWhile (fun c => c.toNat ≠ 35)).drop 1))
  DecodeVLESSURL := fun link =>
    .ok (String.mk ((link.data.dropWhile (fun c => c.toNat ≠ 35)).drop 1))
  DecodeHYURL := fun link => .ok (String.mk ((link.data.dropWhile (fun c => c.toNat ≠ 35)).drop 1))
  DecodeHY2URL := fun link => .ok (String.mk ((link.data.dropWhile (fun c => c.toNat ≠ 35)).drop 1))
  DecodeTuicURL := fun link =>
    .ok (String.mk ((link.data.dropWhile (fun c => c.toNat ≠ 35)).drop 1))

/-- A store for the samples: the list of the nodes added so far; a node whose name is
already stored is rejected, and a stored node gets the next identifier. -/
def sampleRefreshEnv (body : Except String String) : RefreshEnv (List Node) where
  codec := sampleCodec
  fetch := fun _ w => (body, w)
  base64Std := fun _ => none
  base64URL := fun _ => none
  yamlProxies := fun _ => none
  jsonMarshal := fun _ => .ok ""
  convertClashProxyToLink := fun _ => ""
  ClearNodes := fun s w => ((none, s), w)
  NodeAdd := fun n w =>
    if w.any (fun m => m.Name = n.Name) then ((some "name exists", n), w)
    else ((none, { n with ID := w.length + 1 }), w ++ [{ n with ID := w.length + 1 }])
  GroupNodeAdd := fun g w => ((none, g), w)
  GroupNodeAss := fun _ n w => ((none, n), w)
  AssociateNodes := fun _ _ w => (none, w)
  UpdateStatus := fun _ _ w => (none, w)

/-- The subscription of the samples, named `sub`. -/
def sampleSubscription : ExternalSubscription := { ID := 1, Name := "sub", URL := "http://x" }

/-- The body of scenario 1 of the specification, with sample payloads. -/
def sampleBody : String := "vmess://abc#Test\ntrojan://pw@ex.com:443#ex"

/-! ## Text encodings used by the converters (Go standard library) -/

/-- The UTF-8 bytes of one character. -/
def utf8Char (c : Char) : List Nat :=
  let n := c.toNat
  if n < 0x80 then [n]
  else if n < 0x800 then [0xC0 + n / 64, 0x80 + n % 64]
  else if n < 0x10000 then [0xE0 + n / 4096, 0x80 + n / 64 % 64, 0x80 + n % 64]
  else [0xF0 + n / 262144, 0x80 + n / 4096 % 64, 0x80 + n / 64 % 64, 0x80 + n % 64]

/-- The bytes of a Go string, `[]byte(s)`. -/
def utf8 (s : String) : List Nat := s.data.flatMap utf8Char

/-- The alphabet of `base64.StdEncoding`. -/
def stdAlphabet : List Char :=
  "ABCDEFGHIJKLMNOPQRSTUVWXYZabcdefghijklmnopqrstuvwxyz0123456789+/".data

/-- The alphabet of `base64.URLEncoding`. -/
def urlAlphabet : List Char :=
  "ABCDEFGHIJKLMNOPQRSTUVWXYZabcdefghijklmnopqrstuvwxyz0123456789-_".data

/-- The character of a six-bit value in an alphabet. -/
def sextet (alphabet : List Char) (v : Nat) : Char := alphabet.getD v (Char.ofNat 61)

/-- Base64 with padding (`EncodeToString` of an encoding with the standard padding). -/
def base64Encode (alphabet : List Char) : List Nat → List Char
  | [] => []
  | [a] => [sextet alphabet (a / 4), sextet alphabet (a % 4 * 16), Char.ofNat 61, Char.ofNat 61]
  | [a, b] =>
    [sextet alphabet (a / 4), sextet alphabet (a % 4 * 16 + b / 16),
     sextet alphabet (b % 16 * 4), Char.ofNat 61]
  | a :: b :: c :: rest =>
    sextet alphabet (a / 4) :: sextet alphabet (a % 4 * 16 + b / 16) ::
      sextet alphabet (b % 16 * 4 + c / 64) :: sextet alphabet (c % 64) ::
      base64Encode alphabet rest

/-- `base64.StdEncoding.EncodeToString([]byte(s))`. -/
def base64StdEncode (s : String) : String := String.mk (base64Encode stdAlphabet (utf8 s))

/-- `base64.URLEncoding.EncodeToString([]byte(s))`. -/
def base64URLEncode (s : String) : String := String.mk (base64Encode urlAlphabet (utf8 s))

/-- The decimal digits of a natural number, most significant first; `fuel` bounds the
number of digits. -/
def natDigits : Nat → Nat → List Char
  | 0, _ => []
  | fuel + 1, n =>
    if n < 10 then [Char.ofNat (48 + n)]
    else natDigits fuel (n / 10) ++ [Char.ofNat (48 + n % 10)]

/-- `strconv.Itoa`, also the verb `%d` of `fmt`. -/
def Itoa (i : Int) : String :=
  match i with
  | Int.ofNat n => String.mk (natDigits (n + 1) n)
  | Int.negSucc n => String.mk (Char.ofNat 45 :: natDigits (n + 2) (n + 1))

/-- An upper-case hexadecimal digit. -/
def hexDigit (v : Nat) : Char := if v < 10 then Char.ofNat (48 + v) else Char.ofNat (55 + v)

/-- The bytes `url.QueryEscape` leaves as they are: letters, digits, `-`, `_`, `.`, `~`. -/
def unreserved (b : Nat) : Bool :=
  (65 ≤ b && b ≤ 90) || (97 ≤ b && b ≤ 122) || (48 ≤ b && b ≤ 57) ||
  b == 45 || b == 95 || b == 46 || b == 126

/-- `url.QueryEscape` on one byte: a space becomes `+`, any other reserved byte `%XX`. -/
def escapeByte (b : Nat) : List Char :=
  if unreserved b then [Char.ofNat b]
  else if b = 32 then [Char.ofNat 43]
  else [Char.ofNat 37, hexDigit (b / 16), hexDigit (b % 16)]

/-- `url.QueryEscape`. -/
def QueryEscape (s : String) : String := String.mk ((utf8 s).flatMap escapeByte)

/-- The value of a hexadecimal digit, if it is one. -/
def unhex (c : Char) : Option Nat :=
  let n := c.toNat
  if 48 ≤ n ∧ n ≤ 57 then some (n - 48)
  else if 65 ≤ n ∧ n ≤ 70 then some (n - 55)
  else if 97 ≤ n ∧ n ≤ 102 then some (n - 87)
  else none

/-- Modelled from the spec: "Fragments are percent-decoded". The decoders of the links are
not part of the sources at hand; this is the decoding of a fragment as `url.Parse` makes it:
each `%XX` becomes the byte `XX`, every other character stands for itself (a `+` stays a
`+`), and a `%` not followed by two hexadecimal digits is an error. The result is the byte
sequence of the decoded text. -/
def percentDecode : List Char → Option (List Nat)
  | [] => some []
  | c :: rest =>
    if c.toNat = 37 then
      match rest with
      | h :: l :: rest2 =>
        match unhex h, unhex l, percentDecode rest2 with
        | some a, some b, some tail => some ((a * 16 + b) :: tail)
        | _, _, _ => none
      | _ => none
    else (percentDecode rest).map (fun tail => utf8Char c ++ tail)

/-! ## Clash proxy to link (subscription.go, lines 304-584) -/

/-- The smallest `int64`. -/
def minInt64 : Int := -(2 ^ 63)

/-- The conversion `int(p)` of a `float64` given by its bits: the value truncated toward
zero. Where the value does not fit an `int64` (also for an infinity or a NaN) Go leaves the
result to the platform; it is taken as on amd64, the smallest `int64`. -/
def float64Trunc (bits : Nat) : Int :=
  let negative := bits / 2 ^ 63 % 2 = 1
  let e := bits / 2 ^ 52 % 2048
  let m := bits % 2 ^ 52
  if e = 0 then 0
  else if e = 2047 then minInt64
  else
    let sig := 2 ^ 52 + m
    let mag : Nat := if e ≥ 1075 then sig * 2 ^ (e - 1075) else sig / 2 ^ (1075 - e)
    if negative then (if mag ≤ 2 ^ 63 then -(mag : Int) else minInt64)
    else (if mag < 2 ^ 63 then (mag : Int) else minInt64)

/-- `v, _ := proxy[k].(string)`: the string under `k`, or `""`. -/
def getString (proxy : ProxyMap) (k : String) : String :=
  match mapGet k proxy with
  | some (.str s) => s
  | _ => ""

/-- `v, ok := proxy[k].(string)`. -/
def getStringOk (proxy : ProxyMap) (k : String) : Option String :=
  match mapGet k proxy with
  | some (.str s) => some s
  | _ => none

/-- The switch that reads a number: `float64` is converted with `int(p)`, `int` is taken
as it is, anything else leaves `0`. -/
def getInt (proxy : ProxyMap) (k : String) : Int :=
  match mapGet k proxy with
  | some (.float p) => float64Trunc p
  | some (.int p) => p
  | _ => 0

/-- Lines 354-356 and their copies: `#` and the escaped name, when there is a name. -/
def withFragment (link name : String) : String :=
  if name ≠ "" then link ++ "#" ++ QueryEscape name else link

/-- `convertShadowsocksToLink` (lines 331-359). -/
def convertShadowsocksToLink (proxy : ProxyMap) : String :=
  let server := getString proxy "server"
  let port := getInt proxy "port"
  let cipher := getString proxy "cipher"
  let password := getString proxy "password"
  let name := getString proxy "name"
  if server = "" || port = 0 || cipher = "" || password = "" then ""
  else
    let userInfo := cipher ++ ":" ++ password
    let encodedUserInfo := base64StdEncode userInfo
    let link := "ss://" ++ encodedUserInfo ++ "@" ++ server ++ ":" ++ Itoa port
    withFragment link name

/-- `convertShadowsocksRToLink` (lines 362-396). -/
def convertShadowsocksRToLink (proxy : ProxyMap) : String :=
  let server := getString proxy "server"
  let port := getInt proxy "port"
  let cipher := getString proxy "cipher"
  let password := getString proxy "password"
  let protocol := getString proxy "protocol"
  let obfs := getString proxy "obfs"
  let name := getString proxy "name"
  if server = "" || port = 0 || cipher = "" || password = "" then ""
  else
    let encodedPassword := base64URLEncode password
    let ssrContent := server ++ ":" ++ Itoa port ++ ":" ++ protocol ++ ":" ++ cipher ++ ":" ++
      obfs ++ ":" ++ encodedPassword
    let ssrContent :=
      if name ≠ "" then ssrContent ++ ("/?remarks=" ++ base64URLEncode name) else ssrContent
    "ssr://" ++ base64URLEncode ssrContent

/-- The `vmessConfig` map of `convertVMESSToLink` as it is handed to `json.Marshal`
(lines 426-450). -/
def vmessConfig (proxy : ProxyMap) : ProxyMap :=
  let server := getString proxy "server"
  let port := getInt proxy "port"
  let uuid := getString proxy "uuid"
  let alterId := getInt proxy "alterId"
  let cipher := getString proxy "cipher"
  let name := getString proxy "name"
  let network := getString proxy "network"
  let tls := getString proxy "tls"
  let vmessConfig : ProxyMap :=
    [("v", .str "2"), ("ps", .str name), ("add", .str server), ("port", .int port),
     ("id", .str uuid), ("aid", .int alterId), ("scy", .str cipher), ("net", .str network),
     ("tls", .str tls)]
  if network = "ws" then
    match mapGet "ws-opts" proxy with
    | some (.strMap wsOpts) =>
      let vmessConfig :=
        match mapGet "path" wsOpts with
        | some (.str path) => mapSet "path" (.str path) vmessConfig
        | _ => vmessConfig
      match mapGet "headers" wsOpts with
      | some (.strMap headers) =>
        match mapGet "Host" headers with
        | some (.str host) => mapSet "host" (.str host) vmessConfig
        | _ => vmessConfig
      | _ => vmessConfig
    | _ => vmessConfig
  else vmessConfig

/-- `convertVMESSToLink` (lines 399-459); `jsonMarshal` is `json.Marshal`. -/
def convertVMESSToLink (jsonMarshal : ProxyMap → Except String String) (proxy : ProxyMap) :
    String :=
  let server := getString proxy "server"
  let port := getInt proxy "port"
  let uuid := getString proxy "uuid"
  if server = "" || port = 0 || uuid = "" then ""
  else
    match jsonMarshal (vmessConfig proxy) with
    | .error _ => ""
    | .ok jsonBytes => "vmess://" ++ base64StdEncode jsonBytes

/-- The `params` of `convertVLESSToLink` (lines 481-490), a `url.Values`: the keys that
were set, in the order `Encode` writes them (sorted by key). -/
def vlessParams (proxy : ProxyMap) : List (String × String) :=
  (match getStringOk proxy "encryption" with
    | some encryption => [("encryption", encryption)]
    | none => [])
  ++ (match getStringOk proxy "flow" with
    | some flow => [("flow", flow)]
    | none => [])
  ++ (match getStringOk proxy "network" with
    | some network => [("type", network)]
    | none => [])

/-- `url.Values.Encode` for values with one entry per key, the keys given in sorted
order. -/
def encodeValues (params : List (String × String)) : String :=
  String.intercalate "&" (params.map (fun kv => QueryEscape kv.1 ++ "=" ++ QueryEscape kv.2))

/-- `convertVLESSToLink` (lines 462-501). -/
def convertVLESSToLink (proxy : ProxyMap) : String :=
  let server := getString proxy "server"
  let port := getInt proxy "port"
  let uuid := getString proxy "uuid"
  let name := getString proxy "name"
  if server = "" || port = 0 || uuid = "" then ""
  else
    let link := "vless://" ++ uuid ++ "@" ++ server ++ ":" ++ Itoa port
    let params := vlessParams proxy
    let link := if params.length > 0 then link ++ "?" ++ encodeValues params else link
    withFragment link name

/-- `convertTrojanToLink` (lines 504-526). -/
def convertTrojanToLink (proxy : ProxyMap) : String :=
  let server := getString proxy "server"
  let port := getInt proxy "port"
  let password := getString proxy "password"
  let name := getString proxy "name"
  if server = "" || port = 0 || password = "" then ""
  else
    let link := "trojan://" ++ password ++ "@" ++ server ++ ":" ++ Itoa port
    withFragment link name

/-- `convertHysteriaToLink` (lines 529-558). -/
def convertHysteriaToLink (proxy : ProxyMap) : String :=
  let server := getString proxy "server"
  let port := getInt proxy "port"
  let auth := getString proxy "auth"
  let name := getString proxy "name"
  let proxyType := getString proxy "type"
  if server = "" || port = 0 then ""
  else
    let link :=
      if proxyType = "hysteria2" then "hy2://" ++ auth ++ "@" ++ server ++ ":" ++ Itoa port
      else "hy://" ++ auth ++ "@" ++ server ++ ":" ++ Itoa port
    withFragment link name

/-- `convertTuicToLink` (lines 561-584). -/
def convertTuicToLink (proxy : ProxyMap) : String :=
  let server := getString proxy "server"
  let port := getInt proxy "port"
  let uuid := getString proxy "uuid"
  let password := getString proxy "password"
  let name := getString proxy "name"
  if server = "" || port = 0 || uuid = "" || password = "" then ""
  else
    let link := "tuic://" ++ uuid ++ ":" ++ password ++ "@" ++ server ++ ":" ++ Itoa port
    withFragment link name

/-- `convertClashProxyToLink` (lines 304-328). -/
def convertClashProxyToLink (jsonMarshal : ProxyMap → Except String String)
    (proxy : ProxyMap) : String :=
  match getStringOk proxy "type" with
  | none => ""
  | some proxyType =>
    if proxyType = "ss" then convertShadowsocksToLink proxy
    else if proxyType = "ssr" then convertShadowsocksRToLink proxy
    else if proxyType = "vmess" then convertVMESSToLink jsonMarshal proxy
    else if proxyType = "vless" then convertVLESSToLink proxy
    else if proxyType = "trojan" then convertTrojanToLink proxy
    else if proxyType = "hysteria" || proxyType = "hysteria2" then convertHysteriaToLink proxy
    else if proxyType = "tuic" then convertTuicToLink proxy
    else ""

/-- The proxy of scenario 3 of the specification. -/
def sampleSS : ProxyMap :=
  [("name", .str "n1"), ("type", .str "ss"), ("server", .str "s"), ("port", .int 1234),
   ("cipher", .str "aes-128-gcm"), ("password", .str "p")]

/-- A `json.Marshal` for the samples: it fails on every map. -/
def noJSON : ProxyMap → Except String String := fun _ => .error "unsupported"

/-! ## The batch of a refresh -/

/-- The `Add` calls that succeeded, among the calls of a refresh. -/
def successfulAdds (calls : List StoreCall) : Nat :=
  calls.countP (fun c =>
    match c with
    | .nodeAdd _ true => true
    | _ => false)

/-- Lines 163-286 of `UpdateSubscriptionNodes` after a fetch that gave `body`: the
subscription as `ClearNodes` leaves it and the local state (`nodes`, `nodeCount`) after the
loop. -/
def refreshBatch {σ : Type} (env : RefreshEnv σ) (subscription : ExternalSubscription)
    (body : String) (w1 : σ) : ExternalSubscription × Batch σ :=
  let content := decodeContent env body
  match env.ClearNodes subscription w1 with
  | ((_, subscription), w2) =>
    let b0 : Batch σ := ⟨[], 0, w2, [StoreCall.clearNodes subscription]⟩
    (subscription,
      match env.yamlProxies content with
      | some proxies =>
        if proxies.length > 0 then clashLoop env subscription proxies b0
        else lineLoop env subscription (Split content) b0
      | none => lineLoop env subscription (Split content) b0)

/-- A refresh environment in which every call on the store fails and the body is `body`. -/
def failingRefreshEnv (body : String) : RefreshEnv Unit where
  codec := sampleCodec
  fetch := fun _ w => (.ok body, w)
  base64Std := fun _ => none
  base64URL := fun _ => none
  yamlProxies := fun _ => none
  jsonMarshal := fun _ => .error "unsupported"
  convertClashProxyToLink := fun _ => ""
  ClearNodes := fun s w => ((some "database is locked", s), w)
  NodeAdd := fun n w => ((some "database is locked", n), w)
  GroupNodeAdd := fun g w => ((some "database is locked", g), w)
  GroupNodeAss := fun _ n w => ((some "database is locked", n), w)
  AssociateNodes := fun _ _ w => (some "database is locked", w)
  UpdateStatus := fun _ _ w => (some "database is locked", w)

/-- Lines 288-300 of `UpdateSubscriptionNodes`: the batch is attached to the subscription,
the status is written and the count is returned. -/
def finishRefresh {σ : Type} (env : RefreshEnv σ) (subscription : ExternalSubscription)
    (b : Batch σ) : Except String Int × σ × List StoreCall :=
  let (w3, cs3) :=
    if b.nodes.length > 0 then
      match env.AssociateNodes subscription b.nodes b.world with
      | (err, w3) => (w3, [StoreCall.associateNodes subscription b.nodes err.isNone])
    else (b.world, [])
  match env.UpdateStatus subscription b.nodeCount w3 with
  | (err, w4) =>
    (.ok b.nodeCount, w4,
      b.calls ++ cs3 ++ [StoreCall.updateStatus subscription b.nodeCount err.isNone])

/-- The calls made before the final step: clearing, `Add`, group creation, association of
a node with its group. -/
def isLoopCall : StoreCall → Bool
  | .clearNodes _ => true
  | .nodeAdd _ _ => true
  | .groupAdd _ _ => true
  | .groupAss _ _ _ => true
  | _ => false

/-- A body with one link that has no name: no fragment after the address. -/
def namelessBody : String := "trojan://pw@ex.com:443"

/-! ## The store (models) -/

/-- The rows of the database that the subscription code reads and writes: the nodes, the
groups with their members (group id, node id), and the subscriptions with their nodes
(subscription id, node id); `clock` is what `time.Now()` returns. The model
`ExternalSubscription` embeds `gorm.Model`, whose field `DeletedAt` makes `DB.Delete` a
soft deletion: `deletedSubscriptions` are the rows it has marked, which no query sees and
which still hold their identifier and, in the unique index, their name. -/
structure Store where
  nodes : List Node := []
  groups : List GroupNode := []
  groupNodes : List (Int × Int) := []
  subscriptions : List ExternalSubscription := []
  subscriptionNodes : List (Int × Int) := []
  clock : Time := ⟨0⟩
  deletedSubscriptions : List ExternalSubscription := []
  deriving DecidableEq, Repr

/-- What the model leaves open about the database: the calls that fail (a locked or broken
database), by the row they are made for. -/
structure Faults where
  nodeAdd : String → Bool := fun _ => false
  nodeDel : Int → Bool := fun _ => false
  groupAdd : String → Bool := fun _ => false
  groupAss : Int → Int → Bool := fun _ _ => false
  find : Int → Bool := fun _ => false
  clear : Int → Bool := fun _ => false
  append : Int → Bool := fun _ => false
  update : Int → Bool := fun _ => false
  delete : Int → Bool := fun _ => false
  query : Bool := false
  create : String → Bool := fun _ => false

/-- No call fails. -/
def noFaults : Faults := {}

/-- The identifier the database gives to a new row. -/
def nextID (ids : List Int) : Int := ids.foldl max 0 + 1

/-- Modelled from the spec: `node.add(node)`, "Insert the Node (unique-name collision is an
error)". `Node.Add` is not part of the sources at hand. The stored node gets a new id. -/
def Node.Add (f : Faults) (n : Node) (st : Store) : (Option String × Node) × Store :=
  if f.nodeAdd n.Name then ((some "database error", n), st)
  else if st.nodes.any (fun m => decide (m.Name = n.Name)) then
    ((some "node name exists", n), st)
  else
    let n1 := { n with ID := nextID (st.nodes.map (fun m => m.ID)) }
    ((none, n1), { st with nodes := st.nodes ++ [n1] })

/-- Modelled from the spec: `node.delete(id)`. `Node.Del` is not part of the sources at
hand. The row of the node goes, with its group memberships. -/
def Node.Del (f : Faults) (n : Node) (st : Store) : Option String × Store :=
  if f.nodeDel n.ID then (some "database error", st)
  else
    (none, { st with
      nodes := st.nodes.filter (fun m => decide (m.ID ≠ n.ID)),
      groupNodes := st.groupNodes.filter (fun p => decide (p.2 ≠ n.ID)) })

/-- Modelled from the spec: `group.ensure(name) → group`, "Ensure a Group named
`subscription.name` exists (idempotent)". `GroupNode.Add` is not part of the sources at
hand. The receiver is left as the stored group. -/
def GroupNode.Add (f : Faults) (g : GroupNode) (st : Store) :
    (Option String × GroupNode) × Store :=
  if f.groupAdd g.Name then ((some "database error", g), st)
  else
    match st.groups.find? (fun h => decide (h.Name = g.Name)) with
    | some h => ((none, h), st)
    | none =>
      let g1 := { g with ID := nextID (st.groups.map (fun h => h.ID)) }
      ((none, g1), { st with groups := st.groups ++ [g1] })

/-- Modelled from the spec: `group.associate(group, node)`. `GroupNode.Ass` is not part of
the sources at hand. -/
def GroupNode.Ass (f : Faults) (g : GroupNode) (n : Node) (st : Store) :
    (Option String × Node) × Store :=
  if f.groupAss g.ID n.ID then ((some "database error", n), st)
  else ((none, n), { st with groupNodes := st.groupNodes ++ [(g.ID, n.ID)] })

/-- Whether the node is a member of a group of that name. -/
def isMember (st : Store) (group : String) (n : Node) : Bool :=
  st.groups.any (fun g => decide (g.Name = group) && st.groupNodes.contains (g.ID, n.ID))

/-- Whether the node is associated with the subscription of that id. -/
def isOwned (st : Store) (subscriptionID : Int) (n : Node) : Bool :=
  st.subscriptionNodes.contains (subscriptionID, n.ID)

/-- `DB.Model(es).Preload("Nodes").First(es)`: the stored subscription of that id with its
nodes, if there is one. -/
def loadSubscription (st : Store) (id : Int) : Option ExternalSubscription :=
  (st.subscriptions.find? (fun s => decide (s.ID = id))).map
    (fun s => { s with Nodes := st.nodes.filter (fun n => isOwned st id n) })

/-- The loop `for _, node := range es.Nodes { node.Del() }`: a failed deletion is logged
and the loop goes on. -/
def deleteNodes (f : Faults) : List Node → Store → Store
  | [], st => st
  | node :: rest, st => deleteNodes f rest (Node.Del f node st).2

/-- `DB.Model(es).Association("Nodes").Clear()`: the rows that tie nodes to the
subscription go; the nodes stay. -/
def clearAssociation (es : ExternalSubscription) (st : Store) : Store :=
  { st with subscriptionNodes := st.subscriptionNodes.filter (fun p => decide (p.1 ≠ es.ID)) }

/-- The field `Nodes` of the receiver after a successful `Association("Nodes").Clear()`:
GORM replaces the association by nothing and leaves the field of the receiver empty, so the
loops that follow the call range over no node. -/
def nodesAfterClear (_es : ExternalSubscription) : List Node := []

/-- `ExternalSubscription.ClearNodes` (external_subscription.go, lines 139-158). The
receiver is left as the `Preload` and the `Clear` leave it. -/
def ExternalSubscription.ClearNodes (f : Faults) (es : ExternalSubscription) (st : Store) :
    (Option String × ExternalSubscription) × Store :=
  let es := (loadSubscription st es.ID).getD es
  if es.Nodes.length > 0 then
    if f.clear es.ID then ((some "database error", es), st)
    else
      ((none, { es with Nodes := nodesAfterClear es }),
        deleteNodes f (nodesAfterClear es) (clearAssociation es st))
  else ((none, es), st)

/-- `ExternalSubscription.AssociateNodes` (lines 161-166). -/
def ExternalSubscription.AssociateNodes (f : Faults) (es : ExternalSubscription)
    (nodes : List Node) (st : Store) : Option String × Store :=
  if nodes.length = 0 then (none, st)
  else if f.append es.ID then (some "database error", st)
  else
    (none, { st with
      subscriptionNodes := st.subscriptionNodes ++ nodes.map (fun n => (es.ID, n.ID)) })

/-- `ExternalSubscription.UpdateStatus` (lines 131-136). -/
def ExternalSubscription.UpdateStatus (f : Faults) (es : ExternalSubscription)
    (nodeCount : Int) (st : Store) : Option String × Store :=
  if f.update es.ID then (some "database error", st)
  else
    (none, { st with
      subscriptions := st.subscriptions.map (fun s =>
        if s.ID = es.ID then { s with LastUpdate := st.clock, NodeCount := nodeCount } else s) })

/-- `DB.Delete(es)` on a model with `DeletedAt`: the row of that id is marked as deleted. -/
def softDelete (es : ExternalSubscription) (st : Store) : Store :=
  { st with
    subscriptions := st.subscriptions.filter (fun s => decide (s.ID ≠ es.ID)),
    deletedSubscriptions :=
      st.deletedSubscriptions ++ st.subscriptions.filter (fun s => decide (s.ID = es.ID)) }

/-- `ExternalSubscription.Delete` (lines 70-98): the error it returns, if any, and the
store afterwards. -/
def ExternalSubscription.Delete (f : Faults) (es : ExternalSubscription) (st : Store) :
    Option String × Store :=
  if f.find es.ID then (some "database error", st)
  else
    match loadSubscription st es.ID with
    | none => (some "record not found", st)
    | some es =>
      if es.Nodes.length > 0 then
        if f.clear es.ID then (some "database error", st)
        else
          let st := deleteNodes f (nodesAfterClear es) (clearAssociation es st)
          if f.delete es.ID then (some "database error", st)
          else (none, softDelete es st)
      else
        if f.delete es.ID then (some "database error", st)
        else (none, softDelete es st)

/-- Lines 39-45 of `ExternalSubscription.Add`: the defaults of the interval and of the
user agent. -/
def ExternalSubscription.withDefaults (es : ExternalSubscription) : ExternalSubscription :=
  let es := if es.UpdateInterval = 0 then { es with UpdateInterval := 3600 } else es
  if es.UserAgent = "" then
    { es with UserAgent := "Mozilla/5.0 (Windows NT 10.0; Win64; x64) AppleWebKit/537.36" }
  else es

/-- `ExternalSubscription.Add` (lines 27-48): the error, the receiver and the store.
`DB.Create(es)` fails on the unique index when a row marked as deleted has the name; it
gives the row a new identifier and, for the tag `default:true` of `Enabled`, writes `true`
where the field holds the zero value `false`, in the row and in the receiver. -/
def ExternalSubscription.Add (f : Faults) (es : ExternalSubscription) (st : Store) :
    (Option String × ExternalSubscription) × Store :=
  if f.query then ((some "database error", es), st)
  else if st.subscriptions.any (fun s => decide (s.Name = es.Name ∨ s.URL = es.URL)) then
    ((some "订阅名称或链接已存在", es), st)
  else
    let es := es.withDefaults
    if f.create es.Name || st.deletedSubscriptions.any (fun s => decide (s.Name = es.Name)) then
      ((some "database error", es), st)
    else
      let es := { es with
        ID := nextID ((st.subscriptions ++ st.deletedSubscriptions).map (fun s => s.ID)),
        Enabled := true }
      ((none, es), { st with subscriptions := st.subscriptions ++ [es] })

/-- The body of an add request, as `ShouldBindJSON` fills it (api/external_subscription.go,
lines 14-21). -/
structure AddRequest where
  Name : String := ""
  URL : String := ""
  Enabled : Bool := false
  UpdateInterval : Int := 0
  GroupName : String := ""
  UserAgent : String := ""
  deriving DecidableEq, Repr

/-- Lines 40-46 of `ExternalSubscriptionAdd`: the defaults of the interval and of the user
agent. -/
def AddRequest.withDefaults (req : AddRequest) : AddRequest :=
  let req := if req.UpdateInterval = 0 then { req with UpdateInterval := 3600 } else req
  if req.UserAgent = "" then
    { req with UserAgent := "Mozilla/5.0 (Windows NT 10.0; Win64; x64) AppleWebKit/537.36" }
  else req

/-- `ExternalSubscriptionAdd` (api/external_subscription.go, lines 13-73) after the request
has been bound: the HTTP status and the store. The refresh started in the background at
line 66 is left out. -/
def ExternalSubscriptionAdd (f : Faults) (req : AddRequest) (st : Store) : Nat × Store :=
  if req.Name = "" || req.URL = "" then (400, st)
  else
    let req := req.withDefaults
    let subscription : ExternalSubscription :=
      { Name := req.Name, URL := req.URL, Enabled := req.Enabled,
        UpdateInterval := req.UpdateInterval, GroupName := req.GroupName,
        UserAgent := req.UserAgent }
    match ExternalSubscription.Add f subscription st with
    | ((some _, _), st1) => (400, st1)
    | ((none, _), st1) => (200, st1)

/-- What a refresh over the store needs besides the store: the decoders, the fetch and the
parsers. -/
structure Outside where
  codec : LinkCodec
  fetch : ExternalSubscription → Store → Except String String × Store
  base64Std : String → Option String
  base64URL : String → Option String
  yamlProxies : String → Option (List ProxyMap)
  jsonMarshal : ProxyMap → Except String String

/-- The refresh environment over the store: the methods of the models, with the faults
`f`. -/
def storeEnv (f : Faults) (o : Outside) : RefreshEnv Store where
  codec := o.codec
  fetch := o.fetch
  base64Std := o.base64Std
  base64URL := o.base64URL
  yamlProxies := o.yamlProxies
  jsonMarshal := o.jsonMarshal
  convertClashProxyToLink := convertClashProxyToLink o.jsonMarshal
  ClearNodes := ExternalSubscription.ClearNodes f
  NodeAdd := Node.Add f
  GroupNodeAdd := GroupNode.Add f
  GroupNodeAss := GroupNode.Ass f
  AssociateNodes := ExternalSubscription.AssociateNodes f
  UpdateStatus := ExternalSubscription.UpdateStatus f

/-- The outside of the samples: the sample codec, a fetch that returns `body`, a body that
is neither base64 nor YAML. -/
def sampleOutside (body : String) : Outside where
  codec := sampleCodec
  fetch := fun _ st => (.ok body, st)
  base64Std := fun _ => none
  base64URL := fun _ => none
  yamlProxies := fun _ => none
  jsonMarshal := noJSON

/-- The empty store. -/
def emptyStore : Store := {}

/-- A store with the sample subscription, which owns node 10, and a node 11 that no
subscription owns. -/
def sampleStore : Store :=
  { nodes := [{ ID := 10, Name := "[sub] old", Link := "trojan://a@b:1#old" },
              { ID := 11, Name := "manual", Link := "trojan://c@d:2#manual" }],
    subscriptions := [sampleSubscription],
    subscriptionNodes := [(1, 10)] }

/-- The groups and the memberships of `st` are still in `st1`. -/
def keepsGroups (st st1 : Store) : Prop :=
  (∀ g ∈ st.groups, g ∈ st1.groups) ∧ (∀ p ∈ st.groupNodes, p ∈ st1.groupNodes)

/-! ## `convertToInt` and the vmess branch of `EncodeClash` (clash.go, lines 75-86, 174-211) -/

/-- The largest `int64`. -/
def maxInt64 : Int := 2 ^ 63 - 1

/-- The value of a decimal digit, if the character is one. -/
def digitValue (c : Char) : Option Nat :=
  if 48 ≤ c.toNat ∧ c.toNat ≤ 57 then some (c.toNat - 48) else none

/-- The number written by a sequence of decimal digits after the digits read so far;
`none` when a character is not a digit. -/
def parseDigits : List Char → Nat → Option Nat
  | [], acc => some acc
  | c :: cs, acc =>
    match digitValue c with
    | some d => parseDigits cs (acc * 10 + d)
    | none => none

/-- `strconv.Atoi` after the sign: a syntax error gives `0`, a number out of the range of
`int` gives the nearest bound, both with an error. -/
def atoiDigits (negative : Bool) (digits : List Char) : Int × Option String :=
  if digits = [] then (0, some "invalid syntax")
  else
    match parseDigits digits 0 with
    | none => (0, some "invalid syntax")
    | some n =>
      if negative then
        (if n ≤ 2 ^ 63 then (-(n : Int), none) else (minInt64, some "value out of range"))
      else (if n < 2 ^ 63 then ((n : Int), none) else (maxInt64, some "value out of range"))

/-- `strconv.Atoi`: the value and the error. -/
def Atoi (s : String) : Int × Option String :=
  match s.data with
  | [] => (0, some "invalid syntax")
  | c :: ds =>
    if c.toNat = 43 then atoiDigits false ds
    else if c.toNat = 45 then atoiDigits true ds
    else atoiDigits false (c :: ds)

/-- `convertToInt` (lines 75-86): the value and the error. -/
def convertToInt : Value Empty → Int × Option String
  | .int v => (v, none)
  | .float v => (float64Trunc v, none)
  | .str v => Atoi v
  | _ => (0, some "unexpected type")

/-- Whether the `float64` with these bits is exactly the integer `n`. -/
def float64IsInt (bits : Nat) (n : Int) : Bool :=
  let negative := bits / 2 ^ 63 % 2 = 1
  let e := bits / 2 ^ 52 % 2048
  let m := bits % 2 ^ 52
  if e = 2047 then false
  else if e = 0 then decide (m = 0 ∧ n = 0)
  else
    let sig := 2 ^ 52 + m
    if e ≥ 1075 then
      decide (n = if negative then -((sig * 2 ^ (e - 1075) : Nat) : Int)
        else ((sig * 2 ^ (e - 1075) : Nat) : Int))
    else
      decide (sig % 2 ^ (1075 - e) = 0
        ∧ n = if negative then -((sig / 2 ^ (1075 - e) : Nat) : Int)
          else ((sig / 2 ^ (1075 - e) : Nat) : Int))

/-- The forms in which a number of a vmess record arrives: an `int`, a `float64` with that
integral value, or the decimal text of the integer. -/
def arrivesAs (v : Value Empty) (n : Int) : Prop :=
  v = .int n ∨ (∃ bits, v = .float bits ∧ float64IsInt bits n = true) ∨ v = .str (Itoa n)

/-- The fields of a decoded vmess record that `EncodeClash` and `EncodeClashWithNodes`
read; `Port` and `Aid` are of type `interface{}`. -/
structure Vmess where
  Add : String := ""
  Aid : Value Empty := .null
  Host : String := ""
  Id : String := ""
  Net : String := ""
  Path : String := ""
  Port : Value Empty := .null
  Ps : String := ""
  Scy : String := ""
  Tls : String := ""
  Sni : String := ""

/-- The fields of `SqlConfig` that `EncodeClash` reads. -/
structure SqlConfig where
  Clash : String := ""
  Udp : Bool := false
  Cert : Bool := false

/-- The verb `%s` of `fmt` on an interface value: a string is written as it is, an `int`
as `%!s(int=N)`; `other` gives the text for the remaining types. -/
def fmtS (other : Value Empty → String) : Value Empty → String
  | .str s => s
  | .int i => "%!s(int=" ++ Itoa i ++ ")"
  | v => other v

/-- The vmess branch of `EncodeClash` after a successful decoding (lines 179-211): the
proxy that is appended. -/
def EncodeClash.vmessProxy (other : Value Empty → String) (vmess : Vmess)
    (sqlconfig : SqlConfig) : Proxy :=
  let Ps := if vmess.Ps = "" then vmess.Add ++ ":" ++ fmtS other vmess.Port else vmess.Ps
  let ws_opts : Opts :=
    DeleteOpts [("path", .str vmess.Path), ("headers", .strMap [("Host", .str vmess.Host)])]
  let tls := decide (vmess.Tls ≠ "none" ∧ vmess.Tls ≠ "")
  let port := (convertToInt vmess.Port).1
  let aid := (convertToInt vmess.Aid).1
  { Name := Ps, Type_ := "vmess", Server := vmess.Add, Port := port, Cipher := vmess.Scy,
    Uuid := vmess.Id, AlterId := Itoa aid, Network := vmess.Net, Tls := tls,
    Ws_opts := ws_opts, Udp := sqlconfig.Udp, Skip_cert_verify := sqlconfig.Cert }

/-- A vmess map with `tls: true`, a YAML boolean. -/
def sampleVmessTLS : ProxyMap :=
  [("name", .str "v"), ("type", .str "vmess"), ("server", .str "s"), ("port", .int 443),
   ("uuid", .str "u"), ("tls", .bool true)]

/-- A vless map with `tls: true`, a YAML boolean. -/
def sampleVlessTLS : ProxyMap :=
  [("type", .str "vless"), ("server", .str "s"), ("port", .int 443), ("uuid", .str "u"),
   ("tls", .bool true)]

/-- A trojan map whose name has a space. -/
def sampleSpacedName : ProxyMap :=
  [("name", .str "a b"), ("type", .str "trojan"), ("server", .str "h"), ("port", .int 443),
   ("password", .str "pw")]


/-! ## The decoded link records and `EncodeClash` (clash.go, lines 89-351) -/

/-- The characters before the first `://`. -/
def Scheme.go : List Char → List Char
  | [] => []
  | c :: cs => if "://".data.isPrefixOf (c :: cs) then [] else c :: Scheme.go cs

/-- `strings.Split(link, "://")[0]`: the text before the first `://`, the whole link when
it has none. -/
def Scheme (link : String) : String := String.mk (Scheme.go link.data)

/-- The `Param` of a decoded ss record. -/
structure SsParam where
  Cipher : String := ""
  Password : String := ""

/-- The fields of a decoded ss record that the code reads. The struct is declared with its
decoder, which is not part of the sources at hand. -/
structure Ss where
  Param : SsParam := {}
  Server : String := ""
  Port : Int := 0
  Name : String := ""
  Type_ : String := ""

/-- The `Qurey` of a decoded ssr record. -/
structure SsrQurey where
  Remarks : String := ""
  Obfsparam : String := ""

/-- The fields of a decoded ssr record that the code reads. -/
structure Ssr where
  Server : String := ""
  Port : Int := 0
  Method : String := ""
  Password : String := ""
  Obfs : String := ""
  Protocol : String := ""
  Type_ : String := ""
  Qurey : SsrQurey := {}

/-- The `Query` of a decoded trojan record. -/
structure TrojanQuery where
  Path : String := ""
  Host : String := ""
  Fp : String := ""
  Sni : String := ""
  Type_ : String := ""
  Flow : String := ""
  Alpn : List String := []

/-- The fields of a decoded trojan record that the code reads. -/
structure Trojan where
  Name : String := ""
  Hostname : String := ""
  Port : Int := 0
  Password : String := ""
  Type_ : String := ""
  Query : TrojanQuery := {}

/-- The `Query` of a decoded vless record. -/
structure VlessQuery where
  Path : String := ""
  Host : String := ""
  Pbk : String := ""
  Sid : String := ""
  ServiceName : String := ""
  Mode : String := ""
  Security : String := ""
  Sni : String := ""
  Fp : String := ""
  Type_ : String := ""
  Flow : String := ""
  Alpn : List String := []

/-- The fields of a decoded vless record that the code reads. -/
structure Vless where
  Name : String := ""
  Server : String := ""
  Port : Int := 0
  Uuid : String := ""
  Query : VlessQuery := {}

/-- The fields of a decoded hysteria record that the code reads. -/
structure Hy where
  Name : String := ""
  Host : String := ""
  Port : Int := 0
  Auth : String := ""
  UpMbps : Int := 0
  DownMbps : Int := 0
  ALPN : List String := []
  Peer : String := ""

/-- The fields of a decoded hysteria2 record that the code reads. -/
structure Hy2 where
  Name : String := ""
  Host : String := ""
  Port : Int := 0
  Auth : String := ""
  Sni : String := ""
  ALPN : List String := []
  Obfs : String := ""
  Password : String := ""
  ObfsPassword : String := ""

/-- The fields of a decoded tuic record that the code reads. -/
structure Tuic where
  Name : String := ""
  Host : String := ""
  Port : Int := 0
  Password : String := ""
  Uuid : String := ""
  Congestion_control : String := ""
  Alpn : List String := []
  Udp_relay_mode : String := ""
  Disable_sni : Int := 0
  Sni : String := ""

/-- What `EncodeClash` and `EncodeClashWithNodes` call: the decoder of each scheme, which
returns a record and an error as in Go, and `fmt` on the interface values that the model
does not print itself (`sprintS` for the verb `%s`, `sprintV` for `%v` on a `float64`). -/
structure Decoders where
  DecodeSSURL : String → Ss × Option String
  DecodeSSRURL : String → Ssr × Option String
  DecodeTrojanURL : String → Trojan × Option String
  DecodeVMESSURL : String → Vmess × Option String
  DecodeVLESSURL : String → Vless × Option String
  DecodeHYURL : String → Hy × Option String
  DecodeHY2URL : String → Hy2 × Option String
  DecodeTuicURL : String → Tuic × Option String
  sprintS : Value Empty → String
  sprintV : Nat → String

/-- The ss branch of `EncodeClash` after a successful decoding (lines 103-116). -/
def EncodeClash.ssProxy (ss : Ss) (sqlconfig : SqlConfig) : Proxy :=
  let Name := if ss.Name = "" then ss.Server ++ ":" ++ Itoa ss.Port else ss.Name
  { Name := Name, Type_ := "ss", Server := ss.Server, Port := ss.Port,
    Cipher := ss.Param.Cipher, Password := ss.Param.Password, Udp := sqlconfig.Udp,
    Skip_cert_verify := sqlconfig.Cert }

/-- The ssr branch of `EncodeClash` (lines 123-139). -/
def EncodeClash.ssrProxy (ssr : Ssr) (sqlconfig : SqlConfig) : Proxy :=
  let Remarks :=
    if ssr.Qurey.Remarks = "" then ssr.Server ++ ":" ++ Itoa ssr.Port else ssr.Qurey.Remarks
  { Name := Remarks, Type_ := "ssr", Server := ssr.Server, Port := ssr.Port,
    Cipher := ssr.Method, Password := ssr.Password, Obfs := ssr.Obfs,
    Obfs_password := ssr.Qurey.Obfsparam, Protocol := ssr.Protocol, Udp := sqlconfig.Udp,
    Skip_cert_verify := sqlconfig.Cert }

/-- The trojan branch of `EncodeClash` after a successful decoding (lines 147-172). -/
def EncodeClash.trojanProxy (trojan : Trojan) (sqlconfig : SqlConfig) : Proxy :=
  let Name := if trojan.Name = "" then trojan.Hostname ++ ":" ++ Itoa trojan.Port else trojan.Name
  let ws_opts : Opts :=
    DeleteOpts [("path", .str trojan.Query.Path),
                ("headers", .strMap [("Host", .str trojan.Query.Host)])]
  { Name := Name, Type_ := "trojan", Server := trojan.Hostname, Port := trojan.Port,
    Password := trojan.Password, Client_fingerprint := trojan.Query.Fp,
    Sni := trojan.Query.Sni, Network := trojan.Query.Type_, Flow := trojan.Query.Flow,
    Alpn := trojan.Query.Alpn, Ws_opts := ws_opts, Udp := sqlconfig.Udp,
    Skip_cert_verify := sqlconfig.Cert }

/-- The vless branch of `EncodeClash` after a successful decoding (lines 218-266). -/
def EncodeClash.vlessProxy (vless : Vless) (sqlconfig : SqlConfig) : Proxy :=
  let Name := if vless.Name = "" then vless.Server ++ ":" ++ Itoa vless.Port else vless.Name
  let ws_opts : Opts :=
    [("path", .str vless.Query.Path), ("headers", .strMap [("Host", .str vless.Query.Host)])]
  let reality_opts : Opts :=
    [("public-key", .str vless.Query.Pbk), ("short-id", .str vless.Query.Sid)]
  let grpc_opts : Opts :=
    [("grpc-mode", .str "gun"), ("grpc-service-name", .str vless.Query.ServiceName)]
  let grpc_opts :=
    if vless.Query.Mode = "multi" then mapSet "grpc-mode" (.str "multi") grpc_opts
    else grpc_opts
  let ws_opts := DeleteOpts ws_opts
  let reality_opts := DeleteOpts reality_opts
  let grpc_opts := DeleteOpts grpc_opts
  let tls := false
  let tls := if vless.Query.Security ≠ "" then true else tls
  let tls := if vless.Query.Security = "none" then false else tls
  { Name := Name, Type_ := "vless", Server := vless.Server, Port := vless.Port,
    Servername := vless.Query.Sni, Uuid := vless.Uuid, Client_fingerprint := vless.Query.Fp,
    Network := vless.Query.Type_, Flow := vless.Query.Flow, Alpn := vless.Query.Alpn,
    Ws_opts := ws_opts, Reality_opts := reality_opts, Grpc_opts := grpc_opts,
    Udp := sqlconfig.Udp, Skip_cert_verify := sqlconfig.Cert, Tls := tls }

/-- The hysteria branch of `EncodeClash` after a successful decoding (lines 274-290). -/
def EncodeClash.hyProxy (hy : Hy) (sqlconfig : SqlConfig) : Proxy :=
  let Name := if hy.Name = "" then hy.Host ++ ":" ++ Itoa hy.Port else hy.Name
  { Name := Name, Type_ := "hysteria", Server := hy.Host, Port := hy.Port,
    Auth_str := hy.Auth, Up := hy.UpMbps, Down := hy.DownMbps, Alpn := hy.ALPN,
    Peer := hy.Peer, Udp := sqlconfig.Udp, Skip_cert_verify := sqlconfig.Cert }

/-- The hysteria2 branch of `EncodeClash` after a successful decoding (lines 298-315). -/
def EncodeClash.hy2Proxy (hy2 : Hy2) (sqlconfig : SqlConfig) : Proxy :=
  let Name := if hy2.Name = "" then hy2.Host ++ ":" ++ Itoa hy2.Port else hy2.Name
  { Name := Name, Type_ := "hysteria2", Server := hy2.Host, Port := hy2.Port,
    Auth_str := hy2.Auth, Sni := hy2.Sni, Alpn := hy2.ALPN, Obfs := hy2.Obfs,
    Password := hy2.Password, Obfs_password := hy2.ObfsPassword, Udp := sqlconfig.Udp,
    Skip_cert_verify := sqlconfig.Cert }

/-- The tuic branch of `EncodeClash` after a successful decoding (lines 323-345). -/
def EncodeClash.tuicProxy (tuic : Tuic) (sqlconfig : SqlConfig) : Proxy :=
  let Name := if tuic.Name = "" then tuic.Host ++ ":" ++ Itoa tuic.Port else tuic.Name
  let disable_sni := if tuic.Disable_sni = 1 then true else false
  { Name := Name, Type_ := "tuic", Server := tuic.Host, Port := tuic.Port,
    Password := tuic.Password, Uuid := tuic.Uuid,
    Congestion_control := tuic.Congestion_control, Alpn := tuic.Alpn,
    Udp_relay_mode := tuic.Udp_relay_mode, Disable_sni := disable_sni, Sni := tuic.Sni,
    Udp := sqlconfig.Udp, Skip_cert_verify := sqlconfig.Cert }

/-- One iteration of the loop of `EncodeClash` (lines 95-347): the proxy appended for the
link, if one is. A decoding error skips the link, except in the ssr branch, which logs the
error and goes on with the record the decoder returned. -/
def EncodeClash.link (d : Decoders) (sqlconfig : SqlConfig) (link : String) : Option Proxy :=
  if Scheme link = "ss" then
    match d.DecodeSSURL link with
    | (_, some _) => none
    | (ss, none) => some (EncodeClash.ssProxy ss sqlconfig)
  else if Scheme link = "ssr" then
    some (EncodeClash.ssrProxy (d.DecodeSSRURL link).1 sqlconfig)
  else if Scheme link = "trojan" then
    match d.DecodeTrojanURL link with
    | (_, some _) => none
    | (trojan, none) => some (EncodeClash.trojanProxy trojan sqlconfig)
  else if Scheme link = "vmess" then
    match d.DecodeVMESSURL link with
    | (_, some _) => none
    | (vmess, none) => some (EncodeClash.vmessProxy d.sprintS vmess sqlconfig)
  else if Scheme link = "vless" then
    match d.DecodeVLESSURL link with
    | (_, some _) => none
    | (vless, none) => some (EncodeClash.vlessProxy vless sqlconfig)
  else if Scheme link = "hy" || Scheme link = "hysteria" then
    match d.DecodeHYURL link with
    | (_, some _) => none
    | (hy, none) => some (EncodeClash.hyProxy hy sqlconfig)
  else if Scheme link = "hy2" || Scheme link = "hysteria2" then
    match d.DecodeHY2URL link with
    | (_, some _) => none
    | (hy2, none) => some (EncodeClash.hy2Proxy hy2 sqlconfig)
  else if Scheme link = "tuic" then
    match d.DecodeTuicURL link with
    | (_, some _) => none
    | (tuic, none) => some (EncodeClash.tuicProxy tuic sqlconfig)
  else none

/-- The loop of `EncodeClash` (lines 94-348): the list `proxys` after the links. -/
def EncodeClash.proxys (d : Decoders) (sqlconfig : SqlConfig) :
    List String → List Proxy → List Proxy
  | [], proxys => proxys
  | link :: rest, proxys =>
    match EncodeClash.link d sqlconfig link with
    | some proxy => EncodeClash.proxys d sqlconfig rest (proxys ++ [proxy])
    | none => EncodeClash.proxys d sqlconfig rest proxys

/-- `EncodeClash` (lines 89-351) on the parsed template `config`: the document handed to
`yaml.Marshal`, `none` when `DecodeClash` panics. -/
def EncodeClash (d : Decoders) (urls : List String) (sqlconfig : SqlConfig)
    (config : Config) : Option Config :=
  DecodeClash (EncodeClash.proxys d sqlconfig urls []) config

/-! ## `EncodeClashWithNodes` (clash.go, lines 354-763) -/

/-- `v, _ := proxy[k].(bool)`: the boolean under `k`, or `false`. -/
def getBool (proxy : ProxyMap) (k : String) : Bool :=
  match mapGet k proxy with
  | some (.bool b) => b
  | _ => false

/-- `m, _ := proxy[k].(map[string]interface{})`: the map under `k`, or the nil map. -/
def getMap (proxy : ProxyMap) (k : String) : Opts :=
  match mapGet k proxy with
  | some (.strMap m) => m
  | _ => []

/-- Lines 464-470: the strings of the list under `alpn`. -/
def EncodeClashWithNodes.alpn (proxy : ProxyMap) : List String :=
  match mapGet "alpn" proxy with
  | some (.seq alpn) =>
    alpn.foldl (fun acc a =>
      match a with
      | .str s => acc ++ [s]
      | _ => acc) []
  | _ => []

/-- The record built from the parsed config of a node (lines 379-470). A field whose key is
absent or holds a value of another type keeps its zero value. -/
def EncodeClashWithNodes.configProxy (d : Decoders) (nodeName : String) (proxy : ProxyMap) :
    Proxy :=
  { Name := if nodeName ≠ "" then nodeName else getString proxy "name",
    Type_ := getString proxy "type",
    Server := getString proxy "server",
    Port :=
      match mapGet "port" proxy with
      | some (.float port) => float64Trunc port
      | some (.int port) => port
      | _ => 0,
    Cipher := getString proxy "cipher",
    Password := getString proxy "password",
    Uuid := getString proxy "uuid",
    AlterId :=
      match mapGet "alterId" proxy with
      | some (.str alterId) => alterId
      | some (.float alterId) => d.sprintV alterId
      | _ => "",
    Network := getString proxy "network",
    Tls :=
      match mapGet "tls" proxy with
      | some (.bool tls) => tls
      | some (.str tls) => tls = "tls" || tls = "true"
      | _ => false,
    Sni := getString proxy "sni",
    Servername :=
      match getStringOk proxy "sni" with
      | some _ => ""
      | none => getString proxy "servername",
    Udp := getBool proxy "udp",
    Skip_cert_verify := getBool proxy "skip-cert-verify",
    Protocol := getString proxy "protocol",
    Obfs := getString proxy "obfs",
    Flow := getString proxy "flow",
    Auth := getString proxy "auth",
    Auth_str :=
      match getStringOk proxy "auth" with
      | some _ => ""
      | none => getString proxy "auth_str",
    Ws_opts := getMap proxy "ws-opts",
    Grpc_opts := getMap proxy "grpc-opts",
    Reality_opts := getMap proxy "reality-opts",
    Alpn := EncodeClashWithNodes.alpn proxy }

/-- The ss branch (lines 490-502). -/
def EncodeClashWithNodes.ssProxy (nodeName : String) (ss : Ss) (sqlconfig : SqlConfig) : Proxy :=
  let Name := if nodeName ≠ "" then nodeName else ss.Name
  { Name := Name, Type_ := ss.Type_, Server := ss.Server, Port := ss.Port,
    Cipher := ss.Param.Cipher, Password := ss.Param.Password, Udp := sqlconfig.Udp }

/-- The ssr branch (lines 510-524). -/
def EncodeClashWithNodes.ssrProxy (nodeName : String) (ssr : Ssr) (sqlconfig : SqlConfig) :
    Proxy :=
  let Remarks := if nodeName ≠ "" then nodeName else ssr.Qurey.Remarks
  { Name := Remarks, Type_ := ssr.Type_, Server := ssr.Server, Port := ssr.Port,
    Cipher := ssr.Method, Password := ssr.Password, Protocol := ssr.Protocol,
    Obfs := ssr.Obfs, Udp := sqlconfig.Udp }

/-- The trojan branch (lines 532-545). -/
def EncodeClashWithNodes.trojanProxy (nodeName : String) (trojan : Trojan)
    (sqlconfig : SqlConfig) : Proxy :=
  let Name := if nodeName ≠ "" then nodeName else trojan.Name
  { Name := Name, Type_ := trojan.Type_, Server := trojan.Hostname, Port := trojan.Port,
    Password := trojan.Password, Sni := trojan.Query.Sni, Skip_cert_verify := sqlconfig.Cert,
    Udp := sqlconfig.Udp }

/-- Lines 596-606 and 654-664: the `ws-opts` built from a path and a host, pruned; the
field is set only when something is left. -/
def EncodeClashWithNodes.wsOpts (path host : String) : Opts :=
  let wsOpts : Opts := [("path", .str path)]
  let wsOpts :=
    if host ≠ "" then mapSet "headers" (.strMap [("Host", .str host)]) wsOpts else wsOpts
  let wsOpts := DeleteOpts wsOpts
  if wsOpts.length > 0 then wsOpts else []

/-- The vmess branch (lines 553-616). -/
def EncodeClashWithNodes.vmessProxy (d : Decoders) (nodeName : String) (vmess : Vmess)
    (sqlconfig : SqlConfig) : Proxy :=
  let Ps := if nodeName ≠ "" then nodeName else vmess.Ps
  let port : Int :=
    match vmess.Port with
    | .float v => float64Trunc v
    | .int v => v
    | .str v => (Atoi v).1
    | _ => 0
  let alterId : String :=
    match vmess.Aid with
    | .str v => v
    | .float v => d.sprintV v
    | .int v => Itoa v
    | _ => ""
  let grpcOpts : Opts := DeleteOpts [("grpc-service-name", .str vmess.Path)]
  { Name := Ps, Type_ := "vmess", Server := vmess.Add, Port := port, Uuid := vmess.Id,
    AlterId := alterId, Cipher := vmess.Scy, Network := vmess.Net,
    Tls := decide (vmess.Tls = "tls"), Skip_cert_verify := sqlconfig.Cert,
    Udp := sqlconfig.Udp, Servername := vmess.Sni,
    Ws_opts := if vmess.Net = "ws" then EncodeClashWithNodes.wsOpts vmess.Path vmess.Host else [],
    Grpc_opts := if vmess.Net = "grpc" then (if grpcOpts.length > 0 then grpcOpts else []) else [] }

/-- The vless branch (lines 624-677). -/
def EncodeClashWithNodes.vlessProxy (nodeName : String) (vless : Vless)
    (sqlconfig : SqlConfig) : Proxy :=
  let Name := if nodeName ≠ "" then nodeName else vless.Name
  let realityOpts : Opts :=
    DeleteOpts [("public-key", .str vless.Query.Pbk), ("short-id", .str vless.Query.Sid)]
  let serviceName : String :=
    if vless.Query.ServiceName = "" then vless.Query.Path else vless.Query.ServiceName
  let grpcOpts : Opts := DeleteOpts [("grpc-service-name", .str serviceName)]
  { Name := Name, Type_ := "vless", Server := vless.Server, Port := vless.Port,
    Uuid := vless.Uuid, Network := vless.Query.Type_, Flow := vless.Query.Flow,
    Skip_cert_verify := sqlconfig.Cert, Udp := sqlconfig.Udp,
    Tls := decide (vless.Query.Security = "tls"), Servername := vless.Query.Sni,
    Reality_opts :=
      if vless.Query.Security = "reality" then
        (if realityOpts.length > 0 then realityOpts else [])
      else [],
    Ws_opts :=
      if vless.Query.Type_ = "ws" then
        EncodeClashWithNodes.wsOpts vless.Query.Path vless.Query.Host
      else [],
    Grpc_opts :=
      if vless.Query.Type_ = "grpc" then (if grpcOpts.length > 0 then grpcOpts else [])
      else [] }

/-- The hysteria branch (lines 685-701). -/
def EncodeClashWithNodes.hyProxy (nodeName : String) (hy : Hy) (sqlconfig : SqlConfig) : Proxy :=
  let Name := if nodeName ≠ "" then nodeName else hy.Name
  { Name := Name, Type_ := "hysteria", Server := hy.Host, Port := hy.Port,
    Auth_str := hy.Auth, Up := hy.UpMbps, Down := hy.DownMbps, Peer := hy.Peer,
    Alpn := hy.ALPN, Udp := sqlconfig.Udp, Skip_cert_verify := sqlconfig.Cert }

/-- The hysteria2 branch (lines 709-726). -/
def EncodeClashWithNodes.hy2Proxy (nodeName : String) (hy2 : Hy2) (sqlconfig : SqlConfig) :
    Proxy :=
  let Name := if nodeName ≠ "" then nodeName else hy2.Name
  { Name := Name, Type_ := "hysteria2", Server := hy2.Host, Port := hy2.Port,
    Auth_str := hy2.Auth, Sni := hy2.Sni, Alpn := hy2.ALPN, Obfs := hy2.Obfs,
    Password := hy2.Password, Obfs_password := hy2.ObfsPassword, Udp := sqlconfig.Udp,
    Skip_cert_verify := sqlconfig.Cert }

/-- The tuic branch (lines 734-756). -/
def EncodeClashWithNodes.tuicProxy (nodeName : String) (tuic : Tuic) (sqlconfig : SqlConfig) :
    Proxy :=
  let Name := if nodeName ≠ "" then nodeName else tuic.Name
  let disable_sni := if tuic.Disable_sni = 1 then true else false
  { Name := Name, Type_ := "tuic", Server := tuic.Host, Port := tuic.Port,
    Password := tuic.Password, Uuid := tuic.Uuid,
    Congestion_control := tuic.Congestion_control, Alpn := tuic.Alpn,
    Udp_relay_mode := tuic.Udp_relay_mode, Disable_sni := disable_sni, Sni := tuic.Sni,
    Udp := sqlconfig.Udp, Skip_cert_verify := sqlconfig.Cert }

/-- The switch on the scheme of the link (lines 482-758): the proxy appended, if one is.
Every branch skips the link on a decoding error. -/
def EncodeClashWithNodes.linkProxy (d : Decoders) (sqlconfig : SqlConfig) (nodeName : String)
    (link : String) : Option Proxy :=
  if Scheme link = "ss" then
    match d.DecodeSSURL link with
    | (_, some _) => none
    | (ss, none) => some (EncodeClashWithNodes.ssProxy nodeName ss sqlconfig)
  else if Scheme link = "ssr" then
    match d.DecodeSSRURL link with
    | (_, some _) => none
    | (ssr, none) => some (EncodeClashWithNodes.ssrProxy nodeName ssr sqlconfig)
  else if Scheme link = "trojan" then
    match d.DecodeTrojanURL link with
    | (_, some _) => none
    | (trojan, none) => some (EncodeClashWithNodes.trojanProxy nodeName trojan sqlconfig)
  else if Scheme link = "vmess" then
    match d.DecodeVMESSURL link with
    | (_, some _) => none
    | (vmess, none) => some (EncodeClashWithNodes.vmessProxy d nodeName vmess sqlconfig)
  else if Scheme link = "vless" then
    match d.DecodeVLESSURL link with
    | (_, some _) => none
    | (vless, none) => some (EncodeClashWithNodes.vlessProxy nodeName vless sqlconfig)
  else if Scheme link = "hy" || Scheme link = "hysteria" then
    match d.DecodeHYURL link with
    | (_, some _) => none
    | (hy, none) => some (EncodeClashWithNodes.hyProxy nodeName hy sqlconfig)
  else if Scheme link = "hy2" || Scheme link = "hysteria2" then
    match d.DecodeHY2URL link with
    | (_, some _) => none
    | (hy2, none) => some (EncodeClashWithNodes.hy2Proxy nodeName hy2 sqlconfig)
  else if Scheme link = "tuic" then
    match d.DecodeTuicURL link with
    | (_, some _) => none
    | (tuic, none) => some (EncodeClashWithNodes.tuicProxy nodeName tuic sqlconfig)
  else none

/-- `json.Unmarshal([]byte(config), &proxy)` for a `proxy` of type
`map[string]interface{}` that is nil before the call: the error, or the map afterwards,
which is still nil (`none`) when the text is the JSON `null`. -/
abbrev JsonUnmarshal := String → Except String (Option ProxyMap)

/-- Lines 374-475: the parsed config of a node, when the node has one that parses. A nil
map reads as the empty map. -/
def EncodeClashWithNodes.config (jsonUnmarshal : JsonUnmarshal) (nodeData : ProxyMap) :
    Option ProxyMap :=
  match getStringOk nodeData "Config" with
  | some config =>
    if config ≠ "" then
      match jsonUnmarshal config with
      | .ok proxy => some (proxy.getD [])
      | .error _ => none
    else none
  | none => none

/-- One iteration of the loop of `EncodeClashWithNodes` after the type assertion of line
360 (lines 362-758): the proxy appended for the node, if one is. -/
def EncodeClashWithNodes.node (d : Decoders) (jsonUnmarshal : JsonUnmarshal)
    (sqlconfig : SqlConfig) (nodeData : ProxyMap) : Option Proxy :=
  let nodeName := getString nodeData "Name"
  let link := getString nodeData "Link"
  match EncodeClashWithNodes.config jsonUnmarshal nodeData with
  | some proxy => some (EncodeClashWithNodes.configProxy d nodeName proxy)
  | none =>
    if link = "" then none
    else EncodeClashWithNodes.linkProxy d sqlconfig nodeName link

/-- The loop of `EncodeClashWithNodes` (lines 358-759): the list `proxys` after the nodes.
`none` is the panic of the type assertion `n.(map[string]interface{})`. -/
def EncodeClashWithNodes.proxys (d : Decoders) (jsonUnmarshal : JsonUnmarshal)
    (sqlconfig : SqlConfig) : List (Value Empty) → List Proxy → Option (List Proxy)
  | [], proxys => some proxys
  | .strMap nodeData :: rest, proxys =>
    match EncodeClashWithNodes.node d jsonUnmarshal sqlconfig nodeData with
    | some proxy => EncodeClashWithNodes.proxys d jsonUnmarshal sqlconfig rest (proxys ++ [proxy])
    | none => EncodeClashWithNodes.proxys d jsonUnmarshal sqlconfig rest proxys
  | _ :: _, _ => none

/-- `EncodeClashWithNodes` (lines 354-763) on the parsed template `config`: the document
handed to `yaml.Marshal`, `none` on a panic. -/
def EncodeClashWithNodes (d : Decoders) (jsonUnmarshal : JsonUnmarshal)
    (nodes : List (Value Empty)) (sqlconfig : SqlConfig) (config : Config) : Option Config :=
  (EncodeClashWithNodes.proxys d jsonUnmarshal sqlconfig nodes []).bind
    (fun proxys => DecodeClash proxys config)

/-- The node `n`, as a map with the keys `Name`, `Link` and `Config`. -/
def nodeValue (n : Node) : Value Empty :=
  .strMap [("Name", .str n.Name), ("Link", .str n.Link), ("Config", .str n.Config)]

/-! ## `GenerateYAMLConfig` (subscription.go, lines 587-733) -/

/-- `parseShadowsocksLink` (lines 705-713). -/
def parseShadowsocksLink (_link defaultName : String) : ProxyMap :=
  [("type", .str "ss"), ("name", .str defaultName)]

/-- `parseVMessLink` (lines 716-723). -/
def parseVMessLink (_link defaultName : String) : ProxyMap :=
  [("type", .str "vmess"), ("name", .str defaultName)]

/-- `parseTrojanLink` (lines 726-733). -/
def parseTrojanLink (_link defaultName : String) : ProxyMap :=
  [("type", .str "trojan"), ("name", .str defaultName)]

/-- `parseProxyFromLink` (lines 681-702); `urlScheme` is `url.Parse` followed by
`u.Scheme`, and `none` is the nil map. -/
def parseProxyFromLink (urlScheme : String → Except String String) (node : Node) :
    Option ProxyMap :=
  match urlScheme node.Link with
  | .error _ => none
  | .ok scheme =>
    if scheme = "ss" then some (parseShadowsocksLink node.Link node.Name)
    else if scheme = "vmess" then some (parseVMessLink node.Link node.Name)
    else if scheme = "trojan" then some (parseTrojanLink node.Link node.Name)
    else none

/-- `getProxyNames` (lines 670-678); a nil map (`none`) reads as the empty map. -/
def getProxyNames (proxies : List (Option ProxyMap)) : List String :=
  proxies.foldl (fun (names : List String) (proxy : Option ProxyMap) =>
    match mapGet "name" (proxy.getD []) with
    | some (.str name) => names ++ [name]
    | _ => names) []

/-- The `name` of a map of the list `proxies`, when it holds a string. -/
def proxyName (proxy : Option ProxyMap) : Option String :=
  match mapGet "name" (proxy.getD []) with
  | some (.str name) => some name
  | _ => none

/-- Lines 597-599 and 608-610: `proxy["name"] = node.Name` when the node has a name. -/
def GenerateYAMLConfig.named (node : Node) (proxy : ProxyMap) : ProxyMap :=
  if node.Name ≠ "" then mapSet "name" (.str node.Name) proxy else proxy

/-- Lines 606-612: the map reconstructed from the link, when there is one. -/
def GenerateYAMLConfig.fromLink (urlScheme : String → Except String String) (node : Node) :
    List (Option ProxyMap) :=
  match parseProxyFromLink urlScheme node with
  | some proxy => [some (GenerateYAMLConfig.named node proxy)]
  | none => []

/-- One iteration of the loop of `GenerateYAMLConfig` (lines 592-613): the maps appended to
`proxies` (none or one), or `none` for the panic of the assignment to a nil map, which is
what `json.Unmarshal` leaves for the text `null`. -/
def GenerateYAMLConfig.node (jsonUnmarshal : JsonUnmarshal)
    (urlScheme : String → Except String String) (node : Node) :
    Option (List (Option ProxyMap)) :=
  if node.Config ≠ "" then
    match jsonUnmarshal node.Config with
    | .ok (some proxy) => some [some (GenerateYAMLConfig.named node proxy)]
    | .ok none => if node.Name ≠ "" then none else some [none]
    | .error _ => some (GenerateYAMLConfig.fromLink urlScheme node)
  else some (GenerateYAMLConfig.fromLink urlScheme node)

/-- The loop of `GenerateYAMLConfig` (lines 591-613): the list `proxies` after the nodes. -/
def GenerateYAMLConfig.proxies (jsonUnmarshal : JsonUnmarshal)
    (urlScheme : String → Except String String) :
    List Node → List (Option ProxyMap) → Option (List (Option ProxyMap))
  | [], proxies => some proxies
  | node :: rest, proxies =>
    match GenerateYAMLConfig.node jsonUnmarshal urlScheme node with
    | some appended =>
      GenerateYAMLConfig.proxies jsonUnmarshal urlScheme rest (proxies ++ appended)
    | none => none

/-- A `map[string]interface{}` of the list `proxies` as a value; the nil map is `null`. -/
def proxyValue : Option ProxyMap → Value Empty
  | some m => .strMap m
  | none => .null

/-- A `[]string` as a value. -/
def stringsValue (xs : List String) : Value Empty := .seq (xs.map (fun s => .str s))

/-- The `clashConfig` of `GenerateYAMLConfig` (lines 616-657). -/
def GenerateYAMLConfig.clashConfig (proxies : List (Option ProxyMap)) : ProxyMap :=
  [("proxies", .seq (proxies.map proxyValue)),
   ("proxy-groups", .seq [
      .strMap [("name", .str "🚀 节点选择"), ("type", .str "select"),
               ("proxies", stringsValue (getProxyNames proxies))],
      .strMap [("name", .str "♻️ 自动选择"), ("type", .str "url-test"),
               ("proxies", stringsValue (getProxyNames proxies)),
               ("url", .str "http://www.gstatic.com/generate_204"), ("interval", .int 300)],
      .strMap [("name", .str "🔯 故障转移"), ("type", .str "fallback"),
               ("proxies", stringsValue (getProxyNames proxies)),
               ("url", .str "http://www.gstatic.com/generate_204"), ("interval", .int 300)],
      .strMap [("name", .str "🎯 直连"), ("type", .str "select"),
               ("proxies", stringsValue ["DIRECT"])],
      .strMap [("name", .str "🛑 拒绝"), ("type", .str "select"),
               ("proxies", stringsValue ["REJECT"])]]),
   ("rules", stringsValue [
      "DOMAIN-SUFFIX,local,🎯 直连",
      "IP-CIDR,127.0.0.0/8,🎯 直连",
      "IP-CIDR,172.16.0.0/12,🎯 直连",
      "IP-CIDR,192.168.0.0/16,🎯 直连",
      "IP-CIDR,10.0.0.0/8,🎯 直连",
      "IP-CIDR,100.64.0.0/10,🎯 直连",
      "MATCH,🚀 节点选择"])]

/-- `GenerateYAMLConfig` (lines 587-667): the document built for the nodes, `none` on a
panic. -/
def GenerateYAMLConfig.document (jsonUnmarshal : JsonUnmarshal)
    (urlScheme : String → Except String String) (nodes : List Node) : Option ProxyMap :=
  (GenerateYAMLConfig.proxies jsonUnmarshal urlScheme nodes []).map
    GenerateYAMLConfig.clashConfig

/-- `GenerateYAMLConfig` (lines 587-667); `yamlMarshal` is `yaml.Marshal`. -/
def GenerateYAMLConfig (jsonUnmarshal : JsonUnmarshal)
    (urlScheme : String → Except String String)
    (yamlMarshal : ProxyMap → Except String String) (nodes : List Node) :
    Option (Except String String) :=
  (GenerateYAMLConfig.document jsonUnmarshal urlScheme nodes).map yamlMarshal

/-! ## Samples for the encoders -/

/-- The bits of the `float64` 443. -/
def float443 : Nat := 0x407BB00000000000

/-- Decoders for the samples, given as a table of links; every other link is an error.
`fmt` writes the `float64` 443 as `%!s(float64=443)` under the verb `%s` and as `443` under
`%v`. -/
def sampleDecoders : Decoders where
  DecodeSSURL := fun link =>
    if link = "ss://YWVzLTEyOC1nY206cA==@s:1234" then
      ({ Param := { Cipher := "aes-128-gcm", Password := "p" }, Server := "s", Port := 1234,
         Type_ := "ss" }, none)
    else ({}, some "bad link")
  DecodeSSRURL := fun _ => ({}, some "bad link")
  DecodeTrojanURL := fun _ => ({}, some "bad link")
  DecodeVMESSURL := fun link =>
    if link = "vmess://port-abc" then ({ Add := "s", Port := .str "abc", Ps := "n" }, none)
    else if link = "vmess://port-443" then ({ Add := "s", Port := .float float443 }, none)
    else ({}, some "bad link")
  DecodeVLESSURL := fun link =>
    if link = "vless://u@s:443?security=reality&pbk=k#x" then
      ({ Name := "x", Server := "s", Port := 443, Uuid := "u",
         Query := { Security := "reality", Pbk := "k" } }, none)
    else if link = "vless://u@s:443?security=tls#x" then
      ({ Name := "x", Server := "s", Port := 443, Uuid := "u", Query := { Security := "tls" } },
       none)
    else ({}, some "bad link")
  DecodeHYURL := fun _ => ({}, some "bad link")
  DecodeHY2URL := fun _ => ({}, some "bad link")
  DecodeTuicURL := fun _ => ({}, some "bad link")
  sprintS := fun v =>
    match v with
    | .float _ => "%!s(float64=443)"
    | _ => ""
  sprintV := fun _ => "443"

/-- The parsed config of a tuic node. -/
def sampleTuicConfig : ProxyMap :=
  [("name", .str "t"), ("type", .str "tuic"), ("server", .str "s"), ("port", .float float443),
   ("uuid", .str "u"), ("password", .str "p"), ("congestion_control", .str "bbr"),
   ("udp_relay_mode", .str "native"), ("disable_sni", .bool true)]

/-- The parsed config of a hysteria2 node. -/
def sampleHy2Config : ProxyMap :=
  [("name", .str "h"), ("type", .str "hysteria2"), ("server", .str "s"),
   ("port", .float float443), ("password", .str "p"), ("obfs", .str "salamander"),
   ("obfs-password", .str "o"), ("sni", .str "a.example"), ("servername", .str "b.example")]

/-- The parsed config of a vmess node whose `ws-opts` has an empty path and an empty
`headers`. -/
def sampleWsConfig : ProxyMap :=
  [("name", .str "w"), ("type", .str "vmess"), ("server", .str "s"), ("port", .float float443),
   ("uuid", .str "u"), ("network", .str "ws"),
   ("ws-opts", .strMap [("path", .str ""), ("headers", .strMap [])])]

/-- A `json.Unmarshal` for the samples, given as a table of texts. -/
def sampleUnmarshal : JsonUnmarshal := fun config =>
  if config = "tuic" then .ok (some sampleTuicConfig)
  else if config = "hy2" then .ok (some sampleHy2Config)
  else if config = "ws" then .ok (some sampleWsConfig)
  else if config = "null" then .ok none
  else .error "invalid character"

/-- Two nodes for the samples: one with the tuic config, one with an ss link only. -/
def sampleNodes : List Node :=
  [{ Name := "n", Config := "tuic" }, { Name := "m", Link := "ss://YWVzLTEyOC1nY206cA==@s:1234" }]

/-- Printable text, the condition of the specification on a decoded body: no control
character other than tab, line feed and carriage return. -/
def isPrintable (s : String) : Bool :=
  s.data.all (fun c => decide (32 ≤ c.toNat ∧ c.toNat ≠ 127) || c.toNat == 9 || c.toNat == 10
    || c.toNat == 13)

/-- Three zero bytes as a text. -/
def threeZeroBytes : String := String.mk [Char.ofNat 0, Char.ofNat 0, Char.ofNat 0]

/-- A refresh environment whose bodies are base64: `AAAA` decodes to three zero bytes with
the standard alphabet, and `dHJvamFuOi8vcHdAZXguY29tOjQ0MyNleA==` to the trojan link of the
sample body. -/
def base64RefreshEnv : RefreshEnv (List Node) :=
  { sampleRefreshEnv (.ok "AAAA") with
    base64Std := fun s =>
      if s = "AAAA" then some threeZeroBytes
      else if s = "dHJvamFuOi8vcHdAZXguY29tOjQ0MyNleA==" then some "trojan://pw@ex.com:443#ex"
      else none }

/-! ## Samples for the agreement of the builders -/

/-- Decoders for the samples that know one hysteria, one hysteria2 and one tuic link. -/
def sampleHyDecoders : Decoders :=
  { sampleDecoders with
    DecodeHYURL := fun link =>
      if link = "hysteria://s:443?auth=a&upmbps=10&downmbps=20&peer=x#h" then
        ({ Name := "h", Host := "s", Port := 443, Auth := "a", UpMbps := 10, DownMbps := 20,
           Peer := "x" }, none)
      else ({}, some "bad link"),
    DecodeHY2URL := fun link =>
      if link = "hy2://a@s:443?sni=x#h2" then
        ({ Name := "h2", Host := "s", Port := 443, Auth := "a", Sni := "x" }, none)
      else ({}, some "bad link"),
    DecodeTuicURL := fun link =>
      if link = "tuic://u:p@s:443?disable_sni=1#t" then
        ({ Name := "t", Host := "s", Port := 443, Password := "p", Uuid := "u",
           Disable_sni := 1 }, none)
      else ({}, some "bad link") }

/-! ## The conditions on a template of `DecodeClash` -/

/-- A relay group: a `map[string]interface{}` whose `type` is the string `relay`, the test
of line 826. -/
def isRelayGroup : Doc → Bool
  | .strMap proxyGroup => eqString "relay" (mapGet "type" proxyGroup)
  | _ => false

/-- A `map[string]interface{}` whose `proxies` is present, not null and not a sequence. -/
def hasBadProxies : Doc → Bool
  | .strMap proxyGroup =>
    match mapGet "proxies" proxyGroup with
    | none => false
    | some .null => false
    | some (.seq _) => false
    | some _ => true
  | _ => false

/-- Whether an entry before the first relay group has such a `proxies`. -/
def badBeforeRelay : List Doc → Bool
  | [] => false
  | pg :: rest => if isRelayGroup pg then false else hasBadProxies pg || badBeforeRelay rest

/-- A template with a scalar `proxies` in the group after a group without `proxies`. -/
def badTemplate : Config :=
  [(Key.str "proxy-groups", .seq [
      .strMap [("name", .str "auto"), ("type", .str "select")],
      .strMap [("name", .str "broken"), ("type", .str "select"), ("proxies", .str "DIRECT")]])]

/-- A template with the same group after a relay group. -/
def relayFirstTemplate : Config :=
  [(Key.str "proxy-groups", .seq [
      .strMap [("name", .str "chain"), ("type", .str "relay")],
      .strMap [("name", .str "broken"), ("type", .str "select"), ("proxies", .str "DIRECT")]])]

/-! ## `ExternalSubscription.Update` and sequences of calls (external_subscription.go,
lines 51-67) -/

/-- GORM `Updates(newES)` with a struct, the column `ID` omitted: the fields of `newES`
that are not the zero value of their type replace those of the row; the nodes of the row
stay. The call is GORM's, whose code is not part of the sources at hand. -/
def ExternalSubscription.Updates (row newES : ExternalSubscription) : ExternalSubscription :=
  { row with
    Name := if newES.Name ≠ "" then newES.Name else row.Name,
    URL := if newES.URL ≠ "" then newES.URL else row.URL,
    Enabled := if newES.Enabled then true else row.Enabled,
    UpdateInterval :=
      if newES.UpdateInterval ≠ 0 then newES.UpdateInterval else row.UpdateInterval,
    LastUpdate := if newES.LastUpdate.IsZero then row.LastUpdate else newES.LastUpdate,
    NodeCount := if newES.NodeCount ≠ 0 then newES.NodeCount else row.NodeCount,
    GroupName := if newES.GroupName ≠ "" then newES.GroupName else row.GroupName,
    UserAgent := if newES.UserAgent ≠ "" then newES.UserAgent else row.UserAgent }

/-- `ExternalSubscription.Update` (lines 51-67): the error, if any, and the store. The
update fails on the unique index when it gives the row the name of a row marked as
deleted. -/
def ExternalSubscription.Update (f : Faults) (es newES : ExternalSubscription) (st : Store) :
    Option String × Store :=
  if f.query then (some "database error", st)
  else if st.subscriptions.any
      (fun s => decide ((s.Name = newES.Name ∨ s.URL = newES.URL) ∧ s.ID ≠ es.ID)) then
    (some "订阅名称或链接已被其他订阅使用", st)
  else if f.update es.ID || st.subscriptions.any (fun s => decide (s.ID = es.ID)
      && st.deletedSubscriptions.any (fun d =>
        decide (d.Name = (ExternalSubscription.Updates s newES).Name))) then
    (some "database error", st)
  else
    (none, { st with
      subscriptions := st.subscriptions.map (fun s =>
        if s.ID = es.ID then ExternalSubscription.Updates s newES else s) })

/-- A call of `Add` or of `Update` on the store. -/
inductive SubscriptionCall where
  | add (es : ExternalSubscription)
  | update (es newES : ExternalSubscription)

/-- The store after one call, whether it succeeds or not. -/
def SubscriptionCall.run (f : Faults) : SubscriptionCall → Store → Store
  | .add es, st => (ExternalSubscription.Add f es st).2
  | .update es newES, st => (ExternalSubscription.Update f es newES st).2

/-- The store after a sequence of calls, each with the faults of its own. -/
def runCalls : List (Faults × SubscriptionCall) → Store → Store
  | [], st => st
  | (f, call) :: rest, st => runCalls rest (call.run f st)

/-- No two stored subscriptions share an id, a name or a url. -/
def UniqueSubscriptions (st : Store) : Prop :=
  (st.subscriptions.map (fun s => s.ID)).Nodup
  ∧ (st.subscriptions.map (fun s => s.Name)).Nodup
  ∧ (st.subscriptions.map (fun s => s.URL)).Nodup

/-- An outside whose fetch fails and leaves the store as it is. -/
def failingOutside : Outside :=
  { sampleOutside "" with fetch := fun _ st => (.error "timeout", st) }

/-! ## `NodeAdd` and `NodeGet` (api/node.go) -/

/-- Whether `substr` starts at some position of the text. -/
def Contains.go (substr : List Char) : List Char → Bool
  | [] => substr.isPrefixOf []
  | c :: cs => substr.isPrefixOf (c :: cs) || Contains.go substr cs

/-- `strings.Contains`. -/
def Contains (s substr : String) : Bool := Contains.go substr.data s.data

/-- The pieces of a text between its commas. -/
def splitCommas : List Char → List (List Char)
  | [] => [[]]
  | c :: cs =>
    if c.toNat = 44 then [] :: splitCommas cs
    else
      match splitCommas cs with
      | [] => [[c]]
      | l :: ls => (c :: l) :: ls

/-- `strings.Split(s, ",")`. -/
def SplitComma (s : String) : List String := (splitCommas s.data).map (fun l => String.mk l)

/-- `DocodeNodeName` (api/node.go, lines 17-85). -/
def DocodeNodeName (c : LinkCodec) (nd : Node) : Except String Node :=
  if nd.Name = "" then
    match c.urlScheme nd.Link with
    | .error err => .error err
    | .ok scheme =>
      if scheme = "ss" then (c.DecodeSSURL nd.Link).map (fun n => { nd with Name := n })
      else if scheme = "ssr" then (c.DecodeSSRURL nd.Link).map (fun n => { nd with Name := n })
      else if scheme = "trojan" then
        (c.DecodeTrojanURL nd.Link).map (fun n => { nd with Name := n })
      else if scheme = "vmess" then (c.DecodeVMESSURL nd.Link).map (fun n => { nd with Name := n })
      else if scheme = "vless" then (c.DecodeVLESSURL nd.Link).map (fun n => { nd with Name := n })
      else if scheme = "hy" || scheme = "hysteria" then
        (c.DecodeHYURL nd.Link).map (fun n => { nd with Name := n })
      else if scheme = "hy2" || scheme = "hysteria2" then
        (c.DecodeHY2URL nd.Link).map (fun n => { nd with Name := n })
      else if scheme = "tuic" then (c.DecodeTuicURL nd.Link).map (fun n => { nd with Name := n })
      else .ok nd
  else .ok nd

/-- The loop over the groups of `NodeAdd` (lines 325-344): the HTTP status and the store. -/
def NodeAdd.groups (f : Faults) (n : Node) : List String → Store → Nat × Store
  | [], st => (200, st)
  | g :: rest, st =>
    match GroupNode.Add f { Name := g } st with
    | ((some _, _), st1) => (400, st1)
    | ((none, gn), st1) =>
      match GroupNode.Ass f gn n st1 with
      | ((some _, _), st2) => (400, st2)
      | ((none, _), st2) => NodeAdd.groups f n rest st2

/-- `NodeAdd` (api/node.go, lines 286-354) on the form values `link`, `name` and `group`:
the HTTP status and the store. -/
def NodeAdd (c : LinkCodec) (f : Faults) (link name group : String) (st : Store) : Nat × Store :=
  let n : Node := { Name := name, Link := link }
  if link = "" && !Contains link "://" then (400, st)
  else
    match DocodeNodeName c n with
    | .error _ => (400, st)
    | .ok n =>
      match Node.Add f n st with
      | ((some _, _), st1) => (400, st1)
      | ((none, n), st1) =>
        if TrimSpace group ≠ "" then NodeAdd.groups f n (SplitComma group) st1
        else (200, st1)

/-- `c.DefaultQuery(key, defaultValue)`: the value of the key in the query, when the query
has the key. -/
def DefaultQuery (value : Option String) (defaultValue : String) : String :=
  value.getD defaultValue

/-- The conversion of an integer to `int64`, with wrap-around. -/
def wrapInt64 (x : Int) : Int := (x + 2 ^ 63) % 2 ^ 64 - 2 ^ 63

/-- Lines 151-154 of `NodeGet`: the effective page. -/
def NodeGet.page (pageStr : String) : Int :=
  if (Atoi pageStr).2.isSome || (Atoi pageStr).1 < 1 then 1 else (Atoi pageStr).1

/-- Lines 156-164 of `NodeGet`: the effective page size. -/
def NodeGet.pageSize (pageSizeStr : String) : Int :=
  let pageSize :=
    if (Atoi pageSizeStr).2.isSome || (Atoi pageSizeStr).1 < 1 then 20
    else (Atoi pageSizeStr).1
  if pageSize > 100 then 100 else pageSize

/-- Line 177 of `NodeGet`: `(total + int64(pageSize) - 1) / int64(pageSize)` on `int64`,
whose division truncates. -/
def NodeGet.totalPages (total pageSize : Int) : Int :=
  Int.tdiv (wrapInt64 (wrapInt64 (total + pageSize) - 1)) pageSize

/-- The body of the answer 200 of `NodeGet`. -/
structure NodeGetData where
  data : List Node
  total : Int
  page : Int
  pageSize : Int
  totalPages : Int

/-- `NodeGet` (api/node.go, lines 146-187) on the query values `page` and `pageSize`; the
argument `GetNodeListWithPagination` is the function of the models, with its nodes, its
total and its error. The HTTP status, and the body of the answer 200. -/
def NodeGet
    (GetNodeListWithPagination : Int → Int → (List Node × Int) × Option String)
    (page pageSize : Option String) : Nat × Option NodeGetData :=
  let pageStr := DefaultQuery page "1"
  let pageSizeStr := DefaultQuery pageSize "20"
  let page := NodeGet.page pageStr
  let pageSize := NodeGet.pageSize pageSizeStr
  match GetNodeListWithPagination page pageSize with
  | (_, some _) => (500, none)
  | ((ns, total), none) =>
    let totalPages := NodeGet.totalPages total pageSize
    (200, some { data := ns, total := total, page := page, pageSize := pageSize,
                 totalPages := totalPages })
/-! ## Properties of `DeleteOpts` -/


theorem mapHas_mid {σ : Type} (k : String) (v : Value σ) (pre rest : List (String × Value σ)) :
    mapHas k (pre ++ (k, v) :: rest) = true := by
  simp [mapHas]

theorem mapDelete_mid {σ : Type} (k : String) (v : Value σ) (pre rest : List (String × Value σ))
    (hpre : ∀ e ∈ pre, e.1 ≠ k) (hrest : ∀ e ∈ rest, e.1 ≠ k) :
    mapDelete k (pre ++ (k, v) :: rest) = pre ++ rest := by
  unfold mapDelete
  have h1 : pre.filter (fun e => decide (e.1 ≠ k)) = pre :=
    List.filter_eq_self.mpr (fun e he => by simpa using hpre e he)
  have h2 : rest.filter (fun e => decide (e.1 ≠ k)) = rest :=
    List.filter_eq_self.mpr (fun e he => by simpa using hrest e he)
  rw [List.filter_append, List.filter_cons, h1, h2]
  simp

theorem mapSet_mid {σ : Type} (k : String) (v w : Value σ) (pre rest : List (String × Value σ))
    (hpre : ∀ e ∈ pre, e.1 ≠ k) :
    mapSet k w (pre ++ (k, v) :: rest) = pre ++ (k, w) :: rest := by
  induction pre with
  | nil => simp [mapSet]
  | cons e pre ih =>
    obtain ⟨k1, v1⟩ := e
    have hk : k1 ≠ k := hpre (k1, v1) (by simp)
    have := ih (fun e he => hpre e (by simp [he]))
    simp [mapSet, hk, this]


theorem pruneEntry_key {σ : Type} (e w : String × Value σ) (h : pruneEntry e = some w) : w.1 = e.1 := by
  obtain ⟨k, v⟩ := e
  simp only [pruneEntry, Option.map_eq_some'] at h
  obtain ⟨a, _, rfl⟩ := h
  rfl

mutual
theorem range_eq_pruneRef {σ : Type} : ∀ (rest pre : List (String × Value σ)),
    WellFormed rest = true → (∀ e ∈ pre, ∀ e1 ∈ rest, e.1 ≠ e1.1) →
    DeleteOpts.range rest (pre ++ rest) = pre ++ pruneRef rest
  | [], pre, _, _ => by simp [DeleteOpts.range, pruneRef]
  | e :: rest, pre, hwf, hdis => by
    simp only [WellFormed, Bool.and_eq_true, List.all_eq_true, decide_eq_true_eq] at hwf
    obtain ⟨hwe, hne, hwr⟩ := hwf
    have hb := body_eq_pruneEntry e pre rest hwe
      (fun e0 he0 => hdis e0 he0 e (by simp)) hne
    simp only [DeleteOpts.range, pruneRef]
    rw [hb, ← List.append_assoc,
      range_eq_pruneRef rest (pre ++ (pruneEntry e).toList) hwr ?_, List.append_assoc]
    intro e0 he0 e1 he1
    rcases List.mem_append.mp he0 with h | h
    · exact hdis e0 h e1 (by simp [he1])
    · have : pruneEntry e = some e0 := by simpa [Option.mem_toList] using h
      rw [pruneEntry_key e e0 this]
      exact fun hEq => hne e1 he1 hEq.symm
theorem body_eq_pruneEntry {σ : Type} : ∀ (e : String × Value σ) (pre rest : List (String × Value σ)),
    WellFormed.entry e = true → (∀ e0 ∈ pre, e0.1 ≠ e.1) → (∀ e1 ∈ rest, e1.1 ≠ e.1) →
    DeleteOpts.body e (pre ++ e :: rest) = pre ++ ((pruneEntry e).toList ++ rest)
  | (k, v), pre, rest, hwf, hpre, hrest => by
    simp only [DeleteOpts.body, mapHas_mid, if_true, pruneEntry]
    exact switch_eq_pruneValue v k pre rest (by simpa [WellFormed.entry] using hwf) hpre hrest
theorem switch_eq_pruneValue {σ : Type} : ∀ (v : Value σ) (k : String) (pre rest : List (String × Value σ)),
    WellFormed.value v = true → (∀ e0 ∈ pre, e0.1 ≠ k) → (∀ e1 ∈ rest, e1.1 ≠ k) →
    DeleteOpts.switch v k (pre ++ (k, v) :: rest)
      = pre ++ (((pruneValue v).map (fun w => (k, w))).toList ++ rest)
  | .str s, k, pre, rest, _, hpre, hrest => by
    by_cases hs : s = ""
    · simp [DeleteOpts.switch, pruneValue, hs, mapDelete_mid k _ pre rest hpre hrest]
    · simp [DeleteOpts.switch, pruneValue, hs]
  | .strMap m, k, pre, rest, hwf, hpre, hrest => by
    have hm : DeleteOpts.range m m = pruneRef m := by
      have := range_eq_pruneRef m [] (by simpa [WellFormed.value] using hwf) (by simp)
      simpa using this
    by_cases hl : (pruneRef m).length = 0
    · simp [DeleteOpts.switch, pruneValue, hm, hl, mapDelete_mid k _ pre rest hpre hrest]
    · simp [DeleteOpts.switch, pruneValue, hm, hl, mapSet_mid k _ _ pre rest hpre]
  | .null, k, pre, rest, _, _, _ => by simp [DeleteOpts.switch, pruneValue]
  | .bool _, k, pre, rest, _, _, _ => by simp [DeleteOpts.switch, pruneValue]
  | .int _, k, pre, rest, _, _, _ => by simp [DeleteOpts.switch, pruneValue]
  | .float _, k, pre, rest, _, _, _ => by simp [DeleteOpts.switch, pruneValue]
  | .seq _, k, pre, rest, _, _, _ => by simp [DeleteOpts.switch, pruneValue]
  | .genMap _, k, pre, rest, _, _, _ => by simp [DeleteOpts.switch, pruneValue]
  | .struct _, k, pre, rest, _, _, _ => by simp [DeleteOpts.switch, pruneValue]
end

theorem DeleteOpts_eq_pruneRef {σ : Type} (m : List (String × Value σ)) (h : WellFormed m = true) :
    DeleteOpts m = pruneRef m := by
  have := range_eq_pruneRef m [] h (by simp)
  simpa [DeleteOpts] using this


theorem NoEmpties_append {σ : Type} (a b : List (String × Value σ)) :
    NoEmpties (a ++ b) = (NoEmpties a && NoEmpties b) := by
  induction a with
  | nil => simp [NoEmpties]
  | cons e a ih => simp [NoEmpties, ih, Bool.and_assoc]

mutual
theorem NoEmpties_pruneRef {σ : Type} : ∀ (m : List (String × Value σ)), NoEmpties (pruneRef m) = true
  | [] => by simp [pruneRef, NoEmpties]
  | e :: rest => by
    have h1 := NoEmpties_pruneEntry e
    have h2 := NoEmpties_pruneRef rest
    simp only [pruneRef, NoEmpties_append, h2, Bool.and_true]
    cases hp : pruneEntry e with
    | none => simp [NoEmpties]
    | some w => simp [NoEmpties, h1 w hp]
theorem NoEmpties_pruneEntry {σ : Type} : ∀ (e w : String × Value σ),
    pruneEntry e = some w → NoEmpties.entry w = true
  | (k, v), w, h => by
    simp only [pruneEntry, Option.map_eq_some'] at h
    obtain ⟨a, ha, rfl⟩ := h
    simpa [NoEmpties.entry] using NoEmpties_pruneValue v a ha
theorem NoEmpties_pruneValue {σ : Type} : ∀ (v w : Value σ),
    pruneValue v = some w → NoEmpties.value w = true
  | .str s, w, h => by
    by_cases hs : s = ""
    · simp [pruneValue, hs] at h
    · simp only [pruneValue, hs, if_false, Option.some.injEq] at h
      subst h
      simp [NoEmpties.value, hs]
  | .strMap m, w, h => by
    have hm := NoEmpties_pruneRef m
    by_cases hl : (pruneRef m).length = 0
    · simp [pruneValue, hl] at h
    · simp only [pruneValue, hl, if_false, Option.some.injEq] at h
      subst h
      have hne : pruneRef m ≠ [] := fun hnil => hl (by simp [hnil])
      simp [NoEmpties.value, hm, hne]
  | .null, w, h => by simp [pruneValue] at h; subst h; simp [NoEmpties.value]
  | .bool _, w, h => by simp [pruneValue] at h; subst h; simp [NoEmpties.value]
  | .int _, w, h => by simp [pruneValue] at h; subst h; simp [NoEmpties.value]
  | .float _, w, h => by simp [pruneValue] at h; subst h; simp [NoEmpties.value]
  | .seq _, w, h => by simp [pruneValue] at h; subst h; simp [NoEmpties.value]
  | .genMap _, w, h => by simp [pruneValue] at h; subst h; simp [NoEmpties.value]
  | .struct _, w, h => by simp [pruneValue] at h; subst h; simp [NoEmpties.value]
end

theorem mapGet_none_of_forall_ne {σ : Type} (k : String) (m : List (String × Value σ))
    (h : ∀ e ∈ m, e.1 ≠ k) : mapGet k m = none := by
  induction m with
  | nil => rfl
  | cons e m ih =>
    obtain ⟨k1, v1⟩ := e
    have hk : k1 ≠ k := h (k1, v1) (by simp)
    simp [mapGet, hk, ih (fun e he => h e (by simp [he]))]

theorem WellFormed_cons {σ : Type} (e : String × Value σ) (rest : List (String × Value σ))
    (h : WellFormed (e :: rest) = true) :
    WellFormed.entry e = true ∧ (∀ e1 ∈ rest, e1.1 ≠ e.1) ∧ WellFormed rest = true := by
  simpa only [WellFormed, Bool.and_eq_true, List.all_eq_true, decide_eq_true_eq] using h

theorem mapGet_pruneRef {σ : Type} (k : String) : ∀ (m : List (String × Value σ)),
    WellFormed m = true → mapGet k (pruneRef m) = (mapGet k m).bind pruneValue := by
  intro m
  induction m with
  | nil => intro _; simp [pruneRef, mapGet]
  | cons e rest ih =>
    intro hwf
    obtain ⟨_, hne, hwr⟩ := WellFormed_cons e rest hwf
    obtain ⟨k1, v1⟩ := e
    have ih1 := ih hwr
    by_cases hk : k1 = k
    · subst hk
      have hnone : mapGet k1 rest = none := mapGet_none_of_forall_ne k1 rest hne
      cases hp : pruneValue v1 with
      | none => simp [pruneRef, pruneEntry, hp, mapGet, ih1, hnone]
      | some w => simp [pruneRef, pruneEntry, hp, mapGet]
    · cases hp : pruneValue v1 with
      | none => simp [pruneRef, pruneEntry, hp, mapGet, hk, ih1]
      | some w => simp [pruneRef, pruneEntry, hp, mapGet, hk, ih1]

/-- C1. `DeleteOpts` is the reference recursive pruning: on every well-formed opts map
(keys pairwise distinct at every level) it returns exactly `pruneRef`, so each key is bound
to the pruning of its original value or is gone when that value was an empty string or a
map that prunes to empty, every other value is kept as it was, and in the result no key at
any depth of nested maps is bound to `""` or to an empty map. -/
theorem C1_DeleteOpts_is_reference_pruning {σ : Type} (m : List (String × Value σ))
    (h : WellFormed m = true) :
    DeleteOpts m = pruneRef m
      ∧ (∀ k, mapGet k (DeleteOpts m) = (mapGet k m).bind pruneValue)
      ∧ (∀ v : Value σ, (∀ s, v ≠ Value.str s) → (∀ sub, v ≠ Value.strMap sub) → pruneValue v = some v)
      ∧ (∀ s, s ≠ "" → pruneValue (Value.str s : Value σ) = some (Value.str s))
      ∧ NoEmpties (DeleteOpts m) = true := by
  have heq := DeleteOpts_eq_pruneRef m h
  refine ⟨heq, ?_, ?_, ?_, ?_⟩
  · intro k
    rw [heq]
    exact mapGet_pruneRef k m h
  · intro v hs hm
    cases v with
    | str s => exact absurd rfl (hs s)
    | strMap sub => exact absurd rfl (hm sub)
    | _ => simp [pruneValue]
  · intro s hs
    simp [pruneValue, hs]
  · rw [heq]
    exact NoEmpties_pruneRef m

/-- C1 at a nested opts map with an empty string, a sub-map that prunes to empty and a
sub-map that keeps one entry. -/
theorem C1_DeleteOpts_is_reference_pruning_witness :
    WellFormed (σ := Empty) [("path", .str ""), ("headers", .strMap [("Host", .str "")]),
        ("n", .int 3), ("x", .strMap [("a", .str ""), ("b", .str "v")])] = true
    ∧ DeleteOpts (σ := Empty) [("path", .str ""), ("headers", .strMap [("Host", .str "")]),
        ("n", .int 3), ("x", .strMap [("a", .str ""), ("b", .str "v")])]
      = [("n", .int 3), ("x", .strMap [("b", .str "v")])] :=
  ⟨by decide, (C1_DeleteOpts_is_reference_pruning _ (by decide)).1.trans (by rfl)⟩


/-! ## Properties of the merge `DecodeClash` -/

theorem mapGet_mapSet_self {κ β : Type} [DecidableEq κ] (k : κ) (v : β) (m : List (κ × β)) :
    mapGet k (mapSet k v m) = some v := by
  induction m with
  | nil => simp [mapSet, mapGet]
  | cons e m ih =>
    obtain ⟨k1, v1⟩ := e
    by_cases hk : k1 = k
    · simp [mapSet, mapGet, hk]
    · simp [mapSet, mapGet, hk, ih]

theorem mapGet_mapSet_ne {κ β : Type} [DecidableEq κ] (k k2 : κ) (v : β) (m : List (κ × β))
    (h : k2 ≠ k) : mapGet k2 (mapSet k v m) = mapGet k2 m := by
  induction m with
  | nil => simp [mapSet, mapGet, h.symm]
  | cons e m ih =>
    obtain ⟨k1, v1⟩ := e
    by_cases hk : k1 = k
    · subst hk
      simp [mapSet, mapGet, h.symm]
    · by_cases hk2 : k1 = k2
      · subst hk2
        simp [mapSet, mapGet, hk]
      · simp [mapSet, mapGet, hk, hk2, ih]

theorem addProxies_foldl (proxys : List Proxy) (names : List String) (proxies : List Doc) :
    proxys.foldl (fun acc p => (acc.1 ++ [p.Name], acc.2 ++ [Value.struct p])) (names, proxies)
      = (names ++ proxys.map (fun p => p.Name), proxies ++ proxys.map Value.struct) := by
  induction proxys generalizing names proxies with
  | nil => simp
  | cons p ps ih => simp [List.foldl_cons, ih]

theorem addProxies_eq (proxys : List Proxy) (proxies : List Doc) :
    DecodeClash.addProxies proxys proxies
      = (proxys.map (fun p => p.Name), proxies ++ proxys.map Value.struct) := by
  simpa [DecodeClash.addProxies] using addProxies_foldl proxys [] proxies

theorem validProxies_keep (old acc : List Doc) :
    old.foldl (fun acc p => if isNil (some p) then acc else acc ++ [p]) acc
      = acc ++ old.filter (fun p => !isNil (some p)) := by
  induction old generalizing acc with
  | nil => simp
  | cons p ps ih =>
    by_cases hp : isNil (some p) = true
    · simp [List.foldl_cons, ih, hp]
    · simp [List.foldl_cons, ih, hp]

theorem validProxies_names (names : List String) (acc : List Doc) :
    names.foldl (fun acc newProxy => acc ++ [Value.str newProxy]) acc
      = acc ++ names.map Value.str := by
  induction names generalizing acc with
  | nil => simp
  | cons n ns ih => simp [List.foldl_cons, ih]

theorem validProxies_eq (names : List String) (old : List Doc) :
    DecodeClash.validProxies names old
      = old.filter (fun p => !isNil (some p)) ++ names.map Value.str := by
  simp [DecodeClash.validProxies, validProxies_keep, validProxies_names]

/-- What `DecodeClash` returns, when it returns: the two keys set on the template. -/
theorem DecodeClash_some (proxys : List Proxy) (config out : Config)
    (h : DecodeClash proxys config = some out) :
    ∃ existing groups groups1,
      (existing = match mapGet (Key.str "proxies") config with
        | some (.seq xs) => xs
        | _ => [])
      ∧ mapGet (Key.str "proxy-groups") config = some (.seq groups)
      ∧ DecodeClash.groups (proxys.map (fun p => p.Name)) groups = some groups1
      ∧ out = mapSet (Key.str "proxy-groups") (.seq groups1)
          (mapSet (Key.str "proxies") (.seq (existing ++ proxys.map Value.struct)) config) := by
  unfold DecodeClash at h
  simp only [addProxies_eq] at h
  have hne : Key.str "proxy-groups" ≠ Key.str "proxies" := by decide
  rw [mapGet_mapSet_ne _ _ _ _ hne] at h
  cases hg : mapGet (Key.str "proxy-groups") config with
  | none => simp [hg] at h
  | some g =>
    cases g with
    | seq groups =>
      simp only [hg, Option.map_eq_some'] at h
      obtain ⟨groups1, h1, h2⟩ := h
      exact ⟨_, groups, groups1, rfl, rfl, h1, h2.symm⟩
    | _ => simp [hg] at h

/-- C2. When the merge returns a document, its `proxies` list is the existing entries of
the template in their order followed by the new proxies in input order, and just the new
proxies when the template has no `proxies` sequence. -/
theorem C2_DecodeClash_proxies_appended (proxys : List Proxy) (config out : Config)
    (h : DecodeClash proxys config = some out) :
    (∀ xs, mapGet (Key.str "proxies") config = some (.seq xs) →
        mapGet (Key.str "proxies") out = some (.seq (xs ++ proxys.map Value.struct)))
    ∧ ((∀ xs, mapGet (Key.str "proxies") config ≠ some (.seq xs)) →
        mapGet (Key.str "proxies") out = some (.seq (proxys.map Value.struct))) := by
  obtain ⟨existing, groups, groups1, hex, _, _, hout⟩ := DecodeClash_some proxys config out h
  have hne : Key.str "proxies" ≠ Key.str "proxy-groups" := by decide
  have hget : mapGet (Key.str "proxies") out
      = some (.seq (existing ++ proxys.map Value.struct)) := by
    rw [hout, mapGet_mapSet_ne _ _ _ _ hne, mapGet_mapSet_self]
  constructor
  · intro xs hxs
    rw [hxs] at hex
    rw [hget, hex]
  · intro hno
    have : existing = [] := by
      rw [hex]
      cases hp : mapGet (Key.str "proxies") config with
      | none => rfl
      | some v =>
        cases v with
        | seq xs => exact absurd hp (hno xs)
        | _ => rfl
    rw [hget, this, List.nil_append]

theorem initProxies_type (m : List (String × Doc)) :
    mapGet "type" (DecodeClash.initProxies m) = mapGet "type" m := by
  unfold DecodeClash.initProxies
  split
  · exact mapGet_mapSet_ne _ _ _ _ (by decide)
  · rfl

theorem initProxies_other (m : List (String × Doc)) (k : String) (hk : k ≠ "proxies") :
    mapGet k (DecodeClash.initProxies m) = mapGet k m := by
  unfold DecodeClash.initProxies
  split
  · exact mapGet_mapSet_ne _ _ _ _ hk
  · rfl

theorem initProxies_of_not_nil (m : List (String × Doc))
    (h : isNil (mapGet "proxies" m) = false) : DecodeClash.initProxies m = m := by
  simp [DecodeClash.initProxies, h]

theorem initProxies_of_nil (m : List (String × Doc))
    (h : isNil (mapGet "proxies" m) = true) :
    mapGet "proxies" (DecodeClash.initProxies m) = some (.seq []) := by
  simp [DecodeClash.initProxies, h, mapGet_mapSet_self]

theorem groups_cons_strMap (names : List String) (m : List (String × Doc)) (rest : List Doc) :
    DecodeClash.groups names (.strMap m :: rest)
      = if eqString "relay" (mapGet "type" m) = true then
          some (.strMap (DecodeClash.initProxies m) :: rest)
        else
          match mapGet "proxies" (DecodeClash.initProxies m) with
          | some (.seq old) =>
            (DecodeClash.groups names rest).map (fun tail =>
              .strMap (mapSet "proxies"
                (.seq (old.filter (fun p => !isNil (some p)) ++ names.map Value.str))
                (DecodeClash.initProxies m)) :: tail)
          | _ => none := by
  simp only [DecodeClash.groups, initProxies_type, validProxies_eq]

theorem groups_cons_other (names : List String) (pg : Doc) (rest : List Doc)
    (h : ∀ m, pg ≠ .strMap m) :
    DecodeClash.groups names (pg :: rest)
      = (DecodeClash.groups names rest).map (fun tail => pg :: tail) := by
  cases pg with
  | strMap m => exact absurd rfl (h m)
  | _ => simp only [DecodeClash.groups]

/-- The head of the group loop, by cases: a relay group, a group that is extended, or an
entry that is skipped. -/
theorem groups_cons_cases (names : List String) (pg : Doc) (rest gs1 : List Doc)
    (h : DecodeClash.groups names (pg :: rest) = some gs1) :
    (∃ m, pg = .strMap m ∧ eqString "relay" (mapGet "type" m) = true
        ∧ gs1 = .strMap (DecodeClash.initProxies m) :: rest)
    ∨ (∃ m old tail, pg = .strMap m ∧ eqString "relay" (mapGet "type" m) = false
        ∧ mapGet "proxies" (DecodeClash.initProxies m) = some (.seq old)
        ∧ DecodeClash.groups names rest = some tail
        ∧ gs1 = .strMap (mapSet "proxies"
            (.seq (old.filter (fun p => !isNil (some p)) ++ names.map Value.str))
            (DecodeClash.initProxies m)) :: tail)
    ∨ ((∀ m, pg ≠ .strMap m) ∧ ∃ tail, DecodeClash.groups names rest = some tail
        ∧ gs1 = pg :: tail) := by
  by_cases hm : ∃ m, pg = .strMap m
  · obtain ⟨m, rfl⟩ := hm
    rw [groups_cons_strMap] at h
    by_cases hrel : eqString "relay" (mapGet "type" m) = true
    · left
      simp only [hrel, if_true, Option.some.injEq] at h
      exact ⟨m, rfl, hrel, h.symm⟩
    · right; left
      have hrel1 : eqString "relay" (mapGet "type" m) = false := by simpa using hrel
      simp only [hrel1, Bool.false_eq_true, if_false] at h
      cases hp : mapGet "proxies" (DecodeClash.initProxies m) with
      | none => simp [hp] at h
      | some v =>
        cases v with
        | seq old =>
          simp only [hp] at h
          cases ht : DecodeClash.groups names rest with
          | none => simp [ht] at h
          | some tail =>
            simp only [ht, Option.map_some', Option.some.injEq] at h
            exact ⟨m, old, tail, rfl, hrel1, hp, rfl, h.symm⟩
        | _ => simp [hp] at h
  · right; right
    have hm1 : ∀ m, pg ≠ .strMap m := fun m hEq => hm ⟨m, hEq⟩
    rw [groups_cons_other names pg rest hm1] at h
    simp only [Option.map_eq_some'] at h
    obtain ⟨tail, ht, rfl⟩ := h
    exact ⟨hm1, tail, ht, rfl⟩

/-- The group loop keeps the number of groups. -/
theorem groups_length (names : List String) : ∀ (gs gs1 : List Doc),
    DecodeClash.groups names gs = some gs1 → gs1.length = gs.length := by
  intro gs
  induction gs with
  | nil => intro gs1 h; simp [DecodeClash.groups] at h; simp [← h]
  | cons pg rest ih =>
    intro gs1 h
    rcases groups_cons_cases names pg rest gs1 h with
      ⟨m, rfl, _, rfl⟩ | ⟨m, old, tail, rfl, _, _, ht, rfl⟩ | ⟨_, tail, ht, rfl⟩
    · simp
    · simp [ih tail ht]
    · simp [ih tail ht]

/-- A group before the first relay group that is a string-keyed map and not a relay group
gets its non-nil entries followed by the new names. -/
theorem groups_appended (names : List String) : ∀ (gs gs1 : List Doc) (i : Nat)
    (m : List (String × Doc)),
    DecodeClash.groups names gs = some gs1 →
    gs[i]? = some (.strMap m) →
    eqString "relay" (mapGet "type" m) = false →
    (∀ j, j < i → ∀ mj, gs[j]? = some (.strMap mj) →
      eqString "relay" (mapGet "type" mj) = false) →
    ∃ old m1, (mapGet "proxies" m = some (.seq old)
        ∨ (isNil (mapGet "proxies" m) = true ∧ old = []))
      ∧ gs1[i]? = some (.strMap m1)
      ∧ mapGet "proxies" m1
          = some (.seq (old.filter (fun p => !isNil (some p)) ++ names.map Value.str))
      ∧ ∀ k, k ≠ "proxies" → mapGet k m1 = mapGet k m := by
  intro gs
  induction gs with
  | nil => intro gs1 i m _ hi; simp at hi
  | cons pg rest ih =>
    intro gs1 i m h hi hrel hbefore
    cases i with
    | zero =>
      simp only [List.getElem?_cons_zero, Option.some.injEq] at hi
      subst hi
      rcases groups_cons_cases names _ rest gs1 h with
        ⟨m0, hm0, hr, _⟩ | ⟨m0, old, tail, hm0, _, hp, _, rfl⟩ | ⟨hno, _⟩
      · simp only [Value.strMap.injEq] at hm0
        subst hm0
        rw [hrel] at hr
        exact absurd hr (by simp)
      · simp only [Value.strMap.injEq] at hm0
        subst hm0
        have hset : ∀ k, k ≠ "proxies" →
            mapGet k (mapSet "proxies"
              (Value.seq (old.filter (fun p => !isNil (some p)) ++ names.map Value.str))
              (DecodeClash.initProxies m)) = mapGet k m := by
          intro k hk
          rw [mapGet_mapSet_ne _ _ _ _ hk, initProxies_other m k hk]
        by_cases hnil : isNil (mapGet "proxies" m) = true
        · have h0 := initProxies_of_nil m hnil
          rw [hp] at h0
          simp only [Option.some.injEq, Value.seq.injEq] at h0
          subst h0
          exact ⟨[], _, Or.inr ⟨hnil, rfl⟩, List.getElem?_cons_zero, mapGet_mapSet_self _ _ _,
            hset⟩
        · have hnil1 : isNil (mapGet "proxies" m) = false := by simpa using hnil
          rw [initProxies_of_not_nil m hnil1] at hp hset
          rw [initProxies_of_not_nil m hnil1]
          exact ⟨old, _, Or.inl hp, List.getElem?_cons_zero, mapGet_mapSet_self _ _ _, hset⟩
      · exact absurd rfl (hno m)
    | succ i =>
      simp only [List.getElem?_cons_succ] at hi
      have hbefore1 : ∀ j, j < i → ∀ mj, rest[j]? = some (.strMap mj) →
          eqString "relay" (mapGet "type" mj) = false := by
        intro j hj mj hmj
        exact hbefore (j + 1) (by omega) mj (by simpa using hmj)
      rcases groups_cons_cases names pg rest gs1 h with
        ⟨m0, hm0, hr, _⟩ | ⟨m0, old, tail, _, _, _, ht, rfl⟩ | ⟨_, tail, ht, rfl⟩
      · have := hbefore 0 (by omega) m0 (by simp [hm0])
        rw [this] at hr
        exact absurd hr (by simp)
      · obtain ⟨old1, m1, h1, h2, h3⟩ := ih tail i m ht hi hrel hbefore1
        exact ⟨old1, m1, h1, by simpa using h2, h3⟩
      · obtain ⟨old1, m1, h1, h2, h3⟩ := ih tail i m ht hi hrel hbefore1
        exact ⟨old1, m1, h1, by simpa using h2, h3⟩

/-- The first relay group ends the loop: it keeps its place, initialised, and the groups
after it are the groups of the template. -/
theorem groups_relay (names : List String) : ∀ (gs gs1 : List Doc) (i : Nat)
    (m : List (String × Doc)),
    DecodeClash.groups names gs = some gs1 →
    gs[i]? = some (.strMap m) →
    eqString "relay" (mapGet "type" m) = true →
    (∀ j, j < i → ∀ mj, gs[j]? = some (.strMap mj) →
      eqString "relay" (mapGet "type" mj) = false) →
    gs1[i]? = some (.strMap (DecodeClash.initProxies m)) ∧ gs1.drop (i + 1) = gs.drop (i + 1) := by
  intro gs
  induction gs with
  | nil => intro gs1 i m _ hi; simp at hi
  | cons pg rest ih =>
    intro gs1 i m h hi hrel hbefore
    cases i with
    | zero =>
      simp only [List.getElem?_cons_zero, Option.some.injEq] at hi
      subst hi
      rcases groups_cons_cases names _ rest gs1 h with
        ⟨m0, hm0, _, rfl⟩ | ⟨m0, old, tail, hm0, hr, _⟩ | ⟨hno, _⟩
      · simp only [Value.strMap.injEq] at hm0
        subst hm0
        simp
      · simp only [Value.strMap.injEq] at hm0
        subst hm0
        rw [hrel] at hr
        exact absurd hr (by simp)
      · exact absurd rfl (hno m)
    | succ i =>
      simp only [List.getElem?_cons_succ] at hi
      have hbefore1 : ∀ j, j < i → ∀ mj, rest[j]? = some (.strMap mj) →
          eqString "relay" (mapGet "type" mj) = false := by
        intro j hj mj hmj
        exact hbefore (j + 1) (by omega) mj (by simpa using hmj)
      rcases groups_cons_cases names pg rest gs1 h with
        ⟨m0, hm0, hr, _⟩ | ⟨m0, old, tail, _, _, _, ht, rfl⟩ | ⟨_, tail, ht, rfl⟩
      · have := hbefore 0 (by omega) m0 (by simp [hm0])
        rw [this] at hr
        exact absurd hr (by simp)
      · obtain ⟨h1, h2⟩ := ih tail i m ht hi hrel hbefore1
        exact ⟨by simpa using h1, by simpa using h2⟩
      · obtain ⟨h1, h2⟩ := ih tail i m ht hi hrel hbefore1
        exact ⟨by simpa using h1, by simpa using h2⟩

/-- C3. In a document returned by the merge, every proxy-group that is a string-keyed
mapping, is not of type `relay` and stands before the first relay group has as `proxies`
its original list (empty when the key was absent or null) without the nil entries,
followed by the names of the new proxies in input order; its other keys are unchanged. -/
theorem C3_DecodeClash_group_gets_names (proxys : List Proxy) (config out : Config)
    (groups : List Doc) (i : Nat) (m : List (String × Doc))
    (h : DecodeClash proxys config = some out)
    (hg : mapGet (Key.str "proxy-groups") config = some (.seq groups))
    (hi : groups[i]? = some (.strMap m))
    (hrel : eqString "relay" (mapGet "type" m) = false)
    (hbefore : ∀ j, j < i → ∀ mj, groups[j]? = some (.strMap mj) →
      eqString "relay" (mapGet "type" mj) = false) :
    ∃ groups1 old m1,
      mapGet (Key.str "proxy-groups") out = some (.seq groups1)
      ∧ (mapGet "proxies" m = some (.seq old) ∨ (isNil (mapGet "proxies" m) = true ∧ old = []))
      ∧ groups1[i]? = some (.strMap m1)
      ∧ mapGet "proxies" m1
          = some (.seq (old.filter (fun p => !isNil (some p))
              ++ proxys.map (fun p => Value.str p.Name)))
      ∧ ∀ k, k ≠ "proxies" → mapGet k m1 = mapGet k m := by
  obtain ⟨existing, groups0, groups1, _, hg0, hloop, hout⟩ := DecodeClash_some proxys config out h
  rw [hg] at hg0
  simp only [Option.some.injEq, Value.seq.injEq] at hg0
  subst hg0
  obtain ⟨old, m1, h1, h2, h3, h4⟩ := groups_appended _ groups groups1 i m hloop hi hrel hbefore
  refine ⟨groups1, old, m1, ?_, h1, h2, ?_, h4⟩
  · rw [hout, mapGet_mapSet_self]
  · rw [h3, List.map_map]
    rfl

/-- C3 on the sample template: the first group `[A, null]` becomes `[A, B, C]`. -/
theorem C3_DecodeClash_group_gets_names_witness :
    ∃ groups1 old m1,
      mapGet (Key.str "proxy-groups") sampleMerged = some (.seq groups1)
      ∧ (mapGet "proxies" [("name", (.str "G" : Doc)), ("type", .str "select"),
            ("proxies", .seq [.str "A", .null])] = some (.seq old)
          ∨ (isNil (mapGet "proxies" [("name", (.str "G" : Doc)), ("type", .str "select"),
            ("proxies", .seq [.str "A", .null])]) = true ∧ old = []))
      ∧ groups1[0]? = some (.strMap m1)
      ∧ mapGet "proxies" m1
          = some (.seq (old.filter (fun p => !isNil (some p))
              ++ sampleProxies.map (fun p => Value.str p.Name)))
      ∧ ∀ k, k ≠ "proxies" → mapGet k m1 = mapGet k [("name", (.str "G" : Doc)),
            ("type", .str "select"), ("proxies", .seq [.str "A", .null])] :=
  C3_DecodeClash_group_gets_names sampleProxies sampleTemplate sampleMerged _ 0 _
    (by rfl) (by rfl) (by rfl) (by rfl) (by intro j hj; omega)

/-- C2 on the sample template: `[A]` becomes `[A, B, C]`. -/
theorem C2_DecodeClash_proxies_appended_witness :
    DecodeClash sampleProxies sampleTemplate = some sampleMerged
    ∧ mapGet (Key.str "proxies") sampleMerged
        = some (.seq ([.strMap [("name", .str "A")]] ++ sampleProxies.map Value.struct)) :=
  ⟨by rfl, (C2_DecodeClash_proxies_appended sampleProxies sampleTemplate sampleMerged
    (by rfl)).1 _ (by rfl)⟩

/-- C4, as stated, fails: a relay group without a `proxies` key is returned with the key
`proxies` bound to an empty list, so it is not equal to the group of the template. -/
theorem C4_relay_group_gains_proxies_key :
    DecodeClash [] relayTemplate
        = some [(.str "proxy-groups", .seq [.strMap [("name", .str "R"),
            ("type", .str "relay"), ("proxies", .seq [])]]), (.str "proxies", .seq [])]
    ∧ mapGet "proxies" [("name", (.str "R" : Doc)), ("type", .str "relay")] = none
    ∧ mapGet "proxies" [("name", (.str "R" : Doc)), ("type", .str "relay"),
        ("proxies", .seq [])] = some (.seq [])
    ∧ [("name", (.str "R" : Doc)), ("type", .str "relay"), ("proxies", .seq [])]
        ≠ [("name", (.str "R" : Doc)), ("type", .str "relay")] :=
  ⟨by rfl, by rfl, by rfl, by intro hEq; simp at hEq⟩

/-- C4, amended. In a document returned by the merge, the first relay group that is a
string-keyed mapping keeps its place and its keys other than `proxies`; it is equal to the
group of the template when its `proxies` is not nil, and otherwise gains `proxies` bound to
an empty list; no proxy name is appended to it. Every group after it is equal to the group
of the template, and the number of groups is unchanged. -/
theorem C4_DecodeClash_relay_groups (proxys : List Proxy) (config out : Config)
    (groups : List Doc) (i : Nat) (m : List (String × Doc))
    (h : DecodeClash proxys config = some out)
    (hg : mapGet (Key.str "proxy-groups") config = some (.seq groups))
    (hi : groups[i]? = some (.strMap m))
    (hrel : eqString "relay" (mapGet "type" m) = true)
    (hbefore : ∀ j, j < i → ∀ mj, groups[j]? = some (.strMap mj) →
      eqString "relay" (mapGet "type" mj) = false) :
    ∃ groups1,
      mapGet (Key.str "proxy-groups") out = some (.seq groups1)
      ∧ groups1.length = groups.length
      ∧ groups1.drop (i + 1) = groups.drop (i + 1)
      ∧ groups1[i]? = some (.strMap (DecodeClash.initProxies m))
      ∧ (isNil (mapGet "proxies" m) = false → groups1[i]? = groups[i]?)
      ∧ (isNil (mapGet "proxies" m) = true →
          mapGet "proxies" (DecodeClash.initProxies m) = some (.seq []))
      ∧ ∀ k, k ≠ "proxies" → mapGet k (DecodeClash.initProxies m) = mapGet k m := by
  obtain ⟨existing, groups0, groups1, _, hg0, hloop, hout⟩ := DecodeClash_some proxys config out h
  rw [hg] at hg0
  simp only [Option.some.injEq, Value.seq.injEq] at hg0
  subst hg0
  obtain ⟨h1, h2⟩ := groups_relay _ groups groups1 i m hloop hi hrel hbefore
  refine ⟨groups1, ?_, groups_length _ groups groups1 hloop, h2, h1, ?_, ?_, ?_⟩
  · rw [hout, mapGet_mapSet_self]
  · intro hnil
    rw [h1, hi, initProxies_of_not_nil m hnil]
  · exact initProxies_of_nil m
  · exact initProxies_other m

/-- C4, amended, on the sample template: the relay group at index 1 gains an empty
`proxies` list and the group after it is unchanged. -/
theorem C4_DecodeClash_relay_groups_witness :
    ∃ groups1,
      mapGet (Key.str "proxy-groups") sampleMerged = some (.seq groups1)
      ∧ groups1.length = 3
      ∧ groups1.drop (1 + 1)
          = [.strMap [("name", .str "H"), ("type", .str "select"), ("proxies", .seq [.str "A"])]]
      ∧ groups1[1]? = some (.strMap [("name", .str "R"), ("type", .str "relay"),
          ("proxies", .seq [])]) := by
  obtain ⟨groups1, h1, h2, h3, h4, _⟩ :=
    C4_DecodeClash_relay_groups sampleProxies sampleTemplate sampleMerged _ 1
      [("name", .str "R"), ("type", .str "relay")]
      (by rfl) (by rfl) (by rfl) (by rfl)
      (by
        intro j hj mj hmj
        have hj0 : j = 0 := by omega
        subst hj0
        simp only [List.getElem?_cons_zero, Option.some.injEq, Value.strMap.injEq] at hmj
        subst hmj
        rfl)
  exact ⟨groups1, h1, h2, h3, h4⟩

/-- C5. The merge touches only the top-level keys `proxies` and `proxy-groups`: under every
other key the returned document holds what the template holds, a value equal to the
template's when the key is present and nothing when it is absent. -/
theorem C5_DecodeClash_other_keys_kept (proxys : List Proxy) (config out : Config)
    (h : DecodeClash proxys config = some out) (k : Key)
    (hk1 : k ≠ Key.str "proxies") (hk2 : k ≠ Key.str "proxy-groups") :
    mapGet k out = mapGet k config := by
  obtain ⟨existing, groups, groups1, _, _, _, hout⟩ := DecodeClash_some proxys config out h
  rw [hout, mapGet_mapSet_ne _ _ _ _ hk2, mapGet_mapSet_ne _ _ _ _ hk1]

/-- C5 on the sample template: `mode` is still `rule`. -/
theorem C5_DecodeClash_other_keys_kept_witness :
    DecodeClash sampleProxies sampleTemplate = some sampleMerged
    ∧ mapGet (Key.str "mode") sampleMerged = mapGet (Key.str "mode") sampleTemplate :=
  ⟨by rfl, C5_DecodeClash_other_keys_kept sampleProxies sampleTemplate sampleMerged (by rfl)
    (Key.str "mode") (by decide) (by decide)⟩

/-! ## Properties of the `float64` arithmetic -/

theorem bitLen_go_zero (fuel : Nat) : bitLen.go fuel 0 = 0 := by
  cases fuel <;> simp [bitLen.go]

theorem bitLen_go_spec : ∀ (fuel n : Nat), n ≤ fuel → 0 < n →
    2 ^ (bitLen.go fuel n - 1) ≤ n ∧ n < 2 ^ bitLen.go fuel n := by
  intro fuel
  induction fuel with
  | zero => intro n h1 h2; omega
  | succ fuel ih =>
    intro n h1 h2
    have hn : n ≠ 0 := by omega
    simp only [bitLen.go, hn, if_false, Nat.add_sub_cancel]
    by_cases h : n / 2 = 0
    · rw [h, bitLen_go_zero]
      have : n = 1 := by omega
      subst this
      simp
    · have hpos : 0 < n / 2 := by omega
      obtain ⟨ih1, ih2⟩ := ih (n / 2) (by omega) hpos
      have hk : bitLen.go fuel (n / 2) ≠ 0 := by
        intro h0
        rw [h0] at ih2
        simp at ih2
        omega
      obtain ⟨k, hk1⟩ := Nat.exists_eq_succ_of_ne_zero hk
      rw [hk1] at ih1 ih2 ⊢
      simp only [Nat.succ_eq_add_one, Nat.add_sub_cancel] at ih1 ih2 ⊢
      rw [pow_succ] at ih2 ⊢
      rw [pow_succ]
      constructor <;> omega

theorem bitLen_spec (n : Nat) (h : 0 < n) : 2 ^ (bitLen n - 1) ≤ n ∧ n < 2 ^ bitLen n :=
  bitLen_go_spec n n (le_refl n) h

theorem bitLen_pos (n : Nat) (h : 0 < n) : 0 < bitLen n := by
  by_contra h0
  have h1 := (bitLen_spec n h).2
  have h2 : bitLen n = 0 := by omega
  rw [h2] at h1
  simp at h1
  omega

theorem pow2Num_pos (e : Int) : 0 < pow2Num e := by
  unfold pow2Num
  positivity

theorem pow2Den_pos (e : Int) : 0 < pow2Den e := by
  unfold pow2Den
  positivity

theorem pow2_ratio (e : Int) : ((pow2Num e : Nat) : ℚ) / ((pow2Den e : Nat) : ℚ) = (2 : ℚ) ^ e := by
  rcases le_total 0 e with h | h
  · obtain ⟨k, rfl⟩ := Int.eq_ofNat_of_zero_le h
    simp [pow2Num, pow2Den]
  · obtain ⟨k, hk⟩ : ∃ k : Nat, e = -(k : Int) := ⟨(-e).toNat, by omega⟩
    subst hk
    simp [pow2Num, pow2Den]

theorem pow2Num_of_nonpos (e : Int) (h : e ≤ 0) : pow2Num e = 1 := by
  unfold pow2Num
  rw [Int.toNat_eq_zero.mpr h]
  rfl

theorem pow2Den_of_nonpos (e : Int) (h : e ≤ 0) : ((pow2Den e : Nat) : ℚ) = (2 : ℚ) ^ (-e) := by
  have h1 := pow2_ratio e
  rw [pow2Num_of_nonpos e h] at h1
  rw [zpow_neg, ← h1]
  simp

theorem roundHalfEven_bounds (n d : Nat) (hd : 0 < d) :
    2 * (roundHalfEven n d * d) ≤ 2 * n + d ∧ 2 * n ≤ 2 * (roundHalfEven n d * d) + d
    ∧ n / d ≤ roundHalfEven n d := by
  have h1 := Nat.div_add_mod n d
  have h2 := Nat.mod_lt n hd
  have h3 : n / d * d = d * (n / d) := Nat.mul_comm _ _
  unfold roundHalfEven
  dsimp only
  split
  · refine ⟨?_, ?_, le_refl _⟩ <;> omega
  · split
    · rw [Nat.add_mul]
      refine ⟨?_, ?_, Nat.le_succ _⟩ <;> omega
    · split
      · refine ⟨?_, ?_, le_refl _⟩ <;> omega
      · rw [Nat.add_mul]
        refine ⟨?_, ?_, Nat.le_succ _⟩ <;> omega

theorem roundHalfEven_exact (k d : Nat) (hd : 0 < d) : roundHalfEven (k * d) d = k := by
  unfold roundHalfEven
  simp [Nat.mul_mod_left, Nat.mul_div_cancel _ hd, hd]

/-- The distance from `n / d` to the integer it is rounded to is at most one half. -/
theorem roundHalfEven_near (n d : Nat) (hd : 0 < d) :
    |((roundHalfEven n d : Nat) : ℚ) - (n : ℚ) / (d : ℚ)| ≤ 1 / 2 := by
  obtain ⟨h1, h2, _⟩ := roundHalfEven_bounds n d hd
  have hdq : (0 : ℚ) < (d : ℚ) := by exact_mod_cast hd
  have h1q : (2 : ℚ) * ((roundHalfEven n d : ℚ) * d) ≤ 2 * n + d := by exact_mod_cast h1
  have h2q : (2 : ℚ) * n ≤ 2 * ((roundHalfEven n d : ℚ) * d) + d := by exact_mod_cast h2
  have hx1 : (roundHalfEven n d : ℚ) - 1 / 2 ≤ (n : ℚ) / d := by
    rw [le_div_iff₀ hdq]
    nlinarith
  have hx2 : (n : ℚ) / d ≤ (roundHalfEven n d : ℚ) + 1 / 2 := by
    rw [div_le_iff₀ hdq]
    nlinarith
  rw [abs_le]
  constructor <;> linarith

theorem float64Exponent_ge (a d : Nat) : -1074 ≤ float64Exponent a d := by
  unfold float64Exponent
  exact le_max_right _ _

/-- Above the subnormal numbers the significand has its 53 digits: `2 ^ 52 ≤ a / d / 2 ^ e`. -/
theorem float64Exponent_bracket (a d : Nat) (ha : 0 < a) (hd : 0 < d) :
    float64Exponent a d = -1074 ∨ (2 : ℚ) ^ (52 + float64Exponent a d) ≤ (a : ℚ) / (d : ℚ) := by
  have hdq : (0 : ℚ) < (d : ℚ) := by exact_mod_cast hd
  unfold float64Exponent
  dsimp only
  generalize he0 : (bitLen a : Int) - (bitLen d : Int) - 53 = e0
  split
  · rename_i htest
    rcases le_total (e0 + 1) (-1074) with h | h
    · left
      exact max_eq_right h
    · right
      rw [max_eq_left h]
      have hq : ((d * pow2Num (e0 + 53) : Nat) : ℚ) ≤ ((a * pow2Den (e0 + 53) : Nat) : ℚ) := by
        exact_mod_cast htest
      push_cast at hq
      have hden : (0 : ℚ) < (pow2Den (e0 + 53) : ℚ) := by exact_mod_cast pow2Den_pos _
      have heq : (52 : Int) + (e0 + 1) = e0 + 53 := by ring
      rw [heq, ← pow2_ratio, div_le_div_iff₀ hden hdq]
      linarith
  · rcases le_total e0 (-1074) with h | h
    · left
      exact max_eq_right h
    · right
      rw [max_eq_left h]
      obtain ⟨ha1, _⟩ := bitLen_spec a ha
      obtain ⟨_, hd2⟩ := bitLen_spec d hd
      have hla := bitLen_pos a ha
      have heq : (52 : Int) + e0 = ((bitLen a - 1 : Nat) : Int) - (bitLen d : Int) := by
        rw [← he0]
        omega
      rw [heq, zpow_sub₀ (by norm_num), zpow_natCast, zpow_natCast]
      have h2d : (0 : ℚ) < (2 : ℚ) ^ bitLen d := by positivity
      rw [div_le_div_iff₀ h2d hdq]
      have ha1q : ((2 : ℚ) ^ (bitLen a - 1)) ≤ (a : ℚ) := by exact_mod_cast ha1
      have hd2q : (d : ℚ) ≤ (2 : ℚ) ^ bitLen d := by exact_mod_cast le_of_lt hd2
      have h0 : (0 : ℚ) ≤ (2 : ℚ) ^ (bitLen a - 1) := by positivity
      calc (2 : ℚ) ^ (bitLen a - 1) * d ≤ (2 : ℚ) ^ (bitLen a - 1) * 2 ^ bitLen d :=
            mul_le_mul_of_nonneg_left hd2q h0
        _ ≤ a * 2 ^ bitLen d := mul_le_mul_of_nonneg_right ha1q (le_of_lt h2d)

theorem roundFloat64_zero (d : Nat) : roundFloat64 0 d = ⟨0, 0⟩ := by
  unfold roundFloat64
  rfl

theorem roundFloat64_of_pos (n : Int) (d : Nat) (hn : 0 < n) :
    roundFloat64 n d
      = ⟨(roundHalfEven (n.natAbs * pow2Den (float64Exponent n.natAbs d))
            (d * pow2Num (float64Exponent n.natAbs d)) : Nat),
          float64Exponent n.natAbs d⟩ := by
  unfold roundFloat64
  rw [if_neg (ne_of_gt hn)]
  dsimp only
  rw [Int.sign_eq_one_of_pos hn, one_mul]

theorem roundFloat64_neg (n : Int) (d : Nat) :
    roundFloat64 (-n) d = ⟨-(roundFloat64 n d).m, (roundFloat64 n d).e⟩ := by
  unfold roundFloat64
  by_cases h : n = 0
  · subst h
    simp
  · have h1 : -n ≠ 0 := by omega
    rw [if_neg h, if_neg h1]
    dsimp only
    rw [Int.natAbs_neg, Int.sign_neg, neg_mul]

/-- The exact quotient, scaled by the exponent, is the quotient that is rounded. -/
theorem scaled_quotient (a d : Nat) (e : Int) :
    ((a * pow2Den e : Nat) : ℚ) / ((d * pow2Num e : Nat) : ℚ)
      = (a : ℚ) / (d : ℚ) / (2 : ℚ) ^ e := by
  have hnum : (0 : ℚ) < (pow2Num e : ℚ) := by exact_mod_cast pow2Num_pos e
  have hden : (0 : ℚ) < (pow2Den e : ℚ) := by exact_mod_cast pow2Den_pos e
  rw [← pow2_ratio]
  push_cast
  by_cases hd : (d : ℚ) = 0
  · simp [hd]
  · field_simp

/-- The error of a rounding is at most half a unit in the last place. -/
theorem roundFloat64_error (n : Int) (d : Nat) (hn : 0 < n) (hd : 0 < d) :
    |(roundFloat64 n d).val - (n : ℚ) / (d : ℚ)| ≤ (2 : ℚ) ^ ((roundFloat64 n d).e - 1) := by
  rw [roundFloat64_of_pos n d hn]
  unfold Float64.val
  dsimp only
  generalize float64Exponent n.natAbs d = e
  have hD : 0 < d * pow2Num e := Nat.mul_pos hd (pow2Num_pos e)
  have hnear := roundHalfEven_near (n.natAbs * pow2Den e) (d * pow2Num e) hD
  rw [scaled_quotient] at hnear
  have hcast : ((n.natAbs : Nat) : ℚ) = (n : ℚ) := by
    rw [← Int.cast_natCast, Int.natAbs_of_nonneg (le_of_lt hn)]
  rw [hcast] at hnear
  have h2 : (0 : ℚ) < (2 : ℚ) ^ e := zpow_pos (by norm_num) e
  rw [zpow_sub_one₀ (by norm_num), Int.cast_natCast]
  generalize ((roundHalfEven (n.natAbs * pow2Den e) (d * pow2Num e) : Nat) : ℚ) = m at hnear ⊢
  have hx : m * 2 ^ e - (n : ℚ) / d = (m - (n : ℚ) / d / 2 ^ e) * 2 ^ e := by
    field_simp
    ring
  rw [hx, abs_mul, abs_of_pos h2]
  calc |m - (n : ℚ) / d / 2 ^ e| * 2 ^ e ≤ 1 / 2 * 2 ^ e :=
        mul_le_mul_of_nonneg_right hnear (le_of_lt h2)
    _ = 2 ^ e * 2⁻¹ := by ring

theorem natAbs_cast_of_pos (n : Int) (hn : 0 < n) : ((n.natAbs : Nat) : ℚ) = (n : ℚ) := by
  rw [← Int.cast_natCast, Int.natAbs_of_nonneg (le_of_lt hn)]

theorem roundFloat64_nonneg (n : Int) (d : Nat) (hn : 0 ≤ n) : 0 ≤ (roundFloat64 n d).val := by
  rcases eq_or_lt_of_le hn with h | h
  · subst h
    rw [roundFloat64_zero]
    simp [Float64.val]
  · rw [roundFloat64_of_pos n d h]
    unfold Float64.val
    dsimp only
    have h2 : (0 : ℚ) < (2 : ℚ) ^ float64Exponent n.natAbs d := zpow_pos (by norm_num) _
    rw [Int.cast_natCast]
    positivity

/-- A number below `2 ^ t` is rounded with an exponent of at most `t - 53`. -/
theorem roundFloat64_exponent_le (n : Int) (d : Nat) (hn : 0 < n) (hd : 0 < d) (t : Int)
    (ht : -1021 ≤ t) (hx : (n : ℚ) / (d : ℚ) < (2 : ℚ) ^ t) :
    (roundFloat64 n d).e ≤ t - 53 := by
  rw [roundFloat64_of_pos n d hn]
  dsimp only
  have ha : 0 < n.natAbs := Int.natAbs_pos.mpr (ne_of_gt hn)
  rcases float64Exponent_bracket n.natAbs d ha hd with h | h
  · omega
  · rw [natAbs_cast_of_pos n hn] at h
    have hlt := lt_of_le_of_lt h hx
    rw [zpow_lt_zpow_iff_right₀ (by norm_num)] at hlt
    omega

/-- The error of the rounding of a number below `2 ^ t` is at most `2 ^ (t - 54)`. -/
theorem roundFloat64_error_below (n : Int) (d : Nat) (hn : 0 ≤ n) (hd : 0 < d) (t : Int)
    (ht : -1021 ≤ t) (hx : (n : ℚ) / (d : ℚ) < (2 : ℚ) ^ t) :
    |(roundFloat64 n d).val - (n : ℚ) / (d : ℚ)| ≤ (2 : ℚ) ^ (t - 54) := by
  rcases eq_or_lt_of_le hn with h | h
  · subst h
    rw [roundFloat64_zero]
    simp only [Float64.val, Int.cast_zero, zero_mul, zero_div, sub_zero, abs_zero]
    positivity
  · have h1 := roundFloat64_error n d h hd
    have h2 := roundFloat64_exponent_le n d h hd t ht hx
    refine le_trans h1 (zpow_le_zpow_right₀ (by norm_num) (by omega))

/-- Rounding does not go below a natural number that the exact value reaches. -/
theorem roundFloat64_ge_nat (n : Int) (d : Nat) (hn : 0 ≤ n) (hd : 0 < d) (k : Nat)
    (hk : (k : ℚ) ≤ (n : ℚ) / (d : ℚ)) (hx : (n : ℚ) / (d : ℚ) < (2 : ℚ) ^ (52 : Int)) :
    (k : ℚ) ≤ (roundFloat64 n d).val := by
  have hdq : (0 : ℚ) < (d : ℚ) := by exact_mod_cast hd
  rcases eq_or_lt_of_le hn with h | h
  · subst h
    rw [roundFloat64_zero]
    simp only [Int.cast_zero, zero_div] at hk
    simp only [Float64.val, Int.cast_zero, zero_mul]
    exact hk
  · have he := roundFloat64_exponent_le n d h hd 52 (by norm_num) hx
    rw [roundFloat64_of_pos n d h] at he ⊢
    dsimp only at he
    unfold Float64.val
    dsimp only
    generalize float64Exponent n.natAbs d = e at he ⊢
    have he0 : e ≤ 0 := by omega
    rw [pow2Num_of_nonpos e he0, Nat.mul_one, Int.cast_natCast]
    have hkd : k * d ≤ n.natAbs := by
      rw [le_div_iff₀ hdq, ← natAbs_cast_of_pos n h] at hk
      exact_mod_cast hk
    have hdiv : k * pow2Den e ≤ n.natAbs * pow2Den e / d := by
      rw [Nat.le_div_iff_mul_le hd]
      calc k * pow2Den e * d = k * d * pow2Den e := by ring
        _ ≤ n.natAbs * pow2Den e := Nat.mul_le_mul_right _ hkd
    have hm := le_trans hdiv (roundHalfEven_bounds (n.natAbs * pow2Den e) d hd).2.2
    have hmq : ((k * pow2Den e : Nat) : ℚ) ≤ (roundHalfEven (n.natAbs * pow2Den e) d : ℚ) := by
      exact_mod_cast hm
    have h2 : (0 : ℚ) < (2 : ℚ) ^ e := zpow_pos (by norm_num) e
    have hk2 : (k : ℚ) = ((k * pow2Den e : Nat) : ℚ) * 2 ^ e := by
      push_cast
      rw [pow2Den_of_nonpos e he0, mul_assoc, ← zpow_add₀ (by norm_num)]
      simp
    rw [hk2]
    exact mul_le_mul_of_nonneg_right hmq (le_of_lt h2)

/-- A natural number below `2 ^ 53` is a `float64`: the rounding of it is exact. -/
theorem roundFloat64_exact (n : Int) (d : Nat) (hn : 0 ≤ n) (hd : 0 < d) (k : Nat)
    (hk : (n : ℚ) / (d : ℚ) = (k : ℚ)) (hk53 : (k : ℚ) < (2 : ℚ) ^ (53 : Int)) :
    (roundFloat64 n d).val = (k : ℚ) := by
  have hdq : (0 : ℚ) < (d : ℚ) := by exact_mod_cast hd
  rcases eq_or_lt_of_le hn with h | h
  · subst h
    rw [roundFloat64_zero]
    simp only [Int.cast_zero, zero_div] at hk
    simp only [Float64.val, Int.cast_zero, zero_mul]
    exact hk
  · have he := roundFloat64_exponent_le n d h hd 53 (by norm_num) (by rw [hk]; exact hk53)
    rw [roundFloat64_of_pos n d h] at he ⊢
    dsimp only at he
    unfold Float64.val
    dsimp only
    generalize float64Exponent n.natAbs d = e at he ⊢
    have he0 : e ≤ 0 := by omega
    rw [pow2Num_of_nonpos e he0, Nat.mul_one, Int.cast_natCast]
    have hkd : n.natAbs = k * d := by
      rw [div_eq_iff (ne_of_gt hdq), ← natAbs_cast_of_pos n h] at hk
      exact_mod_cast hk
    have hN : n.natAbs * pow2Den e = k * pow2Den e * d := by
      rw [hkd]
      ring
    rw [hN, roundHalfEven_exact _ d hd]
    push_cast
    rw [pow2Den_of_nonpos e he0, mul_assoc, ← zpow_add₀ (by norm_num)]
    simp

theorem Float64_val_neg (m e : Int) : (Float64.mk (-m) e).val = -(Float64.mk m e).val := by
  simp [Float64.val]

theorem shift_cast (m a e : Int) (h : e ≤ a) :
    ((m * 2 ^ (a - e).toNat : Int) : ℚ) * (2 : ℚ) ^ e = (m : ℚ) * (2 : ℚ) ^ a := by
  push_cast
  rw [mul_assoc, ← zpow_natCast, Int.toNat_of_nonneg (by omega), ← zpow_add₀ (by norm_num)]
  congr 2
  ring

/-- The comparison of two `float64` is the comparison of their values. -/
theorem Float64_le_iff (x y : Float64) : x.le y = true ↔ x.val ≤ y.val := by
  unfold Float64.le Float64.val
  dsimp only
  rw [decide_eq_true_iff]
  have h2 : (0 : ℚ) < (2 : ℚ) ^ (min x.e y.e) := zpow_pos (by norm_num) _
  rw [← shift_cast x.m x.e (min x.e y.e) (min_le_left _ _),
    ← shift_cast y.m y.e (min x.e y.e) (min_le_right _ _), mul_le_mul_right h2]
  exact Int.cast_le.symm

/-- The number that `Float64.add` rounds is the sum of the two values. -/
theorem Float64_add_exact (x y : Float64) :
    (((x.m * 2 ^ (x.e - min x.e y.e).toNat + y.m * 2 ^ (y.e - min x.e y.e).toNat)
        * (pow2Num (min x.e y.e) : Int) : Int) : ℚ) / ((pow2Den (min x.e y.e) : Nat) : ℚ)
      = x.val + y.val := by
  unfold Float64.val
  rw [← shift_cast x.m x.e (min x.e y.e) (min_le_left _ _),
    ← shift_cast y.m y.e (min x.e y.e) (min_le_right _ _), ← pow2_ratio]
  push_cast
  ring

/-- The number that `Float64.div` rounds is the quotient of the two values. -/
theorem Float64_div_exact (x y : Float64) (hy : 0 < y.m) :
    ((x.m * y.m.sign * (pow2Num (x.e - y.e) : Int) : Int) : ℚ)
        / ((y.m.natAbs * pow2Den (x.e - y.e) : Nat) : ℚ)
      = x.val / y.val := by
  unfold Float64.val
  rw [Int.sign_eq_one_of_pos hy]
  push_cast
  rw [natAbs_cast_of_pos y.m hy]
  have h1 : (0 : ℚ) < (y.m : ℚ) := by exact_mod_cast hy
  have h2 : (0 : ℚ) < (2 : ℚ) ^ y.e := zpow_pos (by norm_num) _
  have h3 : (0 : ℚ) < (pow2Den (x.e - y.e) : ℚ) := by exact_mod_cast pow2Den_pos _
  have h4 : (0 : ℚ) < (2 : ℚ) ^ x.e := zpow_pos (by norm_num) _
  have h5 := pow2_ratio (x.e - y.e)
  rw [zpow_sub₀ (by norm_num), div_eq_div_iff (ne_of_gt h3) (ne_of_gt h2)] at h5
  field_simp
  linear_combination (x.m : ℚ) * (y.m : ℚ) * h5

theorem roundFloat64_m_nonneg (n : Int) (d : Nat) (hn : 0 ≤ n) : 0 ≤ (roundFloat64 n d).m := by
  rcases eq_or_lt_of_le hn with h | h
  · subst h
    rw [roundFloat64_zero]
  · rw [roundFloat64_of_pos n d h]
    exact Int.natCast_nonneg _

/-- An integer from 0 to `2 ^ 53` converts to `float64` exactly. -/
theorem Float64_ofInt_val (n : Int) (hn : 0 ≤ n) (h53 : n < 2 ^ 53) :
    (Float64.ofInt n).val = (n : ℚ) := by
  unfold Float64.ofInt
  have hcast : ((n.toNat : Nat) : ℚ) = (n : ℚ) := by
    rw [← Int.cast_natCast, Int.toNat_of_nonneg hn]
  rw [← hcast]
  apply roundFloat64_exact n 1 hn (by norm_num)
  · rw [hcast]
    simp
  · rw [hcast]
    have h2 : (2 : ℚ) ^ (53 : Int) = ((2 ^ 53 : Int) : ℚ) := by norm_num
    rw [h2]
    exact_mod_cast h53

set_option maxRecDepth 10000 in
theorem Float64_ofInt_second : Float64.ofInt 1000000000 = ⟨8388608000000000, -23⟩ := by
  decide

theorem Float64_neg_ofInt (n : Int) :
    Float64.ofInt (-n) = ⟨-(Float64.ofInt n).m, (Float64.ofInt n).e⟩ := by
  unfold Float64.ofInt
  exact roundFloat64_neg n 1

theorem Float64_neg_div (x y : Float64) :
    (Float64.mk (-x.m) x.e).div y = ⟨-(x.div y).m, (x.div y).e⟩ := by
  unfold Float64.div
  dsimp only
  rw [neg_mul, neg_mul]
  exact roundFloat64_neg _ _

theorem Float64_neg_add (x y : Float64) :
    (Float64.mk (-x.m) x.e).add (Float64.mk (-y.m) y.e) = ⟨-(x.add y).m, (x.add y).e⟩ := by
  unfold Float64.add
  dsimp only
  rw [neg_mul, neg_mul, ← neg_add, neg_mul]
  exact roundFloat64_neg _ _

theorem Int_neg_tmod (a b : Int) : Int.tmod (-a) b = -Int.tmod a b := by
  rw [Int.tmod_def, Int.tmod_def, Int.neg_tdiv]
  ring

/-- The seconds of the opposite duration are the opposite seconds. -/
theorem Seconds_neg (d : Int) :
    (Duration.Seconds (-d)).val = -(Duration.Seconds d).val := by
  unfold Duration.Seconds
  dsimp only
  rw [Int.neg_tdiv, Int_neg_tmod, Float64_neg_ofInt, Float64_neg_ofInt, Float64_neg_div,
    Float64_neg_add, Float64_val_neg]

/-- The quotient `float64(nsec)/1e9` of `Seconds`, for `nsec` from 0 to 999999999: it is at
most `2 ^ -54` away from `nsec / 10 ^ 9`. -/
theorem Seconds_fraction (nsec : Int) (h0 : 0 ≤ nsec) (h1 : nsec < 1000000000) :
    0 ≤ ((Float64.ofInt nsec).div (Float64.ofInt 1000000000)).m
    ∧ |((Float64.ofInt nsec).div (Float64.ofInt 1000000000)).val - (nsec : ℚ) / 1000000000|
        ≤ (2 : ℚ) ^ (-54 : Int)
    ∧ (nsec = 0 → ((Float64.ofInt nsec).div (Float64.ofInt 1000000000)).val = 0) := by
  have hN := Float64_ofInt_val nsec h0 (by omega)
  have hT := Float64_ofInt_val 1000000000 (by norm_num) (by norm_num)
  have hTm : 0 < (Float64.ofInt 1000000000).m := by
    rw [Float64_ofInt_second]
    norm_num
  have hNm : 0 ≤ (Float64.ofInt nsec).m := roundFloat64_m_nonneg nsec 1 h0
  have hex := Float64_div_exact (Float64.ofInt nsec) (Float64.ofInt 1000000000) hTm
  rw [hN, hT] at hex
  unfold Float64.div
  generalize hn : (Float64.ofInt nsec).m * (Float64.ofInt 1000000000).m.sign
    * (pow2Num ((Float64.ofInt nsec).e - (Float64.ofInt 1000000000).e) : Int) = n at hex ⊢
  generalize hd : (Float64.ofInt 1000000000).m.natAbs
    * pow2Den ((Float64.ofInt nsec).e - (Float64.ofInt 1000000000).e) = d at hex ⊢
  have hn0 : 0 ≤ n := by
    rw [← hn, Int.sign_eq_one_of_pos hTm, mul_one]
    exact mul_nonneg hNm (Int.natCast_nonneg _)
  have hd0 : 0 < d := by
    rw [← hd]
    exact Nat.mul_pos (Int.natAbs_pos.mpr (ne_of_gt hTm)) (pow2Den_pos _)
  have hq0 : (0 : ℚ) ≤ (nsec : ℚ) := by exact_mod_cast h0
  have hq1 : (nsec : ℚ) < 1000000000 := by exact_mod_cast h1
  refine ⟨roundFloat64_m_nonneg n d hn0, ?_, ?_⟩
  · have h := roundFloat64_error_below n d hn0 hd0 0 (by norm_num) (by
      rw [hex, zpow_zero, div_lt_one (by norm_num)]
      simpa using hq1)
    rw [hex] at h
    simpa using h
  · intro hz
    have h := roundFloat64_exact n d hn0 hd0 0 (by rw [hex, hz]; simp) (by norm_num)
    simpa using h

/-- The seconds of a duration from 0 to `2 ^ 63` nanoseconds: the sum that is rounded is
`sec + q`, with `q` at most `2 ^ -54` away from `nsec / 10 ^ 9`. -/
theorem Seconds_of_nonneg (d : Int) (h0 : 0 ≤ d) (hmax : d ≤ 2 ^ 63) :
    ∃ q : ℚ, 0 ≤ q ∧ |q - ((d % 1000000000 : Int) : ℚ) / 1000000000| ≤ (2 : ℚ) ^ (-54 : Int)
      ∧ (d % 1000000000 = 0 → q = 0)
      ∧ (∀ k : Nat, (k : ℚ) ≤ ((d / 1000000000 : Int) : ℚ) + q →
          (k : ℚ) ≤ (Duration.Seconds d).val)
      ∧ (∀ t : Int, -1021 ≤ t → ((d / 1000000000 : Int) : ℚ) + q < (2 : ℚ) ^ t →
          |(Duration.Seconds d).val - (((d / 1000000000 : Int) : ℚ) + q)| ≤ (2 : ℚ) ^ (t - 54))
      ∧ (∀ k : Nat, ((d / 1000000000 : Int) : ℚ) + q = (k : ℚ) →
          (Duration.Seconds d).val = (k : ℚ)) := by
  have hsec0 : 0 ≤ d / 1000000000 := Int.ediv_nonneg h0 (by norm_num)
  have hsec1 : d / 1000000000 < 2 ^ 34 := by
    have : d < 2 ^ 34 * 1000000000 := by
      have : (2 : Int) ^ 63 < 2 ^ 34 * 1000000000 := by norm_num
      omega
    exact Int.ediv_lt_of_lt_mul (by norm_num) this
  have hns0 : 0 ≤ d % 1000000000 := Int.emod_nonneg _ (by norm_num)
  have hns1 : d % 1000000000 < 1000000000 := Int.emod_lt_of_pos _ (by norm_num)
  obtain ⟨hqm, hqerr, hqz⟩ := Seconds_fraction (d % 1000000000) hns0 hns1
  have hS := Float64_ofInt_val (d / 1000000000) hsec0 (by
    have : (2 : Int) ^ 34 < 2 ^ 53 := by norm_num
    omega)
  have hSm : 0 ≤ (Float64.ofInt (d / 1000000000)).m := roundFloat64_m_nonneg _ 1 hsec0
  unfold Duration.Seconds
  dsimp only
  rw [Int.tdiv_eq_ediv h0 (by norm_num), Int.tmod_eq_emod h0 (by norm_num)]
  generalize (Float64.ofInt (d % 1000000000)).div (Float64.ofInt 1000000000) = Q
    at hqm hqerr hqz ⊢
  generalize Float64.ofInt (d / 1000000000) = S at hS hSm ⊢
  have hex := Float64_add_exact S Q
  rw [hS] at hex
  unfold Float64.add
  dsimp only
  generalize hn : (S.m * 2 ^ (S.e - min S.e Q.e).toNat + Q.m * 2 ^ (Q.e - min S.e Q.e).toNat)
    * (pow2Num (min S.e Q.e) : Int) = n at hex ⊢
  generalize hdd : pow2Den (min S.e Q.e) = dd at hex ⊢
  have hn0 : 0 ≤ n := by
    rw [← hn]
    apply mul_nonneg _ (Int.natCast_nonneg _)
    apply add_nonneg
    · exact mul_nonneg hSm (by positivity)
    · exact mul_nonneg hqm (by positivity)
  have hd0 : 0 < dd := by
    rw [← hdd]
    exact pow2Den_pos _
  have hq0 : 0 ≤ Q.val := by
    unfold Float64.val
    have : (0 : ℚ) ≤ (Q.m : ℚ) := by exact_mod_cast hqm
    have h2 : (0 : ℚ) < (2 : ℚ) ^ Q.e := zpow_pos (by norm_num) _
    positivity
  have hsq0 : (0 : ℚ) ≤ ((d / 1000000000 : Int) : ℚ) := by exact_mod_cast hsec0
  have hsq1 : ((d / 1000000000 : Int) : ℚ) < 2 ^ 34 := by exact_mod_cast hsec1
  have hnq0 : (0 : ℚ) ≤ ((d % 1000000000 : Int) : ℚ) := by exact_mod_cast hns0
  have hnq1 : ((d % 1000000000 : Int) : ℚ) < 1000000000 := by exact_mod_cast hns1
  have hqlt : Q.val < 2 := by
    have h1 := (abs_le.mp hqerr).2
    have h2 : ((d % 1000000000 : Int) : ℚ) / 1000000000 < 1 := by
      rw [div_lt_one (by norm_num)]
      exact hnq1
    have h3 : (2 : ℚ) ^ (-54 : Int) < 1 := by norm_num
    linarith
  refine ⟨Q.val, hq0, hqerr, hqz, ?_, ?_, ?_⟩
  · intro k hk
    exact roundFloat64_ge_nat n dd hn0 hd0 k (by rw [hex]; exact hk) (by
      rw [hex]
      have : (2 : ℚ) ^ 34 + 2 < (2 : ℚ) ^ (52 : Int) := by norm_num
      linarith)
  · intro t ht hlt
    have h := roundFloat64_error_below n dd hn0 hd0 t ht (by rw [hex]; exact hlt)
    rw [hex] at h
    exact h
  · intro k hk
    exact roundFloat64_exact n dd hn0 hd0 k (by rw [hex]; exact hk) (by
      rw [← hk]
      have : (2 : ℚ) ^ 34 + 2 < (2 : ℚ) ^ (53 : Int) := by norm_num
      linarith)

/-- An integer between `-2 ^ 53` and `2 ^ 53` converts to `float64` exactly. -/
theorem Float64_ofInt_val_abs (n : Int) (h1 : -(2 ^ 53) < n) (h2 : n < 2 ^ 53) :
    (Float64.ofInt n).val = (n : ℚ) := by
  rcases le_total 0 n with h | h
  · exact Float64_ofInt_val n h h2
  · have h3 := Float64_ofInt_val (-n) (by omega) (by omega)
    have h4 := Float64_neg_ofInt (-n)
    rw [neg_neg] at h4
    rw [h4, Float64_val_neg]
    have h5 : (Float64.mk (Float64.ofInt (-n)).m (Float64.ofInt (-n)).e) = Float64.ofInt (-n) :=
      rfl
    rw [h5, h3]
    push_cast
    ring

theorem Seconds_val_nonneg (d : Int) (h0 : 0 ≤ d) (hmax : d ≤ 2 ^ 63) :
    0 ≤ (Duration.Seconds d).val := by
  obtain ⟨q, hq0, _, _, hge, _, _⟩ := Seconds_of_nonneg d h0 hmax
  have hsec0 : 0 ≤ d / 1000000000 := Int.ediv_nonneg h0 (by norm_num)
  have hsq0 : (0 : ℚ) ≤ ((d / 1000000000 : Int) : ℚ) := by exact_mod_cast hsec0
  have h := hge 0 (by simpa using add_nonneg hsq0 hq0)
  simpa using h

/-- After `interval` whole seconds the seconds of the duration are at least `interval`. -/
theorem Seconds_ge_of_le (d : Int) (h0 : 0 ≤ d) (hmax : d ≤ 2 ^ 63) (interval : Int)
    (hI0 : 0 ≤ interval) (h : interval * 1000000000 ≤ d) :
    (interval : ℚ) ≤ (Duration.Seconds d).val := by
  obtain ⟨q, hq0, _, _, hge, _, _⟩ := Seconds_of_nonneg d h0 hmax
  have hsec : interval ≤ d / 1000000000 := (Int.le_ediv_iff_mul_le (by norm_num)).mpr h
  have hsq : (interval : ℚ) ≤ ((d / 1000000000 : Int) : ℚ) := by exact_mod_cast hsec
  have hcast : ((interval.toNat : Nat) : ℚ) = (interval : ℚ) := by
    rw [← Int.cast_natCast, Int.toNat_of_nonneg hI0]
  rw [← hcast]
  apply hge
  rw [hcast]
  linarith

/-- Before `interval` whole seconds, for an interval of at most `2 ^ 24` seconds, the
seconds of the duration are below `interval`. -/
theorem Seconds_lt_of_lt (d : Int) (h0 : 0 ≤ d) (hmax : d ≤ 2 ^ 63) (interval : Int)
    (hI : interval ≤ 2 ^ 24) (h : d < interval * 1000000000) :
    (Duration.Seconds d).val < (interval : ℚ) := by
  obtain ⟨q, hq0, hqerr, _, _, herr, _⟩ := Seconds_of_nonneg d h0 hmax
  have hsec : d / 1000000000 < interval := Int.ediv_lt_of_lt_mul (by norm_num) h
  have hsec1 : d / 1000000000 + 1 ≤ interval := by omega
  have hsq : ((d / 1000000000 : Int) : ℚ) + 1 ≤ (interval : ℚ) := by exact_mod_cast hsec1
  have hns1 : d % 1000000000 ≤ 999999999 := by
    have := Int.emod_lt_of_pos d (show (0 : Int) < 1000000000 by norm_num)
    omega
  have hnq1 : ((d % 1000000000 : Int) : ℚ) ≤ 999999999 := by exact_mod_cast hns1
  have hIq : (interval : ℚ) ≤ 2 ^ 24 := by exact_mod_cast hI
  have hq1 := (abs_le.mp hqerr).2
  have hfrac : ((d % 1000000000 : Int) : ℚ) / 1000000000 ≤ 999999999 / 1000000000 := by
    rw [div_le_div_iff_of_pos_right (by norm_num)]
    exact hnq1
  have hc1 : (999999999 : ℚ) / 1000000000 + (2 : ℚ) ^ (-54 : Int) + (2 : ℚ) ^ (-30 : Int) < 1 := by
    norm_num
  have hc2 : (0 : ℚ) < (2 : ℚ) ^ (-30 : Int) := by norm_num
  have hc3 : (2 : ℚ) ^ (24 : Int) = 2 ^ 24 := by norm_num
  have h30 : ((24 : Int) - 54) = -30 := by norm_num
  have harg : ((d / 1000000000 : Int) : ℚ) + q < (2 : ℚ) ^ (24 : Int) := by
    rw [hc3]
    linarith
  have he := (abs_le.mp (herr 24 (by norm_num) harg)).2
  rw [h30] at he
  linarith

/-- At `interval` whole seconds or before them, for an interval below `2 ^ 24` seconds, the
seconds of the duration are at most `interval`. -/
theorem Seconds_le_of_le (d : Int) (h0 : 0 ≤ d) (hmax : d ≤ 2 ^ 63) (interval : Int)
    (hI0 : 0 ≤ interval) (hI : interval < 2 ^ 24) (h : d ≤ interval * 1000000000) :
    (Duration.Seconds d).val ≤ (interval : ℚ) := by
  rcases lt_or_eq_of_le h with h1 | h1
  · exact le_of_lt (Seconds_lt_of_lt d h0 hmax interval (le_of_lt hI) h1)
  · obtain ⟨q, _, _, hqz, _, _, hex⟩ := Seconds_of_nonneg d h0 hmax
    have hsec : d / 1000000000 = interval := by
      rw [h1]
      exact Int.mul_ediv_cancel _ (by norm_num)
    have hns : d % 1000000000 = 0 := by
      rw [h1]
      exact Int.mul_emod_left _ _
    have hq := hqz hns
    have hcast : ((interval.toNat : Nat) : ℚ) = (interval : ℚ) := by
      rw [← Int.cast_natCast, Int.toNat_of_nonneg hI0]
    have h2 := hex interval.toNat (by rw [hcast, hq, hsec]; simp)
    rw [h2, hcast]

/-- After more than `interval` whole seconds, for an interval below `2 ^ 24` seconds, the
seconds of the duration are above `interval`. -/
theorem Seconds_gt_of_gt (d : Int) (h0 : 0 ≤ d) (hmax : d ≤ 2 ^ 63) (interval : Int)
    (hI0 : 0 ≤ interval) (hI : interval < 2 ^ 24) (h : interval * 1000000000 < d) :
    (interval : ℚ) < (Duration.Seconds d).val := by
  by_cases h1 : (interval + 1) * 1000000000 ≤ d
  · have h2 := Seconds_ge_of_le d h0 hmax (interval + 1) (by omega) h1
    push_cast at h2
    linarith
  · obtain ⟨q, hq0, hqerr, _, _, herr, _⟩ := Seconds_of_nonneg d h0 hmax
    have hdm := Int.emod_add_ediv d 1000000000
    have hns0 := Int.emod_nonneg d (show (1000000000 : Int) ≠ 0 by norm_num)
    have hns1 := Int.emod_lt_of_pos d (show (0 : Int) < 1000000000 by norm_num)
    have hsec : d / 1000000000 = interval := by omega
    have hns : 1 ≤ d % 1000000000 := by omega
    have hns2 : d % 1000000000 ≤ 999999999 := by omega
    have hnq : (1 : ℚ) ≤ ((d % 1000000000 : Int) : ℚ) := by exact_mod_cast hns
    have hnq2 : ((d % 1000000000 : Int) : ℚ) ≤ 999999999 := by exact_mod_cast hns2
    have hIq : (interval : ℚ) + 1 ≤ 2 ^ 24 := by
      have : interval + 1 ≤ 2 ^ 24 := by omega
      exact_mod_cast this
    have hq1 := (abs_le.mp hqerr).1
    have hq2 := (abs_le.mp hqerr).2
    have hfrac : (1 : ℚ) / 1000000000 ≤ ((d % 1000000000 : Int) : ℚ) / 1000000000 := by
      rw [div_le_div_iff_of_pos_right (by norm_num)]
      exact hnq
    have hfrac2 : ((d % 1000000000 : Int) : ℚ) / 1000000000 ≤ 999999999 / 1000000000 := by
      rw [div_le_div_iff_of_pos_right (by norm_num)]
      exact hnq2
    have hc1 : (2 : ℚ) ^ (-54 : Int) + (2 : ℚ) ^ (-30 : Int) < 1 / 1000000000 := by norm_num
    have hc2 : (999999999 : ℚ) / 1000000000 + (2 : ℚ) ^ (-54 : Int) < 1 := by norm_num
    have hc3 : (2 : ℚ) ^ (24 : Int) = 2 ^ 24 := by norm_num
    have h30 : ((24 : Int) - 54) = -30 := by norm_num
    rw [hsec] at herr
    have harg : (interval : ℚ) + q < (2 : ℚ) ^ (24 : Int) := by
      rw [hc3]
      linarith
    have he := (abs_le.mp (herr 24 (by norm_num) harg)).1
    rw [h30] at he
    generalize (2 : ℚ) ^ (-54 : Int) = a at hq1 hc1
    generalize (2 : ℚ) ^ (-30 : Int) = b at he hc1
    linarith

/-- For an interval above `-2 ^ 24` and of at most `2 ^ 24` seconds, the comparison of
`float64(interval)` with the seconds of a duration is the comparison of `interval` seconds
with the duration. -/
theorem Seconds_ge_iff_exact (d : Int) (hmin : -(2 ^ 63) ≤ d) (hmax : d ≤ 2 ^ 63 - 1)
    (interval : Int) (hI1 : -(2 ^ 24) < interval) (hI2 : interval ≤ 2 ^ 24) :
    (Float64.ofInt interval).le (Duration.Seconds d) = true ↔ interval * 1000000000 ≤ d := by
  rw [Float64_le_iff, Float64_ofInt_val_abs interval (by omega) (by omega)]
  rcases le_or_lt 0 d with hd | hd
  · rcases le_or_lt 0 interval with hi | hi
    · constructor
      · intro h
        by_contra hlt
        have := Seconds_lt_of_lt d hd (by omega) interval hI2 (by omega)
        linarith
      · exact Seconds_ge_of_le d hd (by omega) interval hi
    · have h1 := Seconds_val_nonneg d hd (by omega)
      have h2 : (interval : ℚ) < 0 := by exact_mod_cast hi
      constructor
      · intro _
        nlinarith
      · intro _
        linarith
  · have hneg := Seconds_neg (-d)
    rw [neg_neg] at hneg
    rw [hneg]
    rcases lt_or_le 0 interval with hi | hi
    · have h1 := Seconds_val_nonneg (-d) (by omega) (by omega)
      have h2 : (0 : ℚ) < (interval : ℚ) := by exact_mod_cast hi
      constructor
      · intro h
        linarith
      · intro h
        nlinarith
    · have hcast : ((-interval : Int) : ℚ) = -(interval : ℚ) := by push_cast; rfl
      constructor
      · intro h
        by_contra hlt
        have := Seconds_gt_of_gt (-d) (by omega) (by omega) (-interval) (by omega) (by omega)
          (by omega)
        rw [hcast] at this
        linarith
      · intro h
        have := Seconds_le_of_le (-d) (by omega) (by omega) (-interval) (by omega) (by omega)
          (by omega)
        rw [hcast] at this
        linarith

/-! ## Properties of the scheduler -/

theorem Seconds_ge_iff (d interval : Int) :
    (interval : ℚ) ≤ Seconds d ↔ interval * Second ≤ d := by
  unfold Seconds Second
  rw [le_div_iff₀ (by norm_num)]
  exact_mod_cast Iff.rfl

/-- Within the `int64` range `time.Since` is the plain difference of the two instants. -/
theorem Since_eq_sub (now t : Time) (h1 : minDuration ≤ now.ns - t.ns)
    (h2 : now.ns - t.ns ≤ maxDuration) : Since now t = now.ns - t.ns := by
  unfold Since Time.Sub
  simp only [gt_iff_lt]
  rw [if_neg (by omega), if_neg (by omega)]

/-- A duration is an `int64`. -/
theorem Since_range (now t : Time) : -(2 ^ 63) ≤ Since now t ∧ Since now t ≤ 2 ^ 63 - 1 := by
  unfold Since Time.Sub maxDuration minDuration
  dsimp only
  split
  · constructor <;> norm_num
  · split
    · constructor <;> norm_num
    · constructor <;> omega

/-- For an interval above `-2 ^ 24` and of at most `2 ^ 24` seconds, the test of
`shouldUpdate` on `float64` values is the exact one. -/
theorem shouldUpdate_iff_exact (now : Time) (subscription : ExternalSubscription)
    (h1 : -(2 ^ 24) < subscription.UpdateInterval) (h2 : subscription.UpdateInterval ≤ 2 ^ 24) :
    shouldUpdate now subscription = true
      ↔ subscription.LastUpdate.IsZero = true
        ∨ (subscription.UpdateInterval : ℚ) ≤ Seconds (Since now subscription.LastUpdate) := by
  obtain ⟨hmin, hmax⟩ := Since_range now subscription.LastUpdate
  have hex := Seconds_ge_iff_exact (Since now subscription.LastUpdate) hmin hmax
    subscription.UpdateInterval h1 h2
  unfold shouldUpdate
  dsimp only
  rw [Seconds_ge_iff]
  unfold Second
  by_cases hz : subscription.LastUpdate.IsZero = true
  · simp [hz]
  · simp only [hz, Bool.false_eq_true, if_false, false_or]
    exact hex

/-- A subscription that is not at the zero time and is younger than its interval, an
interval above `-2 ^ 24` and of at most `2 ^ 24` seconds, is not due. -/
theorem shouldUpdate_false_of_young (now : Time) (subscription : ExternalSubscription)
    (hz : subscription.LastUpdate.IsZero = false)
    (h1 : -(2 ^ 24) < subscription.UpdateInterval) (h2 : subscription.UpdateInterval ≤ 2 ^ 24)
    (hlt : Seconds (Since now subscription.LastUpdate) < (subscription.UpdateInterval : ℚ)) :
    shouldUpdate now subscription = false := by
  cases h : shouldUpdate now subscription with
  | false => rfl
  | true =>
    rcases (shouldUpdate_iff_exact now subscription h1 h2).mp h with h3 | h3
    · rw [hz] at h3
      exact absurd h3 (by simp)
    · exact absurd h3 (not_le.mpr hlt)

set_option maxRecDepth 10000 in
/-- C6, as stated, fails: the subscription refreshed at nanosecond 1, with an interval of
20000000 seconds, is due at nanosecond 20000000000000000, one nanosecond before 20000000
seconds have elapsed: the sum `float64(sec) + float64(nsec)/1e9` of `Seconds` rounds
19999999.999999999 up to 20000000. -/
theorem C6_due_one_nanosecond_early :
    shouldUpdate ⟨20000000000000000⟩ subLong = true
    ∧ subLong.LastUpdate.IsZero = false
    ∧ Since ⟨20000000000000000⟩ subLong.LastUpdate = 19999999999999999
    ∧ Seconds (Since ⟨20000000000000000⟩ subLong.LastUpdate) < (subLong.UpdateInterval : ℚ) := by
  refine ⟨by decide, by decide, by decide, ?_⟩
  rw [← not_le, Seconds_ge_iff]
  decide

/-- C6, amended. For an `update_interval` above `-2 ^ 24` and of at most `2 ^ 24` seconds,
`shouldUpdate` holds exactly when `last_update` is the zero time or the time elapsed since
`last_update`, in seconds, is at least `update_interval`. -/
theorem C6_shouldUpdate_iff (now : Time) (subscription : ExternalSubscription)
    (h1 : -(2 ^ 24) < subscription.UpdateInterval) (h2 : subscription.UpdateInterval ≤ 2 ^ 24) :
    shouldUpdate now subscription = true
      ↔ subscription.LastUpdate.IsZero = true
        ∨ (subscription.UpdateInterval : ℚ) ≤ Seconds (Since now subscription.LastUpdate) :=
  shouldUpdate_iff_exact now subscription h1 h2

set_option maxRecDepth 10000 in
/-- C6 on the subscription refreshed at second 1000, every 60 seconds, at second 1060 and
one nanosecond before: due at the first instant only. -/
theorem C6_shouldUpdate_iff_witness :
    (-(2 ^ 24) < subStale.UpdateInterval ∧ subStale.UpdateInterval ≤ 2 ^ 24)
    ∧ shouldUpdate ⟨1060000000000⟩ subStale = true
    ∧ shouldUpdate ⟨1059999999999⟩ subStale = false
    ∧ (shouldUpdate ⟨1060000000000⟩ subStale = true
        ↔ subStale.LastUpdate.IsZero = true
          ∨ (subStale.UpdateInterval : ℚ)
              ≤ Seconds (Since ⟨1060000000000⟩ subStale.LastUpdate)) :=
  ⟨⟨by decide, by decide⟩, by decide, by decide,
    C6_shouldUpdate_iff ⟨1060000000000⟩ subStale (by decide) (by decide)⟩

theorem refreshed_cons_some (s : ExternalSubscription) (t : Time) (r : Except String Int)
    (vs : List Visit) : refreshed (⟨s, t, some r⟩ :: vs) = s :: refreshed vs := by
  simp [refreshed]

theorem refreshed_cons_none (s : ExternalSubscription) (t : Time) (vs : List Visit) :
    refreshed (⟨s, t, none⟩ :: vs) = refreshed vs := by
  simp [refreshed]

theorem loop_cons_due {σ : Type} (env : SweepEnv σ) (s : ExternalSubscription)
    (rest : List ExternalSubscription) (w : σ) (h : shouldUpdate (env.now w) s = true) :
    updateAllSubscriptions.loop env (s :: rest) w
      = (⟨s, env.now w, some (env.UpdateSubscriptionNodes s w).1⟩
          :: (updateAllSubscriptions.loop env rest (env.UpdateSubscriptionNodes s w).2).1,
         (updateAllSubscriptions.loop env rest (env.UpdateSubscriptionNodes s w).2).2) := by
  simp only [updateAllSubscriptions.loop, h, if_true]

theorem loop_cons_not_due {σ : Type} (env : SweepEnv σ) (s : ExternalSubscription)
    (rest : List ExternalSubscription) (w : σ) (h : shouldUpdate (env.now w) s = false) :
    updateAllSubscriptions.loop env (s :: rest) w
      = (⟨s, env.now w, none⟩ :: (updateAllSubscriptions.loop env rest w).1,
         (updateAllSubscriptions.loop env rest w).2) := by
  simp only [updateAllSubscriptions.loop, h, Bool.false_eq_true, if_false]

theorem runRefreshes_cons {σ : Type} (env : SweepEnv σ) (s : ExternalSubscription)
    (rest : List ExternalSubscription) (w : σ) :
    runRefreshes env (s :: rest) w
      = ((env.UpdateSubscriptionNodes s w).1
          :: (runRefreshes env rest (env.UpdateSubscriptionNodes s w).2).1,
         (runRefreshes env rest (env.UpdateSubscriptionNodes s w).2).2) := by
  simp only [runRefreshes]

theorem loop_visits {σ : Type} (env : SweepEnv σ) : ∀ (subs : List ExternalSubscription) (w : σ),
    ((updateAllSubscriptions.loop env subs w).1).map (fun v => v.subscription) = subs
    ∧ ∀ v ∈ (updateAllSubscriptions.loop env subs w).1,
        v.refresh.isSome = shouldUpdate v.checkedAt v.subscription := by
  intro subs
  induction subs with
  | nil => intro w; simp [updateAllSubscriptions.loop]
  | cons s rest ih =>
    intro w
    by_cases hdue : shouldUpdate (env.now w) s = true
    · have ih1 := ih (env.UpdateSubscriptionNodes s w).2
      rw [loop_cons_due env s rest w hdue]
      simp only [List.map_cons, ih1.1, List.mem_cons, forall_eq_or_imp, Option.isSome_some,
        hdue, true_and]
      exact ih1.2
    · have hdue1 : shouldUpdate (env.now w) s = false := by simpa using hdue
      have ih1 := ih w
      rw [loop_cons_not_due env s rest w hdue1]
      simp only [List.map_cons, ih1.1, List.mem_cons, forall_eq_or_imp, Option.isSome_none,
        hdue1, true_and]
      exact ih1.2

/-- The results of the sweep and the world it leaves are those of the calls of the refresh
on the refreshed subscriptions, in their order. -/
theorem loop_runs {σ : Type} (env : SweepEnv σ) : ∀ (subs : List ExternalSubscription) (w : σ),
    (((updateAllSubscriptions.loop env subs w).1).filterMap (fun v => v.refresh),
      (updateAllSubscriptions.loop env subs w).2)
      = runRefreshes env (refreshed (updateAllSubscriptions.loop env subs w).1) w := by
  intro subs
  induction subs with
  | nil => intro w; simp [updateAllSubscriptions.loop, refreshed, runRefreshes]
  | cons s rest ih =>
    intro w
    by_cases hdue : shouldUpdate (env.now w) s = true
    · have ih1 := ih (env.UpdateSubscriptionNodes s w).2
      rw [loop_cons_due env s rest w hdue]
      simp only [List.filterMap_cons, refreshed_cons_some, runRefreshes_cons]
      rw [← ih1]
    · have hdue1 : shouldUpdate (env.now w) s = false := by simpa using hdue
      have ih1 := ih w
      rw [loop_cons_not_due env s rest w hdue1]
      simp only [List.filterMap_cons, refreshed_cons_none]
      exact ih1

/-- A subscription is checked on the clock of the world that the refreshes before it
left. -/
theorem loop_checkedAt {σ : Type} (env : SweepEnv σ) :
    ∀ (subs : List ExternalSubscription) (w : σ) (pre : List Visit) (v : Visit)
      (post : List Visit),
      (updateAllSubscriptions.loop env subs w).1 = pre ++ v :: post →
      v.checkedAt = env.now (runRefreshes env (refreshed pre) w).2 := by
  intro subs
  induction subs with
  | nil =>
    intro w pre v post h
    simp [updateAllSubscriptions.loop] at h
  | cons s rest ih =>
    intro w pre v post h
    by_cases hdue : shouldUpdate (env.now w) s = true
    · rw [loop_cons_due env s rest w hdue] at h
      cases pre with
      | nil =>
        simp only [List.nil_append, List.cons.injEq] at h
        rw [← h.1]
        simp [refreshed, runRefreshes]
      | cons p pre1 =>
        simp only [List.cons_append, List.cons.injEq] at h
        rw [← h.1, refreshed_cons_some, runRefreshes_cons]
        exact ih _ pre1 v post h.2
    · have hdue1 : shouldUpdate (env.now w) s = false := by simpa using hdue
      rw [loop_cons_not_due env s rest w hdue1] at h
      cases pre with
      | nil =>
        simp only [List.nil_append, List.cons.injEq] at h
        rw [← h.1]
        simp [refreshed, runRefreshes]
      | cons p pre1 =>
        simp only [List.cons_append, List.cons.injEq] at h
        rw [← h.1, refreshed_cons_none]
        exact ih _ pre1 v post h.2

set_option maxRecDepth 10000 in
/-- C7, as stated, fails: in the sweep at nanosecond 20000000000000000 the subscription
refreshed at nanosecond 1, with an interval of 20000000 seconds, is refreshed, although its
`last_update` is less than 20000000 seconds old. -/
theorem C7_young_subscription_is_refreshed :
    refreshed (updateAllSubscriptions (nanoSweepEnv [subLong]) 20000000000000000).1 = [subLong]
    ∧ (updateAllSubscriptions (nanoSweepEnv [subLong]) 20000000000000000).2
        = 20000001000000000
    ∧ subLong.LastUpdate.IsZero = false
    ∧ Seconds (Since ((nanoSweepEnv [subLong]).now 20000000000000000) subLong.LastUpdate)
        < (subLong.UpdateInterval : ℚ) := by
  refine ⟨by decide, by decide, by decide, ?_⟩
  rw [← not_le, Seconds_ge_iff]
  decide

/-- C7, amended. One sweep visits the enabled subscriptions in list order; each is checked
on the clock of the world that the refreshes before it left, and is refreshed exactly when
`shouldUpdate` holds at that check. The results of the sweep and the world it leaves are
those of the calls of the refresh on the refreshed subscriptions, in list order, each on
the world the call before it left, whatever that call returned. A subscription with an
`update_interval` above `-2 ^ 24` and of at most `2 ^ 24` seconds whose non-zero
`last_update` is less than `update_interval` seconds old at its check is not refreshed. -/
theorem C7_sweep_refreshes_exactly_the_due {σ : Type} (env : SweepEnv σ) (w : σ) :
    (env.queryError w = none →
        ((updateAllSubscriptions env w).1).map (fun v => v.subscription)
          = (env.table w).filter (fun s => s.Enabled))
    ∧ (∀ v ∈ (updateAllSubscriptions env w).1,
        v.refresh.isSome = shouldUpdate v.checkedAt v.subscription)
    ∧ refreshed (updateAllSubscriptions env w).1
        = (((updateAllSubscriptions env w).1).filter
            (fun v => shouldUpdate v.checkedAt v.subscription)).map (fun v => v.subscription)
    ∧ (∀ (pre : List Visit) (v : Visit) (post : List Visit),
        (updateAllSubscriptions env w).1 = pre ++ v :: post →
        v.checkedAt = env.now (runRefreshes env (refreshed pre) w).2)
    ∧ (((updateAllSubscriptions env w).1).filterMap (fun v => v.refresh),
        (updateAllSubscriptions env w).2)
        = runRefreshes env (refreshed (updateAllSubscriptions env w).1) w
    ∧ (∀ v ∈ (updateAllSubscriptions env w).1,
        v.subscription.LastUpdate.IsZero = false →
        -(2 ^ 24) < v.subscription.UpdateInterval →
        v.subscription.UpdateInterval ≤ 2 ^ 24 →
        Seconds (Since v.checkedAt v.subscription.LastUpdate)
          < (v.subscription.UpdateInterval : ℚ) →
        v.refresh = none) := by
  have hall : ∀ v ∈ (updateAllSubscriptions env w).1,
      v.refresh.isSome = shouldUpdate v.checkedAt v.subscription := by
    unfold updateAllSubscriptions
    split
    · simp
    · split
      · simp
      · exact (loop_visits env _ w).2
  refine ⟨?_, hall, ?_, ?_, ?_, ?_⟩
  · intro hq
    unfold updateAllSubscriptions GetEnabledExternalSubscriptions
    simp only [hq]
    split
    · rename_i h0
      simp only [List.map_nil]
      exact (List.length_eq_zero.mp h0).symm
    · exact (loop_visits env _ w).1
  · unfold refreshed
    congr 1
    apply List.filter_congr
    intro v hv
    exact hall v hv
  · unfold updateAllSubscriptions
    split
    · intro pre v post h
      simp at h
    · split
      · intro pre v post h
        simp at h
      · exact loop_checkedAt env _ w
  · unfold updateAllSubscriptions
    split
    · simp [refreshed, runRefreshes]
    · split
      · simp [refreshed, runRefreshes]
      · exact loop_runs env _ w
  · intro v hv hz h1 h2 hlt
    have h3 := hall v hv
    have h4 : shouldUpdate v.checkedAt v.subscription = false :=
      shouldUpdate_false_of_young _ _ hz h1 h2 hlt
    rw [h4] at h3
    cases hr : v.refresh with
    | none => rfl
    | some r => simp [hr] at h3

set_option maxRecDepth 10000 in
/-- C7 on a sweep at second 1100 over four subscriptions whose refresh fails each time and
takes ten seconds: the never-refreshed and the stale one are refreshed, the fresh and the
disabled one are not, and the clock reads second 1120 after the two refreshes. -/
theorem C7_sweep_refreshes_exactly_the_due_witness :
    (sampleSweepEnv [subNever, subFresh, subOff, subStale]).queryError 1100 = none
    ∧ ((updateAllSubscriptions (sampleSweepEnv [subNever, subFresh, subOff, subStale]) 1100).1).map
        (fun v => v.subscription) = [subNever, subFresh, subStale]
    ∧ refreshed (updateAllSubscriptions (sampleSweepEnv [subNever, subFresh, subOff, subStale])
        1100).1 = [subNever, subStale]
    ∧ (updateAllSubscriptions (sampleSweepEnv [subNever, subFresh, subOff, subStale]) 1100).2
        = 1120 :=
  ⟨by rfl,
   ((C7_sweep_refreshes_exactly_the_due (sampleSweepEnv [subNever, subFresh, subOff, subStale])
      1100).1 (by rfl)).trans (by decide),
   ((C7_sweep_refreshes_exactly_the_due (sampleSweepEnv [subNever, subFresh, subOff, subStale])
      1100).2.2.1).trans (by decide),
   by decide⟩

/-- C8. The first `StopAutoUpdate` on a new service closes `quit`; the second one closes
the closed channel, which is a run-time panic: stopping is not idempotent. -/
theorem C8_StopAutoUpdate_twice_panics :
    StopAutoUpdate NewSubscriptionService = .ok ⟨some Chan.isClosed⟩
    ∧ (StopAutoUpdate NewSubscriptionService).bind StopAutoUpdate
        = .error "panic: close of closed channel" :=
  ⟨by rfl, by rfl⟩

/-! ## Properties of the refresh -/

theorem isValidProxyLink_loop_eq_any (link : String) (schemes : List String) :
    isValidProxyLink.loop link schemes = schemes.any (fun p => HasPrefix link p) := by
  induction schemes with
  | nil => rfl
  | cons p ps ih =>
    by_cases hp : HasPrefix link p = true
    · simp [isValidProxyLink.loop, hp]
    · simp [isValidProxyLink.loop, hp, ih]

theorem isValidProxyLink_iff (link : String) :
    isValidProxyLink link = true ↔ ∃ p ∈ validSchemes, HasPrefix link p = true := by
  unfold isValidProxyLink
  rw [isValidProxyLink_loop_eq_any, List.any_eq_true]

theorem proxyLinks_eq_filter (lines : List String) :
    proxyLinks lines = (lines.map TrimSpace).filter
      (fun l => decide (l ≠ "") && !HasPrefix l "#"
        && validSchemes.any (fun p => HasPrefix l p)) := by
  induction lines with
  | nil => rfl
  | cons line rest ih =>
    have hv : isValidProxyLink (TrimSpace line)
        = validSchemes.any (fun p => HasPrefix (TrimSpace line) p) :=
      isValidProxyLink_loop_eq_any _ _
    simp only [proxyLinks, List.map_cons, List.filter_cons, ih, hv]
    by_cases h1 : TrimSpace line = ""
    · simp [h1]
    · by_cases h2 : HasPrefix (TrimSpace line) "#" = true
      · simp [h1, h2]
      · by_cases h3 : validSchemes.any (fun p => HasPrefix (TrimSpace line) p) = true
        · simp [h1, h2, h3]
        · simp [h1, h2, h3]

theorem lineLoop_eq_processLinks {σ : Type} (env : RefreshEnv σ)
    (subscription : ExternalSubscription) : ∀ (lines : List String) (b : Batch σ),
    lineLoop env subscription lines b = processLinks env subscription (proxyLinks lines) b := by
  intro lines
  induction lines with
  | nil => intro b; rfl
  | cons line rest ih =>
    intro b
    by_cases h1 : (TrimSpace line = "" || HasPrefix (TrimSpace line) "#") = true
    · simp only [lineLoop, proxyLinks, h1, if_true, ih]
    · by_cases h2 : (!isValidProxyLink (TrimSpace line)) = true
      · simp only [lineLoop, proxyLinks, h1, h2, if_true, if_false, ih, Bool.false_eq_true]
      · simp only [lineLoop, proxyLinks, h1, h2, if_false, processLinks, Bool.false_eq_true]
        cases lineNode env (TrimSpace line) with
        | none => exact ih b
        | some d => exact ih _

theorem lineLoop_eq_processLinks_ref {σ : Type} (env : RefreshEnv σ)
    (subscription : ExternalSubscription) (content : String) (b : Batch σ) :
    lineLoop env subscription (Split content) b
      = processLinks env subscription (proxyLinksRef content) b := by
  rw [lineLoop_eq_processLinks]
  exact congrArg (fun l => processLinks env subscription l b) (proxyLinks_eq_filter _)

/-- C9. In the line-delimited path the lines taken as proxy links are, in order, the
trimmed lines of the body, split at line feeds, that are not empty, do not start with `#`
and start with one of the ten scheme prefixes; the loop hands exactly these to the node
decoder; and `isValidProxyLink` holds exactly for the links with one of these prefixes. -/
theorem C9_line_path_links {σ : Type} (env : RefreshEnv σ) (subscription : ExternalSubscription)
    (content : String) (b : Batch σ) :
    proxyLinks (Split content) = proxyLinksRef content
    ∧ lineLoop env subscription (Split content) b
        = processLinks env subscription (proxyLinksRef content) b
    ∧ validSchemes = ["ss://", "ssr://", "vmess://", "vless://", "trojan://", "hysteria://",
        "hy://", "hy2://", "hysteria2://", "tuic://"]
    ∧ ∀ link, isValidProxyLink link = true ↔ ∃ p ∈ validSchemes, HasPrefix link p = true := by
  have h1 : proxyLinks (Split content) = proxyLinksRef content := proxyLinks_eq_filter _
  exact ⟨h1, lineLoop_eq_processLinks_ref env subscription content b, rfl, isValidProxyLink_iff⟩

/-- The grouping step makes no `Add` call on a node. -/
theorem groupNode_calls {σ : Type} (env : RefreshEnv σ) (subscription : ExternalSubscription)
    (decodedNode : Node) (w : σ) :
    ∀ c ∈ (groupNode env subscription decodedNode w).2.2, ∀ n ok, c ≠ StoreCall.nodeAdd n ok := by
  intro c hc n ok
  unfold groupNode at hc
  split at hc
  · dsimp only at hc
    split at hc
    · simp only [List.mem_singleton] at hc
      subst hc
      exact fun hEq => StoreCall.noConfusion hEq
    · simp only [List.mem_cons, List.mem_singleton, List.not_mem_nil, or_false] at hc
      rcases hc with hc | hc <;> subst hc <;> exact fun hEq => StoreCall.noConfusion hEq
  · simp at hc

/-- `UpdateSubscriptionNodes` in two steps: the batch of the loop, then the final calls. -/
theorem UpdateSubscriptionNodes_eq {σ : Type} (env : RefreshEnv σ)
    (subscription : ExternalSubscription) (w : σ) :
    UpdateSubscriptionNodes env subscription w
      = match env.fetch subscription w with
        | (.error err, w1) => (.error err, w1, [])
        | (.ok body, w1) =>
          finishRefresh env (refreshBatch env subscription body w1).1
            (refreshBatch env subscription body w1).2 := by
  unfold UpdateSubscriptionNodes
  cases hf : env.fetch subscription w with
  | mk r w1 =>
    cases r with
    | error err => rfl
    | ok body =>
      unfold refreshBatch finishRefresh
      cases hc : env.ClearNodes subscription w1 with
      | mk p w2 =>
        obtain ⟨cerr, sub1⟩ := p
        rfl

theorem successfulAdds_append (a b : List StoreCall) :
    successfulAdds (a ++ b) = successfulAdds a + successfulAdds b := by
  simp [successfulAdds, List.countP_append]

theorem successfulAdds_of_no_add (cs : List StoreCall)
    (h : ∀ c ∈ cs, ∀ n ok, c ≠ StoreCall.nodeAdd n ok) : successfulAdds cs = 0 := by
  unfold successfulAdds
  rw [List.countP_eq_zero]
  intro c hc
  cases c with
  | nodeAdd n ok => exact absurd rfl (h _ hc n ok)
  | _ => simp

/-- The batch invariant: `nodeCount` is the length of `nodes`, which is the number of `Add`
calls that succeeded. -/
theorem insertNode_count {σ : Type} (env : RefreshEnv σ) (subscription : ExternalSubscription)
    (decodedNode : Node) (b : Batch σ)
    (h : b.nodeCount = (b.nodes.length : Int) ∧ b.nodes.length = successfulAdds b.calls) :
    (insertNode env subscription decodedNode b).nodeCount
        = ((insertNode env subscription decodedNode b).nodes.length : Int)
      ∧ (insertNode env subscription decodedNode b).nodes.length
        = successfulAdds (insertNode env subscription decodedNode b).calls := by
  obtain ⟨h1, h2⟩ := h
  unfold insertNode
  dsimp only
  have hfalse : ∀ n, successfulAdds [StoreCall.nodeAdd n false] = 0 := by
    intro n; simp [successfulAdds]
  have htrue : ∀ n, successfulAdds [StoreCall.nodeAdd n true] = 1 := by
    intro n; simp [successfulAdds]
  split
  · dsimp only
    rw [successfulAdds_append, hfalse]
    exact ⟨h1, by omega⟩
  · rename_i added w1 hadd
    have hg := groupNode_calls env subscription added w1
    rcases hgr : groupNode env subscription added w1 with ⟨n1, w2, cs⟩
    rw [hgr] at hg
    have hz := successfulAdds_of_no_add cs hg
    dsimp only
    rw [successfulAdds_append, successfulAdds_append, htrue, hz, List.length_append,
      List.length_singleton]
    constructor
    · rw [h1]; push_cast; ring
    · omega

theorem clashLoop_count {σ : Type} (env : RefreshEnv σ) (subscription : ExternalSubscription) :
    ∀ (proxies : List ProxyMap) (b : Batch σ),
      (b.nodeCount = (b.nodes.length : Int) ∧ b.nodes.length = successfulAdds b.calls) →
      (clashLoop env subscription proxies b).nodeCount
          = ((clashLoop env subscription proxies b).nodes.length : Int)
        ∧ (clashLoop env subscription proxies b).nodes.length
          = successfulAdds (clashLoop env subscription proxies b).calls := by
  intro proxies
  induction proxies with
  | nil => intro b h; exact h
  | cons proxy rest ih =>
    intro b h
    unfold clashLoop
    split
    · exact ih b h
    · exact ih _ (insertNode_count env subscription _ b h)

theorem processLinks_count {σ : Type} (env : RefreshEnv σ)
    (subscription : ExternalSubscription) :
    ∀ (links : List String) (b : Batch σ),
      (b.nodeCount = (b.nodes.length : Int) ∧ b.nodes.length = successfulAdds b.calls) →
      (processLinks env subscription links b).nodeCount
          = ((processLinks env subscription links b).nodes.length : Int)
        ∧ (processLinks env subscription links b).nodes.length
          = successfulAdds (processLinks env subscription links b).calls := by
  intro links
  induction links with
  | nil => intro b h; exact h
  | cons line rest ih =>
    intro b h
    unfold processLinks
    split
    · exact ih b h
    · exact ih _ (insertNode_count env subscription _ b h)

theorem refreshBatch_count {σ : Type} (env : RefreshEnv σ)
    (subscription : ExternalSubscription) (body : String) (w1 : σ) :
    (refreshBatch env subscription body w1).2.nodeCount
        = ((refreshBatch env subscription body w1).2.nodes.length : Int)
      ∧ (refreshBatch env subscription body w1).2.nodes.length
        = successfulAdds (refreshBatch env subscription body w1).2.calls := by
  unfold refreshBatch
  cases hc : env.ClearNodes subscription w1 with
  | mk p w2 =>
    obtain ⟨cerr, sub1⟩ := p
    have h0 : (⟨[], 0, w2, [StoreCall.clearNodes sub1]⟩ : Batch σ).nodeCount
          = (((⟨[], 0, w2, [StoreCall.clearNodes sub1]⟩ : Batch σ).nodes.length : Nat) : Int)
        ∧ (⟨[], 0, w2, [StoreCall.clearNodes sub1]⟩ : Batch σ).nodes.length
          = successfulAdds (⟨[], 0, w2, [StoreCall.clearNodes sub1]⟩ : Batch σ).calls := by
      simp [successfulAdds]
    dsimp only
    cases hy : env.yamlProxies (decodeContent env body) with
    | none =>
      dsimp only
      rw [lineLoop_eq_processLinks]
      exact processLinks_count env sub1 _ _ h0
    | some proxies =>
      dsimp only
      split
      · exact clashLoop_count env sub1 proxies _ h0
      · rw [lineLoop_eq_processLinks]
        exact processLinks_count env sub1 _ _ h0

theorem groupNode_loopCalls {σ : Type} (env : RefreshEnv σ)
    (subscription : ExternalSubscription) (decodedNode : Node) (w : σ) :
    ∀ c ∈ (groupNode env subscription decodedNode w).2.2, isLoopCall c = true := by
  intro c hc
  unfold groupNode at hc
  split at hc
  · dsimp only at hc
    split at hc
    · simp only [List.mem_singleton] at hc
      subst hc
      rfl
    · simp only [List.mem_cons, List.mem_singleton, List.not_mem_nil, or_false] at hc
      rcases hc with hc | hc <;> subst hc <;> rfl
  · simp at hc

theorem insertNode_loopCalls {σ : Type} (env : RefreshEnv σ)
    (subscription : ExternalSubscription) (decodedNode : Node) (b : Batch σ)
    (h : ∀ c ∈ b.calls, isLoopCall c = true) :
    ∀ c ∈ (insertNode env subscription decodedNode b).calls, isLoopCall c = true := by
  intro c hc
  unfold insertNode at hc
  dsimp only at hc
  split at hc
  · simp only [List.mem_append, List.mem_singleton] at hc
    rcases hc with hc | hc
    · exact h c hc
    · subst hc; rfl
  · rename_i added w1 hadd
    simp only [List.mem_append, List.mem_singleton] at hc
    rcases hc with (hc | hc) | hc
    · exact h c hc
    · subst hc; rfl
    · exact groupNode_loopCalls env subscription added w1 c hc

theorem clashLoop_loopCalls {σ : Type} (env : RefreshEnv σ)
    (subscription : ExternalSubscription) :
    ∀ (proxies : List ProxyMap) (b : Batch σ), (∀ c ∈ b.calls, isLoopCall c = true) →
      ∀ c ∈ (clashLoop env subscription proxies b).calls, isLoopCall c = true := by
  intro proxies
  induction proxies with
  | nil => intro b h; exact h
  | cons proxy rest ih =>
    intro b h
    unfold clashLoop
    split
    · exact ih b h
    · exact ih _ (insertNode_loopCalls env subscription _ b h)

theorem processLinks_loopCalls {σ : Type} (env : RefreshEnv σ)
    (subscription : ExternalSubscription) :
    ∀ (links : List String) (b : Batch σ), (∀ c ∈ b.calls, isLoopCall c = true) →
      ∀ c ∈ (processLinks env subscription links b).calls, isLoopCall c = true := by
  intro links
  induction links with
  | nil => intro b h; exact h
  | cons line rest ih =>
    intro b h
    unfold processLinks
    split
    · exact ih b h
    · exact ih _ (insertNode_loopCalls env subscription _ b h)

theorem refreshBatch_loopCalls {σ : Type} (env : RefreshEnv σ)
    (subscription : ExternalSubscription) (body : String) (w1 : σ) :
    ∀ c ∈ (refreshBatch env subscription body w1).2.calls, isLoopCall c = true := by
  unfold refreshBatch
  cases hc : env.ClearNodes subscription w1 with
  | mk p w2 =>
    obtain ⟨cerr, sub1⟩ := p
    have h0 : ∀ c ∈ (⟨[], 0, w2, [StoreCall.clearNodes sub1]⟩ : Batch σ).calls,
        isLoopCall c = true := by
      intro c hc
      simp only [List.mem_singleton] at hc
      subst hc
      rfl
    dsimp only
    cases hy : env.yamlProxies (decodeContent env body) with
    | none =>
      dsimp only
      rw [lineLoop_eq_processLinks]
      exact processLinks_loopCalls env sub1 _ _ h0
    | some proxies =>
      dsimp only
      split
      · exact clashLoop_loopCalls env sub1 proxies _ h0
      · rw [lineLoop_eq_processLinks]
        exact processLinks_loopCalls env sub1 _ _ h0

/-- The calls of the final step: those of the batch, at most one association of the whole
batch, and the status update with the count of the batch. -/
theorem finishRefresh_eq {σ : Type} (env : RefreshEnv σ) (subscription : ExternalSubscription)
    (b : Batch σ) :
    ∃ cs3 okS w4,
      (cs3 = [] ∨ ∃ okA, cs3 = [StoreCall.associateNodes subscription b.nodes okA])
      ∧ finishRefresh env subscription b
        = (.ok b.nodeCount, w4,
            b.calls ++ cs3 ++ [StoreCall.updateStatus subscription b.nodeCount okS]) := by
  unfold finishRefresh
  by_cases hlen : b.nodes.length > 0
  · simp only [hlen, if_true]
    exact ⟨_, _, _, Or.inr ⟨_, rfl⟩, rfl⟩
  · simp only [hlen, if_false]
    exact ⟨_, _, _, Or.inl rfl, rfl⟩

/-- C12. For every refresh that gets past the fetch, the count that
`UpdateSubscriptionNodes` returns and hands to `UpdateStatus` is the length of the batch
`nodes`, which is the number of `Add` calls that succeeded. -/
theorem C12_count_is_batch_length {σ : Type} (env : RefreshEnv σ)
    (subscription : ExternalSubscription) (w : σ) (body : String)
    (hf : (env.fetch subscription w).1 = .ok body) :
    (UpdateSubscriptionNodes env subscription w).1
        = .ok ((refreshBatch env subscription body (env.fetch subscription w).2).2.nodes.length
            : Int)
    ∧ (refreshBatch env subscription body (env.fetch subscription w).2).2.nodes.length
        = successfulAdds (UpdateSubscriptionNodes env subscription w).2.2
    ∧ (∃ s1 ok, (UpdateSubscriptionNodes env subscription w).2.2.getLast?
        = some (StoreCall.updateStatus s1
            ((refreshBatch env subscription body (env.fetch subscription w).2).2.nodes.length
              : Int) ok))
    ∧ (∀ s1 c ok, StoreCall.updateStatus s1 c ok
          ∈ (UpdateSubscriptionNodes env subscription w).2.2 →
        c = ((refreshBatch env subscription body (env.fetch subscription w).2).2.nodes.length
              : Int))
    ∧ (∀ s1 nodes ok, StoreCall.associateNodes s1 nodes ok
          ∈ (UpdateSubscriptionNodes env subscription w).2.2 →
        nodes = (refreshBatch env subscription body (env.fetch subscription w).2).2.nodes) := by
  rw [UpdateSubscriptionNodes_eq]
  cases hfe : env.fetch subscription w with
  | mk r w1 =>
    rw [hfe] at hf
    simp only at hf
    subst hf
    dsimp only
    obtain ⟨hcount, hadds⟩ := refreshBatch_count env subscription body w1
    rcases hrb : refreshBatch env subscription body w1 with ⟨sub1, b⟩
    rw [hrb] at hcount hadds
    dsimp only at hcount hadds ⊢
    obtain ⟨cs3, okS, w4, hcs, heq⟩ := finishRefresh_eq env sub1 b
    rw [heq]
    dsimp only
    have hloop := refreshBatch_loopCalls env subscription body w1
    rw [hrb] at hloop
    dsimp only at hloop
    have hcs0 : successfulAdds cs3 = 0 := by
      rcases hcs with h | ⟨okA, h⟩ <;> subst h <;> simp [successfulAdds]
    have hlast : successfulAdds [StoreCall.updateStatus sub1 b.nodeCount okS] = 0 := by
      simp [successfulAdds]
    refine ⟨by rw [hcount], ?_, ⟨sub1, okS, ?_⟩, ?_, ?_⟩
    · rw [successfulAdds_append, successfulAdds_append, hcs0, hlast, hadds]
      simp
    · rw [List.getLast?_append, hcount]
      simp
    · intro s1 c ok hmem
      simp only [List.mem_append, List.mem_singleton] at hmem
      rcases hmem with (hmem | hmem) | hmem
      · have := hloop _ hmem
        simp [isLoopCall] at this
      · rcases hcs with h | ⟨okA, h⟩ <;> subst h <;> simp at hmem
      · simp only [StoreCall.updateStatus.injEq] at hmem
        rw [hmem.2.1, hcount]
    · intro s1 nodes ok hmem
      simp only [List.mem_append, List.mem_singleton] at hmem
      rcases hmem with (hmem | hmem) | hmem
      · have := hloop _ hmem
        simp [isLoopCall] at this
      · rcases hcs with h | ⟨okA, h⟩
        · subst h; simp at hmem
        · subst h
          simp only [List.mem_singleton, StoreCall.associateNodes.injEq] at hmem
          exact hmem.2.1
      · simp at hmem

/-- C12 on the sample body: two links, two successful `Add` calls, count 2. -/
theorem C12_count_is_batch_length_witness :
    ((sampleRefreshEnv (.ok sampleBody)).fetch sampleSubscription []).1 = .ok sampleBody
    ∧ (UpdateSubscriptionNodes (sampleRefreshEnv (.ok sampleBody)) sampleSubscription []).1
        = .ok 2
    ∧ successfulAdds
        (UpdateSubscriptionNodes (sampleRefreshEnv (.ok sampleBody)) sampleSubscription []).2.2
        = 2 :=
  ⟨by rfl,
   (C12_count_is_batch_length (sampleRefreshEnv (.ok sampleBody)) sampleSubscription []
      sampleBody (by rfl)).1.trans (by rfl),
   (C12_count_is_batch_length (sampleRefreshEnv (.ok sampleBody)) sampleSubscription []
      sampleBody (by rfl)).2.1.symm.trans (by decide)⟩

/-- C13. `UpdateSubscriptionNodes` returns an error exactly when the fetch (building the
request, the GET, reading the body) fails, and then it returns that error; once the body has
been read it returns the count with no error, whatever the decoders and the calls on the
store return. -/
theorem C13_error_only_from_fetch {σ : Type} (env : RefreshEnv σ)
    (subscription : ExternalSubscription) (w : σ) :
    (∀ err, (env.fetch subscription w).1 = .error err →
        (UpdateSubscriptionNodes env subscription w).1 = .error err)
    ∧ (∀ body, (env.fetch subscription w).1 = .ok body →
        ∃ c, (UpdateSubscriptionNodes env subscription w).1 = .ok c)
    ∧ (∀ err, (UpdateSubscriptionNodes env subscription w).1 = .error err →
        (env.fetch subscription w).1 = .error err) := by
  rw [UpdateSubscriptionNodes_eq]
  cases hfe : env.fetch subscription w with
  | mk r w1 =>
    cases r with
    | error e =>
      refine ⟨fun err h => ?_, fun body h => ?_, fun err h => ?_⟩
      · simpa using h
      · simp at h
      · simpa using h
    | ok body =>
      dsimp only
      obtain ⟨cs3, okS, w4, _, heq⟩ := finishRefresh_eq env
        (refreshBatch env subscription body w1).1 (refreshBatch env subscription body w1).2
      rw [heq]
      refine ⟨fun err h => ?_, fun body h => ⟨_, rfl⟩, fun err h => ?_⟩
      · simp at h
      · simp at h

/-- C13 where every call on the store fails: the refresh of the sample body returns the
count 0 and no error; and a failed fetch is returned as it is. -/
theorem C13_error_only_from_fetch_witness :
    (UpdateSubscriptionNodes (failingRefreshEnv sampleBody) sampleSubscription ()).1 = .ok 0
    ∧ (UpdateSubscriptionNodes (sampleRefreshEnv (.error "timeout")) sampleSubscription []).1
        = .error "timeout" :=
  ⟨by
    obtain ⟨c, hc⟩ := (C13_error_only_from_fetch (failingRefreshEnv sampleBody)
      sampleSubscription ()).2.1 sampleBody (by rfl)
    rw [hc]
    exact hc.symm.trans (by rfl),
   (C13_error_only_from_fetch (sampleRefreshEnv (.error "timeout")) sampleSubscription []).1
      "timeout" (by rfl)⟩

/-- The insertion of a node calls `Add` on the prefixed node. -/
theorem insertNode_adds {σ : Type} (env : RefreshEnv σ) (subscription : ExternalSubscription)
    (decodedNode : Node) (b : Batch σ) :
    ∃ ok, StoreCall.nodeAdd (withPrefix subscription decodedNode) ok
      ∈ (insertNode env subscription decodedNode b).calls := by
  unfold insertNode
  dsimp only
  split
  · exact ⟨false, by simp⟩
  · exact ⟨true, by simp⟩

/-- C11, as stated, fails: a link without a name is decoded without error to the empty
name, and the refresh inserts it, under the name made of the prefix alone. -/
theorem C11_nameless_link_is_inserted :
    lineNode (sampleRefreshEnv (.ok namelessBody)) "trojan://pw@ex.com:443"
        = some { Name := "", Link := "trojan://pw@ex.com:443" }
    ∧ (UpdateSubscriptionNodes (sampleRefreshEnv (.ok namelessBody)) sampleSubscription []).1
        = .ok 1
    ∧ (UpdateSubscriptionNodes (sampleRefreshEnv (.ok namelessBody)) sampleSubscription []).2.1
        = [{ ID := 1, Name := "[sub] ", Link := "trojan://pw@ex.com:443" }]
    ∧ StoreCall.nodeAdd { Name := "[sub] ", Link := "trojan://pw@ex.com:443" } true
        ∈ (UpdateSubscriptionNodes (sampleRefreshEnv (.ok namelessBody)) sampleSubscription
            []).2.2 :=
  ⟨by decide, by rfl, by decide, by decide⟩

/-- C11, amended. A refresh skips an entry exactly when its decoding fails and, in the
Clash path, the map has no string `name` to fall back to; in the Clash path a failed
decoding is replaced by the map's `name` when that is a string. An entry decoded without
error is inserted under the decoded name, whatever that name is: no test for an empty name
is made. -/
theorem C11_entries_skipped_on_decoding_error {σ : Type} (env : RefreshEnv σ)
    (subscription : ExternalSubscription) :
    (∀ line err rest (b : Batch σ),
        decodeNodeName env.codec { Link := line } = .error err →
        processLinks env subscription (line :: rest) b = processLinks env subscription rest b)
    ∧ (∀ line decoded rest (b : Batch σ),
        decodeNodeName env.codec { Link := line } = .ok decoded →
        processLinks env subscription (line :: rest) b
          = processLinks env subscription rest (insertNode env subscription decoded b))
    ∧ (∀ proxy configJSON err rest (b : Batch σ),
        env.jsonMarshal proxy = .ok configJSON →
        env.convertClashProxyToLink proxy ≠ "" →
        decodeNodeName env.codec
            { Link := env.convertClashProxyToLink proxy, Config := configJSON } = .error err →
        (∀ name, mapGet "name" proxy = some (.str name) →
            clashLoop env subscription (proxy :: rest) b
              = clashLoop env subscription rest (insertNode env subscription
                  { Name := name, Link := env.convertClashProxyToLink proxy,
                    Config := configJSON } b))
        ∧ ((∀ name, mapGet "name" proxy ≠ some (.str name)) →
            clashLoop env subscription (proxy :: rest) b = clashLoop env subscription rest b))
    ∧ (∀ proxy configJSON decoded rest (b : Batch σ),
        env.jsonMarshal proxy = .ok configJSON →
        env.convertClashProxyToLink proxy ≠ "" →
        decodeNodeName env.codec
            { Link := env.convertClashProxyToLink proxy, Config := configJSON } = .ok decoded →
        clashLoop env subscription (proxy :: rest) b
          = clashLoop env subscription rest (insertNode env subscription decoded b))
    ∧ (∀ decoded (b : Batch σ), ∃ ok,
        StoreCall.nodeAdd (withPrefix subscription decoded) ok
          ∈ (insertNode env subscription decoded b).calls) := by
  refine ⟨?_, ?_, ?_, ?_, insertNode_adds env subscription⟩
  · intro line err rest b h
    simp [processLinks, lineNode, h]
  · intro line decoded rest b h
    simp [processLinks, lineNode, h]
  · intro proxy configJSON err rest b hj hl hd
    constructor
    · intro name hn
      simp [clashLoop, clashNode, hj, hl, hd, hn]
    · intro hn
      have : clashNode env proxy = none := by
        unfold clashNode
        rw [hj]
        dsimp only
        rw [if_neg hl, hd]
        dsimp only
        cases hm : mapGet "name" proxy with
        | none => rfl
        | some v =>
          cases v with
          | str name => exact absurd hm (hn name)
          | _ => rfl
      simp [clashLoop, this]
  · intro proxy configJSON decoded rest b hj hl hd
    simp [clashLoop, clashNode, hj, hl, hd]

/-- C11, amended, on the sample store: the ss link without `@` fails to decode and is
skipped, the nameless trojan link is inserted. -/
theorem C11_entries_skipped_on_decoding_error_witness :
    processLinks (sampleRefreshEnv (.ok namelessBody)) sampleSubscription
        ["ss://zz#bad", "trojan://pw@ex.com:443"] ⟨[], 0, [], []⟩
      = processLinks (sampleRefreshEnv (.ok namelessBody)) sampleSubscription
        ["trojan://pw@ex.com:443"] ⟨[], 0, [], []⟩
    ∧ processLinks (sampleRefreshEnv (.ok namelessBody)) sampleSubscription
        ["trojan://pw@ex.com:443"] ⟨[], 0, [], []⟩
      = processLinks (sampleRefreshEnv (.ok namelessBody)) sampleSubscription []
        (insertNode (sampleRefreshEnv (.ok namelessBody)) sampleSubscription
          { Name := "", Link := "trojan://pw@ex.com:443" } ⟨[], 0, [], []⟩) :=
  ⟨(C11_entries_skipped_on_decoding_error (sampleRefreshEnv (.ok namelessBody))
      sampleSubscription).1 "ss://zz#bad" "bad ss link" _ _ (by rfl),
   (C11_entries_skipped_on_decoding_error (sampleRefreshEnv (.ok namelessBody))
      sampleSubscription).2.1 "trojan://pw@ex.com:443" _ _ _ (by rfl)⟩

/-! ## Properties of the store methods -/

theorem ExternalSubscription_withDefaults (es : ExternalSubscription) :
    es.withDefaults.Name = es.Name ∧ es.withDefaults.URL = es.URL
    ∧ es.withDefaults.UpdateInterval
        = (if es.UpdateInterval = 0 then 3600 else es.UpdateInterval) := by
  unfold ExternalSubscription.withDefaults
  by_cases h0 : es.UpdateInterval = 0 <;> by_cases hu : es.UserAgent = "" <;> simp [h0, hu]

theorem AddRequest_withDefaults (req : AddRequest) :
    req.withDefaults.Name = req.Name ∧ req.withDefaults.URL = req.URL
    ∧ req.withDefaults.UpdateInterval
        = (if req.UpdateInterval = 0 then 3600 else req.UpdateInterval) := by
  unfold AddRequest.withDefaults
  by_cases h0 : req.UpdateInterval = 0 <;> by_cases hu : req.UserAgent = "" <;> simp [h0, hu]

/-- A successful `Add` stores the subscription at the end of the table, with the interval
as requested, `0` replaced by `3600`; a failed `Add` leaves the store as it was. -/
theorem ExternalSubscription_Add_cases (f : Faults) (es : ExternalSubscription) (st : Store) :
    (∃ err es1, ExternalSubscription.Add f es st = ((some err, es1), st))
    ∨ (∃ es1, ExternalSubscription.Add f es st
          = ((none, es1), { st with subscriptions := st.subscriptions ++ [es1] })
        ∧ es1.UpdateInterval = (if es.UpdateInterval = 0 then 3600 else es.UpdateInterval)
        ∧ es1.Name = es.Name ∧ es1.URL = es.URL) := by
  unfold ExternalSubscription.Add
  by_cases hq : f.query = true
  · rw [if_pos hq]
    exact Or.inl ⟨_, _, rfl⟩
  · rw [if_neg hq]
    by_cases hex : st.subscriptions.any
        (fun s => decide (s.Name = es.Name ∨ s.URL = es.URL)) = true
    · rw [if_pos hex]
      exact Or.inl ⟨_, _, rfl⟩
    · rw [if_neg hex]
      dsimp only
      by_cases hc : (f.create es.withDefaults.Name
          || st.deletedSubscriptions.any
              (fun s => decide (s.Name = es.withDefaults.Name))) = true
      · rw [if_pos hc]
        exact Or.inl ⟨_, _, rfl⟩
      · rw [if_neg hc]
        obtain ⟨h1, h2, h3⟩ := ExternalSubscription_withDefaults es
        exact Or.inr ⟨_, rfl, h3, h1, h2⟩

/-- C16, as stated, fails: a request with the interval `-5` is answered with 200 and the
subscription is stored with `update_interval = -5`. -/
theorem C16_negative_interval_is_stored :
    ExternalSubscriptionAdd noFaults { Name := "a", URL := "http://a", UpdateInterval := -5 }
        emptyStore
      = (200, { subscriptions := [
          { ID := 1, Name := "a", URL := "http://a", Enabled := true, UpdateInterval := -5,
            UserAgent := "Mozilla/5.0 (Windows NT 10.0; Win64; x64) AppleWebKit/537.36" }] })
    ∧ ¬ ((1 : Int) ≤ -5) :=
  ⟨by decide, by decide⟩

/-- C16, amended. A request that is answered with 200 stores one subscription, whose
`update_interval` is the requested value with `0` replaced by the default `3600`; it is at
least `1` whenever the requested value is not negative. Any other answer leaves the
subscriptions as they were. -/
theorem C16_stored_interval (f : Faults) (req : AddRequest) (st : Store) :
    ((ExternalSubscriptionAdd f req st).1 = 200 →
      ∃ es, (ExternalSubscriptionAdd f req st).2.subscriptions = st.subscriptions ++ [es]
        ∧ es.Name = req.Name ∧ es.URL = req.URL
        ∧ es.UpdateInterval = (if req.UpdateInterval = 0 then 3600 else req.UpdateInterval)
        ∧ (0 ≤ req.UpdateInterval → 1 ≤ es.UpdateInterval))
    ∧ ((ExternalSubscriptionAdd f req st).1 ≠ 200 →
      (ExternalSubscriptionAdd f req st).2.subscriptions = st.subscriptions) := by
  unfold ExternalSubscriptionAdd
  by_cases hreq : (req.Name = "" || req.URL = "") = true
  · simp [hreq]
  · simp only [hreq, Bool.false_eq_true, if_false]
    obtain ⟨r1, r2, r3⟩ := AddRequest_withDefaults req
    rcases ExternalSubscription_Add_cases f
        { Name := req.withDefaults.Name, URL := req.withDefaults.URL,
          Enabled := req.withDefaults.Enabled,
          UpdateInterval := req.withDefaults.UpdateInterval,
          GroupName := req.withDefaults.GroupName, UserAgent := req.withDefaults.UserAgent } st
      with ⟨err, es1, h⟩ | ⟨es1, h, h1, h2, h3⟩
    · rw [h]
      refine ⟨fun h200 => ?_, fun _ => rfl⟩
      simp at h200
    · rw [h]
      refine ⟨fun _ => ⟨es1, rfl, ?_, ?_, ?_, ?_⟩, fun h200 => absurd rfl h200⟩
      · rw [h2]; exact r1
      · rw [h3]; exact r2
      · rw [h1]
        dsimp only
        rw [r3]
        by_cases h0 : req.UpdateInterval = 0 <;> simp [h0]
      · intro hnn
        rw [h1]
        dsimp only
        rw [r3]
        by_cases h0 : req.UpdateInterval = 0
        · simp [h0]
        · simp only [h0, if_false]
          omega

/-- C16, amended, on a request that leaves the interval out: it is stored with 3600. -/
theorem C16_stored_interval_witness :
    (ExternalSubscriptionAdd noFaults { Name := "a", URL := "http://a" } emptyStore).1 = 200
    ∧ ∃ es, (ExternalSubscriptionAdd noFaults { Name := "a", URL := "http://a" }
          emptyStore).2.subscriptions = emptyStore.subscriptions ++ [es]
        ∧ es.Name = "a" ∧ es.URL = "http://a"
        ∧ es.UpdateInterval = (if (0 : Int) = 0 then 3600 else 0)
        ∧ ((0 : Int) ≤ 0 → 1 ≤ es.UpdateInterval) :=
  ⟨by decide, (C16_stored_interval noFaults { Name := "a", URL := "http://a" } emptyStore).1
    (by decide)⟩

theorem Node_Del_nodes (f : Faults) (n : Node) (st : Store) :
    (Node.Del f n st).2.nodes
      = st.nodes.filter (fun m => !(decide (n.ID = m.ID) && !f.nodeDel n.ID)) := by
  unfold Node.Del
  by_cases hf : f.nodeDel n.ID = true
  · rw [if_pos hf]
    simp [hf]
  · rw [if_neg hf]
    have hf1 : f.nodeDel n.ID = false := by simpa using hf
    dsimp only
    apply List.filter_congr
    intro m _
    by_cases hm : n.ID = m.ID
    · have hm2 : m.ID = n.ID := hm.symm
      simp [hm2, hf1]
    · have hm1 : m.ID ≠ n.ID := fun h => hm h.symm
      simp [hm, hm1]

/-- The deletion loop removes the rows whose id is the id of a listed node whose deletion
did not fail. -/
theorem deleteNodes_nodes (f : Faults) : ∀ (ns : List Node) (st : Store),
    (deleteNodes f ns st).nodes
      = st.nodes.filter (fun m => !(ns.any (fun n => decide (n.ID = m.ID) && !f.nodeDel n.ID))) := by
  intro ns
  induction ns with
  | nil => intro st; simp [deleteNodes]
  | cons n rest ih =>
    intro st
    simp only [deleteNodes, ih, Node_Del_nodes, List.filter_filter, List.any_cons]
    apply List.filter_congr
    intro m _
    cases (decide (n.ID = m.ID) && !f.nodeDel n.ID) <;> simp

theorem loadSubscription_some (st : Store) (id : Int) (es : ExternalSubscription)
    (h : loadSubscription st id = some es) :
    es.ID = id ∧ es.Nodes = st.nodes.filter (fun n => isOwned st id n) := by
  unfold loadSubscription at h
  simp only [Option.map_eq_some'] at h
  obtain ⟨s, hs, rfl⟩ := h
  have := List.find?_some hs
  simp only [decide_eq_true_eq] at this
  exact ⟨this, rfl⟩

theorem isOwned_congr (st : Store) (id : Int) (n m : Node) (h : n.ID = m.ID) :
    isOwned st id n = isOwned st id m := by
  unfold isOwned
  rw [h]

/-- The nodes left by the deletion of the nodes that a subscription owns. -/
theorem deleteNodes_owned (f : Faults) (st st0 : Store) (id : Int) (h0 : st0.nodes = st.nodes) :
    (deleteNodes f (st.nodes.filter (fun n => isOwned st id n)) st0).nodes
      = st.nodes.filter (fun m => !(isOwned st id m && !f.nodeDel m.ID)) := by
  rw [deleteNodes_nodes, h0]
  apply List.filter_congr
  intro m hm
  congr 1
  by_cases hown : (isOwned st id m && !f.nodeDel m.ID) = true
  · rw [hown, List.any_eq_true]
    simp only [Bool.and_eq_true] at hown
    exact ⟨m, List.mem_filter.mpr ⟨hm, hown.1⟩, by simp [hown.2]⟩
  · have hown1 : (isOwned st id m && !f.nodeDel m.ID) = false := by simpa using hown
    rw [hown1]
    apply Bool.eq_false_iff.mpr
    intro hany
    rw [List.any_eq_true] at hany
    obtain ⟨n, hn, hcond⟩ := hany
    simp only [Bool.and_eq_true, decide_eq_true_eq] at hcond
    have hnown := (List.mem_filter.mp hn).2
    rw [isOwned_congr st id n m hcond.1] at hnown
    rw [hcond.1] at hcond
    rw [hnown, hcond.2] at hown1
    simp at hown1

/-- The deletion loop over no node leaves the store as it is. -/
theorem deleteNodes_nil (f : Faults) (st : Store) : deleteNodes f [] st = st := rfl

/-- `Delete` leaves the nodes of the store as they were, whether it succeeds or not: after
`Clear` the loop over `es.Nodes` has no node to delete. -/
theorem Delete_keeps_nodes (f : Faults) (es : ExternalSubscription) (st : Store) :
    (ExternalSubscription.Delete f es st).2.nodes = st.nodes := by
  unfold ExternalSubscription.Delete
  by_cases hfind : f.find es.ID = true
  · rw [if_pos hfind]
  · rw [if_neg hfind]
    cases hl : loadSubscription st es.ID with
    | none => rfl
    | some es1 =>
      dsimp only
      by_cases hlen : es1.Nodes.length > 0
      · rw [if_pos hlen]
        by_cases hclear : f.clear es1.ID = true
        · rw [if_pos hclear]
        · rw [if_neg hclear]
          by_cases hdel : f.delete es1.ID = true
          · rw [if_pos hdel]
            rfl
          · rw [if_neg hdel]
            rfl
      · rw [if_neg hlen]
        by_cases hdel : f.delete es1.ID = true
        · rw [if_pos hdel]
        · rw [if_neg hdel]
          rfl

/-- C15. `Delete` removes no node, whatever the store and the failures: the call
`Association("Nodes").Clear()` leaves `es.Nodes` empty, so the loop that follows it, which
is to delete the records of the associated nodes, ranges over no node. On the sample store
the `Delete` of subscription 1 succeeds, and node 10, which the subscription owns, is still
in the store. -/
theorem C15_Delete_removes_no_node :
    (∀ (f : Faults) (es : ExternalSubscription) (st : Store),
        (ExternalSubscription.Delete f es st).2.nodes = st.nodes)
    ∧ ExternalSubscription.Delete noFaults { ID := 1 } sampleStore
        = (none, { sampleStore with
            subscriptions := [], subscriptionNodes := [],
            deletedSubscriptions := [sampleSubscription] })
    ∧ isOwned sampleStore 1 { ID := 10, Name := "[sub] old", Link := "trojan://a@b:1#old" } = true
    ∧ ({ ID := 10, Name := "[sub] old", Link := "trojan://a@b:1#old" } : Node)
        ∈ (ExternalSubscription.Delete noFaults { ID := 1 } sampleStore).2.nodes :=
  ⟨Delete_keeps_nodes, by decide, by decide, by decide⟩

theorem keepsGroups_refl (st : Store) : keepsGroups st st :=
  ⟨fun _ h => h, fun _ h => h⟩

theorem keepsGroups_trans (a b c : Store) (h1 : keepsGroups a b) (h2 : keepsGroups b c) :
    keepsGroups a c :=
  ⟨fun g h => h2.1 g (h1.1 g h), fun p h => h2.2 p (h1.2 p h)⟩

theorem isMember_of_keepsGroups (st st1 : Store) (group : String) (n : Node)
    (hk : keepsGroups st st1) (h : isMember st group n = true) : isMember st1 group n = true := by
  unfold isMember at h ⊢
  rw [List.any_eq_true] at h ⊢
  obtain ⟨g, hg, hcond⟩ := h
  simp only [Bool.and_eq_true, decide_eq_true_eq, List.contains_iff_exists_mem_beq,
    beq_iff_eq] at hcond ⊢
  obtain ⟨hname, p, hp, hpe⟩ := hcond
  exact ⟨g, hk.1 g hg, hname, p, hk.2 p hp, hpe⟩

theorem Node_Add_keepsGroups (f : Faults) (n : Node) (st : Store) :
    keepsGroups st (Node.Add f n st).2 := by
  unfold Node.Add
  split
  · exact keepsGroups_refl st
  · split
    · exact keepsGroups_refl st
    · exact ⟨fun _ h => h, fun _ h => h⟩

/-- Without a fault `GroupNode.Add` returns a stored group of the requested name. -/
theorem GroupNode_Add_ok (f : Faults) (g : GroupNode) (st : Store)
    (hf : f.groupAdd g.Name = false) :
    (GroupNode.Add f g st).1.1 = none
    ∧ (GroupNode.Add f g st).1.2 ∈ (GroupNode.Add f g st).2.groups
    ∧ (GroupNode.Add f g st).1.2.Name = g.Name
    ∧ keepsGroups st (GroupNode.Add f g st).2 := by
  unfold GroupNode.Add
  rw [if_neg (by simp [hf])]
  cases hfind : st.groups.find? (fun h => decide (h.Name = g.Name)) with
  | some h =>
    dsimp only
    have h1 := List.mem_of_find?_eq_some hfind
    have h2 := List.find?_some hfind
    simp only [decide_eq_true_eq] at h2
    exact ⟨rfl, h1, h2, keepsGroups_refl st⟩
  | none =>
    dsimp only
    exact ⟨rfl, by simp, rfl, ⟨fun x hx => by simp [hx], fun _ hp => hp⟩⟩

/-- Without a fault `GroupNode.Ass` records the membership and leaves the node as it is. -/
theorem GroupNode_Ass_ok (f : Faults) (g : GroupNode) (n : Node) (st : Store)
    (hf : f.groupAss g.ID n.ID = false) :
    (GroupNode.Ass f g n st).1 = (none, n)
    ∧ (g.ID, n.ID) ∈ (GroupNode.Ass f g n st).2.groupNodes
    ∧ (GroupNode.Ass f g n st).2.groups = st.groups
    ∧ keepsGroups st (GroupNode.Ass f g n st).2 := by
  unfold GroupNode.Ass
  rw [if_neg (by simp [hf])]
  exact ⟨rfl, by simp, rfl, ⟨fun _ h => h, fun p hp => by simp [hp]⟩⟩

/-- The grouping step over the store, when the group calls do not fail: the node is left
as it is and is a member of the group named after the subscription. -/
theorem groupNode_member (f : Faults) (o : Outside) (subscription : ExternalSubscription)
    (n : Node) (st : Store) (hname : subscription.Name ≠ "")
    (hadd : ∀ name, f.groupAdd name = false) (hass : ∀ g m, f.groupAss g m = false) :
    (groupNode (storeEnv f o) subscription n st).1 = n
    ∧ keepsGroups st (groupNode (storeEnv f o) subscription n st).2.1
    ∧ isMember (groupNode (storeEnv f o) subscription n st).2.1 subscription.Name n = true := by
  obtain ⟨a1, a2, a3, a4⟩ := GroupNode_Add_ok f { Name := subscription.Name } st (hadd _)
  unfold groupNode
  rw [if_pos hname]
  dsimp only [storeEnv]
  rcases hga : GroupNode.Add f { Name := subscription.Name } st with ⟨⟨e1, g1⟩, st1⟩
  rw [hga] at a1 a2 a3 a4
  dsimp only at a1 a2 a3 a4
  subst a1
  dsimp only
  obtain ⟨b1, b2, b3, b4⟩ := GroupNode_Ass_ok f g1 n st1 (hass _ _)
  rcases hgs : GroupNode.Ass f g1 n st1 with ⟨⟨e2, n1⟩, st2⟩
  rw [hgs] at b1 b2 b3 b4
  dsimp only at b1 b2 b3 b4
  simp only [Prod.mk.injEq] at b1
  obtain ⟨rfl, rfl⟩ := b1
  dsimp only
  refine ⟨rfl, keepsGroups_trans _ _ _ a4 b4, ?_⟩
  unfold isMember
  rw [List.any_eq_true]
  refine ⟨g1, by rw [b3]; exact a2, ?_⟩
  simp only [Bool.and_eq_true, decide_eq_true_eq, List.contains_iff_exists_mem_beq, beq_iff_eq]
  exact ⟨a3, _, b2, rfl⟩

/-- One insertion keeps the members and makes the new node of the batch a member. -/
theorem insertNode_members (f : Faults) (o : Outside) (subscription : ExternalSubscription)
    (decodedNode : Node) (b : Batch Store) (hname : subscription.Name ≠ "")
    (hadd : ∀ name, f.groupAdd name = false) (hass : ∀ g m, f.groupAss g m = false)
    (h : ∀ n ∈ b.nodes, isMember b.world subscription.Name n = true) :
    ∀ n ∈ (insertNode (storeEnv f o) subscription decodedNode b).nodes,
      isMember (insertNode (storeEnv f o) subscription decodedNode b).world subscription.Name n
        = true := by
  have hk := Node_Add_keepsGroups f (withPrefix subscription decodedNode) b.world
  unfold insertNode
  dsimp only [storeEnv]
  rcases hna : Node.Add f (withPrefix subscription decodedNode) b.world with ⟨⟨e, added⟩, w1⟩
  rw [hna] at hk
  dsimp only at hk
  cases e with
  | some err =>
    dsimp only
    intro n hn
    exact isMember_of_keepsGroups _ _ _ _ hk (h n hn)
  | none =>
    dsimp only
    obtain ⟨g1, g2, g3⟩ := groupNode_member f o subscription added w1 hname hadd hass
    rcases hgr : groupNode (storeEnv f o) subscription added w1 with ⟨n1, w2, cs⟩
    rw [hgr] at g1 g2 g3
    dsimp only at g1 g2 g3
    subst g1
    have hgr2 : groupNode
        { codec := o.codec, fetch := o.fetch, base64Std := o.base64Std,
          base64URL := o.base64URL, yamlProxies := o.yamlProxies, jsonMarshal := o.jsonMarshal,
          convertClashProxyToLink := convertClashProxyToLink o.jsonMarshal,
          ClearNodes := ExternalSubscription.ClearNodes f, NodeAdd := Node.Add f,
          GroupNodeAdd := GroupNode.Add f, GroupNodeAss := GroupNode.Ass f,
          AssociateNodes := ExternalSubscription.AssociateNodes f,
          UpdateStatus := ExternalSubscription.UpdateStatus f } subscription n1 w1
        = (n1, w2, cs) := hgr
    rw [hgr2]
    dsimp only
    intro n hn
    rcases List.mem_append.mp hn with hn | hn
    · exact isMember_of_keepsGroups _ _ _ _ (keepsGroups_trans _ _ _ hk g2) (h n hn)
    · simp only [List.mem_singleton] at hn
      subst hn
      exact g3

theorem clashLoop_members (f : Faults) (o : Outside) (subscription : ExternalSubscription)
    (hname : subscription.Name ≠ "")
    (hadd : ∀ name, f.groupAdd name = false) (hass : ∀ g m, f.groupAss g m = false) :
    ∀ (proxies : List ProxyMap) (b : Batch Store),
      (∀ n ∈ b.nodes, isMember b.world subscription.Name n = true) →
      ∀ n ∈ (clashLoop (storeEnv f o) subscription proxies b).nodes,
        isMember (clashLoop (storeEnv f o) subscription proxies b).world subscription.Name n
          = true := by
  intro proxies
  induction proxies with
  | nil => intro b h; exact h
  | cons proxy rest ih =>
    intro b h
    unfold clashLoop
    split
    · exact ih b h
    · exact ih _ (insertNode_members f o subscription _ b hname hadd hass h)

theorem processLinks_members (f : Faults) (o : Outside) (subscription : ExternalSubscription)
    (hname : subscription.Name ≠ "")
    (hadd : ∀ name, f.groupAdd name = false) (hass : ∀ g m, f.groupAss g m = false) :
    ∀ (links : List String) (b : Batch Store),
      (∀ n ∈ b.nodes, isMember b.world subscription.Name n = true) →
      ∀ n ∈ (processLinks (storeEnv f o) subscription links b).nodes,
        isMember (processLinks (storeEnv f o) subscription links b).world subscription.Name n
          = true := by
  intro links
  induction links with
  | nil => intro b h; exact h
  | cons line rest ih =>
    intro b h
    unfold processLinks
    split
    · exact ih b h
    · exact ih _ (insertNode_members f o subscription _ b hname hadd hass h)

/-- `ClearNodes` leaves the receiver with the stored name. -/
theorem ClearNodes_name (f : Faults) (es : ExternalSubscription) (st : Store)
    (hstored : ∀ s ∈ st.subscriptions, s.ID = es.ID → s.Name = es.Name) :
    (ExternalSubscription.ClearNodes f es st).1.2.Name = es.Name := by
  have hload : ((loadSubscription st es.ID).getD es).Name = es.Name := by
    cases hl : loadSubscription st es.ID with
    | none => rfl
    | some es1 =>
      unfold loadSubscription at hl
      simp only [Option.map_eq_some'] at hl
      obtain ⟨s, hs, rfl⟩ := hl
      have h1 := List.mem_of_find?_eq_some hs
      have h2 := List.find?_some hs
      simp only [decide_eq_true_eq] at h2
      exact hstored s h1 h2
  unfold ExternalSubscription.ClearNodes
  dsimp only
  split
  · split <;> exact hload
  · exact hload

theorem refreshBatch_members (f : Faults) (o : Outside) (subscription : ExternalSubscription)
    (body : String) (st : Store)
    (hname : (refreshBatch (storeEnv f o) subscription body st).1.Name ≠ "")
    (hadd : ∀ name, f.groupAdd name = false) (hass : ∀ g m, f.groupAss g m = false) :
    ∀ n ∈ (refreshBatch (storeEnv f o) subscription body st).2.nodes,
      isMember (refreshBatch (storeEnv f o) subscription body st).2.world
        (refreshBatch (storeEnv f o) subscription body st).1.Name n = true := by
  unfold refreshBatch at hname ⊢
  cases hc : (storeEnv f o).ClearNodes subscription st with
  | mk p w2 =>
    obtain ⟨cerr, sub1⟩ := p
    rw [hc] at hname
    dsimp only at hname ⊢
    have h0 : ∀ n ∈ (⟨[], 0, w2, [StoreCall.clearNodes sub1]⟩ : Batch Store).nodes,
        isMember (⟨[], 0, w2, [StoreCall.clearNodes sub1]⟩ : Batch Store).world sub1.Name n
          = true := by
      intro n hn
      simp at hn
    cases hy : (storeEnv f o).yamlProxies (decodeContent (storeEnv f o) body) with
    | none =>
      dsimp only
      rw [lineLoop_eq_processLinks]
      exact processLinks_members f o sub1 hname hadd hass _ _ h0
    | some proxies =>
      dsimp only
      split
      · exact clashLoop_members f o sub1 hname hadd hass proxies _ h0
      · rw [lineLoop_eq_processLinks]
        exact processLinks_members f o sub1 hname hadd hass _ _ h0

theorem finishRefresh_keepsGroups (f : Faults) (o : Outside)
    (subscription : ExternalSubscription) (b : Batch Store) :
    keepsGroups b.world (finishRefresh (storeEnv f o) subscription b).2.1 := by
  unfold finishRefresh
  dsimp only [storeEnv]
  have hA : ∀ nodes st, keepsGroups st
      (ExternalSubscription.AssociateNodes f subscription nodes st).2 := by
    intro nodes st
    unfold ExternalSubscription.AssociateNodes
    split
    · exact keepsGroups_refl st
    · split
      · exact keepsGroups_refl st
      · exact ⟨fun _ h => h, fun _ h => h⟩
  have hU : ∀ c st, keepsGroups st (ExternalSubscription.UpdateStatus f subscription c st).2 := by
    intro c st
    unfold ExternalSubscription.UpdateStatus
    split
    · exact keepsGroups_refl st
    · exact ⟨fun _ h => h, fun _ h => h⟩
  by_cases hlen : b.nodes.length > 0
  · simp only [hlen, if_true]
    exact keepsGroups_trans _ _ _ (hA b.nodes b.world) (hU _ _)
  · simp only [hlen, if_false]
    exact hU _ _

/-- C14, as stated, fails: when the creation of the group fails the refresh logs it and
goes on; it returns the count 2 and no error, and the two nodes of its batch are in no
group. -/
theorem C14_batch_node_outside_group :
    (UpdateSubscriptionNodes (storeEnv { groupAdd := fun _ => true } (sampleOutside sampleBody))
        sampleSubscription sampleStore).1 = .ok 2
    ∧ (refreshBatch (storeEnv { groupAdd := fun _ => true } (sampleOutside sampleBody))
        sampleSubscription sampleBody sampleStore).2.nodes
      = [{ ID := 12, Name := "[sub] Test", Link := "vmess://abc#Test" },
         { ID := 13, Name := "[sub] ex", Link := "trojan://pw@ex.com:443#ex" }]
    ∧ isMember (UpdateSubscriptionNodes
        (storeEnv { groupAdd := fun _ => true } (sampleOutside sampleBody))
        sampleSubscription sampleStore).2.1 "sub"
        { ID := 12, Name := "[sub] Test", Link := "vmess://abc#Test" } = false :=
  ⟨by rfl, by decide, by decide⟩

/-- C14, amended. After a refresh of a subscription S with a non-empty name in which the
creation of the group and the association of the nodes do not fail, every node of the batch
is a member of the group named `S.name`. (A failure of one of these two calls is logged and
the node stays in the batch; with an empty name no group is used.) -/
theorem C14_batch_nodes_are_members (f : Faults) (o : Outside)
    (subscription : ExternalSubscription) (st : Store) (body : String)
    (hf : (o.fetch subscription st).1 = .ok body)
    (hname : subscription.Name ≠ "")
    (hstored : ∀ s ∈ (o.fetch subscription st).2.subscriptions,
      s.ID = subscription.ID → s.Name = subscription.Name)
    (hadd : ∀ name, f.groupAdd name = false) (hass : ∀ g m, f.groupAss g m = false) :
    ∀ n ∈ (refreshBatch (storeEnv f o) subscription body (o.fetch subscription st).2).2.nodes,
      isMember (UpdateSubscriptionNodes (storeEnv f o) subscription st).2.1
        subscription.Name n = true := by
  have hsub : (refreshBatch (storeEnv f o) subscription body (o.fetch subscription st).2).1.Name
      = subscription.Name := by
    have := ClearNodes_name f subscription (o.fetch subscription st).2 hstored
    unfold refreshBatch
    cases hc : (storeEnv f o).ClearNodes subscription (o.fetch subscription st).2 with
    | mk p w2 =>
      have hc1 : ExternalSubscription.ClearNodes f subscription (o.fetch subscription st).2
          = (p, w2) := hc
      rw [hc1] at this
      exact this
  have hmem := refreshBatch_members f o subscription body (o.fetch subscription st).2
    (by rw [hsub]; exact hname) hadd hass
  rw [hsub] at hmem
  have hfinal : (UpdateSubscriptionNodes (storeEnv f o) subscription st).2.1
      = (finishRefresh (storeEnv f o)
          (refreshBatch (storeEnv f o) subscription body (o.fetch subscription st).2).1
          (refreshBatch (storeEnv f o) subscription body (o.fetch subscription st).2).2).2.1 := by
    rw [UpdateSubscriptionNodes_eq]
    have hfe : (storeEnv f o).fetch subscription st = o.fetch subscription st := rfl
    rw [hfe]
    cases hfo : o.fetch subscription st with
    | mk r w1 =>
      rw [hfo] at hf
      dsimp only at hf
      subst hf
      rfl
  intro n hn
  rw [hfinal]
  exact isMember_of_keepsGroups _ _ _ _ (finishRefresh_keepsGroups f o _ _) (hmem n hn)

/-- C14, amended, on the sample store without faults: the two nodes of the batch are
members of the group `sub`. -/
theorem C14_batch_nodes_are_members_witness :
    ((sampleOutside sampleBody).fetch sampleSubscription sampleStore).1 = .ok sampleBody
    ∧ (refreshBatch (storeEnv noFaults (sampleOutside sampleBody)) sampleSubscription
        sampleBody sampleStore).2.nodes
      = [{ ID := 12, Name := "[sub] Test", Link := "vmess://abc#Test" },
         { ID := 13, Name := "[sub] ex", Link := "trojan://pw@ex.com:443#ex" }]
    ∧ isMember (UpdateSubscriptionNodes (storeEnv noFaults (sampleOutside sampleBody))
        sampleSubscription sampleStore).2.1 "sub"
        { ID := 12, Name := "[sub] Test", Link := "vmess://abc#Test" } = true :=
  ⟨by rfl, by decide,
   C14_batch_nodes_are_members noFaults (sampleOutside sampleBody) sampleSubscription
     sampleStore sampleBody (by rfl) (by decide) (by decide) (fun _ => rfl) (fun _ _ => rfl)
     _ (by decide)⟩

/-! ## Properties of the Clash-to-link converters -/

theorem convertClashProxyToLink_ss (jsonMarshal : ProxyMap → Except String String)
    (proxy : ProxyMap) (htype : mapGet "type" proxy = some (.str "ss")) :
    convertClashProxyToLink jsonMarshal proxy = convertShadowsocksToLink proxy := by
  simp [convertClashProxyToLink, getStringOk, htype]

/-- C17. For a Clash map of type `ss` with non-empty server, cipher and password and a port
that reads as a non-zero integer, `convertClashProxyToLink` returns
`"ss://" + base64(cipher + ":" + password) + "@" + server + ":" + decimal(port)`, followed
by `"#"` and the escaped name when the name is not empty; when one of the four fields is
missing (absent, of another type, empty, or a zero port) it returns the empty link. -/
theorem C17_ss_link (jsonMarshal : ProxyMap → Except String String) (proxy : ProxyMap)
    (htype : mapGet "type" proxy = some (.str "ss")) :
    (∀ (server cipher password : String) (port : Int),
        mapGet "server" proxy = some (.str server) → server ≠ "" →
        mapGet "cipher" proxy = some (.str cipher) → cipher ≠ "" →
        mapGet "password" proxy = some (.str password) → password ≠ "" →
        (mapGet "port" proxy = some (.int port)
          ∨ ∃ bits, mapGet "port" proxy = some (.float bits) ∧ float64Trunc bits = port) →
        port ≠ 0 →
        convertClashProxyToLink jsonMarshal proxy
          = if getString proxy "name" ≠ "" then
              "ss://" ++ base64StdEncode (cipher ++ ":" ++ password) ++ "@" ++ server ++ ":"
                ++ Itoa port ++ "#" ++ QueryEscape (getString proxy "name")
            else
              "ss://" ++ base64StdEncode (cipher ++ ":" ++ password) ++ "@" ++ server ++ ":"
                ++ Itoa port)
    ∧ ((getString proxy "server" = "" ∨ getInt proxy "port" = 0
          ∨ getString proxy "cipher" = "" ∨ getString proxy "password" = "") →
        convertClashProxyToLink jsonMarshal proxy = "") := by
  rw [convertClashProxyToLink_ss jsonMarshal proxy htype]
  constructor
  · intro server cipher password port hserver hs hcipher hc hpassword hpw hport hp
    have h1 : getString proxy "server" = server := by simp [getString, hserver]
    have h2 : getString proxy "cipher" = cipher := by simp [getString, hcipher]
    have h3 : getString proxy "password" = password := by simp [getString, hpassword]
    have h4 : getInt proxy "port" = port := by
      rcases hport with h | ⟨bits, h, hb⟩
      · simp [getInt, h]
      · simp [getInt, h, hb]
    simp only [convertShadowsocksToLink, h1, h2, h3, h4, withFragment]
    simp [hs, hc, hpw, hp]
  · intro hmiss
    simp only [convertShadowsocksToLink]
    rcases hmiss with h | h | h | h <;> simp [h]

/-- C17 on the proxy of scenario 3: the link is `ss://YWVzLTEyOC1nY206cA==@s:1234#n1`. -/
theorem C17_ss_link_witness :
    mapGet "type" sampleSS = some (.str "ss")
    ∧ convertClashProxyToLink noJSON sampleSS = "ss://YWVzLTEyOC1nY206cA==@s:1234#n1" :=
  ⟨by rfl, ((C17_ss_link noJSON sampleSS (by rfl)).1 "s" "aes-128-gcm" "p" 1234
      (by rfl) (by decide) (by rfl) (by decide) (by rfl) (by decide) (Or.inl (by rfl))
      (by decide)).trans (by decide)⟩

/-! ## Properties of `convertToInt` -/

theorem digit_char (d : Nat) (h : d < 10) :
    digitValue (Char.ofNat (48 + d)) = some d ∧ 48 ≤ (Char.ofNat (48 + d)).toNat
      ∧ (Char.ofNat (48 + d)).toNat ≤ 57 := by
  interval_cases d <;> decide

theorem parseDigits_append (xs : List Char) (c : Char) (acc : Nat) :
    parseDigits (xs ++ [c]) acc
      = (parseDigits xs acc).bind (fun v => (digitValue c).map (fun d => v * 10 + d)) := by
  induction xs generalizing acc with
  | nil =>
    cases hd : digitValue c with
    | none => simp [parseDigits, hd]
    | some d => simp [parseDigits, hd]
  | cons x xs ih =>
    cases hx : digitValue x with
    | none => simp [parseDigits, hx]
    | some d => simp [parseDigits, hx, ih]

/-- Reading the decimal digits of a number gives the number back. -/
theorem parseDigits_natDigits : ∀ (fuel n : Nat), n < fuel →
    parseDigits (natDigits fuel n) 0 = some n := by
  intro fuel
  induction fuel with
  | zero => intro n h; omega
  | succ fuel ih =>
    intro n h
    by_cases hn : n < 10
    · simp [natDigits, hn, parseDigits, (digit_char n hn).1]
    · have hlt : n / 10 < fuel := by omega
      have hmod : n % 10 < 10 := Nat.mod_lt _ (by omega)
      simp only [natDigits, hn, if_false]
      rw [parseDigits_append, ih (n / 10) hlt, (digit_char (n % 10) hmod).1]
      simp only [Option.some_bind, Option.map_some', Option.some.injEq]
      omega

/-- The decimal digits of a number start with a digit. -/
theorem natDigits_head : ∀ (fuel n : Nat), n < fuel →
    ∃ c ds, natDigits fuel n = c :: ds ∧ 48 ≤ c.toNat ∧ c.toNat ≤ 57 := by
  intro fuel
  induction fuel with
  | zero => intro n h; omega
  | succ fuel ih =>
    intro n h
    by_cases hn : n < 10
    · exact ⟨_, [], by simp [natDigits, hn], (digit_char n hn).2.1, (digit_char n hn).2.2⟩
    · have hlt : n / 10 < fuel := by omega
      obtain ⟨c, ds, hc, h1, h2⟩ := ih (n / 10) hlt
      exact ⟨c, ds ++ [Char.ofNat (48 + n % 10)], by simp [natDigits, hn, hc], h1, h2⟩

/-- `strconv.Atoi` reads back what `strconv.Itoa` wrote, for every `int`. -/
theorem Atoi_Itoa (n : Int) (h1 : minInt64 ≤ n) (h2 : n ≤ maxInt64) :
    Atoi (Itoa n) = (n, none) := by
  unfold minInt64 at h1
  unfold maxInt64 at h2
  cases n with
  | ofNat k =>
    obtain ⟨c, ds, hc, hc1, hc2⟩ := natDigits_head (k + 1) k (by omega)
    have hp := parseDigits_natDigits (k + 1) k (by omega)
    have hk : k < 2 ^ 63 := by
      have : (k : Int) ≤ 2 ^ 63 - 1 := h2
      omega
    simp only [Itoa, Atoi, hc]
    rw [if_neg (by omega), if_neg (by omega)]
    unfold atoiDigits
    rw [if_neg (by simp), ← hc, hp]
    simp only [Bool.false_eq_true, if_false, if_pos hk]
    rfl
  | negSucc k =>
    have hp := parseDigits_natDigits (k + 2) (k + 1) (by omega)
    obtain ⟨c, ds, hc, _, _⟩ := natDigits_head (k + 2) (k + 1) (by omega)
    have hk : k + 1 ≤ 2 ^ 63 := by
      have : -(2 ^ 63 : Int) ≤ Int.negSucc k := h1
      rw [Int.negSucc_eq] at this
      omega
    simp only [Itoa, Atoi]
    rw [if_neg (by decide), if_pos (by decide)]
    unfold atoiDigits
    rw [if_neg (by rw [hc]; simp), hp]
    simp only [if_true, hk]
    rw [Int.negSucc_eq]
    push_cast
    rfl

/-- A negative magnitude in the range of `int` is not an overflow. -/
theorem trunc_neg (mag : Nat) (n : Int) (hn : n = -(mag : Int)) (h1 : minInt64 ≤ n) :
    (if mag ≤ 2 ^ 63 then -(mag : Int) else minInt64) = n := by
  unfold minInt64 at h1
  have hm : mag ≤ 2 ^ 63 := by omega
  rw [if_pos hm, hn]

/-- A magnitude in the range of `int` is not an overflow. -/
theorem trunc_pos (mag : Nat) (n : Int) (hn : n = (mag : Int)) (h2 : n ≤ maxInt64) :
    (if mag < 2 ^ 63 then (mag : Int) else minInt64) = n := by
  unfold maxInt64 at h2
  have hm : mag < 2 ^ 63 := by omega
  rw [if_pos hm, hn]

/-- `int(p)` of a float that is exactly an integer in the range of `int` is that integer. -/
theorem float64Trunc_of_isInt (bits : Nat) (n : Int) (h : float64IsInt bits n = true)
    (h1 : minInt64 ≤ n) (h2 : n ≤ maxInt64) : float64Trunc bits = n := by
  unfold float64IsInt at h
  unfold float64Trunc
  dsimp only at h ⊢
  generalize bits / 2 ^ 52 % 2048 = e at h ⊢
  generalize bits % 2 ^ 52 = m at h ⊢
  generalize bits / 2 ^ 63 % 2 = s at h ⊢
  by_cases he2047 : e = 2047
  · rw [if_pos he2047] at h
    exact absurd h (by simp)
  · rw [if_neg he2047] at h
    by_cases he0 : e = 0
    · rw [if_pos he0] at h
      rw [if_pos he0]
      simp only [decide_eq_true_eq] at h
      exact h.2.symm
    · rw [if_neg he0] at h
      rw [if_neg he0, if_neg he2047]
      by_cases hge : e ≥ 1075
      · rw [if_pos hge] at h
        rw [if_pos hge]
        simp only [decide_eq_true_eq] at h
        by_cases hneg : s = 1
        · rw [if_pos hneg] at h
          rw [if_pos hneg]
          exact trunc_neg _ n h h1
        · rw [if_neg hneg] at h
          rw [if_neg hneg]
          exact trunc_pos _ n h h2
      · rw [if_neg hge] at h
        rw [if_neg hge]
        simp only [decide_eq_true_eq] at h
        obtain ⟨_, h⟩ := h
        by_cases hneg : s = 1
        · rw [if_pos hneg] at h
          rw [if_pos hneg]
          exact trunc_neg _ n h h1
        · rw [if_neg hneg] at h
          rw [if_neg hneg]
          exact trunc_pos _ n h h2

/-- `convertToInt` returns the same integer for the three forms of a number. -/
theorem convertToInt_of_arrivesAs (v : Value Empty) (n : Int) (h : arrivesAs v n)
    (h1 : minInt64 ≤ n) (h2 : n ≤ maxInt64) : convertToInt v = (n, none) := by
  rcases h with h | ⟨bits, h, hb⟩ | h
  · subst h; rfl
  · subst h
    simp [convertToInt, float64Trunc_of_isInt bits n hb h1 h2]
  · subst h
    simp [convertToInt, Atoi_Itoa n h1 h2]

/-- C20. For a decoded vmess record whose port and aid each arrive as an `int`, as a
`float64` with an integral value, or as the decimal text of the integer, `convertToInt`
returns that integer without an error in all three forms, and the proxy that `EncodeClash`
builds has that port and the decimal text of aid as `alterId`. -/
theorem C20_vmess_port_and_aid (other : Value Empty → String) (vmess : Vmess)
    (sqlconfig : SqlConfig) (port aid : Int)
    (hport : arrivesAs vmess.Port port) (haid : arrivesAs vmess.Aid aid)
    (hp1 : minInt64 ≤ port) (hp2 : port ≤ maxInt64)
    (ha1 : minInt64 ≤ aid) (ha2 : aid ≤ maxInt64) :
    convertToInt vmess.Port = (port, none)
    ∧ convertToInt vmess.Aid = (aid, none)
    ∧ (EncodeClash.vmessProxy other vmess sqlconfig).Port = port
    ∧ (EncodeClash.vmessProxy other vmess sqlconfig).AlterId = Itoa aid := by
  have h1 := convertToInt_of_arrivesAs vmess.Port port hport hp1 hp2
  have h2 := convertToInt_of_arrivesAs vmess.Aid aid haid ha1 ha2
  refine ⟨h1, h2, ?_, ?_⟩
  · simp [EncodeClash.vmessProxy, h1]
  · simp [EncodeClash.vmessProxy, h2]

/-- C20 on a record whose port is the text `443` and whose aid is the float `2.0`. -/
theorem C20_vmess_port_and_aid_witness :
    arrivesAs (Value.str "443") 443
    ∧ arrivesAs (Value.float 0x4000000000000000) 2
    ∧ (EncodeClash.vmessProxy (fun _ => "")
        { Add := "s", Port := .str "443", Aid := .float 0x4000000000000000, Ps := "n" } {}).Port
      = 443
    ∧ (EncodeClash.vmessProxy (fun _ => "")
        { Add := "s", Port := .str "443", Aid := .float 0x4000000000000000, Ps := "n" }
        {}).AlterId = "2" :=
  ⟨Or.inr (Or.inr rfl), Or.inr (Or.inl ⟨_, rfl, by decide⟩),
   (C20_vmess_port_and_aid (fun _ => "")
      { Add := "s", Port := .str "443", Aid := .float 0x4000000000000000, Ps := "n" } {}
      443 2 (Or.inr (Or.inr rfl)) (Or.inr (Or.inl ⟨_, rfl, by decide⟩))
      (by decide) (by decide) (by decide) (by decide)).2.2.1,
   (C20_vmess_port_and_aid (fun _ => "")
      { Add := "s", Port := .str "443", Aid := .float 0x4000000000000000, Ps := "n" } {}
      443 2 (Or.inr (Or.inr rfl)) (Or.inr (Or.inl ⟨_, rfl, by decide⟩))
      (by decide) (by decide) (by decide) (by decide)).2.2.2.trans (by decide)⟩

/-! ## Properties of the fragment and of TLS in the converters -/

/-- Every byte of the UTF-8 form of a character is below 256. -/
theorem utf8Char_lt (c : Char) : ∀ b ∈ utf8Char c, b < 256 := by
  have hc : c.toNat < 1114112 := by
    rcases c.valid with h | h
    · exact lt_trans h (by decide)
    · exact h.2
  intro b hb
  unfold utf8Char at hb
  dsimp only at hb
  split at hb
  · simp at hb; omega
  · split at hb
    · simp at hb; omega
    · split at hb
      · simp at hb; omega
      · simp at hb; omega

theorem utf8_lt (s : String) : ∀ b ∈ utf8 s, b < 256 := by
  intro b hb
  unfold utf8 at hb
  rw [List.mem_flatMap] at hb
  obtain ⟨c, _, hc⟩ := hb
  exact utf8Char_lt c b hc

set_option maxRecDepth 100000 in
/-- Each byte left as it is by `url.QueryEscape` is an ASCII character other than `%`. -/
theorem unreserved_char : ∀ b : Fin 256, unreserved b.val = true →
    (Char.ofNat b.val).toNat ≠ 37 ∧ utf8Char (Char.ofNat b.val) = [b.val] := by
  decide

set_option maxRecDepth 100000 in
/-- The two digits `url.QueryEscape` writes for a byte read back as the byte. -/
theorem hexDigit_unhex : ∀ b : Fin 256,
    unhex (hexDigit (b.val / 16)) = some (b.val / 16)
    ∧ unhex (hexDigit (b.val % 16)) = some (b.val % 16) := by
  decide

/-- Percent-decoding at a character other than `%`. -/
theorem percentDecode_plain (c : Char) (rest : List Char) (h : c.toNat ≠ 37) :
    percentDecode (c :: rest) = (percentDecode rest).map (fun tail => utf8Char c ++ tail) := by
  conv_lhs => unfold percentDecode
  rw [if_neg h]

/-- Percent-decoding at `%XX`. -/
theorem percentDecode_percent (h l : Char) (rest : List Char) (a b : Nat)
    (ha : unhex h = some a) (hb : unhex l = some b) :
    percentDecode (Char.ofNat 37 :: h :: l :: rest)
      = (percentDecode rest).map (fun tail => (a * 16 + b) :: tail) := by
  rw [percentDecode, if_pos (by decide)]
  simp only [ha, hb]
  cases percentDecode rest <;> rfl

/-- Percent-decoding undoes `url.QueryEscape` on every byte other than a space. -/
theorem percentDecode_escapeByte (b : Nat) (hb : b < 256) (h32 : b ≠ 32) (rest : List Char) :
    percentDecode (escapeByte b ++ rest) = (percentDecode rest).map (fun tail => b :: tail) := by
  unfold escapeByte
  by_cases hu : unreserved b = true
  · obtain ⟨h1, h2⟩ := unreserved_char ⟨b, hb⟩ hu
    dsimp only at h1 h2
    rw [if_pos hu, List.singleton_append, percentDecode_plain _ _ h1, h2]
    rfl
  · obtain ⟨h1, h2⟩ := hexDigit_unhex ⟨b, hb⟩
    dsimp only at h1 h2
    have hbyte : b / 16 * 16 + b % 16 = b := by omega
    rw [if_neg hu, if_neg h32]
    simp only [List.cons_append, List.nil_append]
    rw [percentDecode_percent _ _ rest _ _ h1 h2, hbyte]

/-- Percent-decoding undoes `url.QueryEscape` on bytes without a space. -/
theorem percentDecode_escape (bs : List Nat) (hlt : ∀ b ∈ bs, b < 256)
    (h32 : ∀ b ∈ bs, b ≠ 32) :
    percentDecode (bs.flatMap escapeByte) = some bs := by
  induction bs with
  | nil => rfl
  | cons b bs ih =>
    rw [List.flatMap_cons,
      percentDecode_escapeByte b (hlt b (List.mem_cons_self _ _)) (h32 b (List.mem_cons_self _ _)),
      ih (fun x hx => hlt x (List.mem_cons_of_mem _ hx))
        (fun x hx => h32 x (List.mem_cons_of_mem _ hx))]
    rfl

/-- A name without a space survives `url.QueryEscape` followed by percent-decoding. -/
theorem percentDecode_QueryEscape (name : String) (h32 : ∀ b ∈ utf8 name, b ≠ 32) :
    percentDecode (QueryEscape name).data = some (utf8 name) :=
  percentDecode_escape (utf8 name) (utf8_lt name) h32

/-- The `tls` of the inner JSON of a vmess link is the string the map holds under `tls`,
and empty when the map holds a value of another type there. -/
theorem vmessConfig_tls (proxy : ProxyMap) :
    mapGet "tls" (vmessConfig proxy) = some (.str (getString proxy "tls")) := by
  unfold vmessConfig
  dsimp only
  repeat' split
  all_goals rfl

/-- C18. The name `a b` does not survive the round trip: every converter appends the
fragment with `withFragment`, which writes the space as `+`; the trojan link of a map named
`a b` ends in `#a+b`, and percent-decoding the fragment gives `a+b`, not `a b`. -/
theorem C18_space_in_name_is_lost :
    (∀ link : String, withFragment link "a b" = link ++ "#a+b")
    ∧ convertClashProxyToLink noJSON sampleSpacedName = "trojan://pw@h:443#a+b"
    ∧ percentDecode (QueryEscape "a b").data = some (utf8 "a+b")
    ∧ decide (utf8 "a+b" = utf8 "a b") = false := by
  refine ⟨fun link => ?_, by decide, by decide, by decide⟩
  have h : QueryEscape "a b" = "a+b" := by decide
  simp [withFragment, h, String.append_assoc]

/-- C19. The conversion drops TLS. The inner JSON of a vmess link has an empty `tls`
whenever the map holds a boolean under `tls`, so the link of the sample with `tls: true` is
the encoding of a record with `tls` empty; the parameters of a vless link never hold
`security`, and the link of the sample with `tls: true` has no query at all. -/
theorem C19_tls_is_dropped :
    (∀ (proxy : ProxyMap) (b : Bool),
        mapGet "tls" (vmessConfig (mapSet "tls" (.bool b) proxy)) = some (.str ""))
    ∧ (∀ jsonMarshal : ProxyMap → Except String String,
        convertClashProxyToLink jsonMarshal sampleVmessTLS
          = match jsonMarshal
              [("v", .str "2"), ("ps", .str "v"), ("add", .str "s"), ("port", .int 443),
               ("id", .str "u"), ("aid", .int 0), ("scy", .str ""), ("net", .str ""),
               ("tls", .str "")] with
            | .error _ => ""
            | .ok jsonBytes => "vmess://" ++ base64StdEncode jsonBytes)
    ∧ (∀ proxy : ProxyMap,
        (vlessParams proxy).any (fun kv => decide (kv.1 = "security")) = false)
    ∧ convertClashProxyToLink noJSON sampleVlessTLS = "vless://u@s:443" := by
  refine ⟨fun proxy b => ?_, fun jsonMarshal => ?_, fun proxy => ?_, by decide⟩
  · rw [vmessConfig_tls]
    simp [getString, mapGet_mapSet_self]
  · rfl
  · unfold vlessParams
    cases getStringOk proxy "encryption" <;> cases getStringOk proxy "flow" <;>
      cases getStringOk proxy "network" <;> rfl

/-! ## Properties of `EncodeClash` -/

/-- The loop of `EncodeClash` appends, in order, the proxy of each link that has one. -/
theorem EncodeClash_proxys_eq (d : Decoders) (sqlconfig : SqlConfig) :
    ∀ (urls : List String) (proxys : List Proxy),
      EncodeClash.proxys d sqlconfig urls proxys
        = proxys ++ urls.filterMap (EncodeClash.link d sqlconfig) := by
  intro urls
  induction urls with
  | nil => intro proxys; simp [EncodeClash.proxys]
  | cons link rest ih =>
    intro proxys
    cases h : EncodeClash.link d sqlconfig link with
    | none => simp [EncodeClash.proxys, h, ih]
    | some p => simp [EncodeClash.proxys, h, ih]

/-- A vmess link that is decoded without error has a proxy. -/
theorem EncodeClash_link_vmess (d : Decoders) (sqlconfig : SqlConfig) (link : String)
    (vmess : Vmess) (hs : Scheme link = "vmess") (hd : d.DecodeVMESSURL link = (vmess, none)) :
    EncodeClash.link d sqlconfig link
      = some (EncodeClash.vmessProxy d.sprintS vmess sqlconfig) := by
  unfold EncodeClash.link
  rw [hs, hd]
  rfl

/-- A vless link that is decoded without error has a proxy. -/
theorem EncodeClash_link_vless (d : Decoders) (sqlconfig : SqlConfig) (link : String)
    (vless : Vless) (hs : Scheme link = "vless") (hd : d.DecodeVLESSURL link = (vless, none)) :
    EncodeClash.link d sqlconfig link = some (EncodeClash.vlessProxy vless sqlconfig) := by
  unfold EncodeClash.link
  rw [hs, hd]
  rfl

/-- A syntax error of `strconv.Atoi` comes with the value 0. -/
theorem Atoi_syntax (s : String) (h : (Atoi s).2 = some "invalid syntax") : (Atoi s).1 = 0 := by
  have key : ∀ (negative : Bool) (digits : List Char),
      (atoiDigits negative digits).2 = some "invalid syntax" →
      (atoiDigits negative digits).1 = 0 := by
    intro negative digits hd
    unfold atoiDigits at hd ⊢
    split
    · rfl
    · split
      · rfl
      · rename_i n hn
        rw [if_neg (by assumption), hn] at hd
        dsimp only at hd
        split at hd
        · split at hd
          · simp at hd
          · simp at hd
        · split at hd
          · simp at hd
          · simp at hd
  unfold Atoi at h ⊢
  split
  · rfl
  · rename_i c ds hc
    rw [hc] at h
    dsimp only at h
    split
    · rw [if_pos (by assumption)] at h
      exact key _ _ h
    · split
      · rw [if_neg (by assumption), if_pos (by assumption)] at h
        exact key _ _ h
      · rw [if_neg (by assumption), if_neg (by assumption)] at h
        exact key _ _ h

/-- An error of `convertToInt` other than a number out of range comes with the value 0. -/
theorem convertToInt_error (v : Value Empty)
    (h : (convertToInt v).2 = some "invalid syntax"
      ∨ (convertToInt v).2 = some "unexpected type") :
    (convertToInt v).1 = 0 := by
  cases v with
  | str s =>
    rcases h with h | h
    · exact Atoi_syntax s h
    · exfalso
      have hne : ∀ (negative : Bool) (digits : List Char),
          (atoiDigits negative digits).2 ≠ some "unexpected type" := by
        intro negative digits
        unfold atoiDigits
        split
        · decide
        · split
          · decide
          · split <;> split <;> simp
      simp only [convertToInt] at h
      unfold Atoi at h
      split at h
      · simp at h
      · split at h
        · exact hne _ _ h
        · split at h
          · exact hne _ _ h
          · exact hne _ _ h
  | int i => rcases h with h | h <;> simp [convertToInt] at h
  | float b => rcases h with h | h <;> simp [convertToInt] at h
  | null => rfl
  | bool b => rfl
  | seq xs => rfl
  | strMap m => rfl
  | genMap m => rfl
  | struct s => rfl

/-- C21, as stated, fails: the vmess record of the link has the port `abc`, for which
`convertToInt` returns an error, and `EncodeClash` emits a proxy for the link, with the
port 0. -/
theorem C21_unparsable_port_is_emitted :
    sampleDecoders.DecodeVMESSURL "vmess://port-abc"
        = ({ Add := "s", Port := .str "abc", Ps := "n" }, none)
    ∧ convertToInt (.str "abc") = (0, some "invalid syntax")
    ∧ (EncodeClash.proxys sampleDecoders {} ["vmess://port-abc"] []).map
        (fun p => (p.Name, p.Type_, p.Server, p.Port)) = [("n", "vmess", "s", 0)] := by
  refine ⟨rfl, by decide, by decide⟩

/-- C21, amended. A vmess record whose port cannot be parsed as an integer is not a parse
error in `EncodeClash`: the error of `convertToInt` is discarded and the proxy of the link
is emitted with the value that `convertToInt` returned, which is 0 for a string that is not
a number and for a value of an unexpected type. -/
theorem C21_vmess_port_error_is_discarded (d : Decoders) (sqlconfig : SqlConfig)
    (link : String) (vmess : Vmess) (hs : Scheme link = "vmess")
    (hd : d.DecodeVMESSURL link = (vmess, none)) :
    (∀ proxys, EncodeClash.proxys d sqlconfig [link] proxys
        = proxys ++ [EncodeClash.vmessProxy d.sprintS vmess sqlconfig])
    ∧ (EncodeClash.vmessProxy d.sprintS vmess sqlconfig).Port = (convertToInt vmess.Port).1
    ∧ (((convertToInt vmess.Port).2 = some "invalid syntax"
          ∨ (convertToInt vmess.Port).2 = some "unexpected type") →
        (EncodeClash.vmessProxy d.sprintS vmess sqlconfig).Port = 0)
    ∧ ((∀ i, vmess.Port ≠ .int i) → (∀ b, vmess.Port ≠ .float b) →
        (∀ s, vmess.Port ≠ .str s) →
        (convertToInt vmess.Port).2 = some "unexpected type") := by
  refine ⟨fun proxys => ?_, rfl, fun h => convertToInt_error vmess.Port h, ?_⟩
  · rw [EncodeClash_proxys_eq]
    simp [EncodeClash_link_vmess d sqlconfig link vmess hs hd]
  · intro hi hf hstr
    cases hp : vmess.Port with
    | int i => exact absurd hp (hi i)
    | float b => exact absurd hp (hf b)
    | str s => exact absurd hp (hstr s)
    | null => rfl
    | bool b => rfl
    | seq xs => rfl
    | strMap m => rfl
    | genMap m => rfl
    | struct s => rfl

/-- C21, amended, on the link whose record has the port `abc`: the proxy has the port 0. -/
theorem C21_vmess_port_error_is_discarded_witness :
    Scheme "vmess://port-abc" = "vmess"
    ∧ (convertToInt (Value.str "abc")).2 = some "invalid syntax"
    ∧ (EncodeClash.vmessProxy sampleDecoders.sprintS
        { Add := "s", Port := .str "abc", Ps := "n" } {}).Port = 0 :=
  ⟨by decide, by decide,
   (C21_vmess_port_error_is_discarded sampleDecoders {} "vmess://port-abc"
      { Add := "s", Port := .str "abc", Ps := "n" } (by decide) rfl).2.2.1
      (Or.inl (by decide))⟩

/-- C22. The name of a vmess proxy whose decoded name is empty is built with the verb `%s`
on the port, an interface value: a port that is a number is not written in decimal, the
name of the record with server `s` and the integer port `p` is `s:%!s(int=p)`, and the link
whose record has the `float64` port 443 is named `s:%!s(float64=443)`. With a string port
the name is `<server>:<port>`, and so it is in the seven other branches, whose port is an
`int` written with `%d`; a name that is not empty is kept. -/
theorem C22_vmess_numeric_port_name :
    (∀ (sprintS : Value Empty → String) (sqlconfig : SqlConfig) (add : String) (p : Int),
        (EncodeClash.vmessProxy sprintS { Add := add, Port := .int p } sqlconfig).Name
          = add ++ ":%!s(int=" ++ Itoa p ++ ")")
    ∧ (EncodeClash.vmessProxy (fun _ => "") { Add := "s", Port := .int 443 } {}).Name
        = "s:%!s(int=443)"
    ∧ (EncodeClash.proxys sampleDecoders {} ["vmess://port-443"] []).map
        (fun p => (p.Name, p.Port)) = [("s:%!s(float64=443)", 443)]
    ∧ (∀ (sprintS : Value Empty → String) (sqlconfig : SqlConfig) (add port ps : String),
        (EncodeClash.vmessProxy sprintS { Add := add, Port := .str port, Ps := ps }
          sqlconfig).Name = if ps = "" then add ++ ":" ++ port else ps)
    ∧ (∀ (ss : Ss) (sqlconfig : SqlConfig), (EncodeClash.ssProxy ss sqlconfig).Name
        = if ss.Name = "" then ss.Server ++ ":" ++ Itoa ss.Port else ss.Name)
    ∧ (∀ (ssr : Ssr) (sqlconfig : SqlConfig), (EncodeClash.ssrProxy ssr sqlconfig).Name
        = if ssr.Qurey.Remarks = "" then ssr.Server ++ ":" ++ Itoa ssr.Port
          else ssr.Qurey.Remarks)
    ∧ (∀ (trojan : Trojan) (sqlconfig : SqlConfig),
        (EncodeClash.trojanProxy trojan sqlconfig).Name
          = if trojan.Name = "" then trojan.Hostname ++ ":" ++ Itoa trojan.Port
            else trojan.Name)
    ∧ (∀ (vless : Vless) (sqlconfig : SqlConfig), (EncodeClash.vlessProxy vless sqlconfig).Name
        = if vless.Name = "" then vless.Server ++ ":" ++ Itoa vless.Port else vless.Name)
    ∧ (∀ (hy : Hy) (sqlconfig : SqlConfig), (EncodeClash.hyProxy hy sqlconfig).Name
        = if hy.Name = "" then hy.Host ++ ":" ++ Itoa hy.Port else hy.Name)
    ∧ (∀ (hy2 : Hy2) (sqlconfig : SqlConfig), (EncodeClash.hy2Proxy hy2 sqlconfig).Name
        = if hy2.Name = "" then hy2.Host ++ ":" ++ Itoa hy2.Port else hy2.Name)
    ∧ (∀ (tuic : Tuic) (sqlconfig : SqlConfig), (EncodeClash.tuicProxy tuic sqlconfig).Name
        = if tuic.Name = "" then tuic.Host ++ ":" ++ Itoa tuic.Port else tuic.Name) := by
  refine ⟨fun sprintS sqlconfig add p => ?_, by decide, by decide,
    fun sprintS sqlconfig add port ps => rfl, fun _ _ => rfl, fun _ _ => rfl, fun _ _ => rfl,
    fun _ _ => rfl, fun _ _ => rfl, fun _ _ => rfl, fun _ _ => rfl⟩
  have h : (":" : String) ++ "%!s(int=" = ":%!s(int=" := by decide
  simp only [EncodeClash.vmessProxy, fmtS, if_true, String.append_assoc]
  rw [← String.append_assoc ":" "%!s(int=", h]

/-- The `tls` of the vless branch of `EncodeClash`. -/
theorem EncodeClash_vlessProxy_tls (vless : Vless) (sqlconfig : SqlConfig) :
    (EncodeClash.vlessProxy vless sqlconfig).Tls
      = decide (vless.Query.Security ≠ "" ∧ vless.Query.Security ≠ "none") := by
  unfold EncodeClash.vlessProxy
  dsimp only
  by_cases h1 : vless.Query.Security = "none"
  · simp [h1]
  · by_cases h2 : vless.Query.Security = ""
    · simp [h2]
    · simp [h1, h2]

/-- C23. For every vless link that is decoded without error, `EncodeClash` emits the proxy
of the vless branch, whose `tls` is true when the security parameter is `tls`, `reality` or
`xtls` (or anything else that is neither empty nor `none`) and false when it is `none` or
empty. -/
theorem C23_vless_tls (d : Decoders) (sqlconfig : SqlConfig) (link : String) (vless : Vless)
    (hs : Scheme link = "vless") (hd : d.DecodeVLESSURL link = (vless, none)) :
    (∀ proxys, EncodeClash.proxys d sqlconfig [link] proxys
        = proxys ++ [EncodeClash.vlessProxy vless sqlconfig])
    ∧ (vless.Query.Security = "tls" ∨ vless.Query.Security = "reality"
        ∨ vless.Query.Security = "xtls" →
        (EncodeClash.vlessProxy vless sqlconfig).Tls = true)
    ∧ (vless.Query.Security = "none" ∨ vless.Query.Security = "" →
        (EncodeClash.vlessProxy vless sqlconfig).Tls = false)
    ∧ (EncodeClash.vlessProxy vless sqlconfig).Tls
        = decide (vless.Query.Security ≠ "" ∧ vless.Query.Security ≠ "none") := by
  refine ⟨fun proxys => ?_, fun h => ?_, fun h => ?_, EncodeClash_vlessProxy_tls vless sqlconfig⟩
  · rw [EncodeClash_proxys_eq]
    simp [EncodeClash_link_vless d sqlconfig link vless hs hd]
  · rw [EncodeClash_vlessProxy_tls]
    rcases h with h | h | h <;> rw [h] <;> decide
  · rw [EncodeClash_vlessProxy_tls]
    rcases h with h | h <;> rw [h] <;> decide

/-- C23 on the link with `security=reality`: its proxy has `tls` true. -/
theorem C23_vless_tls_witness :
    Scheme "vless://u@s:443?security=reality&pbk=k#x" = "vless"
    ∧ (EncodeClash.vlessProxy
        { Name := "x", Server := "s", Port := 443, Uuid := "u",
          Query := { Security := "reality", Pbk := "k" } } {}).Tls = true :=
  ⟨by decide,
   (C23_vless_tls sampleDecoders {} "vless://u@s:443?security=reality&pbk=k#x"
      { Name := "x", Server := "s", Port := 443, Uuid := "u",
        Query := { Security := "reality", Pbk := "k" } } (by decide) rfl).2.1
      (Or.inr (Or.inl rfl))⟩

/-! ## Properties of `EncodeClashWithNodes` -/

/-- Every proxy that the loop of `EncodeClashWithNodes` appends is the proxy of one of the
nodes. -/
theorem EncodeClashWithNodes_proxys_mem (d : Decoders) (jsonUnmarshal : JsonUnmarshal)
    (sqlconfig : SqlConfig) :
    ∀ (nodes : List (Value Empty)) (proxys ps : List Proxy),
      EncodeClashWithNodes.proxys d jsonUnmarshal sqlconfig nodes proxys = some ps →
      ∀ p ∈ ps, p ∈ proxys ∨ ∃ nodeData, Value.strMap nodeData ∈ nodes
        ∧ EncodeClashWithNodes.node d jsonUnmarshal sqlconfig nodeData = some p := by
  intro nodes
  induction nodes with
  | nil =>
    intro proxys ps h p hp
    simp only [EncodeClashWithNodes.proxys, Option.some.injEq] at h
    subst h
    exact Or.inl hp
  | cons n rest ih =>
    intro proxys ps h p hp
    cases n with
    | strMap nodeData =>
      simp only [EncodeClashWithNodes.proxys] at h
      cases hn : EncodeClashWithNodes.node d jsonUnmarshal sqlconfig nodeData with
      | none =>
        rw [hn] at h
        rcases ih proxys ps h p hp with h1 | ⟨nd, hmem, hnd⟩
        · exact Or.inl h1
        · exact Or.inr ⟨nd, List.mem_cons_of_mem _ hmem, hnd⟩
      | some q =>
        rw [hn] at h
        rcases ih (proxys ++ [q]) ps h p hp with h1 | ⟨nd, hmem, hnd⟩
        · rcases List.mem_append.mp h1 with h2 | h2
          · exact Or.inl h2
          · simp only [List.mem_singleton] at h2
            subst h2
            exact Or.inr ⟨nodeData, List.mem_cons_self _ _, hn⟩
        · exact Or.inr ⟨nd, List.mem_cons_of_mem _ hmem, hnd⟩
    | null => simp [EncodeClashWithNodes.proxys] at h
    | bool b => simp [EncodeClashWithNodes.proxys] at h
    | int i => simp [EncodeClashWithNodes.proxys] at h
    | float b => simp [EncodeClashWithNodes.proxys] at h
    | str s => simp [EncodeClashWithNodes.proxys] at h
    | seq xs => simp [EncodeClashWithNodes.proxys] at h
    | genMap m => simp [EncodeClashWithNodes.proxys] at h
    | struct s => exact s.elim

/-- A pruned map has no empty string and no empty map. -/
theorem NoEmpties_DeleteOpts {σ : Type} (m : List (String × Value σ))
    (h : WellFormed m = true) : NoEmpties (DeleteOpts m) = true := by
  rw [DeleteOpts_eq_pruneRef m h]
  exact NoEmpties_pruneRef m

/-- The test `len(opts) > 0` keeps the condition. -/
theorem NoEmpties_guard (m : Opts) (h : NoEmpties m = true) :
    NoEmpties (if m.length > 0 then m else []) = true := by
  split
  · exact h
  · rfl

theorem wsOpts_NoEmpties (path host : String) :
    NoEmpties (EncodeClashWithNodes.wsOpts path host) = true := by
  unfold EncodeClashWithNodes.wsOpts
  dsimp only
  apply NoEmpties_guard
  apply NoEmpties_DeleteOpts
  split <;> rfl

theorem vmessProxy_NoEmpties (d : Decoders) (nodeName : String) (vmess : Vmess)
    (sqlconfig : SqlConfig) :
    NoEmpties (EncodeClashWithNodes.vmessProxy d nodeName vmess sqlconfig).Ws_opts = true
    ∧ NoEmpties (EncodeClashWithNodes.vmessProxy d nodeName vmess sqlconfig).Grpc_opts = true
    ∧ NoEmpties (EncodeClashWithNodes.vmessProxy d nodeName vmess sqlconfig).Reality_opts
        = true := by
  unfold EncodeClashWithNodes.vmessProxy
  dsimp only
  refine ⟨?_, ?_, rfl⟩
  · split
    · exact wsOpts_NoEmpties _ _
    · rfl
  · split
    · exact NoEmpties_guard _ (NoEmpties_DeleteOpts _ rfl)
    · rfl

theorem vlessProxy_NoEmpties (nodeName : String) (vless : Vless) (sqlconfig : SqlConfig) :
    NoEmpties (EncodeClashWithNodes.vlessProxy nodeName vless sqlconfig).Ws_opts = true
    ∧ NoEmpties (EncodeClashWithNodes.vlessProxy nodeName vless sqlconfig).Grpc_opts = true
    ∧ NoEmpties (EncodeClashWithNodes.vlessProxy nodeName vless sqlconfig).Reality_opts
        = true := by
  unfold EncodeClashWithNodes.vlessProxy
  dsimp only
  refine ⟨?_, ?_, ?_⟩
  · split
    · exact wsOpts_NoEmpties _ _
    · rfl
  · split
    · exact NoEmpties_guard _ (NoEmpties_DeleteOpts _ rfl)
    · rfl
  · split
    · exact NoEmpties_guard _ (NoEmpties_DeleteOpts _ rfl)
    · rfl

/-- The opts maps of a record built from a link are pruned. -/
theorem linkProxy_NoEmpties (d : Decoders) (sqlconfig : SqlConfig) (nodeName link : String)
    (p : Proxy) (h : EncodeClashWithNodes.linkProxy d sqlconfig nodeName link = some p) :
    NoEmpties p.Ws_opts = true ∧ NoEmpties p.Grpc_opts = true
      ∧ NoEmpties p.Reality_opts = true := by
  unfold EncodeClashWithNodes.linkProxy at h
  split at h
  · split at h
    · simp at h
    · simp only [Option.some.injEq] at h; subst h; exact ⟨rfl, rfl, rfl⟩
  · split at h
    · split at h
      · simp at h
      · simp only [Option.some.injEq] at h; subst h; exact ⟨rfl, rfl, rfl⟩
    · split at h
      · split at h
        · simp at h
        · simp only [Option.some.injEq] at h; subst h; exact ⟨rfl, rfl, rfl⟩
      · split at h
        · split at h
          · simp at h
          · simp only [Option.some.injEq] at h; subst h
            exact vmessProxy_NoEmpties d nodeName _ sqlconfig
        · split at h
          · split at h
            · simp at h
            · simp only [Option.some.injEq] at h; subst h
              exact vlessProxy_NoEmpties nodeName _ sqlconfig
          · split at h
            · split at h
              · simp at h
              · simp only [Option.some.injEq] at h; subst h; exact ⟨rfl, rfl, rfl⟩
            · split at h
              · split at h
                · simp at h
                · simp only [Option.some.injEq] at h; subst h; exact ⟨rfl, rfl, rfl⟩
              · split at h
                · split at h
                  · simp at h
                  · simp only [Option.some.injEq] at h; subst h; exact ⟨rfl, rfl, rfl⟩
                · simp at h

/-- C24. The vless branch of `EncodeClashWithNodes` sets `tls` only for the security `tls`:
the proxy of the node whose link has `security=reality` has `tls` false, where `EncodeClash`
gives `tls` true for the same link. -/
theorem C24_vless_reality_is_not_tls :
    (∀ (nodeName : String) (vless : Vless) (sqlconfig : SqlConfig),
        (EncodeClashWithNodes.vlessProxy nodeName vless sqlconfig).Tls
          = decide (vless.Query.Security = "tls"))
    ∧ (EncodeClashWithNodes.proxys sampleDecoders sampleUnmarshal {}
        [nodeValue { Name := "n", Link := "vless://u@s:443?security=reality&pbk=k#x" }] []).map
        (fun ps => ps.map (fun p => (p.Name, p.Type_, p.Tls)))
      = some [("n", "vless", false)]
    ∧ (EncodeClash.proxys sampleDecoders {} ["vless://u@s:443?security=reality&pbk=k#x"] []).map
        (fun p => (p.Name, p.Type_, p.Tls)) = [("x", "vless", true)] :=
  ⟨fun _ _ _ => rfl, by decide, by decide⟩

/-- C28. The record built from the config of a node has only the fields that lines 379-470
copy: `client-fingerprint`, `tfo`, `up`, `down`, `obfs-password`, `peer`,
`congestion_control`, `udp_relay_mode` and `disable_sni` are never copied, `servername` is
dropped when the map has a string `sni`, and `auth_str` when it has a string `auth`. The
record of the tuic sample has no congestion control, relay mode or `disable_sni`, and the
record of the hysteria2 sample has neither the obfs password nor the servername. -/
theorem C28_config_fields_are_dropped :
    (∀ (d : Decoders) (nodeName : String) (proxy : ProxyMap),
        (EncodeClashWithNodes.configProxy d nodeName proxy).Client_fingerprint = ""
        ∧ (EncodeClashWithNodes.configProxy d nodeName proxy).Tfo = false
        ∧ (EncodeClashWithNodes.configProxy d nodeName proxy).Up = 0
        ∧ (EncodeClashWithNodes.configProxy d nodeName proxy).Down = 0
        ∧ (EncodeClashWithNodes.configProxy d nodeName proxy).Obfs_password = ""
        ∧ (EncodeClashWithNodes.configProxy d nodeName proxy).Peer = ""
        ∧ (EncodeClashWithNodes.configProxy d nodeName proxy).Congestion_control = ""
        ∧ (EncodeClashWithNodes.configProxy d nodeName proxy).Udp_relay_mode = ""
        ∧ (EncodeClashWithNodes.configProxy d nodeName proxy).Disable_sni = false)
    ∧ mapGet "congestion_control" sampleTuicConfig = some (.str "bbr")
    ∧ mapGet "udp_relay_mode" sampleTuicConfig = some (.str "native")
    ∧ mapGet "disable_sni" sampleTuicConfig = some (.bool true)
    ∧ (EncodeClashWithNodes.proxys sampleDecoders sampleUnmarshal {}
        [nodeValue { Name := "n", Link := "tuic://u:p@s:443", Config := "tuic" }] []).map
        (fun ps => ps.map (fun p =>
          (p.Name, p.Type_, p.Uuid, p.Congestion_control, p.Udp_relay_mode, p.Disable_sni)))
      = some [("n", "tuic", "u", "", "", false)]
    ∧ mapGet "obfs-password" sampleHy2Config = some (.str "o")
    ∧ mapGet "servername" sampleHy2Config = some (.str "b.example")
    ∧ (EncodeClashWithNodes.proxys sampleDecoders sampleUnmarshal {}
        [nodeValue { Name := "n", Link := "hy2://p@s:443", Config := "hy2" }] []).map
        (fun ps => ps.map (fun p => (p.Name, p.Type_, p.Obfs, p.Obfs_password, p.Sni,
          p.Servername)))
      = some [("n", "hysteria2", "salamander", "", "a.example", "")] := by
  refine ⟨fun d nodeName proxy => ⟨rfl, rfl, rfl, rfl, rfl, rfl, rfl, rfl, rfl⟩, rfl, rfl, rfl,
    rfl, rfl, rfl, rfl⟩

/-- C29, as stated, fails: the record built from the config of the node carries the
`ws-opts` of the config as it is, with its empty path and its empty `headers`. -/
theorem C29_config_opts_are_not_pruned :
    (EncodeClashWithNodes.proxys sampleDecoders sampleUnmarshal {}
        [nodeValue { Name := "n", Link := "vmess://port-443", Config := "ws" }] []).map
        (fun ps => ps.map (fun p => (p.Name, NoEmpties p.Ws_opts)))
      = some [("n", false)]
    ∧ (EncodeClashWithNodes.configProxy sampleDecoders "n" sampleWsConfig).Ws_opts
      = [("path", .str ""), ("headers", .strMap [])] :=
  ⟨by decide, rfl⟩

/-- C29, amended. Every proxy record that `EncodeClashWithNodes` builds is the record of one
of the nodes; when it is built from the link of the node (the node has no config that
parses), its `ws-opts`, `grpc-opts` and `reality-opts` contain no empty string and no empty
map, and when it is built from the config, they are the maps of the config as they are. -/
theorem C29_link_records_are_pruned (d : Decoders) (jsonUnmarshal : JsonUnmarshal)
    (sqlconfig : SqlConfig) (nodes : List (Value Empty)) (ps : List Proxy)
    (h : EncodeClashWithNodes.proxys d jsonUnmarshal sqlconfig nodes [] = some ps) :
    ∀ p ∈ ps, ∃ nodeData, Value.strMap nodeData ∈ nodes
      ∧ EncodeClashWithNodes.node d jsonUnmarshal sqlconfig nodeData = some p
      ∧ (EncodeClashWithNodes.config jsonUnmarshal nodeData = none →
          NoEmpties p.Ws_opts = true ∧ NoEmpties p.Grpc_opts = true
            ∧ NoEmpties p.Reality_opts = true)
      ∧ (∀ proxy, EncodeClashWithNodes.config jsonUnmarshal nodeData = some proxy →
          p.Ws_opts = getMap proxy "ws-opts" ∧ p.Grpc_opts = getMap proxy "grpc-opts"
            ∧ p.Reality_opts = getMap proxy "reality-opts") := by
  intro p hp
  rcases EncodeClashWithNodes_proxys_mem d jsonUnmarshal sqlconfig nodes [] ps h p hp with
    h1 | ⟨nodeData, hmem, hnode⟩
  · simp at h1
  · refine ⟨nodeData, hmem, hnode, fun hc => ?_, fun proxy hc => ?_⟩
    · unfold EncodeClashWithNodes.node at hnode
      rw [hc] at hnode
      dsimp only at hnode
      split at hnode
      · simp at hnode
      · exact linkProxy_NoEmpties d sqlconfig _ _ p hnode
    · unfold EncodeClashWithNodes.node at hnode
      rw [hc] at hnode
      simp only [Option.some.injEq] at hnode
      subst hnode
      exact ⟨rfl, rfl, rfl⟩

/-- C29, amended, on a node without config whose vless link has `security=reality`: its
record has the pruned `reality-opts`, the public key alone. -/
theorem C29_link_records_are_pruned_witness :
    (EncodeClashWithNodes.proxys sampleDecoders sampleUnmarshal {}
        [nodeValue { Name := "n", Link := "vless://u@s:443?security=reality&pbk=k#x" }] []).map
        (fun ps => ps.map (fun p => (p.Name, NoEmpties p.Reality_opts)))
      = some [("n", true)]
    ∧ ∀ p ∈ [EncodeClashWithNodes.vlessProxy "n"
          { Name := "x", Server := "s", Port := 443, Uuid := "u",
            Query := { Security := "reality", Pbk := "k" } } {}],
        ∃ nodeData, Value.strMap nodeData
            ∈ [nodeValue { Name := "n", Link := "vless://u@s:443?security=reality&pbk=k#x" }]
          ∧ EncodeClashWithNodes.node sampleDecoders sampleUnmarshal {} nodeData = some p
          ∧ (EncodeClashWithNodes.config sampleUnmarshal nodeData = none →
              NoEmpties p.Ws_opts = true ∧ NoEmpties p.Grpc_opts = true
                ∧ NoEmpties p.Reality_opts = true)
          ∧ (∀ proxy, EncodeClashWithNodes.config sampleUnmarshal nodeData = some proxy →
              p.Ws_opts = getMap proxy "ws-opts" ∧ p.Grpc_opts = getMap proxy "grpc-opts"
                ∧ p.Reality_opts = getMap proxy "reality-opts") :=
  ⟨by decide,
   C29_link_records_are_pruned sampleDecoders sampleUnmarshal {}
     [nodeValue { Name := "n", Link := "vless://u@s:443?security=reality&pbk=k#x" }] _ rfl⟩

/-! ## Properties of `GenerateYAMLConfig` -/

/-- The names that `getProxyNames` collects after the names collected so far. -/
theorem getProxyNames_foldl (proxies : List (Option ProxyMap)) :
    ∀ names : List String,
      proxies.foldl (fun (names : List String) (proxy : Option ProxyMap) =>
        match mapGet "name" (proxy.getD []) with
        | some (.str name) => names ++ [name]
        | _ => names) names
      = names ++ proxies.filterMap proxyName := by
  induction proxies with
  | nil => intro names; simp
  | cons p rest ih =>
    intro names
    rw [List.foldl_cons, ih]
    cases hm : mapGet "name" (p.getD []) with
    | none => simp [proxyName, hm]
    | some v => cases v <;> simp [proxyName, hm]

/-- `getProxyNames` gives, in order, the name of each map that has a string `name`. -/
theorem getProxyNames_eq (proxies : List (Option ProxyMap)) :
    getProxyNames proxies = proxies.filterMap proxyName := by
  unfold getProxyNames
  rw [getProxyNames_foldl]
  rfl

/-- The iteration of `GenerateYAMLConfig` on a node whose config parses to a map. -/
theorem GenerateYAMLConfig_node_config (jsonUnmarshal : JsonUnmarshal)
    (urlScheme : String → Except String String) (node : Node) (proxy : ProxyMap)
    (hc : node.Config ≠ "") (hj : jsonUnmarshal node.Config = .ok (some proxy)) :
    GenerateYAMLConfig.node jsonUnmarshal urlScheme node
      = some [some (GenerateYAMLConfig.named node proxy)] := by
  unfold GenerateYAMLConfig.node
  rw [if_pos hc, hj]

/-- C25. In `GenerateYAMLConfig`, for a node whose config parses to a map, the map appended
to `proxies` is the parsed config with `name` set to the stored name of the node when that
name is not empty: `name` then holds the stored name, every other key holds what it holds
in the parsed config, and with an empty stored name the map is the parsed config. -/
theorem C25_config_map_with_stored_name (jsonUnmarshal : JsonUnmarshal)
    (urlScheme : String → Except String String) (node : Node) (proxy : ProxyMap)
    (hc : node.Config ≠ "") (hj : jsonUnmarshal node.Config = .ok (some proxy)) :
    (∀ rest proxies,
        GenerateYAMLConfig.proxies jsonUnmarshal urlScheme (node :: rest) proxies
          = GenerateYAMLConfig.proxies jsonUnmarshal urlScheme rest
              (proxies ++ [some (GenerateYAMLConfig.named node proxy)]))
    ∧ (node.Name ≠ "" →
        mapGet "name" (GenerateYAMLConfig.named node proxy) = some (.str node.Name))
    ∧ (∀ k, k ≠ "name" → mapGet k (GenerateYAMLConfig.named node proxy) = mapGet k proxy)
    ∧ (node.Name = "" → GenerateYAMLConfig.named node proxy = proxy) := by
  refine ⟨fun rest proxies => ?_, fun hn => ?_, fun k hk => ?_, fun hn => ?_⟩
  · simp only [GenerateYAMLConfig.proxies,
      GenerateYAMLConfig_node_config jsonUnmarshal urlScheme node proxy hc hj]
  · unfold GenerateYAMLConfig.named
    rw [if_pos hn]
    exact mapGet_mapSet_self _ _ _
  · unfold GenerateYAMLConfig.named
    split
    · exact mapGet_mapSet_ne _ _ _ _ hk
    · rfl
  · unfold GenerateYAMLConfig.named
    rw [if_neg (by simpa using hn)]

/-- C25 on the node `n` with the tuic config, whose inner name is `t`: the map has the
name `n` and the server of the config. -/
theorem C25_config_map_with_stored_name_witness :
    sampleUnmarshal "tuic" = .ok (some sampleTuicConfig)
    ∧ mapGet "name" sampleTuicConfig = some (.str "t")
    ∧ mapGet "name" (GenerateYAMLConfig.named { Name := "n", Config := "tuic" } sampleTuicConfig)
        = some (.str "n")
    ∧ mapGet "server"
        (GenerateYAMLConfig.named { Name := "n", Config := "tuic" } sampleTuicConfig)
        = mapGet "server" sampleTuicConfig :=
  ⟨rfl, rfl,
   (C25_config_map_with_stored_name sampleUnmarshal sampleCodec.urlScheme
      { Name := "n", Config := "tuic" } sampleTuicConfig (by decide) rfl).2.1 (by decide),
   (C25_config_map_with_stored_name sampleUnmarshal sampleCodec.urlScheme
      { Name := "n", Config := "tuic" } sampleTuicConfig (by decide) rfl).2.2.1 "server"
      (by decide)⟩

/-- C26. The link of a node without config is not parsed: `parseProxyFromLink` knows the
schemes ss, vmess and trojan only, and returns for them a map with `type` and `name` and
nothing else. The map of the ss node has no server and no port, the vless node yields no
proxy, and `EncodeClashWithNodes` builds the full record from the same ss link. -/
theorem C26_link_is_not_parsed :
    (∀ (urlScheme : String → Except String String) (node : Node),
        parseProxyFromLink urlScheme node = none
        ∨ parseProxyFromLink urlScheme node
            = some [("type", .str "ss"), ("name", .str node.Name)]
        ∨ parseProxyFromLink urlScheme node
            = some [("type", .str "vmess"), ("name", .str node.Name)]
        ∨ parseProxyFromLink urlScheme node
            = some [("type", .str "trojan"), ("name", .str node.Name)])
    ∧ GenerateYAMLConfig.proxies sampleUnmarshal sampleCodec.urlScheme
        [{ Name := "n", Link := "ss://YWVzLTEyOC1nY206cA==@s:1234" }] []
      = some [some [("type", .str "ss"), ("name", .str "n")]]
    ∧ mapGet "server" ([("type", .str "ss"), ("name", .str "n")] : ProxyMap) = none
    ∧ mapGet "port" ([("type", .str "ss"), ("name", .str "n")] : ProxyMap) = none
    ∧ GenerateYAMLConfig.proxies sampleUnmarshal sampleCodec.urlScheme
        [{ Name := "n", Link := "vless://u@s:443?security=tls#x" }] [] = some []
    ∧ (EncodeClashWithNodes.proxys sampleDecoders sampleUnmarshal {}
        [nodeValue { Name := "n", Link := "ss://YWVzLTEyOC1nY206cA==@s:1234" }] []).map
        (fun ps => ps.map (fun p => (p.Name, p.Type_, p.Server, p.Port, p.Cipher, p.Password)))
      = some [("n", "ss", "s", 1234, "aes-128-gcm", "p")] := by
  refine ⟨fun urlScheme node => ?_, rfl, rfl, rfl, rfl, rfl⟩
  unfold parseProxyFromLink
  cases urlScheme node.Link with
  | error e => exact Or.inl rfl
  | ok scheme =>
    dsimp only
    split
    · exact Or.inr (Or.inl rfl)
    · split
      · exact Or.inr (Or.inr (Or.inl rfl))
      · split
        · exact Or.inr (Or.inr (Or.inr rfl))
        · exact Or.inl rfl

/-- C27. The document that `GenerateYAMLConfig` builds has the emitted maps under `proxies`
and exactly five groups under `proxy-groups`, of the types select, url-test, fallback,
select and select; the `proxies` of the first three are the names of the emitted maps in
order, those of the last two are `DIRECT` and `REJECT`; the url-test and the fallback group
have the interval 300 and the url `http://www.gstatic.com/generate_204`; and the last rule
is `MATCH` with the name of the first group. -/
theorem C27_document_groups_and_rules (jsonUnmarshal : JsonUnmarshal)
    (urlScheme : String → Except String String) (nodes : List Node) (doc : ProxyMap)
    (h : GenerateYAMLConfig.document jsonUnmarshal urlScheme nodes = some doc) :
    ∃ (proxies : List (Option ProxyMap)) (g1 g2 g3 g4 g5 : ProxyMap) (rules : List String)
        (name1 : String),
      GenerateYAMLConfig.proxies jsonUnmarshal urlScheme nodes [] = some proxies
      ∧ mapGet "proxies" doc = some (.seq (proxies.map proxyValue))
      ∧ mapGet "proxy-groups" doc
          = some (.seq [.strMap g1, .strMap g2, .strMap g3, .strMap g4, .strMap g5])
      ∧ mapGet "type" g1 = some (.str "select")
      ∧ mapGet "type" g2 = some (.str "url-test")
      ∧ mapGet "type" g3 = some (.str "fallback")
      ∧ mapGet "type" g4 = some (.str "select")
      ∧ mapGet "type" g5 = some (.str "select")
      ∧ mapGet "proxies" g1 = some (stringsValue (getProxyNames proxies))
      ∧ mapGet "proxies" g2 = some (stringsValue (getProxyNames proxies))
      ∧ mapGet "proxies" g3 = some (stringsValue (getProxyNames proxies))
      ∧ mapGet "proxies" g4 = some (stringsValue ["DIRECT"])
      ∧ mapGet "proxies" g5 = some (stringsValue ["REJECT"])
      ∧ mapGet "interval" g2 = some (.int 300)
      ∧ mapGet "url" g2 = some (.str "http://www.gstatic.com/generate_204")
      ∧ mapGet "interval" g3 = some (.int 300)
      ∧ mapGet "url" g3 = some (.str "http://www.gstatic.com/generate_204")
      ∧ getProxyNames proxies = proxies.filterMap proxyName
      ∧ mapGet "rules" doc = some (stringsValue rules)
      ∧ mapGet "name" g1 = some (.str name1)
      ∧ rules.getLast? = some ("MATCH," ++ name1) := by
  unfold GenerateYAMLConfig.document at h
  cases hp : GenerateYAMLConfig.proxies jsonUnmarshal urlScheme nodes [] with
  | none => rw [hp] at h; simp at h
  | some proxies =>
    rw [hp] at h
    simp only [Option.map_some', Option.some.injEq] at h
    subst h
    exact ⟨proxies, _, _, _, _, _, _, _, rfl, rfl, rfl, rfl, rfl, rfl, rfl, rfl, rfl, rfl, rfl,
      rfl, rfl, rfl, rfl, rfl, rfl, getProxyNames_eq proxies, rfl, rfl, by decide⟩

/-- C27 on the two sample nodes: the three groups list the names `n` and `m`. -/
theorem C27_document_groups_and_rules_witness :
    getProxyNames [some (mapSet "name" (.str "n") sampleTuicConfig),
        some [("type", .str "ss"), ("name", .str "m")]] = ["n", "m"]
    ∧ ∃ (proxies : List (Option ProxyMap)) (g1 g2 g3 g4 g5 : ProxyMap) (rules : List String)
        (name1 : String),
      GenerateYAMLConfig.proxies sampleUnmarshal sampleCodec.urlScheme sampleNodes []
        = some proxies
      ∧ mapGet "proxies" (GenerateYAMLConfig.clashConfig
          [some (mapSet "name" (.str "n") sampleTuicConfig),
           some [("type", .str "ss"), ("name", .str "m")]])
          = some (.seq (proxies.map proxyValue))
      ∧ mapGet "proxy-groups" (GenerateYAMLConfig.clashConfig
          [some (mapSet "name" (.str "n") sampleTuicConfig),
           some [("type", .str "ss"), ("name", .str "m")]])
          = some (.seq [.strMap g1, .strMap g2, .strMap g3, .strMap g4, .strMap g5])
      ∧ mapGet "type" g1 = some (.str "select")
      ∧ mapGet "type" g2 = some (.str "url-test")
      ∧ mapGet "type" g3 = some (.str "fallback")
      ∧ mapGet "type" g4 = some (.str "select")
      ∧ mapGet "type" g5 = some (.str "select")
      ∧ mapGet "proxies" g1 = some (stringsValue (getProxyNames proxies))
      ∧ mapGet "proxies" g2 = some (stringsValue (getProxyNames proxies))
      ∧ mapGet "proxies" g3 = some (stringsValue (getProxyNames proxies))
      ∧ mapGet "proxies" g4 = some (stringsValue ["DIRECT"])
      ∧ mapGet "proxies" g5 = some (stringsValue ["REJECT"])
      ∧ mapGet "interval" g2 = some (.int 300)
      ∧ mapGet "url" g2 = some (.str "http://www.gstatic.com/generate_204")
      ∧ mapGet "interval" g3 = some (.int 300)
      ∧ mapGet "url" g3 = some (.str "http://www.gstatic.com/generate_204")
      ∧ getProxyNames proxies = proxies.filterMap proxyName
      ∧ mapGet "rules" (GenerateYAMLConfig.clashConfig
          [some (mapSet "name" (.str "n") sampleTuicConfig),
           some [("type", .str "ss"), ("name", .str "m")]])
          = some (stringsValue rules)
      ∧ mapGet "name" g1 = some (.str name1)
      ∧ rules.getLast? = some ("MATCH," ++ name1) :=
  ⟨by decide,
   C27_document_groups_and_rules sampleUnmarshal sampleCodec.urlScheme sampleNodes
     (GenerateYAMLConfig.clashConfig
        [some (mapSet "name" (.str "n") sampleTuicConfig),
         some [("type", .str "ss"), ("name", .str "m")]]) rfl⟩

/-! ## Properties of the encoding detection -/

/-- C30, as stated, fails: the standard decoding of the body `AAAA` succeeds and gives three
zero bytes, which are not printable text, and the body is replaced by them. -/
theorem C30_unprintable_decoding_replaces_body :
    base64StdEncode threeZeroBytes = "AAAA"
    ∧ base64RefreshEnv.base64Std "AAAA" = some threeZeroBytes
    ∧ isPrintable threeZeroBytes = false
    ∧ decodeContent base64RefreshEnv "AAAA" = threeZeroBytes
    ∧ decide (decodeContent base64RefreshEnv "AAAA" = "AAAA") = false := by
  refine ⟨by decide, rfl, by decide, rfl, by decide⟩

/-- C30, amended. In the encoding detection of the refresh, the body is replaced by its
base64 decoding whenever a decode succeeds, with the standard alphabet first and the URL-safe
alphabet second, whatever the decoded bytes are; when both decodes fail the original body is
kept. The content so obtained is what the refresh parses. -/
theorem C30_body_replaced_when_a_decode_succeeds {σ : Type} (env : RefreshEnv σ)
    (body : String) :
    (∀ decoded, env.base64Std body = some decoded → decodeContent env body = decoded)
    ∧ (env.base64Std body = none →
        ∀ decoded, env.base64URL body = some decoded → decodeContent env body = decoded)
    ∧ (env.base64Std body = none → env.base64URL body = none → decodeContent env body = body)
    ∧ (∀ (subscription : ExternalSubscription) (w1 : σ),
        env.yamlProxies (decodeContent env body) = none →
        (refreshBatch env subscription body w1).2
          = lineLoop env (env.ClearNodes subscription w1).1.2
              (Split (decodeContent env body))
              ⟨[], 0, (env.ClearNodes subscription w1).2,
                [StoreCall.clearNodes (env.ClearNodes subscription w1).1.2]⟩) := by
  refine ⟨fun decoded h => ?_, fun h1 decoded h2 => ?_, fun h1 h2 => ?_,
    fun subscription w1 hy => ?_⟩
  · simp [decodeContent, h]
  · simp [decodeContent, h1, h2]
  · simp [decodeContent, h1, h2]
  · unfold refreshBatch
    cases hc : env.ClearNodes subscription w1 with
    | mk p w2 =>
      obtain ⟨cerr, sub1⟩ := p
      simp only [hy]

/-- C30, amended, on a body that is the base64 text of a trojan link: the refresh parses
the decoded link and inserts its node. -/
theorem C30_body_replaced_when_a_decode_succeeds_witness :
    base64RefreshEnv.base64Std "dHJvamFuOi8vcHdAZXguY29tOjQ0MyNleA=="
        = some "trojan://pw@ex.com:443#ex"
    ∧ decodeContent base64RefreshEnv "dHJvamFuOi8vcHdAZXguY29tOjQ0MyNleA=="
        = "trojan://pw@ex.com:443#ex"
    ∧ (refreshBatch base64RefreshEnv sampleSubscription
        "dHJvamFuOi8vcHdAZXguY29tOjQ0MyNleA==" []).2.nodes
        = [{ ID := 1, Name := "[sub] ex", Link := "trojan://pw@ex.com:443#ex" }] :=
  ⟨rfl,
   (C30_body_replaced_when_a_decode_succeeds base64RefreshEnv
      "dHJvamFuOi8vcHdAZXguY29tOjQ0MyNleA==").1 _ rfl,
   by decide⟩

/-! ## Idempotence of `DeleteOpts` -/

mutual
theorem pruneRef_of_NoEmpties {σ : Type} : ∀ (m : List (String × Value σ)),
    NoEmpties m = true → pruneRef m = m
  | [], _ => by simp [pruneRef]
  | e :: rest, h => by
    simp only [NoEmpties, Bool.and_eq_true] at h
    simp [pruneRef, pruneEntry_of_NoEmpties e h.1, pruneRef_of_NoEmpties rest h.2]
theorem pruneEntry_of_NoEmpties {σ : Type} : ∀ (e : String × Value σ),
    NoEmpties.entry e = true → pruneEntry e = some e
  | (k, v), h => by
    simp only [NoEmpties.entry] at h
    simp [pruneEntry, pruneValue_of_NoEmpties v h]
theorem pruneValue_of_NoEmpties {σ : Type} : ∀ (v : Value σ),
    NoEmpties.value v = true → pruneValue v = some v
  | .str s, h => by
    have hs : s ≠ "" := by simpa [NoEmpties.value] using h
    simp [pruneValue, hs]
  | .strMap m, h => by
    simp only [NoEmpties.value, Bool.and_eq_true, Bool.not_eq_true', List.isEmpty_eq_false] at h
    have hm := pruneRef_of_NoEmpties m h.2
    have hl : m.length ≠ 0 := by
      intro hl
      exact h.1 (List.length_eq_zero.mp hl)
    simp [pruneValue, hm, hl]
  | .null, _ => by simp [pruneValue]
  | .bool _, _ => by simp [pruneValue]
  | .int _, _ => by simp [pruneValue]
  | .float _, _ => by simp [pruneValue]
  | .seq _, _ => by simp [pruneValue]
  | .genMap _, _ => by simp [pruneValue]
  | .struct _, _ => by simp [pruneValue]
end

/-- Every key of the pruned map is a key of the map. -/
theorem pruneRef_keys {σ : Type} : ∀ (m : List (String × Value σ)),
    ∀ e1 ∈ pruneRef m, ∃ e0 ∈ m, e1.1 = e0.1
  | [], e1, h => by simp [pruneRef] at h
  | e :: rest, e1, h => by
    simp only [pruneRef, List.mem_append, Option.mem_toList, Option.mem_def] at h
    rcases h with h | h
    · exact ⟨e, List.mem_cons_self _ _, pruneEntry_key e e1 h⟩
    · obtain ⟨e0, he0, hk⟩ := pruneRef_keys rest e1 h
      exact ⟨e0, List.mem_cons_of_mem _ he0, hk⟩

mutual
theorem WellFormed_pruneRef {σ : Type} : ∀ (m : List (String × Value σ)),
    WellFormed m = true → WellFormed (pruneRef m) = true
  | [], _ => by simp [pruneRef, WellFormed]
  | e :: rest, h => by
    simp only [WellFormed, Bool.and_eq_true, List.all_eq_true, decide_eq_true_eq] at h
    obtain ⟨hwe, hne, hwr⟩ := h
    have hr := WellFormed_pruneRef rest hwr
    cases hp : pruneEntry e with
    | none => simpa [pruneRef, hp] using hr
    | some w =>
      have hw := WellFormed_pruneEntry e w hp hwe
      have hk := pruneEntry_key e w hp
      simp only [pruneRef, hp, Option.toList_some, List.singleton_append, WellFormed,
        Bool.and_eq_true, List.all_eq_true, decide_eq_true_eq]
      refine ⟨hw, ?_, hr⟩
      intro e1 he1
      obtain ⟨e0, he0, hk0⟩ := pruneRef_keys rest e1 he1
      rw [hk0, hk]
      exact hne e0 he0
theorem WellFormed_pruneEntry {σ : Type} : ∀ (e w : String × Value σ),
    pruneEntry e = some w → WellFormed.entry e = true → WellFormed.entry w = true
  | (k, v), w, h, hwf => by
    simp only [pruneEntry, Option.map_eq_some'] at h
    obtain ⟨a, ha, rfl⟩ := h
    simp only [WellFormed.entry] at hwf ⊢
    exact WellFormed_pruneValue v a ha hwf
theorem WellFormed_pruneValue {σ : Type} : ∀ (v w : Value σ),
    pruneValue v = some w → WellFormed.value v = true → WellFormed.value w = true
  | .str s, w, h, _ => by
    by_cases hs : s = ""
    · simp [pruneValue, hs] at h
    · simp only [pruneValue, hs, if_false, Option.some.injEq] at h
      subst h
      simp [WellFormed.value]
  | .strMap m, w, h, hwf => by
    simp only [WellFormed.value] at hwf
    have hm := WellFormed_pruneRef m hwf
    by_cases hl : (pruneRef m).length = 0
    · simp [pruneValue, hl] at h
    · simp only [pruneValue, hl, if_false, Option.some.injEq] at h
      subst h
      simpa [WellFormed.value] using hm
  | .null, w, h, _ => by simp [pruneValue] at h; subst h; simp [WellFormed.value]
  | .bool _, w, h, _ => by simp [pruneValue] at h; subst h; simp [WellFormed.value]
  | .int _, w, h, _ => by simp [pruneValue] at h; subst h; simp [WellFormed.value]
  | .float _, w, h, _ => by simp [pruneValue] at h; subst h; simp [WellFormed.value]
  | .seq _, w, h, _ => by simp [pruneValue] at h; subst h; simp [WellFormed.value]
  | .genMap _, w, h, _ => by simp [pruneValue] at h; subst h; simp [WellFormed.value]
  | .struct _, w, h, _ => by simp [pruneValue] at h; subst h; simp [WellFormed.value]
end

/-- C37. `DeleteOpts` is idempotent: for every opts map (a Go map, whose keys are pairwise
distinct at every level), `DeleteOpts` applied to the result of `DeleteOpts` gives that
result again; the result is a Go map too. -/
theorem C37_DeleteOpts_idempotent {σ : Type} (m : List (String × Value σ))
    (h : WellFormed m = true) :
    DeleteOpts (DeleteOpts m) = DeleteOpts m ∧ WellFormed (DeleteOpts m) = true := by
  rw [DeleteOpts_eq_pruneRef m h]
  have hwf := WellFormed_pruneRef m h
  rw [DeleteOpts_eq_pruneRef (pruneRef m) hwf]
  exact ⟨pruneRef_of_NoEmpties (pruneRef m) (NoEmpties_pruneRef m), hwf⟩

/-- C37 on a map with an empty path and a `headers` map that prunes to empty: the second
run leaves the result of the first as it is. -/
theorem C37_DeleteOpts_idempotent_witness :
    DeleteOpts (σ := Empty) [("path", .str ""), ("headers", .strMap [("Host", .str "")]),
        ("n", .int 3), ("x", .strMap [("a", .str ""), ("b", .str "v")])]
      = [("n", .int 3), ("x", .strMap [("b", .str "v")])]
    ∧ DeleteOpts (DeleteOpts (σ := Empty) [("path", .str ""),
        ("headers", .strMap [("Host", .str "")]), ("n", .int 3),
        ("x", .strMap [("a", .str ""), ("b", .str "v")])])
      = DeleteOpts (σ := Empty) [("path", .str ""), ("headers", .strMap [("Host", .str "")]),
        ("n", .int 3), ("x", .strMap [("a", .str ""), ("b", .str "v")])] :=
  ⟨by rfl, (C37_DeleteOpts_idempotent _ (by decide)).1⟩

/-! ## Agreement of the two Clash builders -/

theorem hyProxy_agree (hy : Hy) (sqlconfig : SqlConfig) (h : hy.Name ≠ "") :
    EncodeClashWithNodes.hyProxy "" hy sqlconfig = EncodeClash.hyProxy hy sqlconfig := by
  simp [EncodeClashWithNodes.hyProxy, EncodeClash.hyProxy, h]

theorem hy2Proxy_agree (hy2 : Hy2) (sqlconfig : SqlConfig) (h : hy2.Name ≠ "") :
    EncodeClashWithNodes.hy2Proxy "" hy2 sqlconfig = EncodeClash.hy2Proxy hy2 sqlconfig := by
  simp [EncodeClashWithNodes.hy2Proxy, EncodeClash.hy2Proxy, h]

theorem tuicProxy_agree (tuic : Tuic) (sqlconfig : SqlConfig) (h : tuic.Name ≠ "") :
    EncodeClashWithNodes.tuicProxy "" tuic sqlconfig = EncodeClash.tuicProxy tuic sqlconfig := by
  simp [EncodeClashWithNodes.tuicProxy, EncodeClash.tuicProxy, h]

/-- A node without a config that parses is built from its link. -/
theorem node_of_link (d : Decoders) (jsonUnmarshal : JsonUnmarshal) (sqlconfig : SqlConfig)
    (nodeData : ProxyMap) (hconfig : getString nodeData "Config" = "")
    (hlink : getString nodeData "Link" ≠ "") :
    EncodeClashWithNodes.node d jsonUnmarshal sqlconfig nodeData
      = EncodeClashWithNodes.linkProxy d sqlconfig (getString nodeData "Name")
          (getString nodeData "Link") := by
  have hc : EncodeClashWithNodes.config jsonUnmarshal nodeData = none := by
    unfold EncodeClashWithNodes.config getStringOk
    unfold getString at hconfig
    cases hm : mapGet "Config" nodeData with
    | none => rfl
    | some v =>
      rw [hm] at hconfig
      cases v <;> first | rfl | (simp only at hconfig; subst hconfig; rfl)
  unfold EncodeClashWithNodes.node
  rw [hc]
  dsimp only
  rw [if_neg hlink]

/-- C38. For a hysteria, hysteria2 or tuic link that is decoded without error to a record
with a non-empty name, `EncodeClash` on the link and `EncodeClashWithNodes` on a node with
that link, no config and an empty stored name build the same proxy record, field for field,
under the same `SqlConfig`; its type is `hysteria`, `hysteria2` or `tuic`, and the
`disable_sni` of a tuic record is true exactly when the decoded value is 1. -/
theorem C38_builders_agree (d : Decoders) (jsonUnmarshal : JsonUnmarshal)
    (sqlconfig : SqlConfig) (link : String) (nodeData : ProxyMap)
    (hlink : getString nodeData "Link" = link) (hname : getString nodeData "Name" = "")
    (hconfig : getString nodeData "Config" = "") :
    (∀ hy, Scheme link = "hy" ∨ Scheme link = "hysteria" → d.DecodeHYURL link = (hy, none) →
        hy.Name ≠ "" →
        EncodeClash.link d sqlconfig link = some (EncodeClash.hyProxy hy sqlconfig)
        ∧ EncodeClashWithNodes.node d jsonUnmarshal sqlconfig nodeData
            = some (EncodeClash.hyProxy hy sqlconfig)
        ∧ (EncodeClash.hyProxy hy sqlconfig).Type_ = "hysteria")
    ∧ (∀ hy2, Scheme link = "hy2" ∨ Scheme link = "hysteria2" →
        d.DecodeHY2URL link = (hy2, none) → hy2.Name ≠ "" →
        EncodeClash.link d sqlconfig link = some (EncodeClash.hy2Proxy hy2 sqlconfig)
        ∧ EncodeClashWithNodes.node d jsonUnmarshal sqlconfig nodeData
            = some (EncodeClash.hy2Proxy hy2 sqlconfig)
        ∧ (EncodeClash.hy2Proxy hy2 sqlconfig).Type_ = "hysteria2")
    ∧ (∀ tuic, Scheme link = "tuic" → d.DecodeTuicURL link = (tuic, none) → tuic.Name ≠ "" →
        EncodeClash.link d sqlconfig link = some (EncodeClash.tuicProxy tuic sqlconfig)
        ∧ EncodeClashWithNodes.node d jsonUnmarshal sqlconfig nodeData
            = some (EncodeClash.tuicProxy tuic sqlconfig)
        ∧ (EncodeClash.tuicProxy tuic sqlconfig).Type_ = "tuic"
        ∧ ((EncodeClash.tuicProxy tuic sqlconfig).Disable_sni = true ↔ tuic.Disable_sni = 1)) := by
  have hnode : ∀ s, Scheme link = s → s ≠ "" →
      EncodeClashWithNodes.node d jsonUnmarshal sqlconfig nodeData
        = EncodeClashWithNodes.linkProxy d sqlconfig "" link := by
    intro s hs hne
    have hl : getString nodeData "Link" ≠ "" := by
      rw [hlink]
      intro he
      rw [he] at hs
      exact hne (by rw [← hs]; rfl)
    rw [node_of_link d jsonUnmarshal sqlconfig nodeData hconfig hl, hname, hlink]
  refine ⟨fun hy hs hd hn => ?_, fun hy2 hs hd hn => ?_, fun tuic hs hd hn => ?_⟩
  · rcases hs with hs | hs
    · refine ⟨?_, ?_, rfl⟩
      · unfold EncodeClash.link
        rw [hs, hd]
        rfl
      · rw [hnode _ hs (by decide), ← hyProxy_agree hy sqlconfig hn]
        unfold EncodeClashWithNodes.linkProxy
        rw [hs, hd]
        rfl
    · refine ⟨?_, ?_, rfl⟩
      · unfold EncodeClash.link
        rw [hs, hd]
        rfl
      · rw [hnode _ hs (by decide), ← hyProxy_agree hy sqlconfig hn]
        unfold EncodeClashWithNodes.linkProxy
        rw [hs, hd]
        rfl
  · rcases hs with hs | hs
    · refine ⟨?_, ?_, rfl⟩
      · unfold EncodeClash.link
        rw [hs, hd]
        rfl
      · rw [hnode _ hs (by decide), ← hy2Proxy_agree hy2 sqlconfig hn]
        unfold EncodeClashWithNodes.linkProxy
        rw [hs, hd]
        rfl
    · refine ⟨?_, ?_, rfl⟩
      · unfold EncodeClash.link
        rw [hs, hd]
        rfl
      · rw [hnode _ hs (by decide), ← hy2Proxy_agree hy2 sqlconfig hn]
        unfold EncodeClashWithNodes.linkProxy
        rw [hs, hd]
        rfl
  · refine ⟨?_, ?_, rfl, ?_⟩
    · unfold EncodeClash.link
      rw [hs, hd]
      rfl
    · rw [hnode _ hs (by decide), ← tuicProxy_agree tuic sqlconfig hn]
      unfold EncodeClashWithNodes.linkProxy
      rw [hs, hd]
      rfl
    · simp [EncodeClash.tuicProxy]

/-- C38 on the tuic link with `disable_sni=1`: both builders give the record of the tuic
branch, whose `disable_sni` is true. -/
theorem C38_builders_agree_witness :
    Scheme "tuic://u:p@s:443?disable_sni=1#t" = "tuic"
    ∧ (EncodeClash.link sampleHyDecoders {} "tuic://u:p@s:443?disable_sni=1#t"
        = some (EncodeClash.tuicProxy
            { Name := "t", Host := "s", Port := 443, Password := "p", Uuid := "u",
              Disable_sni := 1 } {})
      ∧ EncodeClashWithNodes.node sampleHyDecoders sampleUnmarshal {}
          [("Name", .str ""), ("Link", .str "tuic://u:p@s:443?disable_sni=1#t"),
           ("Config", .str "")]
        = some (EncodeClash.tuicProxy
            { Name := "t", Host := "s", Port := 443, Password := "p", Uuid := "u",
              Disable_sni := 1 } {})
      ∧ (EncodeClash.tuicProxy
            { Name := "t", Host := "s", Port := 443, Password := "p", Uuid := "u",
              Disable_sni := 1 } {}).Type_ = "tuic"
      ∧ ((EncodeClash.tuicProxy
            { Name := "t", Host := "s", Port := 443, Password := "p", Uuid := "u",
              Disable_sni := 1 } {}).Disable_sni = true ↔ (1 : Int) = 1)) :=
  ⟨by decide,
   (C38_builders_agree sampleHyDecoders sampleUnmarshal {} "tuic://u:p@s:443?disable_sni=1#t"
      [("Name", .str ""), ("Link", .str "tuic://u:p@s:443?disable_sni=1#t"),
       ("Config", .str "")] rfl rfl rfl).2.2
      { Name := "t", Host := "s", Port := 443, Password := "p", Uuid := "u", Disable_sni := 1 }
      (by decide) rfl (by decide)⟩

/-! ## Links that `EncodeClash` skips -/

/-- The scheme of a link that starts with `ssr://`. -/
theorem Scheme_ssr (rest : String) : Scheme ("ssr://" ++ rest) = "ssr" := by
  have h : ("ssr://" ++ rest).data = 's' :: 's' :: 'r' :: ':' :: '/' :: '/' :: rest.data := by
    rw [String.data_append]
    rfl
  unfold Scheme
  rw [h]
  simp [Scheme.go, List.isPrefixOf]

/-- A link of a scheme that `EncodeClash` does not know gives no proxy. -/
theorem EncodeClash_link_unsupported (d : Decoders) (sqlconfig : SqlConfig) (link : String)
    (h : Scheme link ∉ ["ss", "ssr", "trojan", "vmess", "vless", "hy", "hysteria", "hy2",
      "hysteria2", "tuic"]) :
    EncodeClash.link d sqlconfig link = none := by
  simp only [List.mem_cons, List.mem_singleton, List.not_mem_nil, or_false, not_or] at h
  obtain ⟨h1, h2, h3, h4, h5, h6, h7, h8, h9, h10⟩ := h
  unfold EncodeClash.link
  simp [h1, h2, h3, h4, h5, h6, h7, h8, h9, h10]

/-- In every branch of `EncodeClash` but the ssr one, a link whose decoder returns an error
gives no proxy. -/
theorem EncodeClash_link_error (d : Decoders) (sqlconfig : SqlConfig) (link : String) :
    (Scheme link = "ss" → (d.DecodeSSURL link).2 ≠ none →
        EncodeClash.link d sqlconfig link = none)
    ∧ (Scheme link = "trojan" → (d.DecodeTrojanURL link).2 ≠ none →
        EncodeClash.link d sqlconfig link = none)
    ∧ (Scheme link = "vmess" → (d.DecodeVMESSURL link).2 ≠ none →
        EncodeClash.link d sqlconfig link = none)
    ∧ (Scheme link = "vless" → (d.DecodeVLESSURL link).2 ≠ none →
        EncodeClash.link d sqlconfig link = none)
    ∧ (Scheme link = "hy" ∨ Scheme link = "hysteria" → (d.DecodeHYURL link).2 ≠ none →
        EncodeClash.link d sqlconfig link = none)
    ∧ (Scheme link = "hy2" ∨ Scheme link = "hysteria2" → (d.DecodeHY2URL link).2 ≠ none →
        EncodeClash.link d sqlconfig link = none)
    ∧ (Scheme link = "tuic" → (d.DecodeTuicURL link).2 ≠ none →
        EncodeClash.link d sqlconfig link = none) := by
  refine ⟨?_, ?_, ?_, ?_, ?_, ?_, ?_⟩
  · intro hs he
    unfold EncodeClash.link
    cases hd : d.DecodeSSURL link with
    | mk r e =>
      cases e with
      | none => rw [hd] at he; exact absurd rfl he
      | some e => simp [hs]
  · intro hs he
    unfold EncodeClash.link
    cases hd : d.DecodeTrojanURL link with
    | mk r e =>
      cases e with
      | none => rw [hd] at he; exact absurd rfl he
      | some e => simp [hs]
  · intro hs he
    unfold EncodeClash.link
    cases hd : d.DecodeVMESSURL link with
    | mk r e =>
      cases e with
      | none => rw [hd] at he; exact absurd rfl he
      | some e => simp [hs]
  · intro hs he
    unfold EncodeClash.link
    cases hd : d.DecodeVLESSURL link with
    | mk r e =>
      cases e with
      | none => rw [hd] at he; exact absurd rfl he
      | some e => simp [hs]
  · intro hs he
    unfold EncodeClash.link
    cases hd : d.DecodeHYURL link with
    | mk r e =>
      cases e with
      | none => rw [hd] at he; exact absurd rfl he
      | some e => rcases hs with hs | hs <;> simp [hs]
  · intro hs he
    unfold EncodeClash.link
    cases hd : d.DecodeHY2URL link with
    | mk r e =>
      cases e with
      | none => rw [hd] at he; exact absurd rfl he
      | some e => rcases hs with hs | hs <;> simp [hs]
  · intro hs he
    unfold EncodeClash.link
    cases hd : d.DecodeTuicURL link with
    | mk r e =>
      cases e with
      | none => rw [hd] at he; exact absurd rfl he
      | some e => simp [hs]

/-- C35. The ssr branch of `EncodeClash` logs a decoding error and goes on: every link
that starts with `ssr://` contributes a proxy, built from the record that the decoder
returned with its error. The link `ssr://bad`, which the decoder rejects, gives a proxy
named `:0`, while the rejected trojan link after it and the link of an unknown scheme give
none. -/
theorem C35_ssr_error_still_emits :
    (∀ (d : Decoders) (sqlconfig : SqlConfig) (rest : String),
        EncodeClash.link d sqlconfig ("ssr://" ++ rest)
          = some (EncodeClash.ssrProxy (d.DecodeSSRURL ("ssr://" ++ rest)).1 sqlconfig))
    ∧ (sampleDecoders.DecodeSSRURL "ssr://bad").2 = some "bad link"
    ∧ (EncodeClash.proxys sampleDecoders {} ["ssr://bad", "trojan://bad", "http://x"] []).map
        (fun p => (p.Name, p.Type_, p.Server, p.Port)) = [(":0", "ssr", "", 0)] := by
  refine ⟨fun d sqlconfig rest => ?_, rfl, by decide⟩
  unfold EncodeClash.link
  rw [Scheme_ssr]
  rfl

/-! ## When the merge of `DecodeClash` aborts -/

theorem hasBadProxies_strMap (m : List (String × Doc)) :
    hasBadProxies (.strMap m) = true ↔
      ∃ v, mapGet "proxies" m = some v ∧ v ≠ .null ∧ ∀ xs, v ≠ .seq xs := by
  unfold hasBadProxies
  cases hp : mapGet "proxies" m with
  | none => simp [hp]
  | some v => cases v <;> simp [hp]

/-- The group loop aborts exactly when an entry before the first relay group has a
`proxies` that is neither null nor a sequence. -/
theorem groups_none_iff (names : List String) : ∀ gs : List Doc,
    DecodeClash.groups names gs = none ↔ badBeforeRelay gs = true := by
  intro gs
  induction gs with
  | nil => simp [DecodeClash.groups, badBeforeRelay]
  | cons pg rest ih =>
    by_cases hm : ∃ m, pg = .strMap m
    · obtain ⟨m, rfl⟩ := hm
      rw [groups_cons_strMap]
      by_cases hrel : eqString "relay" (mapGet "type" m) = true
      · simp [badBeforeRelay, isRelayGroup, hrel]
      · have hrel1 : eqString "relay" (mapGet "type" m) = false := by simpa using hrel
        simp only [hrel1, Bool.false_eq_true, if_false, badBeforeRelay, isRelayGroup,
          Bool.or_eq_true]
        cases hp : mapGet "proxies" m with
        | none =>
          have hnil : isNil (mapGet "proxies" m) = true := by rw [hp]; rfl
          rw [initProxies_of_nil m hnil]
          simp [hasBadProxies, hp, ih]
        | some v =>
          cases v with
          | null =>
            have hnil : isNil (mapGet "proxies" m) = true := by rw [hp]; rfl
            rw [initProxies_of_nil m hnil]
            simp [hasBadProxies, hp, ih]
          | seq old =>
            have hnil : isNil (mapGet "proxies" m) = false := by rw [hp]; rfl
            rw [initProxies_of_not_nil m hnil, hp]
            simp [hasBadProxies, hp, ih]
          | bool b =>
            have hnil : isNil (mapGet "proxies" m) = false := by rw [hp]; rfl
            rw [initProxies_of_not_nil m hnil, hp]
            simp [hasBadProxies, hp]
          | int i =>
            have hnil : isNil (mapGet "proxies" m) = false := by rw [hp]; rfl
            rw [initProxies_of_not_nil m hnil, hp]
            simp [hasBadProxies, hp]
          | float b =>
            have hnil : isNil (mapGet "proxies" m) = false := by rw [hp]; rfl
            rw [initProxies_of_not_nil m hnil, hp]
            simp [hasBadProxies, hp]
          | str s =>
            have hnil : isNil (mapGet "proxies" m) = false := by rw [hp]; rfl
            rw [initProxies_of_not_nil m hnil, hp]
            simp [hasBadProxies, hp]
          | strMap m1 =>
            have hnil : isNil (mapGet "proxies" m) = false := by rw [hp]; rfl
            rw [initProxies_of_not_nil m hnil, hp]
            simp [hasBadProxies, hp]
          | genMap m1 =>
            have hnil : isNil (mapGet "proxies" m) = false := by rw [hp]; rfl
            rw [initProxies_of_not_nil m hnil, hp]
            simp [hasBadProxies, hp]
          | struct s =>
            have hnil : isNil (mapGet "proxies" m) = false := by rw [hp]; rfl
            rw [initProxies_of_not_nil m hnil, hp]
            simp [hasBadProxies, hp]
    · have hno : ∀ m, pg ≠ .strMap m := fun m h => hm ⟨m, h⟩
      rw [groups_cons_other names pg rest hno]
      have h1 : isRelayGroup pg = false := by
        cases pg <;> first | rfl | exact absurd rfl (hno _)
      have h2 : hasBadProxies pg = false := by
        cases pg <;> first | rfl | exact absurd rfl (hno _)
      simp [badBeforeRelay, h1, h2, ih]

/-- The entries before the first relay group. -/
theorem badBeforeRelay_iff : ∀ gs : List Doc,
    badBeforeRelay gs = true ↔
      ∃ pre pg post, gs = pre ++ pg :: post ∧ (∀ x ∈ pre, isRelayGroup x = false)
        ∧ isRelayGroup pg = false ∧ hasBadProxies pg = true := by
  intro gs
  induction gs with
  | nil => simp [badBeforeRelay]
  | cons g rest ih =>
    by_cases hrel : isRelayGroup g = true
    · simp only [badBeforeRelay, hrel, if_true, Bool.false_eq_true, false_iff]
      rintro ⟨pre, pg, post, heq, hpre, hpg, _⟩
      cases pre with
      | nil =>
        simp only [List.nil_append, List.cons.injEq] at heq
        rw [← heq.1, hrel] at hpg
        exact absurd hpg (by decide)
      | cons x pre =>
        simp only [List.cons_append, List.cons.injEq] at heq
        have := hpre x (List.mem_cons_self _ _)
        rw [← heq.1, hrel] at this
        exact absurd this (by decide)
    · have hrel1 : isRelayGroup g = false := by simpa using hrel
      simp only [badBeforeRelay, hrel1, Bool.false_eq_true, if_false, Bool.or_eq_true]
      constructor
      · rintro (h | h)
        · exact ⟨[], g, rest, rfl, by simp, hrel1, h⟩
        · obtain ⟨pre, pg, post, heq, hpre, hpg, hbad⟩ := ih.mp h
          refine ⟨g :: pre, pg, post, by simp [heq], ?_, hpg, hbad⟩
          intro x hx
          rcases List.mem_cons.mp hx with hx | hx
          · rw [hx]; exact hrel1
          · exact hpre x hx
      · rintro ⟨pre, pg, post, heq, hpre, hpg, hbad⟩
        cases pre with
        | nil =>
          simp only [List.nil_append, List.cons.injEq] at heq
          left
          rw [heq.1]
          exact hbad
        | cons x pre =>
          simp only [List.cons_append, List.cons.injEq] at heq
          right
          exact ih.mpr ⟨pre, pg, post, heq.2, fun y hy => hpre y (List.mem_cons_of_mem _ hy),
            hpg, hbad⟩

/-- C33. The merge step of `DecodeClash` aborts (a failed type assertion) if and only if
the `proxy-groups` of the template is not a sequence, which includes an absent key, or some
entry that is a `map[string]interface{}` and stands strictly before the first relay group
has a `proxies` that is present, not null and not a sequence; for every other template the
merge completes and returns a document. -/
theorem C33_DecodeClash_aborts_iff (proxys : List Proxy) (config : Config) :
    (DecodeClash proxys config = none ↔
      ((∀ gs, mapGet (Key.str "proxy-groups") config ≠ some (.seq gs))
        ∨ ∃ gs pre m post v, mapGet (Key.str "proxy-groups") config = some (.seq gs)
            ∧ gs = pre ++ .strMap m :: post
            ∧ (∀ x ∈ pre, isRelayGroup x = false)
            ∧ isRelayGroup (.strMap m) = false
            ∧ mapGet "proxies" m = some v ∧ v ≠ .null ∧ ∀ xs, v ≠ .seq xs))
    ∧ (DecodeClash proxys config ≠ none → ∃ out, DecodeClash proxys config = some out) := by
  constructor
  · unfold DecodeClash
    simp only [addProxies_eq]
    have hne : Key.str "proxy-groups" ≠ Key.str "proxies" := by decide
    rw [mapGet_mapSet_ne _ _ _ _ hne]
    cases hg : mapGet (Key.str "proxy-groups") config with
    | none => simp
    | some g =>
      cases g with
      | seq gs =>
        simp only [Option.map_eq_none', groups_none_iff, badBeforeRelay_iff]
        constructor
        · rintro ⟨pre, pg, post, heq, hpre, hpg, hbad⟩
          right
          cases pg with
          | strMap m =>
            obtain ⟨v, hv, h1, h2⟩ := (hasBadProxies_strMap m).mp hbad
            exact ⟨gs, pre, m, post, v, rfl, heq, hpre, hpg, hv, h1, h2⟩
          | _ => simp [hasBadProxies] at hbad
        · rintro (h | ⟨gs1, pre, m, post, v, hgs, heq, hpre, hpg, hv, h1, h2⟩)
          · exact absurd rfl (h gs)
          · simp only [Option.some.injEq, Value.seq.injEq] at hgs
            subst hgs
            exact ⟨pre, .strMap m, post, heq, hpre, hpg,
              (hasBadProxies_strMap m).mpr ⟨v, hv, h1, h2⟩⟩
      | _ => simp
  · intro h
    cases hd : DecodeClash proxys config with
    | none => exact absurd hd h
    | some out => exact ⟨out, rfl⟩

/-- C33 on two templates: a scalar `proxies` in the second group aborts the merge, and the
same group after a relay group does not. -/
theorem C33_DecodeClash_aborts_iff_witness :
    DecodeClash [] badTemplate = none
    ∧ (∃ out, DecodeClash [] relayFirstTemplate = some out) :=
  ⟨(C33_DecodeClash_aborts_iff [] badTemplate).1.mpr
      (Or.inr ⟨_, [.strMap [("name", .str "auto"), ("type", .str "select")]],
        [("name", .str "broken"), ("type", .str "select"), ("proxies", .str "DIRECT")], [],
        .str "DIRECT", rfl, rfl, by simp [isRelayGroup, eqString, mapGet], by rfl, rfl,
        by simp, by simp⟩),
   (C33_DecodeClash_aborts_iff [] relayFirstTemplate).2 (by
      intro h
      have : DecodeClash [] relayFirstTemplate
          = some (mapSet (Key.str "proxy-groups") (.seq [
              .strMap [("name", .str "chain"), ("type", .str "relay"), ("proxies", .seq [])],
              .strMap [("name", .str "broken"), ("type", .str "select"),
                       ("proxies", .str "DIRECT")]])
              (mapSet (Key.str "proxies") (.seq []) relayFirstTemplate)) := by rfl
      rw [this] at h
      exact absurd h (by simp))⟩

/-! ## The links of `convertClashProxyToLink` -/

theorem HasPrefix_append (p rest : String) : HasPrefix (p ++ rest) p = true := by
  unfold HasPrefix
  rw [String.data_append, List.isPrefixOf_iff_prefix]
  exact List.prefix_append _ _

theorem withFragment_append (p rest name : String) :
    ∃ rest1, withFragment (p ++ rest) name = p ++ rest1 := by
  unfold withFragment
  split
  · exact ⟨rest ++ "#" ++ QueryEscape name, by simp [String.append_assoc]⟩
  · exact ⟨rest, rfl⟩

theorem isValidProxyLink_append (p rest : String) (hp : p ∈ validSchemes) :
    isValidProxyLink (p ++ rest) = true :=
  (isValidProxyLink_iff _).mpr ⟨p, hp, HasPrefix_append p rest⟩

theorem convertShadowsocksToLink_good (proxy : ProxyMap) :
    convertShadowsocksToLink proxy = ""
    ∨ (getString proxy "server" ≠ "" ∧ getInt proxy "port" ≠ 0
        ∧ isValidProxyLink (convertShadowsocksToLink proxy) = true) := by
  unfold convertShadowsocksToLink
  dsimp only
  split
  · exact Or.inl rfl
  · rename_i h
    simp only [Bool.or_eq_true, decide_eq_true_eq, not_or] at h
    refine Or.inr ⟨h.1.1.1, h.1.1.2, ?_⟩
    simp only [String.append_assoc]
    obtain ⟨rest1, h1⟩ := withFragment_append "ss://" _ (getString proxy "name")
    rw [h1]
    exact isValidProxyLink_append _ _ (by decide)

theorem convertShadowsocksRToLink_good (proxy : ProxyMap) :
    convertShadowsocksRToLink proxy = ""
    ∨ (getString proxy "server" ≠ "" ∧ getInt proxy "port" ≠ 0
        ∧ isValidProxyLink (convertShadowsocksRToLink proxy) = true) := by
  unfold convertShadowsocksRToLink
  dsimp only
  split
  · exact Or.inl rfl
  · rename_i h
    simp only [Bool.or_eq_true, decide_eq_true_eq, not_or] at h
    exact Or.inr ⟨h.1.1.1, h.1.1.2, isValidProxyLink_append _ _ (by decide)⟩

theorem convertVMESSToLink_good (jsonMarshal : ProxyMap → Except String String)
    (proxy : ProxyMap) :
    convertVMESSToLink jsonMarshal proxy = ""
    ∨ (getString proxy "server" ≠ "" ∧ getInt proxy "port" ≠ 0
        ∧ isValidProxyLink (convertVMESSToLink jsonMarshal proxy) = true) := by
  unfold convertVMESSToLink
  dsimp only
  split
  · exact Or.inl rfl
  · rename_i h
    simp only [Bool.or_eq_true, decide_eq_true_eq, not_or] at h
    split
    · exact Or.inl rfl
    · exact Or.inr ⟨h.1.1, h.1.2, isValidProxyLink_append _ _ (by decide)⟩

theorem convertVLESSToLink_good (proxy : ProxyMap) :
    convertVLESSToLink proxy = ""
    ∨ (getString proxy "server" ≠ "" ∧ getInt proxy "port" ≠ 0
        ∧ isValidProxyLink (convertVLESSToLink proxy) = true) := by
  unfold convertVLESSToLink
  dsimp only
  split
  · exact Or.inl rfl
  · rename_i h
    simp only [Bool.or_eq_true, decide_eq_true_eq, not_or] at h
    refine Or.inr ⟨h.1.1, h.1.2, ?_⟩
    have hlink : ∃ rest, (if (vlessParams proxy).length > 0 then
          "vless://" ++ getString proxy "uuid" ++ "@" ++ getString proxy "server" ++ ":"
            ++ Itoa (getInt proxy "port") ++ "?" ++ encodeValues (vlessParams proxy)
        else "vless://" ++ getString proxy "uuid" ++ "@" ++ getString proxy "server" ++ ":"
            ++ Itoa (getInt proxy "port")) = "vless://" ++ rest := by
      split
      · simp only [String.append_assoc]
        exact ⟨_, rfl⟩
      · simp only [String.append_assoc]
        exact ⟨_, rfl⟩
    obtain ⟨rest, hrest⟩ := hlink
    rw [hrest]
    obtain ⟨rest1, h1⟩ := withFragment_append "vless://" rest (getString proxy "name")
    rw [h1]
    exact isValidProxyLink_append _ _ (by decide)

theorem convertTrojanToLink_good (proxy : ProxyMap) :
    convertTrojanToLink proxy = ""
    ∨ (getString proxy "server" ≠ "" ∧ getInt proxy "port" ≠ 0
        ∧ isValidProxyLink (convertTrojanToLink proxy) = true) := by
  unfold convertTrojanToLink
  dsimp only
  split
  · exact Or.inl rfl
  · rename_i h
    simp only [Bool.or_eq_true, decide_eq_true_eq, not_or] at h
    refine Or.inr ⟨h.1.1, h.1.2, ?_⟩
    simp only [String.append_assoc]
    obtain ⟨rest1, h1⟩ := withFragment_append "trojan://" _ (getString proxy "name")
    rw [h1]
    exact isValidProxyLink_append _ _ (by decide)

theorem convertHysteriaToLink_good (proxy : ProxyMap) :
    convertHysteriaToLink proxy = ""
    ∨ (getString proxy "server" ≠ "" ∧ getInt proxy "port" ≠ 0
        ∧ isValidProxyLink (convertHysteriaToLink proxy) = true) := by
  unfold convertHysteriaToLink
  dsimp only
  split
  · exact Or.inl rfl
  · rename_i h
    simp only [Bool.or_eq_true, decide_eq_true_eq, not_or] at h
    refine Or.inr ⟨h.1, h.2, ?_⟩
    split
    · simp only [String.append_assoc]
      obtain ⟨rest1, h1⟩ := withFragment_append "hy2://" _ (getString proxy "name")
      rw [h1]
      exact isValidProxyLink_append _ _ (by decide)
    · simp only [String.append_assoc]
      obtain ⟨rest1, h1⟩ := withFragment_append "hy://" _ (getString proxy "name")
      rw [h1]
      exact isValidProxyLink_append _ _ (by decide)

theorem convertTuicToLink_good (proxy : ProxyMap) :
    convertTuicToLink proxy = ""
    ∨ (getString proxy "server" ≠ "" ∧ getInt proxy "port" ≠ 0
        ∧ isValidProxyLink (convertTuicToLink proxy) = true) := by
  unfold convertTuicToLink
  dsimp only
  split
  · exact Or.inl rfl
  · rename_i h
    simp only [Bool.or_eq_true, decide_eq_true_eq, not_or] at h
    refine Or.inr ⟨h.1.1.1, h.1.1.2, ?_⟩
    simp only [String.append_assoc]
    obtain ⟨rest1, h1⟩ := withFragment_append "tuic://" _ (getString proxy "name")
    rw [h1]
    exact isValidProxyLink_append _ _ (by decide)

/-- A non-empty string read by `getString` is a string of the map. -/
theorem getString_ne (proxy : ProxyMap) (k : String) (h : getString proxy k ≠ "") :
    ∃ s, mapGet k proxy = some (.str s) ∧ s ≠ "" := by
  unfold getString at h
  cases hm : mapGet k proxy with
  | none => rw [hm] at h; exact absurd rfl h
  | some v =>
    rw [hm] at h
    cases v with
    | str s => exact ⟨s, rfl, h⟩
    | _ => exact absurd rfl h

/-- A non-zero number read by `getInt` is an `int` or a `float64` of the map. -/
theorem getInt_ne (proxy : ProxyMap) (k : String) (h : getInt proxy k ≠ 0) :
    (∃ p, mapGet k proxy = some (.int p) ∧ p ≠ 0)
    ∨ (∃ bits, mapGet k proxy = some (.float bits) ∧ float64Trunc bits ≠ 0) := by
  unfold getInt at h
  cases hm : mapGet k proxy with
  | none => rw [hm] at h; exact absurd rfl h
  | some v =>
    rw [hm] at h
    cases v with
    | int p => exact Or.inl ⟨p, rfl, h⟩
    | float bits => exact Or.inr ⟨bits, rfl, h⟩
    | _ => exact absurd rfl h

theorem convertClashProxyToLink_good (jsonMarshal : ProxyMap → Except String String)
    (proxy : ProxyMap) :
    convertClashProxyToLink jsonMarshal proxy = ""
    ∨ (getString proxy "server" ≠ "" ∧ getInt proxy "port" ≠ 0
        ∧ isValidProxyLink (convertClashProxyToLink jsonMarshal proxy) = true) := by
  unfold convertClashProxyToLink
  split
  · exact Or.inl rfl
  · split
    · exact convertShadowsocksToLink_good proxy
    · split
      · exact convertShadowsocksRToLink_good proxy
      · split
        · exact convertVMESSToLink_good jsonMarshal proxy
        · split
          · exact convertVLESSToLink_good proxy
          · split
            · exact convertTrojanToLink_good proxy
            · split
              · exact convertHysteriaToLink_good proxy
              · split
                · exact convertTuicToLink_good proxy
                · exact Or.inl rfl

/-- C36. Every non-empty link that `convertClashProxyToLink` returns is accepted by
`isValidProxyLink` and comes from a map whose `server` is a non-empty string and whose
`port` is an `int` or a `float64` that converts to a non-zero integer; and for a map whose
`type` is missing, not a string, or a string other than ss, ssr, vmess, vless, trojan,
hysteria, hysteria2 and tuic, the result is the empty link. -/
theorem C36_links_are_valid (jsonMarshal : ProxyMap → Except String String)
    (proxy : ProxyMap) :
    (convertClashProxyToLink jsonMarshal proxy ≠ "" →
      isValidProxyLink (convertClashProxyToLink jsonMarshal proxy) = true
      ∧ (∃ server, mapGet "server" proxy = some (.str server) ∧ server ≠ "")
      ∧ ((∃ port, mapGet "port" proxy = some (.int port) ∧ port ≠ 0)
          ∨ ∃ bits, mapGet "port" proxy = some (.float bits) ∧ float64Trunc bits ≠ 0))
    ∧ ((∀ t, mapGet "type" proxy = some (.str t) →
          t ∉ ["ss", "ssr", "vmess", "vless", "trojan", "hysteria", "hysteria2", "tuic"]) →
        convertClashProxyToLink jsonMarshal proxy = "") := by
  constructor
  · intro hne
    rcases convertClashProxyToLink_good jsonMarshal proxy with h | ⟨hs, hp, hv⟩
    · exact absurd h hne
    · exact ⟨hv, getString_ne proxy "server" hs, getInt_ne proxy "port" hp⟩
  · intro ht
    unfold convertClashProxyToLink getStringOk
    cases hm : mapGet "type" proxy with
    | none => rfl
    | some v =>
      cases v with
      | str t =>
        have hnot := ht t hm
        simp only [List.mem_cons, List.mem_singleton, List.not_mem_nil, or_false, not_or] at hnot
        obtain ⟨h1, h2, h3, h4, h5, h6, h7, h8⟩ := hnot
        simp [h1, h2, h3, h4, h5, h6, h7, h8]
      | _ => rfl

/-- C36 on the ss proxy of scenario 3, whose link is not empty, and on a map of type
`http`. -/
theorem C36_links_are_valid_witness :
    convertClashProxyToLink noJSON sampleSS = "ss://YWVzLTEyOC1nY206cA==@s:1234#n1"
    ∧ isValidProxyLink (convertClashProxyToLink noJSON sampleSS) = true
    ∧ convertClashProxyToLink noJSON [("type", .str "http"), ("server", .str "s"),
        ("port", .int 80)] = "" :=
  ⟨by decide,
   ((C36_links_are_valid noJSON sampleSS).1 (by decide)).1,
   (C36_links_are_valid noJSON [("type", .str "http"), ("server", .str "s"),
      ("port", .int 80)]).2 (by
        intro t ht
        simp only [mapGet, if_true, Option.some.injEq, Value.str.injEq] at ht
        subst ht
        decide)⟩

/-! ## A refresh whose fetch fails -/

/-- C34. If the fetch (building the request, the GET, reading the body) fails,
`UpdateSubscriptionNodes` returns that error and makes no call on the store: no
`ClearNodes`, no insertion and no `UpdateStatus`; the world is what the fetch left, so a
fetch that leaves the store as it is leaves the nodes of the subscription, its
`last_update` and its `node_count` as they were. -/
theorem C34_fetch_failure_leaves_store {σ : Type} (env : RefreshEnv σ)
    (subscription : ExternalSubscription) (w : σ) (err : String)
    (hf : (env.fetch subscription w).1 = .error err) :
    UpdateSubscriptionNodes env subscription w = (.error err, (env.fetch subscription w).2, [])
    ∧ (UpdateSubscriptionNodes env subscription w).2.2 = []
    ∧ ((env.fetch subscription w).2 = w →
        (UpdateSubscriptionNodes env subscription w).2.1 = w) := by
  have h : UpdateSubscriptionNodes env subscription w
      = (.error err, (env.fetch subscription w).2, []) := by
    rw [UpdateSubscriptionNodes_eq]
    cases hfe : env.fetch subscription w with
    | mk r w1 =>
      rw [hfe] at hf
      dsimp only at hf
      subst hf
      rfl
  refine ⟨h, by rw [h], fun hw => by rw [h]; exact hw⟩

/-- C34 on the sample store when the fetch times out: the error is returned and the store,
with node 10 of the subscription, is as it was. -/
theorem C34_fetch_failure_leaves_store_witness :
    ((storeEnv noFaults failingOutside).fetch sampleSubscription sampleStore).1
        = .error "timeout"
    ∧ UpdateSubscriptionNodes (storeEnv noFaults failingOutside) sampleSubscription sampleStore
        = (.error "timeout", sampleStore, []) :=
  ⟨rfl, (C34_fetch_failure_leaves_store (storeEnv noFaults failingOutside) sampleSubscription
      sampleStore "timeout" rfl).1⟩

/-! ## The link check of `NodeAdd` -/

/-- C32. The check of `NodeAdd` joins its two conditions with `&&`, so it rejects the empty
link only: the link `abc`, which is not empty and has no `://`, passes it, and the node is
decoded, stored and answered with 200, with or without a name. -/
theorem C32_link_without_scheme_is_stored :
    Contains "abc" "://" = false
    ∧ NodeAdd sampleCodec noFaults "abc" "x" "" emptyStore
        = (200, { nodes := [{ ID := 1, Name := "x", Link := "abc" }] })
    ∧ NodeAdd sampleCodec noFaults "abc" "" "" emptyStore
        = (200, { nodes := [{ ID := 1, Name := "", Link := "abc" }] })
    ∧ (∀ (c : LinkCodec) (f : Faults) (name group : String) (st : Store),
        NodeAdd c f "" name group st = (400, st)) := by
  refine ⟨by decide, by decide, by decide, fun c f name group st => ?_⟩
  unfold NodeAdd
  rfl

/-! ## The pagination of `NodeGet` -/

theorem wrapInt64_of_range (x : Int) (h1 : -(2 ^ 63) ≤ x) (h2 : x < 2 ^ 63) :
    wrapInt64 x = x := by
  unfold wrapInt64
  omega

theorem wrapInt64_wrapInt64_pred (x : Int) :
    wrapInt64 (wrapInt64 x - 1) = wrapInt64 (x - 1) := by
  unfold wrapInt64
  omega

/-- The number of pages is the ceiling of `total / pageSize`, short of an overflow. -/
theorem totalPages_ceil (total pageSize : Int) (h0 : 0 ≤ total) (hp1 : 1 ≤ pageSize)
    (hmax : total + pageSize - 1 ≤ maxInt64) :
    NodeGet.totalPages total pageSize = ⌈(total : ℚ) / (pageSize : ℚ)⌉ := by
  unfold maxInt64 at hmax
  unfold NodeGet.totalPages
  rw [wrapInt64_wrapInt64_pred,
    wrapInt64_of_range (total + pageSize - 1) (by omega) (by omega),
    Int.tdiv_eq_ediv (by omega) (by omega)]
  symm
  have hp : (0 : Int) < pageSize := by omega
  have hpq : (0 : ℚ) < (pageSize : ℚ) := by exact_mod_cast hp
  have h1 : (total + pageSize - 1) / pageSize * pageSize ≤ total + pageSize - 1 :=
    Int.ediv_mul_le _ (by omega)
  have h2 : total + pageSize - 1 < ((total + pageSize - 1) / pageSize + 1) * pageSize :=
    Int.lt_ediv_add_one_mul_self _ hp
  rw [Int.ceil_eq_iff]
  constructor
  · rw [lt_div_iff₀ hpq]
    have h3 : ((total + pageSize - 1) / pageSize - 1) * pageSize < total := by nlinarith
    exact_mod_cast h3
  · rw [div_le_iff₀ hpq]
    have h4 : total ≤ (total + pageSize - 1) / pageSize * pageSize := by nlinarith
    exact_mod_cast h4

theorem Atoi_failed (s : String) (hs : (Atoi s).2 ≠ none ∨ (Atoi s).1 < 1) :
    ((Atoi s).2.isSome || decide ((Atoi s).1 < 1)) = true := by
  rcases hs with hs | hs
  · cases he : (Atoi s).2 with
    | none => exact absurd he hs
    | some e => simp
  · simp [hs]

theorem Atoi_passed (s : String) (he : (Atoi s).2 = none) (hs : 1 ≤ (Atoi s).1) :
    ((Atoi s).2.isSome || decide ((Atoi s).1 < 1)) = false := by
  simp [he, hs]

theorem NodeGet_page_failed (s : String) (hs : (Atoi s).2 ≠ none ∨ (Atoi s).1 < 1) :
    NodeGet.page s = 1 := by
  unfold NodeGet.page
  rw [Atoi_failed s hs]
  rfl

theorem NodeGet_page_passed (s : String) (he : (Atoi s).2 = none) (hs : 1 ≤ (Atoi s).1) :
    NodeGet.page s = (Atoi s).1 := by
  unfold NodeGet.page
  rw [Atoi_passed s he hs]
  rfl

theorem NodeGet_pageSize_failed (s : String) (hs : (Atoi s).2 ≠ none ∨ (Atoi s).1 < 1) :
    NodeGet.pageSize s = 20 := by
  unfold NodeGet.pageSize
  rw [Atoi_failed s hs]
  rfl

theorem NodeGet_pageSize_passed (s : String) (he : (Atoi s).2 = none) (hs : 1 ≤ (Atoi s).1) :
    NodeGet.pageSize s = if (Atoi s).1 > 100 then 100 else (Atoi s).1 := by
  unfold NodeGet.pageSize
  rw [Atoi_passed s he hs]
  rfl

theorem NodeGet_page_ge (pageStr : String) : 1 ≤ NodeGet.page pageStr := by
  unfold NodeGet.page
  split
  · exact le_refl 1
  · rename_i h
    simp only [Bool.or_eq_true, decide_eq_true_eq, not_or, not_lt] at h
    exact h.2

theorem NodeGet_pageSize_range (pageSizeStr : String) :
    1 ≤ NodeGet.pageSize pageSizeStr ∧ NodeGet.pageSize pageSizeStr ≤ 100 := by
  unfold NodeGet.pageSize
  dsimp only
  split
  · split <;> omega
  · rename_i h
    simp only [Bool.or_eq_true, decide_eq_true_eq, not_or, not_lt] at h
    split <;> omega

/-- C39. In `NodeGet`, for every pair of `page` and `pageSize` query values, the effective
page is at least 1 and the effective page size lies in `[1, 100]`: a missing or unparsable
value and a value below 1 give the defaults 1 and 20, a page size above 100 gives 100, and
any other value is taken as it is; and in the answer 200, for every total that is not
negative and for which `total + pageSize - 1` is an `int64`, `totalPages` is the ceiling
of `total / pageSize`. -/
theorem C39_pagination
    (GetNodeListWithPagination : Int → Int → (List Node × Int) × Option String)
    (page pageSize : Option String) :
    1 ≤ NodeGet.page (DefaultQuery page "1")
    ∧ 1 ≤ NodeGet.pageSize (DefaultQuery pageSize "20")
    ∧ NodeGet.pageSize (DefaultQuery pageSize "20") ≤ 100
    ∧ (page = none → NodeGet.page (DefaultQuery page "1") = 1)
    ∧ (∀ s, page = some s → ((Atoi s).2 ≠ none ∨ (Atoi s).1 < 1) →
        NodeGet.page (DefaultQuery page "1") = 1)
    ∧ (∀ s, page = some s → (Atoi s).2 = none → 1 ≤ (Atoi s).1 →
        NodeGet.page (DefaultQuery page "1") = (Atoi s).1)
    ∧ (pageSize = none → NodeGet.pageSize (DefaultQuery pageSize "20") = 20)
    ∧ (∀ s, pageSize = some s → ((Atoi s).2 ≠ none ∨ (Atoi s).1 < 1) →
        NodeGet.pageSize (DefaultQuery pageSize "20") = 20)
    ∧ (∀ s, pageSize = some s → (Atoi s).2 = none → 100 < (Atoi s).1 →
        NodeGet.pageSize (DefaultQuery pageSize "20") = 100)
    ∧ (∀ s, pageSize = some s → (Atoi s).2 = none → 1 ≤ (Atoi s).1 → (Atoi s).1 ≤ 100 →
        NodeGet.pageSize (DefaultQuery pageSize "20") = (Atoi s).1)
    ∧ (∀ d, NodeGet GetNodeListWithPagination page pageSize = (200, some d) →
        d.page = NodeGet.page (DefaultQuery page "1")
        ∧ d.pageSize = NodeGet.pageSize (DefaultQuery pageSize "20")
        ∧ (0 ≤ d.total → d.total + d.pageSize - 1 ≤ maxInt64 →
            d.totalPages = ⌈(d.total : ℚ) / (d.pageSize : ℚ)⌉)) := by
  refine ⟨NodeGet_page_ge _, (NodeGet_pageSize_range _).1, (NodeGet_pageSize_range _).2,
    ?_, ?_, ?_, ?_, ?_, ?_, ?_, ?_⟩
  · intro h
    subst h
    decide
  · intro s h hs
    subst h
    exact NodeGet_page_failed s hs
  · intro s h he hs
    subst h
    exact NodeGet_page_passed s he hs
  · intro h
    subst h
    decide
  · intro s h hs
    subst h
    exact NodeGet_pageSize_failed s hs
  · intro s h he hs
    subst h
    show NodeGet.pageSize s = 100
    rw [NodeGet_pageSize_passed s he (by omega), if_pos hs]
  · intro s h he hs1 hs2
    subst h
    show NodeGet.pageSize s = (Atoi s).1
    rw [NodeGet_pageSize_passed s he hs1, if_neg (by omega)]
  · intro d hd
    unfold NodeGet at hd
    dsimp only at hd
    split at hd
    · simp at hd
    · rename_i ns total hl
      simp only [Prod.mk.injEq, Option.some.injEq, true_and] at hd
      subst hd
      refine ⟨rfl, rfl, fun h0 hmax => ?_⟩
      exact totalPages_ceil total _ h0 (NodeGet_pageSize_range _).1 hmax

/-- C39 on the query `page=0&pageSize=1000` and 141 nodes: page 1, page size 100 and two
pages. -/
theorem C39_pagination_witness :
    NodeGet.page (DefaultQuery (some "0") "1") = 1
    ∧ NodeGet.pageSize (DefaultQuery (some "1000") "20") = 100
    ∧ NodeGet.totalPages 141 100 = 2
    ∧ NodeGet.totalPages 141 100 = ⌈((141 : Int) : ℚ) / ((100 : Int) : ℚ)⌉ :=
  ⟨(C39_pagination (fun _ _ => (([], 141), none)) (some "0") (some "1000")).2.2.2.2.1 "0" rfl
      (Or.inr (by decide)),
   (C39_pagination (fun _ _ => (([], 141), none)) (some "0") (some "1000")).2.2.2.2.2.2.2.2.1
      "1000" rfl (by decide) (by decide),
   by decide,
   ((C39_pagination (fun _ _ => (([], 141), none)) (some "0") (some "1000")).2.2.2.2.2.2.2.2.2.2
      { data := [], total := 141, page := 1, pageSize := 100, totalPages := 2 }
      (by rfl)).2.2 (by decide) (by decide)⟩

/-! ## Names and urls of the subscriptions stay unique -/

theorem le_foldl_max (ids : List Int) :
    ∀ a : Int, a ≤ ids.foldl max a ∧ ∀ x ∈ ids, x ≤ ids.foldl max a := by
  induction ids with
  | nil =>
    intro a
    exact ⟨le_refl a, fun x hx => absurd hx (List.not_mem_nil x)⟩
  | cons y ys ih =>
    intro a
    obtain ⟨h1, h2⟩ := ih (max a y)
    refine ⟨le_trans (le_max_left a y) h1, fun x hx => ?_⟩
    rcases List.mem_cons.mp hx with hx | hx
    · subst hx
      exact le_trans (le_max_right a x) h1
    · exact h2 x hx

/-- The identifier of a new row is the identifier of no row of the table. -/
theorem nextID_not_mem (ids : List Int) : nextID ids ∉ ids := by
  intro h
  have h1 := (le_foldl_max ids 0).2 _ h
  unfold nextID at h1
  omega

theorem Updates_ID (row newES : ExternalSubscription) :
    (ExternalSubscription.Updates row newES).ID = row.ID := rfl

theorem Updates_Name (row newES : ExternalSubscription) :
    (ExternalSubscription.Updates row newES).Name
      = if newES.Name ≠ "" then newES.Name else row.Name := rfl

theorem Updates_URL (row newES : ExternalSubscription) :
    (ExternalSubscription.Updates row newES).URL
      = if newES.URL ≠ "" then newES.URL else row.URL := rfl

/-- Rewriting the row of one identifier keeps a column free of duplicates, when the new
value of the column is the value of no other row. -/
theorem nodup_map_update {β : Type} (key : ExternalSubscription → β)
    (g : ExternalSubscription → ExternalSubscription) (i : Int) :
    ∀ l : List ExternalSubscription,
      (l.map (fun s => s.ID)).Nodup → (l.map key).Nodup →
      (∀ s ∈ l, s.ID = i → ∀ t ∈ l, t.ID ≠ i → key t ≠ key (g s)) →
      ((l.map (fun s => if s.ID = i then g s else s)).map key).Nodup := by
  intro l
  induction l with
  | nil => intro _ _ _; exact List.nodup_nil
  | cons s l ih =>
    intro hid hk hnew
    rw [List.map_cons, List.nodup_cons] at hid hk
    rw [List.map_cons, List.map_cons, List.nodup_cons]
    by_cases hs : s.ID = i
    · have hothers : ∀ t ∈ l, t.ID ≠ i := by
        intro t ht hti
        exact hid.1 (List.mem_map.mpr ⟨t, ht, by rw [hti, hs]⟩)
      have hsame : l.map (fun s => if s.ID = i then g s else s) = l := by
        conv_rhs => rw [← List.map_id l]
        apply List.map_congr_left
        intro t ht
        rw [if_neg (hothers t ht)]
        rfl
      rw [hsame, if_pos hs]
      refine ⟨?_, hk.2⟩
      intro hmem
      obtain ⟨t, ht, hkt⟩ := List.mem_map.mp hmem
      exact hnew s (List.mem_cons_self s l) hs t (List.mem_cons_of_mem s ht)
        (hothers t ht) hkt
    · rw [if_neg hs]
      refine ⟨?_, ih hid.2 hk.2 (fun a ha hai t ht hti =>
        hnew a (List.mem_cons_of_mem s ha) hai t (List.mem_cons_of_mem s ht) hti)⟩
      intro hmem
      obtain ⟨t1, ht1, hkt1⟩ := List.mem_map.mp hmem
      obtain ⟨t, ht, htt⟩ := List.mem_map.mp ht1
      by_cases hti : t.ID = i
      · rw [if_pos hti] at htt
        subst htt
        exact hnew t (List.mem_cons_of_mem s ht) hti s (List.mem_cons_self s l) hs hkt1.symm
      · rw [if_neg hti] at htt
        subst htt
        exact hk.1 (List.mem_map.mpr ⟨t, ht, hkt1⟩)

/-- `Add` keeps the identifiers, the names and the urls free of duplicates. -/
theorem Add_keeps_unique (f : Faults) (es : ExternalSubscription) (st : Store)
    (h : UniqueSubscriptions st) : UniqueSubscriptions (ExternalSubscription.Add f es st).2 := by
  unfold ExternalSubscription.Add
  by_cases hq : f.query = true
  · rw [if_pos hq]
    exact h
  · rw [if_neg hq]
    by_cases hex : st.subscriptions.any
        (fun s => decide (s.Name = es.Name ∨ s.URL = es.URL)) = true
    · rw [if_pos hex]
      exact h
    · rw [if_neg hex]
      dsimp only
      by_cases hc : (f.create es.withDefaults.Name
          || st.deletedSubscriptions.any
              (fun s => decide (s.Name = es.withDefaults.Name))) = true
      · rw [if_pos hc]
        exact h
      · rw [if_neg hc]
        obtain ⟨h1, h2, _⟩ := ExternalSubscription_withDefaults es
        have hno : ∀ s ∈ st.subscriptions, s.Name ≠ es.Name ∧ s.URL ≠ es.URL := by
          intro s hs
          constructor
          · intro hn
            exact hex (List.any_eq_true.mpr ⟨s, hs, decide_eq_true (Or.inl hn)⟩)
          · intro hu
            exact hex (List.any_eq_true.mpr ⟨s, hs, decide_eq_true (Or.inr hu)⟩)
        obtain ⟨hid, hname, hurl⟩ := h
        unfold UniqueSubscriptions
        dsimp only
        simp only [List.map_append, List.map_cons, List.map_nil]
        refine ⟨?_, ?_, ?_⟩
        · rw [List.nodup_append_comm]
          refine List.nodup_cons.mpr ⟨fun hmem =>
            nextID_not_mem ((st.subscriptions ++ st.deletedSubscriptions).map (fun s => s.ID))
              ?_, hid⟩
          rw [List.map_append]
          exact List.mem_append_left _ hmem
        · rw [List.nodup_append_comm]
          refine List.nodup_cons.mpr ⟨?_, hname⟩
          intro hmem
          obtain ⟨s, hs, hsn⟩ := List.mem_map.mp hmem
          exact (hno s hs).1 (hsn.trans h1)
        · rw [List.nodup_append_comm]
          refine List.nodup_cons.mpr ⟨?_, hurl⟩
          intro hmem
          obtain ⟨s, hs, hsu⟩ := List.mem_map.mp hmem
          exact (hno s hs).2 (hsu.trans h2)

/-- `Update` keeps the identifiers, the names and the urls free of duplicates. -/
theorem Update_keeps_unique (f : Faults) (es newES : ExternalSubscription) (st : Store)
    (h : UniqueSubscriptions st) :
    UniqueSubscriptions (ExternalSubscription.Update f es newES st).2 := by
  unfold ExternalSubscription.Update
  by_cases hq : f.query = true
  · rw [if_pos hq]
    exact h
  · rw [if_neg hq]
    by_cases hex : st.subscriptions.any
        (fun s => decide ((s.Name = newES.Name ∨ s.URL = newES.URL) ∧ s.ID ≠ es.ID)) = true
    · rw [if_pos hex]
      exact h
    · rw [if_neg hex]
      by_cases hu : (f.update es.ID || st.subscriptions.any (fun s => decide (s.ID = es.ID)
          && st.deletedSubscriptions.any (fun d =>
            decide (d.Name = (ExternalSubscription.Updates s newES).Name)))) = true
      · rw [if_pos hu]
        exact h
      · rw [if_neg hu]
        have hno : ∀ t ∈ st.subscriptions, t.ID ≠ es.ID →
            t.Name ≠ newES.Name ∧ t.URL ≠ newES.URL := by
          intro t ht hti
          constructor
          · intro hn
            exact hex (List.any_eq_true.mpr ⟨t, ht, decide_eq_true ⟨Or.inl hn, hti⟩⟩)
          · intro hn
            exact hex (List.any_eq_true.mpr ⟨t, ht, decide_eq_true ⟨Or.inr hn, hti⟩⟩)
        obtain ⟨hid, hname, hurl⟩ := h
        unfold UniqueSubscriptions
        dsimp only
        refine ⟨?_, ?_, ?_⟩
        · have hsame : (st.subscriptions.map (fun s =>
              if s.ID = es.ID then ExternalSubscription.Updates s newES else s)).map
                (fun s => s.ID) = st.subscriptions.map (fun s => s.ID) := by
            rw [List.map_map]
            apply List.map_congr_left
            intro s _
            show (if s.ID = es.ID then ExternalSubscription.Updates s newES else s).ID = s.ID
            split
            · rfl
            · rfl
          rw [hsame]
          exact hid
        · apply nodup_map_update (fun s => s.Name)
            (fun s => ExternalSubscription.Updates s newES) es.ID _ hid hname
          intro s hs hsi t ht hti
          show t.Name ≠ (ExternalSubscription.Updates s newES).Name
          rw [Updates_Name]
          split
          · exact (hno t ht hti).1
          · intro hts
            have hst := List.inj_on_of_nodup_map hname ht hs hts
            exact hti (by rw [hst, hsi])
        · apply nodup_map_update (fun s => s.URL)
            (fun s => ExternalSubscription.Updates s newES) es.ID _ hid hurl
          intro s hs hsi t ht hti
          show t.URL ≠ (ExternalSubscription.Updates s newES).URL
          rw [Updates_URL]
          split
          · exact (hno t ht hti).2
          · intro hts
            have hst := List.inj_on_of_nodup_map hurl ht hs hts
            exact hti (by rw [hst, hsi])

theorem runCalls_keeps_unique (calls : List (Faults × SubscriptionCall)) :
    ∀ st : Store, UniqueSubscriptions st → UniqueSubscriptions (runCalls calls st) := by
  induction calls with
  | nil => intro st h; exact h
  | cons c rest ih =>
    intro st h
    obtain ⟨f, call⟩ := c
    unfold runCalls
    apply ih
    cases call with
    | add es => exact Add_keeps_unique f es st h
    | update es newES => exact Update_keeps_unique f es newES st h

/-- A successful `Add` found no stored subscription of the same name or of the same url. -/
theorem Add_ok_fresh (f : Faults) (es : ExternalSubscription) (st : Store)
    (hok : (ExternalSubscription.Add f es st).1.1 = none) :
    ∀ s ∈ st.subscriptions, s.Name ≠ es.Name ∧ s.URL ≠ es.URL := by
  unfold ExternalSubscription.Add at hok
  by_cases hq : f.query = true
  · rw [if_pos hq] at hok
    exact absurd hok (by simp)
  · rw [if_neg hq] at hok
    by_cases hex : st.subscriptions.any
        (fun s => decide (s.Name = es.Name ∨ s.URL = es.URL)) = true
    · rw [if_pos hex] at hok
      exact absurd hok (by simp)
    · intro s hs
      constructor
      · intro hn
        exact hex (List.any_eq_true.mpr ⟨s, hs, decide_eq_true (Or.inl hn)⟩)
      · intro hu
        exact hex (List.any_eq_true.mpr ⟨s, hs, decide_eq_true (Or.inr hu)⟩)

/-- A failed `Add` leaves the store as it was. -/
theorem Add_failed_store (f : Faults) (es : ExternalSubscription) (st : Store)
    (hfail : (ExternalSubscription.Add f es st).1.1 ≠ none) :
    (ExternalSubscription.Add f es st).2 = st := by
  rcases ExternalSubscription_Add_cases f es st with ⟨err, es1, h⟩ | ⟨es1, h, _⟩
  · rw [h]
  · rw [h] at hfail
    exact absurd rfl hfail

/-- C31. From a store in which no two subscriptions share an identifier, a name or a url,
every sequence of calls of `ExternalSubscription.Add` and `Update`, whether each call
succeeds or not, leads to a store in which no two subscriptions share an identifier, a name
or a url; an `Add` that succeeds found no stored subscription of the same name or of the
same url, and an `Add` that returns an error leaves the store unchanged. -/
theorem C31_subscriptions_stay_unique (calls : List (Faults × SubscriptionCall)) (st : Store)
    (h : UniqueSubscriptions st) :
    UniqueSubscriptions (runCalls calls st)
    ∧ (∀ f es, (ExternalSubscription.Add f es st).1.1 = none →
        ∀ s ∈ st.subscriptions, s.Name ≠ es.Name ∧ s.URL ≠ es.URL)
    ∧ (∀ f es, (ExternalSubscription.Add f es st).1.1 ≠ none →
        (ExternalSubscription.Add f es st).2 = st) :=
  ⟨runCalls_keeps_unique calls st h, fun f es => Add_ok_fresh f es st,
    fun f es => Add_failed_store f es st⟩

/-- C31 on the empty store: of two additions, an addition under a name in use, an update
to a name in use and an update to a new name, the first, the second and the last change the
store, and the names and the urls stay distinct. -/
theorem C31_subscriptions_stay_unique_witness :
    UniqueSubscriptions emptyStore
    ∧ UniqueSubscriptions (runCalls
        [(noFaults, .add { Name := "a", URL := "u" }),
         (noFaults, .add { Name := "b", URL := "v" }),
         (noFaults, .add { Name := "a", URL := "w" }),
         (noFaults, .update { ID := 2 } { Name := "a", URL := "v" }),
         (noFaults, .update { ID := 2 } { Name := "c", URL := "" })] emptyStore)
    ∧ (runCalls
        [(noFaults, .add { Name := "a", URL := "u" }),
         (noFaults, .add { Name := "b", URL := "v" }),
         (noFaults, .add { Name := "a", URL := "w" }),
         (noFaults, .update { ID := 2 } { Name := "a", URL := "v" }),
         (noFaults, .update { ID := 2 } { Name := "c", URL := "" })] emptyStore).subscriptions.map
        (fun s => (s.ID, s.Name, s.URL)) = [(1, "a", "u"), (2, "c", "v")] :=
  ⟨⟨List.nodup_nil, List.nodup_nil, List.nodup_nil⟩,
   (C31_subscriptions_stay_unique _ emptyStore
      ⟨List.nodup_nil, List.nodup_nil, List.nodup_nil⟩).1,
   by decide⟩
end Sublink
